import Mathlib

/-!
# Scratch procedure blocks: signature codec and slot reconciler

A shallow embedding of `src/blocks_vertical/procedures.js`
(`Blockly.ScratchBlocks.ProcedureUtils` and the three procedure blocks that
share it), followed by theorems about it.

JavaScript strings are sequences of UTF-16 code units; they are embedded as
lists of natural numbers so that `split`, `trim`, `substring` and `replace`
act on the same positions as in the source.
-/

set_option autoImplicit false

namespace Procedures

/-! # The embedding

## JavaScript strings -/

/-- A JavaScript string: the list of its UTF-16 code units. -/
abbrev JSString := List Nat

/-- The code units of one character (a surrogate pair above the basic plane). -/
def utf16Char (c : Char) : List Nat :=
  if c.toNat < 0x10000 then [c.toNat]
  else [0xD800 + (c.toNat - 0x10000) / 0x400, 0xDC00 + (c.toNat - 0x10000) % 0x400]

/-- The JavaScript string written by a Lean string literal. -/
def utf16 (s : String) : JSString :=
  s.toList.flatMap utf16Char

/-- ECMAScript WhiteSpace and LineTerminator code units, the set that
`String.prototype.trim` strips. -/
def isWhiteSpace (c : Nat) : Bool :=
  c == 0x09 || c == 0x0A || c == 0x0B || c == 0x0C || c == 0x0D || c == 0x20 ||
  c == 0xA0 || c == 0x1680 || (0x2000 ≤ c && c ≤ 0x200A) || c == 0x2028 ||
  c == 0x2029 || c == 0x202F || c == 0x205F || c == 0x3000 || c == 0xFEFF

/-- The method `String.prototype.trim`. -/
def trim (s : JSString) : JSString :=
  (s.dropWhile isWhiteSpace).rdropWhile isWhiteSpace

/-- The call `s.substring(start, end)` for `start ≤ end`. -/
def substring (s : JSString) (start stop : Nat) : JSString :=
  (s.drop start).take (stop - start)

/-- The call `s.substring(start)`. -/
def substringFrom (s : JSString) (start : Nat) : JSString :=
  s.drop start

/-- The lookahead `(?=[^\\]\%[nbs])` tried at the head of the remaining
input: a code unit other than the backslash (92), then `%` (37), then one of
`n` (110), `b` (98), `s` (115). -/
def tokenAhead : JSString → Bool
  | c :: p :: t :: _ => c != 92 && p == 37 && (t == 110 || t == 98 || t == 115)
  | _ => false

/-- The loop of `String.prototype.split` for the zero-width separator
`/(?=[^\\]\%[nbs])/`: `cur` holds the code units from the last split point
`p` up to the current position `q`. A match at `q` splits only when `q ≠ p`
(`cur` is not empty); the unit at `q` then starts the next piece. -/
def splitAux : JSString → JSString → List JSString
  | [], cur => [cur]
  | c :: rest, cur =>
    if cur ≠ [] ∧ tokenAhead (c :: rest) = true then cur :: splitAux rest [c]
    else splitAux rest (cur ++ [c])

/-- The call `procCode.split(/(?=[^\\]\%[nbs])/)`. -/
def splitProcCode (s : JSString) : List JSString :=
  splitAux s []

/-- The components of a proc-code: the pieces of the split, each trimmed
(`procComponents` in `createAllInputs_`). -/
def procComponents (procCode : JSString) : List JSString :=
  (splitProcCode procCode).map trim

/-- The call `text.replace(/\\%/, '%')`: the regular expression has no `g`
flag, so only the first backslash-percent pair is replaced. -/
def replaceEscapedPercent : JSString → JSString
  | [] => []
  | c :: rest =>
    match rest with
    | [] => [c]
    | d :: rest2 =>
      if c = 92 ∧ d = 37 then 37 :: rest2 else c :: replaceEscapedPercent rest

/-! ## JavaScript values and property maps -/

/-- The JavaScript values that the fields of a procedure block hold. -/
inductive JSVal where
  | undefined
  | null
  | bool (b : Bool)
  | str (s : JSString)
  deriving DecidableEq, Repr

/-- The abstract operation `ToString`, also used for property keys and by
`setAttribute`. -/
def JSVal.toJSString : JSVal → JSString
  | .undefined => utf16 "undefined"
  | .null => utf16 "null"
  | .bool true => utf16 "true"
  | .bool false => utf16 "false"
  | .str s => s

/-- The indexing `a[i]` of an array: `undefined` past the end. -/
def arrayGet (a : List JSVal) (i : Nat) : JSVal :=
  a.getD i JSVal.undefined

/-- An object used as a map from property keys to values, in insertion
order. (JavaScript enumerates array-index keys first; the loops over these
maps treat each key independently of the others.) Only the own properties
of the object are modelled: keys that name a property of `Object.prototype`,
such as `constructor` or `__proto__`, are outside the model. -/
abbrev PropMap (α : Type) := List (JSString × α)

/-- The test `key in map`. -/
def PropMap.has {α : Type} (m : PropMap α) (key : JSString) : Bool :=
  m.any fun kv => kv.1 == key

/-- The read `map[key]`, `none` when the property is absent. -/
def PropMap.get {α : Type} (m : PropMap α) (key : JSString) : Option α :=
  (m.find? fun kv => kv.1 == key).map Prod.snd

/-- The write `map[key] = value`: an existing property keeps its place. -/
def PropMap.set {α : Type} : PropMap α → JSString → α → PropMap α
  | [], key, v => [(key, v)]
  | (k, x) :: rest, key, v =>
    if k = key then (k, v) :: rest else (k, x) :: PropMap.set rest key v

/-! ## Blocks, inputs and the workspace

The host framework (Blockly) is not part of the source file. Its objects are
modelled by the state they carry for the capabilities the file consumes:
creating inputs and blocks, connecting and disconnecting, field text, shadow
markers, disposal and rendering. Every host call does what it is called for;
the failure modes of the host itself (a connection check that rejects a
block, the disposal of an input that is still connected, a field that the
block does not have) are outside the model. -/

/-- The three procedure blocks that share `ProcedureUtils`. -/
inductive Variant where
  /-- The block `procedures_callnoreturn`. -/
  | caller
  /-- The block `procedures_callnoreturn_internal`. -/
  | callerInternal
  /-- The block `procedures_mutator_root`. -/
  | mutatorRoot
  deriving DecidableEq, Repr

/-- The kinds of input: `Blockly.INPUT_VALUE`, `Blockly.NEXT_STATEMENT` and
`Blockly.DUMMY_INPUT`. -/
inductive InputType where
  | value
  | statement
  | dummy
  deriving DecidableEq, Repr

/-- A field of an input row: a `FieldLabel` or a `FieldTextInput`. -/
inductive Field where
  | label (text : JSString)
  | textInput (text : JSString)
  deriving DecidableEq, Repr

/-- The method `field.getValue()`. -/
def Field.getValue : Field → JSString
  | .label t => t
  | .textInput t => t

/-- The `shadow` element built by `buildShadowDom_`: its `type` attribute and
its one `field` child. -/
structure ShadowDom where
  type : JSString
  fieldName : JSString
  fieldValue : JSString
  deriving DecidableEq, Repr

/-- An input of the procedure block. An input of type `value` or `statement`
has a connection, which carries the check, the shadow DOM and the block that
is attached (the index of that block in the workspace). -/
structure Input where
  type : InputType
  name : JSVal
  fieldRow : List Field
  check : Option JSString
  shadowDom : Option ShadowDom
  target : Option Nat
  deriving DecidableEq, Repr

/-- A block of the workspace other than the procedure block itself: content
attached to a slot, or detached from it. -/
structure ContentBlock where
  type : JSString
  fields : PropMap JSVal
  shadow : Bool
  rendered : Bool
  connected : Bool
  disposed : Bool
  deriving DecidableEq, Repr

/-- The procedure block (`this` in the source) with the workspace it lives
in. A block of the workspace is identified by its index in `workspace`;
`paramMap_` maps a parameter id to an input, given by its index in
`inputList`. `renderCount` counts the calls of `render` on the procedure
block, and `uidCount` the ids that `genUid` has handed out. -/
structure ProcBlock where
  variant : Variant
  procCode_ : JSString
  argumentIds_ : List JSVal
  displayNames_ : List JSVal
  argumentDefaults_ : List JSVal
  warp_ : JSVal
  paramMap_ : Option (PropMap Nat)
  inputList : List Input
  rendered : Bool
  insertionMarker : Bool
  renderCount : Nat
  workspace : List ContentBlock
  uidCount : Nat
  deriving DecidableEq, Repr

/-- The errors the code can raise. -/
inductive JSError where
  /-- The error `'Found an custom procedure with an invalid type: ' + inputType`. -/
  | invalidType (inputType : JSString)
  /-- The error `'Unexpected input type on a procedure mutator root: ' + input.type`. -/
  | unexpectedInput (type : InputType)
  /-- A `SyntaxError` of `JSON.parse`. -/
  | syntaxError
  /-- A `TypeError`: a property read on `null` or `undefined`. -/
  | typeError
  deriving DecidableEq, Repr

/-- How a call ends: it returns `val`, or it throws; in both cases the block
is left in the state `w`. -/
inductive Outcome (α : Type) where
  | ok (val : α) (w : ProcBlock)
  | threw (err : JSError) (w : ProcBlock)
  deriving DecidableEq, Repr

/-- The block state a call ends in. -/
def Outcome.state {α : Type} : Outcome α → ProcBlock
  | .ok _ w => w
  | .threw _ w => w

/-- The error a call ends with, `none` when it returns. -/
def Outcome.error {α : Type} : Outcome α → Option JSError
  | .ok _ _ => none
  | .threw e _ => some e

/-- Replace the element at index `i`, if there is one. -/
def updateAt {α : Type} : List α → Nat → (α → α) → List α
  | [], _, _ => []
  | x :: xs, 0, f => f x :: xs
  | x :: xs, i + 1, f => x :: updateAt xs i f

namespace ProcBlock

/-- The host call `appendInput_(type, name)`: a new input at the end of the
input list. Returns the index of the input. -/
def appendInput (w : ProcBlock) (type : InputType) (name : JSVal) : Nat × ProcBlock :=
  (w.inputList.length,
    { w with inputList := w.inputList ++
        [{ type := type, name := name, fieldRow := [], check := none,
           shadowDom := none, target := none }] })

/-- The host call `input.appendField(field)`. -/
def appendField (w : ProcBlock) (input : Nat) (field : Field) : ProcBlock :=
  { w with
    inputList := updateAt w.inputList input
      (fun i => { i with fieldRow := i.fieldRow ++ [field] }) }

/-- The host call `input.setCheck(check)`. -/
def setCheck (w : ProcBlock) (input : Nat) (check : JSString) : ProcBlock :=
  { w with inputList := updateAt w.inputList input fun i => { i with check := some check } }

/-- The host call `input.connection.setShadowDom(dom)`. -/
def setShadowDom (w : ProcBlock) (input : Nat) (dom : Option ShadowDom) : ProcBlock :=
  { w with inputList := updateAt w.inputList input fun i => { i with shadowDom := dom } }

/-- The host call `this.workspace.newBlock(type)`. Returns the new block. -/
def newBlock (w : ProcBlock) (type : JSString) : Nat × ProcBlock :=
  (w.workspace.length,
    { w with workspace := w.workspace ++
        [{ type := type, fields := [], shadow := false, rendered := false,
           connected := false, disposed := false }] })

/-- The host call `block.setFieldValue(value, name)`. -/
def setFieldValue (w : ProcBlock) (block : Nat) (value : JSVal) (name : JSString) :
    ProcBlock :=
  { w with
    workspace := updateAt w.workspace block
      (fun b => { b with fields := PropMap.set b.fields name value }) }

/-- The host call `block.setShadow(shadow)`. -/
def setShadow (w : ProcBlock) (block : Nat) (shadow : Bool) : ProcBlock :=
  { w with workspace := updateAt w.workspace block fun b => { b with shadow := shadow } }

/-- The host calls `block.initSvg(); block.render(false)` on a content block. -/
def renderBlock (w : ProcBlock) (block : Nat) : ProcBlock :=
  { w with workspace := updateAt w.workspace block fun b => { b with rendered := true } }

/-- The host call `block.outputConnection.connect(input.connection)`. -/
def connect (w : ProcBlock) (block : Nat) (input : Nat) : ProcBlock :=
  { w with
    inputList := updateAt w.inputList input fun i => { i with target := some block }
    workspace := updateAt w.workspace block fun b => { b with connected := true } }

/-- The host call `input.connection.disconnect()`, made when no shadow DOM is
set on the connection, so that nothing respawns. -/
def disconnect (w : ProcBlock) (input : Nat) : ProcBlock :=
  match w.inputList[input]?.bind Input.target with
  | none => w
  | some block =>
    { w with
      inputList := updateAt w.inputList input fun i => { i with target := none }
      workspace := updateAt w.workspace block fun b => { b with connected := false } }

/-- The host call `block.dispose()` on a content block. -/
def disposeBlock (w : ProcBlock) (block : Nat) : ProcBlock :=
  { w with
    workspace := updateAt w.workspace block
      (fun b => { b with disposed := true, connected := false }) }

/-- The host call `Blockly.utils.genUid()`: the next id of a supply of
pairwise different ids. -/
def genUid (w : ProcBlock) : JSVal × ProcBlock :=
  (JSVal.str (utf16 "uid" ++ List.replicate w.uidCount 35),
    { w with uidCount := w.uidCount + 1 })

/-- The host calls `this.initSvg(); this.render()` on the procedure block. -/
def render (w : ProcBlock) : ProcBlock :=
  { w with renderCount := w.renderCount + 1 }

end ProcBlock

/-! ## The shared reconciler (`ProcedureUtils`) -/

/-- The salvage map of `updateDisplay_`: parameter id to the block that was
attached under it, `none` for `null`. -/
abbrev ConnectionMap := PropMap (Option Nat)

/-- The method `block.isShadow()` of a content block. -/
def isShadow (w : ProcBlock) (block : Nat) : Bool :=
  match w.workspace[block]? with
  | some b => b.shadow
  | none => false

/-- The body of the `for (var id in this.paramMap_)` loop of
`disconnectOldBlocks_`, over the entries of `paramMap_`. -/
def disconnectOldBlocksLoop :
    List (JSString × Nat) → ConnectionMap → ProcBlock → ConnectionMap × ProcBlock
  | [], connectionMap, w => (connectionMap, w)
  | (id, input) :: rest, connectionMap, w =>
    match w.inputList[input]? with
    | none => disconnectOldBlocksLoop rest connectionMap w
    | some i =>
      if i.type ≠ InputType.dummy then
        let w1 := w.setShadowDom input none
        let target := i.target
        let connectionMap1 := PropMap.set connectionMap id target
        let w2 := if target.isSome then w1.disconnect input else w1
        disconnectOldBlocksLoop rest connectionMap1 w2
      else
        disconnectOldBlocksLoop rest connectionMap w

/-- The function `disconnectOldBlocks_`: detach the blocks of all inputs of
`paramMap_` and return them, keyed by parameter id. -/
def disconnectOldBlocks_ (w : ProcBlock) : ConnectionMap × ProcBlock :=
  disconnectOldBlocksLoop (w.paramMap_.getD []) [] w

/-- The function `removeAllInputs_`: every input is disposed and the input
list is reset. -/
def removeAllInputs_ (w : ProcBlock) : ProcBlock :=
  { w with inputList := [] }

/-- The loop of `deleteShadows_` over the entries of the salvage map. -/
def deleteShadowsLoop : List (JSString × Option Nat) → ProcBlock → ProcBlock
  | [], w => w
  | (_, none) :: rest, w => deleteShadowsLoop rest w
  | (_, some block) :: rest, w =>
    if isShadow w block then deleteShadowsLoop rest (w.disposeBlock block)
    else deleteShadowsLoop rest w

/-- The function `deleteShadows_`: dispose the shadow blocks left in the
salvage map. -/
def deleteShadows_ (connectionMap : Option ConnectionMap) (w : ProcBlock) : ProcBlock :=
  match connectionMap with
  | some m => deleteShadowsLoop m w
  | none => w

/-- The function `addLabelCaller_`: `this.appendDummyInput().appendField(text)`.
The host adds no field for the empty string. -/
def addLabelCaller_ (text : JSString) (w : ProcBlock) : ProcBlock :=
  let (input, w1) := w.appendInput InputType.dummy (JSVal.str [])
  if text = [] then w1 else w1.appendField input (Field.label text)

/-- The function `addLabelMutatorRoot_`: a text input field in a dummy input
named by a fresh id, when the text is not empty. -/
def addLabelMutatorRoot_ (text : JSString) (w : ProcBlock) : ProcBlock :=
  if text ≠ [] then
    let (uid, w1) := w.genUid
    let (input, w2) := w1.appendInput InputType.dummy uid
    w2.appendField input (Field.textInput text)
  else w

/-- The function `buildShadowDom_`. -/
def buildShadowDom_ (type : JSString) : ShadowDom :=
  if type = utf16 "n" then
    { type := utf16 "math_number", fieldName := utf16 "NUM", fieldValue := utf16 "10" }
  else
    { type := utf16 "text", fieldName := utf16 "TEXT", fieldValue := utf16 "hello world" }

/-- The function `attachShadow_` of the caller block. -/
def attachShadow_ (input : Nat) (inputType : JSString) (w : ProcBlock) : ProcBlock :=
  if inputType = utf16 "n" ∨ inputType = utf16 "s" then
    let blockType := if inputType = utf16 "n" then utf16 "math_number" else utf16 "text"
    let (newBlock, w1) := w.newBlock blockType
    let w2 :=
      if inputType = utf16 "n" then
        w1.setFieldValue newBlock (JSVal.str (utf16 "99")) (utf16 "NUM")
      else
        w1.setFieldValue newBlock (JSVal.str (utf16 "hello world")) (utf16 "TEXT")
    let w3 := w2.setShadow newBlock true
    let w4 := if !w3.insertionMarker then w3.renderBlock newBlock else w3
    w4.connect newBlock input
  else w

/-- The function `attachArgumentReporter_` of the internal caller block. -/
def attachArgumentReporter_ (input : Nat) (inputType : JSString) (displayName : JSVal)
    (w : ProcBlock) : ProcBlock :=
  let blockType :=
    if inputType = utf16 "n" ∨ inputType = utf16 "s" then
      utf16 "argument_reporter_string_number"
    else utf16 "argument_reporter_boolean"
  let (newBlock, w1) := w.newBlock blockType
  let w2 := w1.setShadow newBlock true
  let w3 := w2.setFieldValue newBlock displayName (utf16 "VALUE")
  let w4 := if !w3.insertionMarker then w3.renderBlock newBlock else w3
  w4.connect newBlock input

/-- The function `checkOldTypeMatches_`. -/
def checkOldTypeMatches_ (w : ProcBlock) (oldBlock : Option Nat) (type : JSString) : Bool :=
  match oldBlock with
  | none => false
  | some old =>
    match w.workspace[old]? with
    | none => false
    | some b =>
      if (type = utf16 "n" ∨ type = utf16 "s") ∧
          b.type = utf16 "argument_reporter_string_number" then true
      else if type = utf16 "b" ∧ b.type = utf16 "argument_reporter_boolean" then true
      else false

/-- The function `attachShadowMutatorRoot_`, which is `attachShadow_` on the
mutator root. -/
def attachShadowMutatorRoot_ (input : Nat) (inputType : JSString) (displayName : JSVal)
    (w : ProcBlock) : ProcBlock :=
  let blockType :=
    if inputType = utf16 "n" ∨ inputType = utf16 "s" then utf16 "text"
    else utf16 "boolean_textinput"
  let (newBlock, w1) := w.newBlock blockType
  let w2 := w1.setFieldValue newBlock displayName (utf16 "TEXT")
  let w3 := w2.setShadow newBlock true
  let w4 := if !w3.insertionMarker then w3.renderBlock newBlock else w3
  w4.connect newBlock input

/-- The assignment `this.paramMap_[id] = input`; `paramMap_` is an object
whenever the populate functions run. -/
def setParam (w : ProcBlock) (id : JSVal) (input : Nat) : ProcBlock :=
  { w with paramMap_ := w.paramMap_.map fun m => PropMap.set m id.toJSString input }

/-- The function `populateInputCaller_`. -/
def populateInputCaller_ (type : JSString) (_index : Nat)
    (connectionMap : Option ConnectionMap) (id : JSVal) (oldBlock : Option Nat)
    (input : Nat) (w : ProcBlock) : Option ConnectionMap × ProcBlock :=
  match connectionMap, oldBlock with
  | some m, some old =>
    let m1 := PropMap.set m id.toJSString none
    let w1 := w.connect old input
    let w2 :=
      if type ≠ utf16 "b" then w1.setShadowDom input (some (buildShadowDom_ type)) else w1
    (some m1, setParam w2 id input)
  | _, _ =>
    (connectionMap, setParam (attachShadow_ input type w) id input)

/-- The function `populateInputCallerInternal_`. -/
def populateInputCallerInternal_ (type : JSString) (index : Nat)
    (connectionMap : Option ConnectionMap) (id : JSVal) (oldBlock : Option Nat)
    (input : Nat) (w : ProcBlock) : Option ConnectionMap × ProcBlock :=
  let oldTypeMatches := checkOldTypeMatches_ w oldBlock type
  let displayName := arrayGet w.displayNames_ index
  match connectionMap, oldBlock, oldTypeMatches with
  | some m, some old, true =>
    let w1 := w.setFieldValue old displayName (utf16 "VALUE")
    let m1 := PropMap.set m id.toJSString none
    let w2 := w1.connect old input
    (some m1, setParam w2 id input)
  | _, _, _ =>
    (connectionMap, setParam (attachArgumentReporter_ input type displayName w) id input)

/-- The function `populateInputMutatorRoot_`. -/
def populateInputMutatorRoot_ (type : JSString) (index : Nat)
    (connectionMap : Option ConnectionMap) (id : JSVal) (oldBlock : Option Nat)
    (input : Nat) (w : ProcBlock) : Option ConnectionMap × ProcBlock :=
  let oldTypeMatches := checkOldTypeMatches_ w oldBlock type
  let displayName := arrayGet w.displayNames_ index
  match connectionMap, oldBlock, oldTypeMatches with
  | some m, some old, true =>
    let w1 := w.setFieldValue old displayName (utf16 "TEXT")
    let m1 := PropMap.set m id.toJSString none
    let w2 := w1.connect old input
    (some m1, setParam w2 id input)
  | _, _, _ =>
    (connectionMap, setParam (attachShadowMutatorRoot_ input type displayName w) id input)

/-- The method `populateInput_` that each block installs. -/
def populateInput_ (type : JSString) (index : Nat) (connectionMap : Option ConnectionMap)
    (id : JSVal) (oldBlock : Option Nat) (input : Nat) (w : ProcBlock) :
    Option ConnectionMap × ProcBlock :=
  match w.variant with
  | Variant.caller => populateInputCaller_ type index connectionMap id oldBlock input w
  | Variant.callerInternal =>
    populateInputCallerInternal_ type index connectionMap id oldBlock input w
  | Variant.mutatorRoot =>
    populateInputMutatorRoot_ type index connectionMap id oldBlock input w

/-- The method `addLabel_` that each block installs. -/
def addLabel_ (text : JSString) (w : ProcBlock) : ProcBlock :=
  match w.variant with
  | Variant.caller => addLabelCaller_ text w
  | Variant.callerInternal => addLabelCaller_ text w
  | Variant.mutatorRoot => addLabelMutatorRoot_ text w

/-- The loop of `createAllInputs_` over the components from index `i` on;
it ends at the first component that is the empty string. -/
def createAllInputsLoop :
    List JSString → Nat → Option ConnectionMap → ProcBlock → Outcome (Option ConnectionMap)
  | [], _, connectionMap, w => Outcome.ok connectionMap w
  | component :: rest, inputCount, connectionMap, w =>
    if component = [] then Outcome.ok connectionMap w
    else if substring component 0 1 = utf16 "%" then
      let inputType := substring component 1 2
      if ¬ (inputType = utf16 "n" ∨ inputType = utf16 "b" ∨ inputType = utf16 "s") then
        Outcome.threw (JSError.invalidType inputType) w
      else
        let newLabel := trim (substringFrom component 2)
        let id := arrayGet w.argumentIds_ inputCount
        let oldBlock : Option Nat :=
          match connectionMap with
          | some m => if PropMap.has m id.toJSString then (PropMap.get m id.toJSString).join
                      else none
          | none => none
        let (input, w1) := w.appendInput InputType.value id
        let w2 := if inputType = utf16 "b" then w1.setCheck input (utf16 "Boolean") else w1
        let (connectionMap3, w3) :=
          populateInput_ inputType inputCount connectionMap id oldBlock input w2
        let w4 := addLabel_ (replaceEscapedPercent newLabel) w3
        createAllInputsLoop rest (inputCount + 1) connectionMap3 w4
    else
      let newLabel := trim component
      createAllInputsLoop rest inputCount connectionMap
        (addLabel_ (replaceEscapedPercent newLabel) w)

/-- The function `createAllInputs_`. Returns the salvage map as the calls
have left it. -/
def createAllInputs_ (connectionMap : Option ConnectionMap) (w : ProcBlock) :
    Outcome (Option ConnectionMap) :=
  let w1 := { w with paramMap_ := some [] }
  createAllInputsLoop (procComponents w1.procCode_) 0 connectionMap w1

/-- The function `updateDisplay_`. -/
def updateDisplay_ (w : ProcBlock) : Outcome Unit :=
  let wasRendered := w.rendered
  let w1 := { w with rendered := false }
  let (connectionMap, w2) : Option ConnectionMap × ProcBlock :=
    match w1.paramMap_ with
    | some _ =>
      let (m, w11) := disconnectOldBlocks_ w1
      (some m, removeAllInputs_ w11)
    | none => (none, w1)
  match createAllInputs_ connectionMap w2 with
  | Outcome.threw e w3 => Outcome.threw e w3
  | Outcome.ok connectionMap3 w3 =>
    let w4 := deleteShadows_ connectionMap3 w3
    let w5 := { w4 with rendered := wasRendered }
    if wasRendered && !w5.insertionMarker then Outcome.ok () w5.render
    else Outcome.ok () w5

/-! ## Serialization -/

/-- The functions `JSON.stringify` and `JSON.parse` of the JavaScript
runtime, on the arrays the block fields hold; `parse` is `none` when
`JSON.parse` throws a `SyntaxError`. They are parameters of the
serialization functions. A text that is JSON but not an array of strings,
booleans and `null` puts a value in the field that is not an array; such
records are outside the model. -/
structure JSONRuntime where
  stringify : List JSVal → JSString
  parse : JSString → Option (List JSVal)

/-- The `mutation` element of a caller block, by its attributes. -/
structure CallerMutation where
  proccode : JSString
  argumentids : JSString
  warp : JSString
  deriving DecidableEq, Repr

/-- The `mutation` element of a definition block (internal caller or mutator
root), by its attributes. -/
structure DefinitionMutation where
  proccode : JSString
  argumentids : JSString
  argumentnames : JSString
  argumentdefaults : JSString
  warp : JSString
  deriving DecidableEq, Repr

/-- The function `callerMutationToDom`; `setAttribute` converts its value to
a string. -/
def callerMutationToDom (J : JSONRuntime) (w : ProcBlock) : CallerMutation :=
  { proccode := w.procCode_
    argumentids := J.stringify w.argumentIds_
    warp := w.warp_.toJSString }

/-- The function `callerDomToMutation`. -/
def callerDomToMutation (J : JSONRuntime) (xmlElement : CallerMutation) (w : ProcBlock) :
    Outcome Unit :=
  let w1 := { w with procCode_ := xmlElement.proccode }
  match J.parse xmlElement.argumentids with
  | none => Outcome.threw JSError.syntaxError w1
  | some ids =>
    let w2 := { w1 with argumentIds_ := ids }
    let w3 := { w2 with warp_ := JSVal.str xmlElement.warp }
    updateDisplay_ w3

/-- The function `definitionMutationToDom`. -/
def definitionMutationToDom (J : JSONRuntime) (w : ProcBlock) : DefinitionMutation :=
  { proccode := w.procCode_
    argumentids := J.stringify w.argumentIds_
    argumentnames := J.stringify w.displayNames_
    argumentdefaults := J.stringify w.argumentDefaults_
    warp := w.warp_.toJSString }

/-- The function `definitionDomToMutation`. -/
def definitionDomToMutation (J : JSONRuntime) (xmlElement : DefinitionMutation)
    (w : ProcBlock) : Outcome Unit :=
  let w1 := { w with procCode_ := xmlElement.proccode }
  let w2 := { w1 with warp_ := JSVal.str xmlElement.warp }
  match J.parse xmlElement.argumentids with
  | none => Outcome.threw JSError.syntaxError w2
  | some ids =>
    let w3 := { w2 with argumentIds_ := ids }
    match J.parse xmlElement.argumentnames with
    | none => Outcome.threw JSError.syntaxError w3
    | some names =>
      let w4 := { w3 with displayNames_ := names }
      match J.parse xmlElement.argumentdefaults with
      | none => Outcome.threw JSError.syntaxError w4
      | some defaults =>
        let w5 := { w4 with argumentDefaults_ := defaults }
        updateDisplay_ w5

/-! ## The mutator root: reverse sync and editing commands -/

/-- The method `block.getFieldValue(name)`: `null` when there is no such
field. -/
def getFieldValue (b : ContentBlock) (name : JSString) : JSVal :=
  (PropMap.get b.fields name).getD JSVal.null

/-- The loop of `updateProcCodeMutatorRoot_` over the inputs from index `i`
on. -/
def updateProcCodeLoop : List Input → Nat → ProcBlock → Outcome Unit
  | [], _, w => Outcome.ok () w
  | input :: rest, i, w =>
    let w1 := if i ≠ 0 then { w with procCode_ := w.procCode_ ++ utf16 " " } else w
    match input.type with
    | InputType.dummy =>
      match input.fieldRow with
      | [] => Outcome.threw JSError.typeError w1
      | field :: _ =>
        updateProcCodeLoop rest (i + 1)
          { w1 with procCode_ := w1.procCode_ ++ field.getValue }
    | InputType.value =>
      match input.target.bind fun t => w1.workspace[t]? with
      | none => Outcome.threw JSError.typeError w1
      | some target =>
        let w2 := { w1 with displayNames_ := w1.displayNames_ ++
                      [getFieldValue target (utf16 "TEXT")] }
        let w3 := { w2 with argumentIds_ := w2.argumentIds_ ++ [input.name] }
        let w4 :=
          if target.type = utf16 "boolean_textinput" then
            { w3 with procCode_ := w3.procCode_ ++ utf16 "%b" }
          else
            { w3 with procCode_ := w3.procCode_ ++ utf16 "%s" }
        updateProcCodeLoop rest (i + 1) w4
    | InputType.statement =>
      Outcome.threw (JSError.unexpectedInput InputType.statement) w1

/-- The function `updateProcCodeMutatorRoot_`. -/
def updateProcCodeMutatorRoot_ (w : ProcBlock) : Outcome Unit :=
  let w1 := { w with procCode_ := [] }
  let w2 := { w1 with displayNames_ := [] }
  let w3 := { w2 with argumentIds_ := [] }
  updateProcCodeLoop w3.inputList 0 w3

/-- The function `addLabelExternal`. -/
def addLabelExternal (w : ProcBlock) : Outcome Unit :=
  updateDisplay_ { w with procCode_ := w.procCode_ ++ utf16 " label text" }

/-- The function `addBooleanExternal`. -/
def addBooleanExternal (w : ProcBlock) : Outcome Unit :=
  let w1 := { w with procCode_ := w.procCode_ ++ utf16 " %b" }
  let w2 := { w1 with displayNames_ := w1.displayNames_ ++ [JSVal.str (utf16 "boolean")] }
  let (uid, w3) := w2.genUid
  let w4 := { w3 with argumentIds_ := w3.argumentIds_ ++ [uid] }
  let w5 := { w4 with argumentDefaults_ := w4.argumentDefaults_ ++ [JSVal.str (utf16 "todo")] }
  updateDisplay_ w5

/-- The function `addStringNumberExternal`. -/
def addStringNumberExternal (w : ProcBlock) : Outcome Unit :=
  let w1 := { w with procCode_ := w.procCode_ ++ utf16 " %s" }
  let w2 := { w1 with displayNames_ := w1.displayNames_ ++
                [JSVal.str (utf16 "string or number")] }
  let (uid, w3) := w2.genUid
  let w4 := { w3 with argumentIds_ := w3.argumentIds_ ++ [uid] }
  let w5 := { w4 with argumentDefaults_ := w4.argumentDefaults_ ++ [JSVal.str (utf16 "todo")] }
  updateDisplay_ w5

/-- A block with the empty signature that has not been reconciled yet: the
state after `init` (which sets `warp_` to `false` on the internal caller and
the mutator root and leaves it unset on the caller), with empty arrays in
the array fields. -/
def emptyBlock (variant : Variant) : ProcBlock :=
  { variant := variant
    procCode_ := []
    argumentIds_ := []
    displayNames_ := []
    argumentDefaults_ := []
    warp_ := if variant = Variant.caller then JSVal.undefined else JSVal.bool false
    paramMap_ := none
    inputList := []
    rendered := false
    insertionMarker := false
    renderCount := 0
    workspace := []
    uidCount := 0 }

/-! ## A JSON runtime

The standard `JSON.stringify` on arrays of strings, booleans and `null`, and
`JSON.parse` on the texts of such arrays. It instantiates `JSONRuntime` for
concrete runs. -/

/-- A hexadecimal digit, in lower case. -/
def hexDigit (n : Nat) : Nat :=
  if n < 10 then 48 + n else 87 + n

/-- The escape `\uXXXX` of a code unit. -/
def unicodeEscape (c : Nat) : JSString :=
  [92, 117, hexDigit (c / 4096 % 16), hexDigit (c / 256 % 16), hexDigit (c / 16 % 16),
    hexDigit (c % 16)]

/-- The body of `QuoteJSONString`: the code units of a string between the
quotes. A surrogate is written as it is only inside a pair; `afterHigh` tells
that the unit before was the first half of a pair. -/
def quoteJSONChars (afterHigh : Bool) : JSString → JSString
  | [] => []
  | c :: rest =>
    if c = 8 then [92, 98] ++ quoteJSONChars false rest
    else if c = 9 then [92, 116] ++ quoteJSONChars false rest
    else if c = 10 then [92, 110] ++ quoteJSONChars false rest
    else if c = 12 then [92, 102] ++ quoteJSONChars false rest
    else if c = 13 then [92, 114] ++ quoteJSONChars false rest
    else if c = 34 then [92, 34] ++ quoteJSONChars false rest
    else if c = 92 then [92, 92] ++ quoteJSONChars false rest
    else if c < 32 then unicodeEscape c ++ quoteJSONChars false rest
    else if 0xD800 ≤ c ∧ c < 0xDC00 then
      if (rest.head?.any fun d => 0xDC00 ≤ d && d < 0xE000) then
        c :: quoteJSONChars true rest
      else unicodeEscape c ++ quoteJSONChars false rest
    else if 0xDC00 ≤ c ∧ c < 0xE000 then
      if afterHigh then c :: quoteJSONChars false rest
      else unicodeEscape c ++ quoteJSONChars false rest
    else c :: quoteJSONChars false rest

/-- The JSON text of one array element. -/
def stringifyElement : JSVal → JSString
  | .undefined => utf16 "null"
  | .null => utf16 "null"
  | .bool true => utf16 "true"
  | .bool false => utf16 "false"
  | .str s => [34] ++ quoteJSONChars false s ++ [34]

/-- The call `JSON.stringify(array)`. -/
def jsonStringify (a : List JSVal) : JSString :=
  utf16 "[" ++ List.intercalate (utf16 ",") (a.map stringifyElement) ++ utf16 "]"

/-- The value of a hexadecimal digit. -/
def hexValue (c : Nat) : Option Nat :=
  if 48 ≤ c ∧ c ≤ 57 then some (c - 48)
  else if 97 ≤ c ∧ c ≤ 102 then some (c - 87)
  else if 65 ≤ c ∧ c ≤ 70 then some (c - 55)
  else none

/-- JSON white space. -/
def isJSONSpace (c : Nat) : Bool :=
  c == 32 || c == 9 || c == 10 || c == 13

/-- Where the parser of array texts stands. -/
inductive ParseState where
  /-- Before the opening bracket. -/
  | start
  /-- After the opening bracket: an element or the closing bracket. -/
  | first
  /-- After a comma: an element. -/
  | element
  /-- Inside a string, with the code units read so far. -/
  | inString (acc : JSString)
  /-- After an element: a comma or the closing bracket. -/
  | afterElement
  /-- After the closing bracket. -/
  | done
  deriving DecidableEq, Repr

/-- The parser of array texts, one code unit at a time. -/
def jsonParseLoop : JSString → ParseState → List JSVal → Option (List JSVal)
  | [], st, items =>
    match st with
    | .done => some items
    | _ => none
  | c :: rest, st, items =>
    match st with
    | .start =>
      if isJSONSpace c then jsonParseLoop rest .start items
      else if c = 91 then jsonParseLoop rest .first items
      else none
    | .done => if isJSONSpace c then jsonParseLoop rest .done items else none
    | .afterElement =>
      if isJSONSpace c then jsonParseLoop rest .afterElement items
      else if c = 44 then jsonParseLoop rest .element items
      else if c = 93 then jsonParseLoop rest .done items
      else none
    | .inString acc =>
      if c = 34 then jsonParseLoop rest .afterElement (items ++ [JSVal.str acc])
      else if c = 92 then
        match rest with
        | [] => none
        | e :: rest2 =>
          if e = 34 ∨ e = 92 ∨ e = 47 then jsonParseLoop rest2 (.inString (acc ++ [e])) items
          else if e = 98 then jsonParseLoop rest2 (.inString (acc ++ [8])) items
          else if e = 102 then jsonParseLoop rest2 (.inString (acc ++ [12])) items
          else if e = 110 then jsonParseLoop rest2 (.inString (acc ++ [10])) items
          else if e = 114 then jsonParseLoop rest2 (.inString (acc ++ [13])) items
          else if e = 116 then jsonParseLoop rest2 (.inString (acc ++ [9])) items
          else if e = 117 then
            match rest2 with
            | h1 :: h2 :: h3 :: h4 :: rest3 =>
              match hexValue h1, hexValue h2, hexValue h3, hexValue h4 with
              | some a, some b, some c4, some d =>
                jsonParseLoop rest3 (.inString (acc ++ [a * 4096 + b * 256 + c4 * 16 + d]))
                  items
              | _, _, _, _ => none
            | _ => none
          else none
      else if c < 32 then none
      else jsonParseLoop rest (.inString (acc ++ [c])) items
    | _ =>
      if isJSONSpace c then jsonParseLoop rest st items
      else if c = 93 then
        match st with
        | .first => jsonParseLoop rest .done items
        | _ => none
      else if c = 34 then jsonParseLoop rest (.inString []) items
      else
        match rest with
        | x :: y :: z :: rest3 =>
          if c = 110 ∧ x = 117 ∧ y = 108 ∧ z = 108 then
            jsonParseLoop rest3 .afterElement (items ++ [JSVal.null])
          else if c = 116 ∧ x = 114 ∧ y = 117 ∧ z = 101 then
            jsonParseLoop rest3 .afterElement (items ++ [JSVal.bool true])
          else
            match rest3 with
            | u :: rest4 =>
              if c = 102 ∧ x = 97 ∧ y = 108 ∧ z = 115 ∧ u = 101 then
                jsonParseLoop rest4 .afterElement (items ++ [JSVal.bool false])
              else none
            | [] => none
        | _ => none

/-- The call `JSON.parse(text)` on the text of an array of strings, booleans
and `null`; every other text is rejected. -/
def jsonParse (text : JSString) : Option (List JSVal) :=
  jsonParseLoop text ParseState.start []

/-- The JSON runtime made of `jsonStringify` and `jsonParse`. -/
def json : JSONRuntime :=
  { stringify := jsonStringify, parse := jsonParse }

/-! ## Signatures: what the codec reads and writes -/

/-- The three parameter types of a proc-code. -/
inductive ParamType where
  | n
  | b
  | s
  deriving DecidableEq, Repr

/-- The type of a parameter from the one-character string `inputType`. -/
def paramTypeOf (inputType : JSString) : Option ParamType :=
  if inputType = utf16 "n" then some ParamType.n
  else if inputType = utf16 "b" then some ParamType.b
  else if inputType = utf16 "s" then some ParamType.s
  else none

/-- A segment of a signature. -/
inductive Segment where
  | label (text : JSString)
  | param (type : ParamType)
  deriving DecidableEq, Repr

/-- The label input that `addLabelMutatorRoot_` makes for a text: none for the
empty string. -/
def labelSegments (text : JSString) : List Segment :=
  if text = [] then [] else [Segment.label text]

/-- The split-and-classify step of `createAllInputs_` on its own: the
parameters and the labels for which the loop on the mutator root creates an
input, in order, or the error that the loop throws. -/
def decodeLoop : List JSString → Except JSError (List Segment)
  | [] => Except.ok []
  | component :: rest =>
    if component = [] then Except.ok []
    else if substring component 0 1 = utf16 "%" then
      match paramTypeOf (substring component 1 2) with
      | none => Except.error (JSError.invalidType (substring component 1 2))
      | some t =>
        match decodeLoop rest with
        | Except.error e => Except.error e
        | Except.ok segs =>
          Except.ok (Segment.param t ::
            (labelSegments (replaceEscapedPercent (trim (substringFrom component 2))) ++ segs))
    else
      match decodeLoop rest with
      | Except.error e => Except.error e
      | Except.ok segs =>
        Except.ok (labelSegments (replaceEscapedPercent (trim component)) ++ segs)

/-- Decoding a proc-code into the segments of its signature. -/
def decode (procCode : JSString) : Except JSError (List Segment) :=
  decodeLoop (procComponents procCode)

/-- The type of the block that the mutator root attaches for a parameter
(`attachShadowMutatorRoot_`). -/
def editorBlockType (t : ParamType) : JSString :=
  if t = ParamType.b then utf16 "boolean_textinput" else utf16 "text"

/-- An input of the mutator root shows a segment: a dummy input whose first
field holds the label text, or a value input whose attached block is the
editor block for the parameter type. -/
def inputShows (workspace : List ContentBlock) (input : Input) (seg : Segment) : Prop :=
  match seg with
  | Segment.label text =>
    input.type = InputType.dummy ∧ input.fieldRow.head?.map Field.getValue = some text
  | Segment.param t =>
    input.type = InputType.value ∧
      (input.target.bind fun i => workspace[i]?).map ContentBlock.type =
        some (editorBlockType t)

/-- The inputs show the signature, segment by segment. -/
def inputsShow (workspace : List ContentBlock) : List Input → List Segment → Prop
  | [], [] => True
  | input :: inputs, seg :: sig => inputShows workspace input seg ∧ inputsShow workspace inputs sig
  | _, _ => False

/-- A label text that survives the codec: not empty, no white space at
either end, no `%`. -/
def goodLabel (text : JSString) : Prop :=
  text ≠ [] ∧ trim text = text ∧ 37 ∉ text

/-- The signature does not start with a label. -/
def noLabelFirst : List Segment → Prop
  | Segment.label _ :: _ => False
  | _ => True

/-- The signatures that the codec round-trips: every label is a good label,
no two labels are adjacent, and every parameter is of type `b` or `s`. -/
def roundTrips : List Segment → Prop
  | [] => True
  | Segment.label text :: rest => goodLabel text ∧ noLabelFirst rest ∧ roundTrips rest
  | Segment.param t :: rest => t ≠ ParamType.n ∧ roundTrips rest

/-- The loop of `createAllInputs_` throws on a component that starts with `%`
and goes on with something other than `n`, `b` or `s`. -/
def invalidComponent (component : JSString) : Prop :=
  substring component 0 1 = utf16 "%" ∧
    ¬ (substring component 1 2 = utf16 "n" ∨ substring component 1 2 = utf16 "b" ∨
      substring component 1 2 = utf16 "s")

/-- The loop of `createAllInputs_` goes past a component that is not empty
and not invalid. -/
def passedComponent (component : JSString) : Prop :=
  component ≠ [] ∧ ¬ invalidComponent component

/-- What an input shows of its segment: its type, the text of its first
field, and whether it carries the Boolean check. -/
def inputKind (input : Input) : InputType × Option JSString × Bool :=
  (input.type, input.fieldRow.head?.map Field.getValue,
    decide (input.check = some (utf16 "Boolean")))

/-- The kind of the input that the mutator root builds for a segment. -/
def segmentKind : Segment → InputType × Option JSString × Bool
  | Segment.label text => (InputType.dummy, some text, false)
  | Segment.param t => (InputType.value, none, decide (t = ParamType.b))

/-- The text that `updateProcCodeMutatorRoot_` appends for an input that
shows the segment: the label text, `%b` for a boolean editor block and `%s`
for a text editor block. -/
def segmentText : Segment → JSString
  | Segment.label text => text
  | Segment.param t => if t = ParamType.b then utf16 "%b" else utf16 "%s"

/-- The proc-code from the second input on: a space before each segment. -/
def encodeTail : List Segment → JSString
  | [] => []
  | seg :: rest => utf16 " " ++ segmentText seg ++ encodeTail rest

/-- The proc-code that `updateProcCodeMutatorRoot_` builds from inputs that
show the signature: the segment texts joined by single spaces. -/
def encodeSignature : List Segment → JSString
  | [] => []
  | seg :: rest => segmentText seg ++ encodeTail rest

/-! ## Concrete blocks and records for the examples -/

/-- A caller block before its first reconciliation, with the signature
`move %n steps` and one argument id. -/
def moveStepsCaller : ProcBlock :=
  { emptyBlock Variant.caller with
    procCode_ := utf16 "move %n steps"
    argumentIds_ := [JSVal.str (utf16 "arg0")] }

/-- A dummy input of the mutator root with one text field. -/
def rootLabelInput (name text : JSString) : Input :=
  { type := InputType.dummy, name := JSVal.str name, fieldRow := [Field.textInput text],
    check := none, shadowDom := none, target := none }

/-- A value input of the mutator root with the block `target` attached. -/
def rootValueInput (name : JSString) (check : Option JSString) (target : Nat) : Input :=
  { type := InputType.value, name := JSVal.str name, fieldRow := [], check := check,
    shadowDom := none, target := some target }

/-- An editor block of the mutator root, attached to its slot. -/
def editorBlock (type text : JSString) : ContentBlock :=
  { type := type, fields := [(utf16 "TEXT", JSVal.str text)], shadow := true,
    rendered := true, connected := true, disposed := false }

/-- A mutator root with the given inputs and workspace. -/
def rootWith (inputs : List Input) (workspace : List ContentBlock) : ProcBlock :=
  { emptyBlock Variant.mutatorRoot with
    paramMap_ := some []
    inputList := inputs
    workspace := workspace }

/-- A mutator root that shows `say %b to %s`. -/
def sayToRoot : ProcBlock :=
  rootWith
    [ rootLabelInput (utf16 "l0") (utf16 "say"),
      rootValueInput (utf16 "a0") (some (utf16 "Boolean")) 0,
      rootLabelInput (utf16 "l1") (utf16 "to"),
      rootValueInput (utf16 "a1") none 1 ]
    [ editorBlock (utf16 "boolean_textinput") (utf16 "flag"),
      editorBlock (utf16 "text") (utf16 "name") ]

/-- The signature that `sayToRoot` shows. -/
def sayToSignature : List Segment :=
  [ Segment.label (utf16 "say"), Segment.param ParamType.b, Segment.label (utf16 "to"),
    Segment.param ParamType.s ]

/-- A mutator root with two label inputs next to each other. -/
def adjacentLabelsRoot : ProcBlock :=
  rootWith [rootLabelInput (utf16 "l0") (utf16 "a"), rootLabelInput (utf16 "l1") (utf16 "b")] []

/-- A mutator root whose one label starts with a space. -/
def spaceLabelRoot : ProcBlock :=
  rootWith [rootLabelInput (utf16 "l0") (utf16 " a")] []

/-- A mutator root whose one label is empty. -/
def emptyLabelRoot : ProcBlock :=
  rootWith [rootLabelInput (utf16 "l0") []] []

/-- A mutator root with one slot that holds a text editor block, as the root
builds it for a parameter of type `n` or `s`. -/
def numberSlotRoot : ProcBlock :=
  rootWith [rootValueInput (utf16 "a0") none 0] [editorBlock (utf16 "text") (utf16 "count")]

/-- A mutator root whose one label is the text `%b`. -/
def percentLabelRoot : ProcBlock :=
  rootWith [rootLabelInput (utf16 "l0") (utf16 "%b")] []

/-- A mutator root whose one label is the text `a %n b`. -/
def tokenLabelRoot : ProcBlock :=
  rootWith [rootLabelInput (utf16 "l0") (utf16 "a %n b")] []

/-- A caller block before its first reconciliation with the proc-code given
and two argument ids. -/
def callerWith (procCode : JSString) : ProcBlock :=
  { emptyBlock Variant.caller with
    procCode_ := procCode
    argumentIds_ := [JSVal.str (utf16 "arg0"), JSVal.str (utf16 "arg1")] }

/-- The caller block `moveStepsCaller` after its first reconciliation. -/
def reconciledCaller : ProcBlock :=
  (updateDisplay_ moveStepsCaller).state

/-- The reconciled caller block after its proc-code has been set to `%d`. -/
def badCaller : ProcBlock :=
  { reconciledCaller with procCode_ := utf16 "%d" }

/-- The mutation record of a caller with the proc-code `%d`. -/
def badTypeCallerMutation : CallerMutation :=
  { proccode := utf16 "%d", argumentids := utf16 "[\"arg0\"]", warp := utf16 "false" }

/-- The reconciled caller block, rendered. -/
def renderedCaller : ProcBlock :=
  { reconciledCaller with rendered := true }

/-- The reconciled caller block, rendered, after its proc-code has been set
to `%d`. -/
def renderedBadCaller : ProcBlock :=
  { reconciledCaller with procCode_ := utf16 "%d", rendered := true }

/-- A caller block whose `warp_` is the boolean `true`. -/
def warpCaller : ProcBlock :=
  { moveStepsCaller with warp_ := JSVal.bool true }

/-- The mutation record of a caller whose `argumentids` is not JSON. -/
def malformedCallerMutation : CallerMutation :=
  { proccode := utf16 "jump %n", argumentids := utf16 "arg0", warp := utf16 "false" }

/-- The mutation record of a definition block whose `argumentnames` is not
JSON. -/
def malformedDefinitionMutation : DefinitionMutation :=
  { proccode := utf16 "jump %n", argumentids := utf16 "[\"arg7\"]",
    argumentnames := utf16 "height", argumentdefaults := utf16 "[\"\"]",
    warp := utf16 "true" }

/-- A mutator root after `init`, with the empty signature in its array
fields. -/
def freshRoot : ProcBlock :=
  emptyBlock Variant.mutatorRoot

/-! ## Definitions that name parts of the loop -/

/-- The salvaged block that `createAllInputs_` finds for a parameter id:
`connectionMap[id]` when `id in connectionMap`, else `null`. -/
def oldBlockOf (connectionMap : Option ConnectionMap) (id : JSVal) : Option Nat :=
  match connectionMap with
  | some m =>
    if PropMap.has m id.toJSString then (PropMap.get m id.toJSString).join else none
  | none => none

/-- The part of the loop body of `createAllInputs_` that makes the value
input of a parameter: append it, set its check, populate it. -/
def paramStep (inputType : JSString) (inputCount : Nat) (connectionMap : Option ConnectionMap)
    (w : ProcBlock) : Option ConnectionMap × ProcBlock :=
  let id := arrayGet w.argumentIds_ inputCount
  let w1 := (w.appendInput InputType.value id).2
  let input := w.inputList.length
  let w2 := if inputType = utf16 "b" then w1.setCheck input (utf16 "Boolean") else w1
  populateInput_ inputType inputCount connectionMap id (oldBlockOf connectionMap id) input w2

/-- The detach and clear phases of `updateDisplay_`, after `rendered` has
been set to `false`: the salvage map and the state with which
`createAllInputs_` is called. -/
def detachPhase (w : ProcBlock) : Option ConnectionMap × ProcBlock :=
  match w.paramMap_ with
  | some _ =>
    ((some (disconnectOldBlocks_ { w with rendered := false }).1),
      removeAllInputs_ (disconnectOldBlocks_ { w with rendered := false }).2)
  | none => (none, { w with rendered := false })

/-- The fields that the reconciler reads and never writes. -/
def kept (w : ProcBlock) :
    Variant × JSString × List JSVal × List JSVal × List JSVal × JSVal × Bool × Bool :=
  (w.variant, w.procCode_, w.argumentIds_, w.displayNames_, w.argumentDefaults_, w.warp_,
    w.rendered, w.insertionMarker)

/-! ## Definitions for the claims on slots and content -/

/-- The number of parameters among the segments of a signature. -/
def paramCount (segs : List Segment) : Nat :=
  (segs.filter fun seg => match seg with
    | Segment.param _ => true
    | Segment.label _ => false).length

/-- The value inputs of an input list, in order. -/
def valueInputs (inputs : List Input) : List Input :=
  inputs.filter fun input => decide (input.type = InputType.value)

/-- The fields of a content block that the reconciler never changes on a
block it did not create: its type, its shadow marker and whether it has been
disposed of. -/
def blockFlags (b : ContentBlock) : JSString × Bool × Bool :=
  (b.type, b.shadow, b.disposed)

/-- The property keys of the argument ids. -/
def idKeys (ids : List JSVal) : List JSString :=
  ids.map JSVal.toJSString

/-- The value input that `createAllInputs_` makes for a parameter, with the
shadow DOM and the content that the populate function gives it. -/
def slotInput (id : JSVal) (inputType : JSString) (shadowDom : Option ShadowDom)
    (target : Option Nat) : Input :=
  { type := InputType.value, name := id, fieldRow := [],
    check := if inputType = utf16 "b" then some (utf16 "Boolean") else none,
    shadowDom := shadowDom, target := target }

/-- The entry of the salvage map that `disconnectOldBlocks_` makes for an
entry of `paramMap_`: the block attached to the input, when the input has a
connection. -/
def salvageEntry (inputs : List Input) (entry : JSString × Nat) :
    Option (JSString × Option Nat) :=
  match inputs[entry.2]? with
  | some input =>
    if input.type ≠ InputType.dummy then some (entry.1, input.target) else none
  | none => none

/-- The block attached under a parameter id: the content of the input that
`paramMap_` has for the key. -/
def attachedUnder (w : ProcBlock) (key : JSString) : Option Nat :=
  match w.paramMap_ with
  | some pm =>
    match PropMap.get pm key with
    | some idx =>
      match w.inputList[idx]? with
      | some input => if input.type ≠ InputType.dummy then input.target else none
      | none => none
    | none => none
  | none => none

/-- The entries of `paramMap_` are those of a JavaScript object whose values
are different inputs: no key and no input occurs twice. -/
def trackedOnce (w : ProcBlock) : Prop :=
  ((w.paramMap_.getD []).map Prod.fst).Nodup ∧ ((w.paramMap_.getD []).map Prod.snd).Nodup

/-- A block that has not been reconciled yet has no inputs (`init` makes
none). -/
def freshHasNoInputs (w : ProcBlock) : Prop :=
  w.paramMap_ = none → w.inputList = []

/-- Every block attached to an input is a block of the workspace. -/
def targetsExist (w : ProcBlock) : Prop :=
  ∀ input ∈ w.inputList, ∀ c ∈ input.target, c < w.workspace.length

/-- The parameter types of the segments of a signature, in order. -/
def paramTypes (segs : List Segment) : List ParamType :=
  segs.filterMap fun seg => match seg with
    | Segment.param t => some t
    | Segment.label _ => none

/-- The character of a parameter type in a proc-code. -/
def typeCode (t : ParamType) : JSString :=
  match t with
  | ParamType.n => utf16 "n"
  | ParamType.b => utf16 "b"
  | ParamType.s => utf16 "s"

/-- The salvaged block that the populate function of the block reattaches to
the slot of parameter `inputCount`: on the caller the block found under the
id, on the other two blocks that block when `checkOldTypeMatches_` accepts
it. -/
def reattachedBlock (inputType : JSString) (inputCount : Nat)
    (connectionMap : Option ConnectionMap) (w : ProcBlock) : Option Nat :=
  match w.variant with
  | Variant.caller => oldBlockOf connectionMap (arrayGet w.argumentIds_ inputCount)
  | _ =>
    if checkOldTypeMatches_ w (oldBlockOf connectionMap (arrayGet w.argumentIds_ inputCount))
        inputType = true then
      oldBlockOf connectionMap (arrayGet w.argumentIds_ inputCount)
    else none

/-- What reattaching does to the salvaged block: it is connected, and on the
internal caller and the mutator root its name field is set. -/
def reattach (variant : Variant) (displayName : JSVal) (b : ContentBlock) : ContentBlock :=
  match variant with
  | Variant.caller => { b with connected := true }
  | Variant.callerInternal =>
    { b with fields := PropMap.set b.fields (utf16 "VALUE") displayName, connected := true }
  | Variant.mutatorRoot =>
    { b with fields := PropMap.set b.fields (utf16 "TEXT") displayName, connected := true }

/-- The block that `attachShadow_`, `attachArgumentReporter_` and
`attachShadowMutatorRoot_` make and attach, as they leave it. -/
def freshContent (variant : Variant) (inputType : JSString) (displayName : JSVal)
    (insertionMarker : Bool) : ContentBlock :=
  match variant with
  | Variant.caller =>
    { type := if inputType = utf16 "n" then utf16 "math_number" else utf16 "text",
      fields :=
        if inputType = utf16 "n" then [(utf16 "NUM", JSVal.str (utf16 "99"))]
        else [(utf16 "TEXT", JSVal.str (utf16 "hello world"))],
      shadow := true, rendered := !insertionMarker, connected := true, disposed := false }
  | Variant.callerInternal =>
    { type :=
        if inputType = utf16 "n" ∨ inputType = utf16 "s" then
          utf16 "argument_reporter_string_number"
        else utf16 "argument_reporter_boolean",
      fields := [(utf16 "VALUE", displayName)],
      shadow := true, rendered := !insertionMarker, connected := true, disposed := false }
  | Variant.mutatorRoot =>
    { type :=
        if inputType = utf16 "n" ∨ inputType = utf16 "s" then utf16 "text"
        else utf16 "boolean_textinput",
      fields := [(utf16 "TEXT", displayName)],
      shadow := true, rendered := !insertionMarker, connected := true, disposed := false }

/-- The caller block attaches nothing to a slot that has no salvaged block
and whose type is neither `n` nor `s`. -/
def leftEmpty (inputType : JSString) (w : ProcBlock) : Bool :=
  decide (w.variant = Variant.caller ∧ ¬ (inputType = utf16 "n" ∨ inputType = utf16 "s"))

/-- The shadow DOM that the populate function sets on the slot: the caller
block sets one when it reattaches a block to a slot that is not boolean. -/
def slotShadowDom (inputType : JSString) (w : ProcBlock) : Option ShadowDom :=
  if w.variant = Variant.caller ∧ inputType ≠ utf16 "b" then some (buildShadowDom_ inputType)
  else none

/-- The state after the slot of parameter `inputCount` has been made and
populated, written out: the new input, the block attached to it, and the
entry of `paramMap_`. -/
def slotMade (inputType : JSString) (inputCount : Nat)
    (connectionMap : Option ConnectionMap) (w : ProcBlock) :
    Option ConnectionMap × ProcBlock :=
  let id := arrayGet w.argumentIds_ inputCount
  let paramMap := w.paramMap_.map fun m => PropMap.set m id.toJSString w.inputList.length
  match reattachedBlock inputType inputCount connectionMap w with
  | some old =>
    (connectionMap.map fun m => PropMap.set m id.toJSString none,
      { w with
        inputList := w.inputList ++
          [slotInput id inputType (slotShadowDom inputType w) (some old)]
        workspace := updateAt w.workspace old
          (reattach w.variant (arrayGet w.displayNames_ inputCount))
        paramMap_ := paramMap })
  | none =>
    if leftEmpty inputType w = true then
      (connectionMap,
        { w with
          inputList := w.inputList ++ [slotInput id inputType none none]
          paramMap_ := paramMap })
    else
      (connectionMap,
        { w with
          inputList := w.inputList ++
            [slotInput id inputType none (some w.workspace.length)]
          workspace := w.workspace ++
            [freshContent w.variant inputType (arrayGet w.displayNames_ inputCount)
              w.insertionMarker]
          paramMap_ := paramMap })

/-- The dummy input that `addLabel_` makes, with its fields. -/
def dummyInput (name : JSVal) (fieldRow : List Field) : Input :=
  { type := InputType.dummy, name := name, fieldRow := fieldRow, check := none,
    shadowDom := none, target := none }

/-- What `deleteShadows_` does to block `c` of the workspace: it is disposed
of when it is a shadow and a value of the salvage map. -/
def sweepBlock (entries : ConnectionMap) (c : Nat) (b : ContentBlock) : ContentBlock :=
  if b.shadow = true ∧ (entries.any fun e => e.2 == some c) = true then
    { b with disposed := true, connected := false }
  else b

/-- What `disconnectOldBlocks_` does to a block of the workspace: nothing, or
it is no longer connected. -/
def detachBlock (off : Bool) (b : ContentBlock) : ContentBlock :=
  if off = true then { b with connected := false } else b

/-- The blocks of the workspace `ws0` are blocks of `ws`, with their type,
shadow marker and disposal unchanged. -/
def framed (ws0 ws : List ContentBlock) : Prop :=
  ∀ (c : Nat) b0, ws0[c]? = some b0 → ∃ b, ws[c]? = some b ∧ blockFlags b = blockFlags b0

/-- Every block of the salvage map is a block of the workspace. -/
def salvageInRange (cm0 : Option ConnectionMap) (w0 : ProcBlock) : Prop :=
  ∀ m, cm0 = some m → ∀ e ∈ m, ∀ c, e.2 = some c → c < w0.workspace.length

/-- The content of the slot of parameter `k` as the populate policy of the
block decides it from the salvage map `cm0` and the state `w0` with which the
loop of `createAllInputs_` starts: the salvaged block that the policy
reattaches, nothing, or a new block. -/
def slotContent (w0 : ProcBlock) (cm0 : Option ConnectionMap) (k : Nat) (t : ParamType)
    (sd : Option ShadowDom) (tg : Option Nat) (w : ProcBlock) : Prop :=
  match reattachedBlock (typeCode t) k cm0 w0 with
  | some c =>
    tg = some c ∧ sd = slotShadowDom (typeCode t) w0 ∧
      ∃ b, w.workspace[c]? = some b ∧ b.connected = true
  | none =>
    if leftEmpty (typeCode t) w0 = true then tg = none ∧ sd = none
    else
      ∃ nb, tg = some nb ∧ w0.workspace.length ≤ nb ∧ sd = none ∧
        w.workspace[nb]? = some (freshContent w0.variant (typeCode t)
          (arrayGet w0.displayNames_ k) w0.insertionMarker)

/-- The slots that the loop of `createAllInputs_` has made after the
parameters of types `ts`, from the state `w0` in which `paramMap_` has been
reset: the value inputs are named by the first ids in order, and `paramMap_`
has the keys of these ids and maps each to its slot. -/
def slotsMade (w0 : ProcBlock) (ts : List ParamType) (w : ProcBlock) : Prop :=
  kept w = kept w0 ∧
  (valueInputs w.inputList).map Input.name =
    (valueInputs w0.inputList).map Input.name ++ w0.argumentIds_.take ts.length ∧
  ∃ pm, w.paramMap_ = some pm ∧
    pm.map Prod.fst = idKeys (w0.argumentIds_.take ts.length) ∧
    ∀ k t, ts[k]? = some t →
      ∃ idx sd tg, PropMap.get pm (arrayGet w0.argumentIds_ k).toJSString = some idx ∧
        w.inputList[idx]? =
          some (slotInput (arrayGet w0.argumentIds_ k) (typeCode t) sd tg)

/-- The content of the slots made so far, and what the loop has left of the
salvage map for the parameters to come. -/
def slotsFilled (w0 : ProcBlock) (cm0 : Option ConnectionMap) (ts : List ParamType)
    (cm : Option ConnectionMap) (w : ProcBlock) : Prop :=
  framed w0.workspace w.workspace ∧
  salvageInRange cm w0 ∧
  (∀ k, ts.length ≤ k → k < w0.argumentIds_.length →
    oldBlockOf cm (arrayGet w0.argumentIds_ k) =
      oldBlockOf cm0 (arrayGet w0.argumentIds_ k)) ∧
  ∀ k t pm idx sd tg, ts[k]? = some t → w.paramMap_ = some pm →
    PropMap.get pm (arrayGet w0.argumentIds_ k).toJSString = some idx →
    w.inputList[idx]? = some (slotInput (arrayGet w0.argumentIds_ k) (typeCode t) sd tg) →
    slotContent w0 cm0 k t sd tg w

/-- The invariant of the loop of `createAllInputs_` for the slots. -/
def slotInv (w0 : ProcBlock) (cm0 : Option ConnectionMap) (ts : List ParamType)
    (cm : Option ConnectionMap) (w : ProcBlock) : Prop :=
  ts.length ≤ w0.argumentIds_.length →
    slotsMade w0 ts w ∧ (salvageInRange cm0 w0 → slotsFilled w0 cm0 ts cm w)

/-- The invariant of the loop of `createAllInputs_` for the blocks of the
salvage map: a salvaged block is still in the map or attached to an input,
and a block that was in the workspace is connected only if it was connected
or is attached to an input. -/
def salvageInv (w0 : ProcBlock) (cm0 : Option ConnectionMap)
    (cm : Option ConnectionMap) (w : ProcBlock) : Prop :=
  framed w0.workspace w.workspace ∧
  (∀ (c : Nat) b0 b, w0.workspace[c]? = some b0 → w.workspace[c]? = some b → b.connected = true →
    b0.connected = true ∨ ∃ input ∈ w.inputList, input.target = some c) ∧
  ∀ m0 key c, cm0 = some m0 → PropMap.get m0 key = some (some c) →
    (∃ m, cm = some m ∧ PropMap.get m key = some (some c)) ∨
      ∃ input ∈ w.inputList, input.target = some c

/-- A block that a user has put into a slot: not a shadow. -/
def heldBlock : ContentBlock :=
  { type := utf16 "operator_join", fields := [], shadow := false, rendered := true,
    connected := true, disposed := false }

/-- A reconciled caller block of `say %s` whose slot holds `heldBlock`. -/
def holdingCaller : ProcBlock :=
  { emptyBlock Variant.caller with
    procCode_ := utf16 "say %s"
    argumentIds_ := [JSVal.str (utf16 "arg0")]
    paramMap_ := some [(utf16 "arg0", 1)]
    inputList :=
      [ dummyInput (JSVal.str []) [Field.label (utf16 "say")],
        slotInput (JSVal.str (utf16 "arg0")) (utf16 "s") (some (buildShadowDom_ (utf16 "s")))
          (some 0),
        dummyInput (JSVal.str []) [] ]
    workspace := [heldBlock] }

/-- An internal caller block of `say %s` after its first reconciliation: its
slot holds block 0, the string-number argument reporter that the call
made. -/
def reconciledInternal : ProcBlock :=
  (updateDisplay_
    { emptyBlock Variant.callerInternal with
      procCode_ := utf16 "say %s"
      argumentIds_ := [JSVal.str (utf16 "arg0")]
      displayNames_ := [JSVal.str (utf16 "text")] }).state

/-- What the slot list of a block shows of an input: its kind, its name, its
check and the block attached to it. -/
def slotView (input : Input) : InputType × JSVal × Option JSString × Option Nat :=
  (input.type, input.name, input.check, input.target)

/-- A mutator root with the signature `%s` before its first reconciliation:
one parameter with the id `arg0` and the display name `name`. -/
def stringRoot : ProcBlock :=
  { emptyBlock Variant.mutatorRoot with
    procCode_ := utf16 "%s"
    argumentIds_ := [JSVal.str (utf16 "arg0")]
    displayNames_ := [JSVal.str (utf16 "name")]
    argumentDefaults_ := [JSVal.str (utf16 "")] }

/-- The mutator root `stringRoot` after its first reconciliation. -/
def reconciledRoot : ProcBlock :=
  (updateDisplay_ stringRoot).state

/-- A mutator root after `init` whose one label has been edited to a single
space, as `updateProcCodeMutatorRoot_` leaves it. -/
def spaceRoot : ProcBlock :=
  (updateProcCodeMutatorRoot_ (rootWith [rootLabelInput (utf16 "l0") (utf16 " ")] [])).state

/-- The mutator root `reconciledRoot` in the middle of its next
reconciliation: the editor block of its parameter has been detached, the
inputs have been removed, and the value input of the parameter has been
appended; the populate function is called next. -/
def rootBeforePopulate : ProcBlock :=
  (({ (detachPhase reconciledRoot).2 with paramMap_ := some [] } : ProcBlock).appendInput
    InputType.value (JSVal.str (utf16 "arg0"))).2

/-- The salvage map with which the populate function is called on
`rootBeforePopulate`. -/
def rootSalvage : Option ConnectionMap :=
  (detachPhase reconciledRoot).1

/-- The salvaged block is an argument reporter of the kind of the parameter
type: a string-number reporter for `n` and `s`, a boolean reporter for
`b`. -/
def reporterMatches (blockType inputType : JSString) : Prop :=
  ((inputType = utf16 "n" ∨ inputType = utf16 "s") ∧
      blockType = utf16 "argument_reporter_string_number") ∨
    (inputType = utf16 "b" ∧ blockType = utf16 "argument_reporter_boolean")

/-- The type of the argument reporter for a parameter type. -/
def reporterType (inputType : JSString) : JSString :=
  if inputType = utf16 "n" ∨ inputType = utf16 "s" then
    utf16 "argument_reporter_string_number"
  else utf16 "argument_reporter_boolean"

/-- The block attached to an input. -/
def attachedBlock (workspace : List ContentBlock) (input : Input) : Option ContentBlock :=
  input.target.bind fun t => workspace[t]?

/-- What an input of the mutator root contributes to the proc-code: the text
of the first field of a label input, and for a value input `%b` when the
attached block is a `boolean_textinput` and `%s` otherwise. -/
def contribution (workspace : List ContentBlock) (input : Input) : JSString :=
  match input.type with
  | InputType.dummy => (input.fieldRow.head?.map Field.getValue).getD []
  | _ =>
    match attachedBlock workspace input with
    | some b => if b.type = utf16 "boolean_textinput" then utf16 "%b" else utf16 "%s"
    | none => []

/-- The `TEXT` value of the block attached to an input. -/
def slotText (workspace : List ContentBlock) (input : Input) : JSVal :=
  match attachedBlock workspace input with
  | some b => getFieldValue b (utf16 "TEXT")
  | none => JSVal.undefined

/-- The texts, each with a space before it. -/
def spaced : List JSString → JSString
  | [] => []
  | x :: rest => utf16 " " ++ x ++ spaced rest

/-- The texts joined by single spaces. -/
def joinSpaces : List JSString → JSString
  | [] => []
  | x :: rest => x ++ spaced rest

/-- Every label input has a field and every value input has an attached
block. -/
def inputsComplete (w : ProcBlock) : Prop :=
  ∀ input ∈ w.inputList,
    (input.type = InputType.dummy → input.fieldRow ≠ []) ∧
      (input.type = InputType.value → (attachedBlock w.workspace input).isSome = true)

/-- The three arrays of the signature have the same length. -/
def parallelArrays (w : ProcBlock) : Prop :=
  w.argumentIds_.length = w.displayNames_.length ∧
    w.displayNames_.length = w.argumentDefaults_.length

/-- A mutator root after `init`, `addBooleanExternal` and
`addStringNumberExternal`: two slots, and two entries in each array. -/
def twoSlotRoot : ProcBlock :=
  (addStringNumberExternal (addBooleanExternal freshRoot).state).state

/-- The mutator root `twoSlotRoot` after the editor has removed its second
slot from the input list. -/
def oneSlotLeftRoot : ProcBlock :=
  { twoSlotRoot with inputList := twoSlotRoot.inputList.take 1 }

/-- What `updateProcCodeMutatorRoot_` reads of a value input: its name, and
the type and the `TEXT` value of the block attached to it. -/
def heldView (workspace : List ContentBlock) (input : Input) :
    JSVal × Option (JSString × JSVal) :=
  (input.name,
    (attachedBlock workspace input).map fun b => (b.type, getFieldValue b (utf16 "TEXT")))

/-- The views of the slots that the mutator root makes for the parameter
types `ts`, from the parameter index `k` on: the slot of a parameter is named
by its id and holds an editor block of its type with its display name. -/
def rootViews (ids names : List JSVal) :
    Nat → List ParamType → List (JSVal × Option (JSString × JSVal))
  | _, [] => []
  | k, t :: ts =>
    (arrayGet ids k, some (editorBlockType t, arrayGet names k)) :: rootViews ids names (k + 1) ts

/-- Put a segment before a signature in which no two labels are adjacent: a
label before a label is joined to it with a space. -/
def mergeInto (seg : Segment) (sig : List Segment) : List Segment :=
  match seg, sig with
  | Segment.label a, Segment.label b :: rest => Segment.label (a ++ utf16 " " ++ b) :: rest
  | _, _ => seg :: sig

/-- The signature with every run of adjacent labels joined by single spaces
into one label: the signature that the proc-code of the signature decodes
to. -/
def mergeLabels (sig : List Segment) : List Segment :=
  sig.foldr mergeInto []

/-- The segments that the claim on the stability of the root allows: label
texts that are not empty, have no white space at either end and no `%`, and
parameters of type `b` or `s`. -/
def plainSegments (sig : List Segment) : Prop :=
  ∀ seg ∈ sig,
    match seg with
    | Segment.label text => goodLabel text
    | Segment.param t => t ≠ ParamType.n

/-- A mutator root with the signature `say %b to %s`, before its first
reconciliation. -/
def sayToDeclared : ProcBlock :=
  { emptyBlock Variant.mutatorRoot with
    procCode_ := utf16 "say %b to %s"
    argumentIds_ := [JSVal.str (utf16 "a0"), JSVal.str (utf16 "a1")]
    displayNames_ := [JSVal.str (utf16 "flag"), JSVal.str (utf16 "name")]
    argumentDefaults_ := [JSVal.str (utf16 "todo"), JSVal.str (utf16 "todo")] }

/-- The segments of `say %b to %s`. -/
def sayToSegments : List Segment :=
  [Segment.label (utf16 "say"), Segment.param ParamType.b, Segment.label (utf16 "to"),
    Segment.param ParamType.s]

/-- No two inputs hold the same block. -/
def targetsDistinct (inputs : List Input) : Prop :=
  inputs.Pairwise fun a b => a.target = none ∨ a.target ≠ b.target

/-- Every block that an input holds is a block of the workspace that has not
been disposed of. -/
def targetsLive (workspace : List ContentBlock) (inputs : List Input) : Prop :=
  ∀ input ∈ inputs, ∀ c ∈ input.target,
    (workspace[c]?).map ContentBlock.disposed = some false

/-- The salvage map holds block `c` under `key`. -/
def holds (cm : Option ConnectionMap) (key : JSString) (c : Nat) : Prop :=
  ∃ m, cm = some m ∧ (key, some c) ∈ m

/-- The salvage map `cm0` with which `createAllInputs_` starts on the
workspace `ws0`: no key twice, no block under two keys, and every block in it
is a block of the workspace that has not been disposed of. -/
def salvageSound (ws0 : List ContentBlock) (cm0 : Option ConnectionMap) : Prop :=
  (∀ m, cm0 = some m → (m.map Prod.fst).Nodup) ∧
    (∀ k1 k2 c, holds cm0 k1 c → holds cm0 k2 c → k1 = k2) ∧
    ∀ key c, holds cm0 key c → ∃ b, ws0[c]? = some b ∧ b.disposed = false

/-- The invariant of the loop of `createAllInputs_` for the blocks that the
inputs hold: the salvage map has no key twice and holds only blocks that it
held at the start; no two inputs hold the same block; and a block that an
input holds is connected and not disposed of, is no longer in the salvage
map, and, when it is a block from before the call, was salvaged under the
name of the input. -/
def liveInv (ws0 : List ContentBlock) (cm0 cm : Option ConnectionMap) (w : ProcBlock) :
    Prop :=
  framed ws0 w.workspace ∧
    (∀ m, cm = some m → (m.map Prod.fst).Nodup) ∧
    (∀ key c, holds cm key c → holds cm0 key c) ∧
    targetsDistinct w.inputList ∧
    ∀ input ∈ w.inputList, ∀ c, input.target = some c →
      (∃ b, w.workspace[c]? = some b ∧ b.disposed = false ∧ b.connected = true) ∧
        (∀ key, ¬ holds cm key c) ∧
        (c < ws0.length → holds cm0 input.name.toJSString c)

/-- A caller block with three slots whose proc-code has been set to `say %s`:
the slot `arg0` holds `heldBlock`, the slot `arg1` holds a shadow that the
block made, and the slot `arg2` holds `heldBlock` too (as block 2). -/
def threeSlotCaller : ProcBlock :=
  { emptyBlock Variant.caller with
    procCode_ := utf16 "say %s"
    argumentIds_ := [JSVal.str (utf16 "arg0")]
    paramMap_ := some [(utf16 "arg0", 1), (utf16 "arg1", 3), (utf16 "arg2", 5)]
    inputList :=
      [ dummyInput (JSVal.str []) [Field.label (utf16 "say")],
        slotInput (JSVal.str (utf16 "arg0")) (utf16 "s") (some (buildShadowDom_ (utf16 "s")))
          (some 0),
        dummyInput (JSVal.str []) [],
        slotInput (JSVal.str (utf16 "arg1")) (utf16 "s") none (some 1),
        dummyInput (JSVal.str []) [],
        slotInput (JSVal.str (utf16 "arg2")) (utf16 "s") (some (buildShadowDom_ (utf16 "s")))
          (some 2),
        dummyInput (JSVal.str []) [] ]
    workspace :=
      [ heldBlock, freshContent Variant.caller (utf16 "s") JSVal.undefined false, heldBlock ] }

/-- The block is not an argument reporter. The blocks that the mutator root
makes are `text` and `boolean_textinput` blocks. -/
def notReporter (b : ContentBlock) : Prop :=
  b.type ≠ utf16 "argument_reporter_string_number" ∧
    b.type ≠ utf16 "argument_reporter_boolean"

/-- No input holds an argument reporter. -/
def noReporterHeld (workspace : List ContentBlock) (inputs : List Input) : Prop :=
  ∀ input ∈ inputs, ∀ c ∈ input.target, ∀ b ∈ workspace[c]?, notReporter b

/-- The invariant of the loop of `createAllInputs_` on a mutator root whose
inputs held no argument reporter: no block of the salvage map and no block
that an input holds is an argument reporter, every slot made so far holds a
new editor block, and `paramMap_` is set. -/
def rootInv (w0 : ProcBlock) (ts : List ParamType) (cm : Option ConnectionMap)
    (w : ProcBlock) : Prop :=
  kept w = kept w0 ∧
    (∀ key c, holds cm key c → ∀ b ∈ w.workspace[c]?, notReporter b) ∧
    noReporterHeld w.workspace w.inputList ∧
    (∀ input ∈ w.inputList, ∀ c ∈ input.target, c < w.workspace.length) ∧
    (valueInputs w.inputList).map (heldView w.workspace) =
      rootViews w0.argumentIds_ w0.displayNames_ 0 ts ∧
    w.paramMap_ ≠ none

/-- A boolean argument reporter, as a user block: it has the field `VALUE`
and is not a shadow. -/
def booleanReporter : ContentBlock :=
  { type := utf16 "argument_reporter_boolean",
    fields := [(utf16 "VALUE", JSVal.str (utf16 "flag"))],
    shadow := false, rendered := true, connected := true, disposed := false }

/-- A mutator root with the signature `%b` whose one slot holds
`booleanReporter`. -/
def reporterRoot : ProcBlock :=
  { emptyBlock Variant.mutatorRoot with
    procCode_ := utf16 "%b"
    argumentIds_ := [JSVal.str (utf16 "a0")]
    displayNames_ := [JSVal.str (utf16 "flag")]
    argumentDefaults_ := [JSVal.str (utf16 "todo")]
    paramMap_ := some [(utf16 "a0", 0)]
    inputList := [slotInput (JSVal.str (utf16 "a0")) (utf16 "b") none (some 0)]
    workspace := [booleanReporter] }

/-- The invariant of the loop of `createAllInputs_` for the blocks from
before the call that the inputs hold: such a block was salvaged under the id
of one of the parameters made so far, and on the internal caller and the
mutator root `checkOldTypeMatches_` accepts it for the type of that
parameter. -/
def placedInv (w0 : ProcBlock) (cm0 : Option ConnectionMap) (ts : List ParamType)
    (w : ProcBlock) : Prop :=
  kept w = kept w0 ∧
    ∀ input ∈ w.inputList, ∀ c, input.target = some c → c < w0.workspace.length →
      ∃ k t, ts[k]? = some t ∧ holds cm0 (arrayGet w0.argumentIds_ k).toJSString c ∧
        (w0.variant ≠ Variant.caller →
          checkOldTypeMatches_ w0 (some c) (typeCode t) = true)

/-! # Theorems

## Lemmas on lists and on the loop of `createAllInputs_` -/

theorem updateAt_append_length {α : Type} (l : List α) (x : α) (f : α → α) :
    updateAt (l ++ [x]) l.length f = l ++ [f x] := by
  induction l with
  | nil => rfl
  | cons a l ih => simp [updateAt, ih]

theorem loop_nil (n : Nat) (cm : Option ConnectionMap) (w : ProcBlock) :
    createAllInputsLoop [] n cm w = Outcome.ok cm w := rfl

theorem loop_empty (rest : List JSString) (n : Nat) (cm : Option ConnectionMap)
    (w : ProcBlock) : createAllInputsLoop ([] :: rest) n cm w = Outcome.ok cm w := by
  simp [createAllInputsLoop]

theorem loop_label (c : JSString) (rest : List JSString) (n : Nat)
    (cm : Option ConnectionMap) (w : ProcBlock) (h1 : c ≠ [])
    (h2 : substring c 0 1 ≠ utf16 "%") :
    createAllInputsLoop (c :: rest) n cm w =
      createAllInputsLoop rest n cm (addLabel_ (replaceEscapedPercent (trim c)) w) := by
  rw [createAllInputsLoop, if_neg h1, if_neg h2]

theorem loop_invalid (c : JSString) (rest : List JSString) (n : Nat)
    (cm : Option ConnectionMap) (w : ProcBlock) (h1 : c ≠ [])
    (h2 : substring c 0 1 = utf16 "%")
    (h3 : ¬ (substring c 1 2 = utf16 "n" ∨ substring c 1 2 = utf16 "b" ∨
      substring c 1 2 = utf16 "s")) :
    createAllInputsLoop (c :: rest) n cm w =
      Outcome.threw (JSError.invalidType (substring c 1 2)) w := by
  rw [createAllInputsLoop, if_neg h1, if_pos h2]
  simp only [h3, not_false_eq_true, if_true]

theorem loop_param (c : JSString) (rest : List JSString) (n : Nat)
    (cm : Option ConnectionMap) (w : ProcBlock) (h1 : c ≠ [])
    (h2 : substring c 0 1 = utf16 "%")
    (h3 : substring c 1 2 = utf16 "n" ∨ substring c 1 2 = utf16 "b" ∨
      substring c 1 2 = utf16 "s") :
    createAllInputsLoop (c :: rest) n cm w =
      createAllInputsLoop rest (n + 1) (paramStep (substring c 1 2) n cm w).1
        (addLabel_ (replaceEscapedPercent (trim (substringFrom c 2)))
          (paramStep (substring c 1 2) n cm w).2) := by
  rw [createAllInputsLoop, if_neg h1, if_pos h2]
  simp only [h3, not_true_eq_false, if_false]
  rfl

/-! ## The fields that the reconciler leaves alone -/

theorem kept_addLabel_ (text : JSString) (w : ProcBlock) :
    kept (addLabel_ text w) = kept w := by
  unfold addLabel_ addLabelCaller_ addLabelMutatorRoot_
  cases w.variant <;>
    simp only [ProcBlock.appendInput, ProcBlock.appendField, ProcBlock.genUid] <;>
    split <;> rfl

theorem kept_attachShadow_ (input : Nat) (t : JSString) (w : ProcBlock) :
    kept (attachShadow_ input t w) = kept w := by
  unfold attachShadow_
  simp only [ProcBlock.newBlock, ProcBlock.setFieldValue, ProcBlock.setShadow,
    ProcBlock.renderBlock, ProcBlock.connect]
  repeat' split
  all_goals rfl

theorem kept_attachArgumentReporter_ (input : Nat) (t : JSString) (d : JSVal)
    (w : ProcBlock) : kept (attachArgumentReporter_ input t d w) = kept w := by
  unfold attachArgumentReporter_
  simp only [ProcBlock.newBlock, ProcBlock.setFieldValue, ProcBlock.setShadow,
    ProcBlock.renderBlock, ProcBlock.connect]
  repeat' split
  all_goals rfl

theorem kept_attachShadowMutatorRoot_ (input : Nat) (t : JSString) (d : JSVal)
    (w : ProcBlock) : kept (attachShadowMutatorRoot_ input t d w) = kept w := by
  unfold attachShadowMutatorRoot_
  simp only [ProcBlock.newBlock, ProcBlock.setFieldValue, ProcBlock.setShadow,
    ProcBlock.renderBlock, ProcBlock.connect]
  repeat' split
  all_goals rfl

theorem kept_setParam (w : ProcBlock) (id : JSVal) (input : Nat) :
    kept (setParam w id input) = kept w := rfl

theorem kept_connect (w : ProcBlock) (b input : Nat) : kept (w.connect b input) = kept w :=
  rfl

theorem kept_setShadowDom (w : ProcBlock) (input : Nat) (d : Option ShadowDom) :
    kept (w.setShadowDom input d) = kept w := rfl

theorem kept_setFieldValue (w : ProcBlock) (b : Nat) (v : JSVal) (name : JSString) :
    kept (w.setFieldValue b v name) = kept w := rfl

theorem kept_setCheck (w : ProcBlock) (input : Nat) (c : JSString) :
    kept (w.setCheck input c) = kept w := rfl

theorem kept_appendInput (w : ProcBlock) (t : InputType) (name : JSVal) :
    kept (w.appendInput t name).2 = kept w := rfl

theorem kept_disposeBlock (w : ProcBlock) (b : Nat) : kept (w.disposeBlock b) = kept w := rfl

theorem kept_disconnect (w : ProcBlock) (input : Nat) : kept (w.disconnect input) = kept w := by
  unfold ProcBlock.disconnect
  split <;> rfl

theorem kept_populateInputCaller_ (t : JSString) (n : Nat) (cm : Option ConnectionMap)
    (id : JSVal) (old : Option Nat) (input : Nat) (w : ProcBlock) :
    kept (populateInputCaller_ t n cm id old input w).2 = kept w := by
  unfold populateInputCaller_
  split
  · simp only [kept_setParam]
    split <;> simp only [kept_setShadowDom, kept_connect]
  · simp only [kept_setParam, kept_attachShadow_]

theorem kept_populateInputCallerInternal_ (t : JSString) (n : Nat)
    (cm : Option ConnectionMap) (id : JSVal) (old : Option Nat) (input : Nat)
    (w : ProcBlock) : kept (populateInputCallerInternal_ t n cm id old input w).2 = kept w := by
  unfold populateInputCallerInternal_
  simp only
  split
  · simp only [kept_setParam, kept_connect, kept_setFieldValue]
  · simp only [kept_setParam, kept_attachArgumentReporter_]

theorem kept_populateInputMutatorRoot_ (t : JSString) (n : Nat) (cm : Option ConnectionMap)
    (id : JSVal) (old : Option Nat) (input : Nat) (w : ProcBlock) :
    kept (populateInputMutatorRoot_ t n cm id old input w).2 = kept w := by
  unfold populateInputMutatorRoot_
  simp only
  split
  · simp only [kept_setParam, kept_connect, kept_setFieldValue]
  · simp only [kept_setParam, kept_attachShadowMutatorRoot_]

theorem kept_populateInput_ (t : JSString) (n : Nat) (cm : Option ConnectionMap)
    (id : JSVal) (old : Option Nat) (input : Nat) (w : ProcBlock) :
    kept (populateInput_ t n cm id old input w).2 = kept w := by
  unfold populateInput_
  split
  · exact kept_populateInputCaller_ _ _ _ _ _ _ _
  · exact kept_populateInputCallerInternal_ _ _ _ _ _ _ _
  · exact kept_populateInputMutatorRoot_ _ _ _ _ _ _ _

theorem kept_paramStep (t : JSString) (n : Nat) (cm : Option ConnectionMap) (w : ProcBlock) :
    kept (paramStep t n cm w).2 = kept w := by
  unfold paramStep
  simp only [kept_populateInput_]
  split <;> rfl

/-- The loop of `createAllInputs_` leaves the kept fields as they are, whether
it returns or throws. -/
theorem kept_createAllInputsLoop (comps : List JSString) (n : Nat)
    (cm : Option ConnectionMap) (w : ProcBlock) :
    kept (createAllInputsLoop comps n cm w).state = kept w := by
  induction comps generalizing n cm w with
  | nil => rfl
  | cons c rest ih =>
    by_cases h1 : c = []
    · subst h1
      rw [loop_empty]
      rfl
    · by_cases h2 : substring c 0 1 = utf16 "%"
      · by_cases h3 : substring c 1 2 = utf16 "n" ∨ substring c 1 2 = utf16 "b" ∨
            substring c 1 2 = utf16 "s"
        · rw [loop_param c rest n cm w h1 h2 h3, ih, kept_addLabel_, kept_paramStep]
        · rw [loop_invalid c rest n cm w h1 h2 h3]
          rfl
      · rw [loop_label c rest n cm w h1 h2, ih, kept_addLabel_]

theorem kept_disconnectOldBlocksLoop (entries : List (JSString × Nat)) (cm : ConnectionMap)
    (w : ProcBlock) : kept (disconnectOldBlocksLoop entries cm w).2 = kept w := by
  induction entries generalizing cm w with
  | nil => rfl
  | cons e rest ih =>
    obtain ⟨id, input⟩ := e
    unfold disconnectOldBlocksLoop
    split
    · exact ih _ _
    · split
      · simp only
        rw [ih]
        split
        · rw [kept_disconnect, kept_setShadowDom]
        · rw [kept_setShadowDom]
      · exact ih _ _

theorem kept_deleteShadowsLoop (entries : List (JSString × Option Nat)) (w : ProcBlock) :
    kept (deleteShadowsLoop entries w) = kept w := by
  induction entries generalizing w with
  | nil => rfl
  | cons e rest ih =>
    obtain ⟨id, b⟩ := e
    cases b with
    | none => exact ih _
    | some b =>
      unfold deleteShadowsLoop
      split
      · rw [ih, kept_disposeBlock]
      · exact ih _

theorem kept_deleteShadows_ (cm : Option ConnectionMap) (w : ProcBlock) :
    kept (deleteShadows_ cm w) = kept w := by
  cases cm with
  | none => rfl
  | some m => exact kept_deleteShadowsLoop m w

/-- The error of the loop of `createAllInputs_` is the error of decoding. -/
theorem error_createAllInputsLoop (comps : List JSString) (n : Nat)
    (cm : Option ConnectionMap) (w : ProcBlock) :
    (createAllInputsLoop comps n cm w).error =
      match decodeLoop comps with
      | Except.error e => some e
      | Except.ok _ => none := by
  induction comps generalizing n cm w with
  | nil => rfl
  | cons c rest ih =>
    by_cases h1 : c = []
    · subst h1
      rw [loop_empty]
      simp [decodeLoop, Outcome.error]
    · by_cases h2 : substring c 0 1 = utf16 "%"
      · by_cases h3 : substring c 1 2 = utf16 "n" ∨ substring c 1 2 = utf16 "b" ∨
            substring c 1 2 = utf16 "s"
        · rw [loop_param c rest n cm w h1 h2 h3, ih]
          have hp : ∃ t, paramTypeOf (substring c 1 2) = some t := by
            unfold paramTypeOf
            rcases h3 with h | h | h <;> rw [h] <;> simp +decide
          obtain ⟨t, ht⟩ := hp
          rw [decodeLoop, if_neg h1, if_pos h2]
          simp only [ht]
          cases decodeLoop rest <;> rfl
        · rw [loop_invalid c rest n cm w h1 h2 h3]
          have hp : paramTypeOf (substring c 1 2) = none := by
            unfold paramTypeOf
            rw [if_neg (fun h => h3 (Or.inl h)), if_neg (fun h => h3 (Or.inr (Or.inl h))),
              if_neg (fun h => h3 (Or.inr (Or.inr h)))]
          rw [decodeLoop, if_neg h1, if_pos h2]
          simp only [hp]
          rfl
      · rw [loop_label c rest n cm w h1 h2, ih, decodeLoop, if_neg h1, if_neg h2]
        cases decodeLoop rest <;> rfl

/-! ## Lemmas on `trim`, `replace` and the split -/

theorem trim_fixed {t : JSString} (h : trim t = t) :
    t.dropWhile isWhiteSpace = t ∧ t.rdropWhile isWhiteSpace = t := by
  have hs : (t.dropWhile isWhiteSpace).length ≤ t.length :=
    (List.dropWhile_suffix isWhiteSpace).length_le
  have hp : (trim t).length ≤ (t.dropWhile isWhiteSpace).length :=
    (List.rdropWhile_prefix isWhiteSpace _).length_le
  rw [h] at hp
  have hd : t.dropWhile isWhiteSpace = t :=
    (List.dropWhile_suffix isWhiteSpace).eq_of_length (le_antisymm hs hp)
  refine ⟨hd, ?_⟩
  have h2 := h
  unfold trim at h2
  rw [hd] at h2
  exact h2

theorem rdropWhile_append_fixed {t : JSString} (l : JSString) (hne : t ≠ [])
    (h : t.rdropWhile isWhiteSpace = t) :
    (l ++ t).rdropWhile isWhiteSpace = l ++ t := by
  rw [List.rdropWhile_eq_self_iff] at h ⊢
  intro hl
  rw [List.getLast_append_right hne]
  exact h hne

theorem head_not_space {t : JSString} (c : Nat) (rest : JSString) (ht : t = c :: rest)
    (h : t.dropWhile isWhiteSpace = t) : isWhiteSpace c = false := by
  subst ht
  cases hc : isWhiteSpace c with
  | false => rfl
  | true =>
    rw [List.dropWhile_cons_of_pos hc] at h
    have := (List.dropWhile_suffix (l := rest) isWhiteSpace).length_le
    rw [h] at this
    simp at this

/-- Trimming a good label behind white space and a token gives the token and
the label. -/
theorem trim_token_label {t : JSString} (pre : JSString) (x : Nat) (hne : t ≠ [])
    (h : trim t = t) (hpre : pre = [] ∨ pre = [32]) :
    trim (pre ++ 37 :: x :: 32 :: t) = 37 :: x :: 32 :: t := by
  have h32 : isWhiteSpace 32 = true := by decide
  have h37 : ¬ isWhiteSpace 37 = true := by decide
  have hd : (pre ++ 37 :: x :: 32 :: t).dropWhile isWhiteSpace = 37 :: x :: 32 :: t := by
    rcases hpre with hp | hp <;> subst hp
    · rw [List.nil_append, List.dropWhile_cons_of_neg h37]
    · rw [List.singleton_append, List.dropWhile_cons_of_pos h32,
        List.dropWhile_cons_of_neg h37]
  unfold trim
  rw [hd]
  exact rdropWhile_append_fixed [37, x, 32] hne (trim_fixed h).2

theorem trim_space_label {t : JSString} (h : trim t = t) :
    trim (32 :: t) = t := by
  unfold trim
  have h32 : isWhiteSpace 32 = true := by decide
  rw [List.dropWhile_cons_of_pos h32, (trim_fixed h).1, (trim_fixed h).2]

theorem trim_token (pre : JSString) (x : Nat) (hpre : pre = [] ∨ pre = [32])
    (hx : x = 98 ∨ x = 115) : trim (pre ++ [37, x]) = [37, x] := by
  rcases hpre with hp | hp <;> rcases hx with hx | hx <;> subst hp <;> subst hx <;> decide

theorem replaceEscapedPercent_fixed : ∀ (t : JSString), 37 ∉ t → replaceEscapedPercent t = t
  | [], _ => rfl
  | [c], _ => rfl
  | c :: d :: rest, h => by
    have hd : d ≠ 37 := fun e => h (by simp [e])
    have hrest : 37 ∉ d :: rest := fun e => h (List.mem_cons_of_mem _ e)
    rw [replaceEscapedPercent]
    simp only [hd, and_false, if_false]
    rw [replaceEscapedPercent_fixed (d :: rest) hrest]

theorem tokenAhead_false_of_second (c : Nat) (s : JSString) (h : s.head? ≠ some 37) :
    tokenAhead (c :: s) = false := by
  match s, h with
  | [], _ => rfl
  | [p], h =>  rfl
  | p :: t :: rest, h =>
    have hp : p ≠ 37 := fun e => h (by simp [e])
    simp [tokenAhead, hp]

/-- The split does not cut inside a text without `%` that is not followed by
`%`. -/
theorem splitAux_text (t s cur : JSString) (ht : 37 ∉ t) (hs : s.head? ≠ some 37) :
    splitAux (t ++ s) cur = splitAux s (cur ++ t) := by
  induction t generalizing cur with
  | nil => simp
  | cons c t ih =>
    have h2 : (t ++ s).head? ≠ some 37 := by
      cases t with
      | nil => simpa using hs
      | cons d t => 
        have : d ≠ 37 := fun e => ht (by simp [e])
        simpa using this
    rw [List.cons_append, splitAux, tokenAhead_false_of_second c _ h2]
    simp only [Bool.false_eq_true, and_false, if_false]
    rw [ih _ (fun e => ht (List.mem_cons_of_mem _ e))]
    simp

theorem encodeTail_head (sig : List Segment) : (encodeTail sig).head? ≠ some 37 := by
  cases sig with
  | nil => simp [encodeTail]
  | cons seg rest => simp +decide [encodeTail, utf16, utf16Char]

/-! ## Decoding what the mutator root encodes -/

theorem decodeLoop_param (c : JSString) (comps : List JSString) (t : ParamType)
    (segs : List Segment) (h1 : c ≠ []) (h2 : substring c 0 1 = utf16 "%")
    (h3 : paramTypeOf (substring c 1 2) = some t) (h4 : decodeLoop comps = Except.ok segs) :
    decodeLoop (c :: comps) = Except.ok (Segment.param t ::
      (labelSegments (replaceEscapedPercent (trim (substringFrom c 2))) ++ segs)) := by
  rw [decodeLoop, if_neg h1, if_pos h2]
  simp only [h3, h4]

theorem decodeLoop_label (c : JSString) (comps : List JSString) (segs : List Segment)
    (h1 : c ≠ []) (h2 : substring c 0 1 ≠ utf16 "%")
    (h4 : decodeLoop comps = Except.ok segs) :
    decodeLoop (c :: comps) =
      Except.ok (labelSegments (replaceEscapedPercent (trim c)) ++ segs) := by
  rw [decodeLoop, if_neg h1, if_neg h2]
  simp only [h4]

/-- The code unit of the type letter that the mutator root writes for a
parameter. -/
theorem segmentText_param (t : ParamType) (ht : t ≠ ParamType.n) :
    ∃ x, (x = 98 ∨ x = 115) ∧ segmentText (Segment.param t) = [37, x] ∧
      paramTypeOf [x] = some t := by
  cases t with
  | n => exact absurd rfl ht
  | b => exact ⟨98, Or.inl rfl, by decide, by decide⟩
  | s => exact ⟨115, Or.inr rfl, by decide, by decide⟩

theorem splitAux_token (x : Nat) (rest cur : JSString) (hx : x = 98 ∨ x = 115)
    (hcur : cur ≠ []) (hrest : rest.head? ≠ some 37) :
    splitAux (32 :: 37 :: x :: rest) cur = cur :: splitAux rest [32, 37, x] := by
  have ha : tokenAhead (32 :: 37 :: x :: rest) = true := by
    rcases hx with hx | hx <;> subst hx <;> rfl
  have hb : tokenAhead (37 :: x :: rest) = false :=
    tokenAhead_false_of_second 37 _ (by rcases hx with hx | hx <;> subst hx <;> simp)
  have hc : tokenAhead (x :: rest) = false := tokenAhead_false_of_second x _ hrest
  rw [splitAux, if_pos ⟨hcur, ha⟩, splitAux, hb]
  simp only [Bool.false_eq_true, and_false, if_false]
  rw [splitAux, hc]
  simp only [Bool.false_eq_true, and_false, if_false]
  rfl

theorem splitAux_token_first (x : Nat) (rest : JSString)
    (hrest : rest.head? ≠ some 37) :
    splitAux (37 :: x :: rest) [] = splitAux rest [37, x] := by
  have hc : tokenAhead (x :: rest) = false := tokenAhead_false_of_second x _ hrest
  rw [splitAux]
  simp only [ne_eq, not_true_eq_false, false_and, if_false]
  rw [splitAux, hc]
  simp only [Bool.false_eq_true, and_false, if_false]
  rfl

theorem goodLabel_facts {l : JSString} (h : goodLabel l) :
    l ≠ [] ∧ substring l 0 1 ≠ utf16 "%" ∧ replaceEscapedPercent (trim l) = l ∧
      labelSegments l = [Segment.label l] := by
  obtain ⟨hne, ht, hp⟩ := h
  refine ⟨hne, ?_, ?_, ?_⟩
  · cases l with
    | nil => exact absurd rfl hne
    | cons c rest =>
      have hc : c ≠ 37 := fun e => hp (by simp [e])
      intro e
      apply hc
      have e2 : [c] = [37] := e
      simpa using e2
  · rw [ht, replaceEscapedPercent_fixed l hp]
  · simp [labelSegments, hne]

/-- A component made of a token decodes to the parameter alone. -/
theorem decodeLoop_token (pre : JSString) (x : Nat) (t : ParamType)
    (comps : List JSString) (segs : List Segment) (hpre : pre = [] ∨ pre = [32])
    (hx : x = 98 ∨ x = 115) (ht : paramTypeOf [x] = some t)
    (h4 : decodeLoop comps = Except.ok segs) :
    decodeLoop (trim (pre ++ [37, x]) :: comps) = Except.ok (Segment.param t :: segs) := by
  rw [trim_token pre x hpre hx]
  rw [decodeLoop_param [37, x] comps t segs (by simp) rfl ht h4]
  rfl

/-- A component made of a token and a good label decodes to the parameter
and the label. -/
theorem decodeLoop_token_label (pre : JSString) (x : Nat) (t : ParamType) (l : JSString)
    (comps : List JSString) (segs : List Segment) (hpre : pre = [] ∨ pre = [32])
    (ht : paramTypeOf [x] = some t) (hl : goodLabel l)
    (h4 : decodeLoop comps = Except.ok segs) :
    decodeLoop (trim (pre ++ 37 :: x :: 32 :: l) :: comps) =
      Except.ok (Segment.param t :: Segment.label l :: segs) := by
  rw [trim_token_label pre x hl.1 hl.2.1 hpre]
  rw [decodeLoop_param (37 :: x :: 32 :: l) comps t segs (by simp) rfl ht h4]
  have e : trim (substringFrom (37 :: x :: 32 :: l) 2) = l := trim_space_label hl.2.1
  rw [e, replaceEscapedPercent_fixed l hl.2.2, (goodLabel_facts hl).2.2.2]
  rfl

/-- A component made of a good label decodes to the label. -/
theorem decodeLoop_good_label (l : JSString) (comps : List JSString) (segs : List Segment)
    (hl : goodLabel l) (h4 : decodeLoop comps = Except.ok segs) :
    decodeLoop (trim l :: comps) = Except.ok (Segment.label l :: segs) := by
  obtain ⟨hne, hpc, hrep, hseg⟩ := goodLabel_facts hl
  rw [hl.2.1, decodeLoop_label l comps segs hne hpc h4, hl.2.1,
    replaceEscapedPercent_fixed l hl.2.2, hseg]
  rfl

/-- Decoding the rest of an encoded signature, whatever component the split
is in the middle of: a token, a label, or a token with its label. -/
theorem decodeLoop_encodeTail (sig : List Segment) (hw : roundTrips sig) :
    (∀ pre x t, (pre = [] ∨ pre = [32]) → (x = 98 ∨ x = 115) → paramTypeOf [x] = some t →
      decodeLoop ((splitAux (encodeTail sig) (pre ++ [37, x])).map trim) =
        Except.ok (Segment.param t :: sig)) ∧
    (noLabelFirst sig →
      (∀ l, goodLabel l →
        decodeLoop ((splitAux (encodeTail sig) l).map trim) =
          Except.ok (Segment.label l :: sig)) ∧
      (∀ pre x t l, (pre = [] ∨ pre = [32]) → (x = 98 ∨ x = 115) →
        paramTypeOf [x] = some t → goodLabel l →
        decodeLoop ((splitAux (encodeTail sig) (pre ++ 37 :: x :: 32 :: l)).map trim) =
          Except.ok (Segment.param t :: Segment.label l :: sig))) := by
  induction sig with
  | nil =>
    refine ⟨?_, fun _ => ⟨?_, ?_⟩⟩
    · intro pre x t hpre hx ht
      exact decodeLoop_token pre x t [] [] hpre hx ht rfl
    · intro l hl
      exact decodeLoop_good_label l [] [] hl rfl
    · intro pre x t l hpre hx ht hl
      exact decodeLoop_token_label pre x t l [] [] hpre ht hl rfl
  | cons seg rest ih =>
    cases seg with
    | label l2 =>
      obtain ⟨hl2, hnl, hrest⟩ := hw
      obtain ⟨_, ih2⟩ := ih hrest
      obtain ⟨_, ihPL⟩ := ih2 hnl
      have hsplit : ∀ cur, splitAux (encodeTail (Segment.label l2 :: rest)) cur =
          splitAux (encodeTail rest) (cur ++ 32 :: l2) := by
        intro cur
        have e : encodeTail (Segment.label l2 :: rest) = (32 :: l2) ++ encodeTail rest := rfl
        rw [e]
        exact splitAux_text (32 :: l2) _ cur
          (by simpa using hl2.2.2) (encodeTail_head rest)
      refine ⟨?_, fun h => absurd h (by simp [noLabelFirst])⟩
      intro pre x t hpre hx ht
      rw [hsplit]
      have e : pre ++ [37, x] ++ 32 :: l2 = pre ++ 37 :: x :: 32 :: l2 := by simp
      rw [e]
      exact ihPL pre x t l2 hpre hx ht hl2
    | param t2 =>
      obtain ⟨ht2, hrest⟩ := hw
      obtain ⟨ihP, _⟩ := ih hrest
      obtain ⟨x2, hx2, htext, hpt⟩ := segmentText_param t2 ht2
      have hsplit : ∀ cur, cur ≠ [] → splitAux (encodeTail (Segment.param t2 :: rest)) cur =
          cur :: splitAux (encodeTail rest) ([32] ++ [37, x2]) := by
        intro cur hcur
        have e : encodeTail (Segment.param t2 :: rest) =
            32 :: 37 :: x2 :: encodeTail rest := by
          show utf16 " " ++ segmentText (Segment.param t2) ++ encodeTail rest = _
          rw [htext]
          rfl
        rw [e]
        exact splitAux_token x2 _ cur hx2 hcur (encodeTail_head rest)
      have hnext := ihP [32] x2 t2 (Or.inr rfl) hx2 hpt
      refine ⟨?_, fun _ => ⟨?_, ?_⟩⟩
      · intro pre x t hpre hx ht
        rw [hsplit _ (by simp), List.map_cons]
        exact decodeLoop_token pre x t _ _ hpre hx ht hnext
      · intro l hl
        rw [hsplit _ hl.1, List.map_cons]
        exact decodeLoop_good_label l _ _ hl hnext
      · intro pre x t l hpre hx ht hl
        rw [hsplit _ (by simp), List.map_cons]
        exact decodeLoop_token_label pre x t l _ _ hpre ht hl hnext

/-- The codec round trip on the strings: decoding the encoded signature gives
the signature back. -/
theorem decode_encodeSignature (sig : List Segment) (hw : roundTrips sig) :
    decode (encodeSignature sig) = Except.ok sig := by
  cases sig with
  | nil => rfl
  | cons seg rest =>
    cases seg with
    | label l =>
      obtain ⟨hl, hnl, hrest⟩ := hw
      have e : encodeSignature (Segment.label l :: rest) = l ++ encodeTail rest := rfl
      unfold decode procComponents splitProcCode
      rw [e, splitAux_text l _ [] hl.2.2 (encodeTail_head rest), List.nil_append]
      exact ((decodeLoop_encodeTail rest hrest).2 hnl).1 l hl
    | param t =>
      obtain ⟨ht, hrest⟩ := hw
      obtain ⟨x, hx, htext, hpt⟩ := segmentText_param t ht
      have e : encodeSignature (Segment.param t :: rest) = 37 :: x :: encodeTail rest := by
        show segmentText (Segment.param t) ++ encodeTail rest = _
        rw [htext]
        rfl
      unfold decode procComponents splitProcCode
      rw [e, splitAux_token_first x _ (encodeTail_head rest)]
      exact (decodeLoop_encodeTail rest hrest).1 [] x t (Or.inl rfl) hx hpt

/-! ## Encoding on the mutator root -/

theorem inputShows_label {ws : List ContentBlock} {input : Input} {text : JSString}
    (h : inputShows ws input (Segment.label text)) :
    input.type = InputType.dummy ∧
      ∃ field rest, input.fieldRow = field :: rest ∧ field.getValue = text := by
  obtain ⟨h1, h2⟩ := h
  refine ⟨h1, ?_⟩
  cases hf : input.fieldRow with
  | nil => rw [hf] at h2; simp at h2
  | cons field rest =>
    rw [hf] at h2
    exact ⟨field, rest, rfl, by simpa using h2⟩

theorem inputShows_param {ws : List ContentBlock} {input : Input} {t : ParamType}
    (h : inputShows ws input (Segment.param t)) :
    input.type = InputType.value ∧
      ∃ b, (input.target.bind fun i => ws[i]?) = some b ∧ b.type = editorBlockType t := by
  obtain ⟨h1, h2⟩ := h
  refine ⟨h1, ?_⟩
  cases hb : (input.target.bind fun i => ws[i]?) with
  | none => rw [hb] at h2; simp at h2
  | some b =>
    rw [hb] at h2
    exact ⟨b, rfl, by simpa using h2⟩

theorem editorBlockType_text (t : ParamType) :
    (if editorBlockType t = utf16 "boolean_textinput" then utf16 "%b" else utf16 "%s") =
      segmentText (Segment.param t) := by
  cases t <;> decide

theorem updateProcCodeLoop_dummy (input : Input) (inputs : List Input) (i : Nat)
    (w : ProcBlock) (field : Field) (rest : List Field)
    (hty : input.type = InputType.dummy) (hrow : input.fieldRow = field :: rest) :
    updateProcCodeLoop (input :: inputs) i w =
      updateProcCodeLoop inputs (i + 1)
        { w with procCode_ := w.procCode_ ++ (if i = 0 then [] else utf16 " ") ++
            field.getValue } := by
  rw [updateProcCodeLoop]
  simp only [hty, hrow]
  by_cases hi : i = 0 <;> simp [hi]

theorem updateProcCodeLoop_value (input : Input) (inputs : List Input) (i : Nat)
    (w : ProcBlock) (b : ContentBlock) (hty : input.type = InputType.value)
    (hb : (input.target.bind fun t => w.workspace[t]?) = some b) :
    updateProcCodeLoop (input :: inputs) i w =
      updateProcCodeLoop inputs (i + 1)
        { w with
          procCode_ := w.procCode_ ++ (if i = 0 then [] else utf16 " ") ++
            (if b.type = utf16 "boolean_textinput" then utf16 "%b" else utf16 "%s")
          displayNames_ := w.displayNames_ ++ [getFieldValue b (utf16 "TEXT")]
          argumentIds_ := w.argumentIds_ ++ [input.name] } := by
  rw [updateProcCodeLoop]
  by_cases hi : i = 0
  · subst hi
    simp only [hty, ne_eq, not_true_eq_false, if_false, hb, if_true, List.append_nil]
    split <;> rfl
  · simp only [hty, ne_eq, hi, not_false_eq_true, if_true, hb, if_false]
    split <;> simp

/-- The loop of `updateProcCodeMutatorRoot_` over inputs that show a
signature returns, and appends the encoded signature to the proc-code. -/
theorem updateProcCodeLoop_shows (inputs : List Input) (sig : List Segment) (i : Nat)
    (w : ProcBlock) (h : inputsShow w.workspace inputs sig) :
    ∃ w2, updateProcCodeLoop inputs i w = Outcome.ok () w2 ∧
      w2.procCode_ = w.procCode_ ++ (if i = 0 then encodeSignature sig else encodeTail sig) ∧
      w2.workspace = w.workspace ∧ w2.inputList = w.inputList ∧ w2.variant = w.variant := by
  induction inputs generalizing sig i w with
  | nil =>
    cases sig with
    | nil => exact ⟨w, rfl, by split <;> simp [encodeSignature, encodeTail], rfl, rfl, rfl⟩
    | cons seg rest => exact absurd h (by simp [inputsShow])
  | cons input inputs ih =>
    cases sig with
    | nil => exact absurd h (by simp [inputsShow])
    | cons seg rest =>
      obtain ⟨hin, hrest⟩ := h
      cases seg with
      | label text =>
        obtain ⟨hty, field, frest, hrow, hval⟩ := inputShows_label hin
        rw [updateProcCodeLoop_dummy input inputs i w field frest hty hrow]
        obtain ⟨w2, hw2, hpc, hws, hil, hvar⟩ := ih rest (i + 1)
          { w with procCode_ := w.procCode_ ++ (if i = 0 then [] else utf16 " ") ++
              field.getValue } hrest
        refine ⟨w2, hw2, ?_, hws, hil, hvar⟩
        rw [hpc, hval]
        by_cases hi : i = 0 <;> simp [hi, encodeSignature, encodeTail, segmentText]
      | param t =>
        obtain ⟨hty, b, hb, hbt⟩ := inputShows_param hin
        rw [updateProcCodeLoop_value input inputs i w b hty hb]
        obtain ⟨w2, hw2, hpc, hws, hil, hvar⟩ := ih rest (i + 1)
          { w with
            procCode_ := w.procCode_ ++ (if i = 0 then [] else utf16 " ") ++
              (if b.type = utf16 "boolean_textinput" then utf16 "%b" else utf16 "%s")
            displayNames_ := w.displayNames_ ++ [getFieldValue b (utf16 "TEXT")]
            argumentIds_ := w.argumentIds_ ++ [input.name] } hrest
        refine ⟨w2, hw2, ?_, hws, hil, hvar⟩
        rw [hpc]
        simp only [hbt, editorBlockType_text]
        by_cases hi : i = 0 <;> simp [hi, encodeSignature, encodeTail]

/-- On inputs that show a signature, `updateProcCodeMutatorRoot_` returns and
sets the proc-code to the encoded signature. -/
theorem updateProcCodeMutatorRoot_shows (w : ProcBlock) (sig : List Segment)
    (h : inputsShow w.workspace w.inputList sig) :
    ∃ w2, updateProcCodeMutatorRoot_ w = Outcome.ok () w2 ∧
      w2.procCode_ = encodeSignature sig ∧ w2.inputList = w.inputList ∧
      w2.workspace = w.workspace ∧ w2.variant = w.variant := by
  unfold updateProcCodeMutatorRoot_
  obtain ⟨w2, hw2, hpc, hws, hil, hvar⟩ := updateProcCodeLoop_shows w.inputList sig 0
    { w with procCode_ := [], displayNames_ := [], argumentIds_ := [] } h
  exact ⟨w2, hw2, by simpa using hpc, hil, hws, hvar⟩

/-! ## The inputs that the mutator root builds are the decoded segments -/

theorem inputList_addLabelMutatorRoot_ (text : JSString) (w : ProcBlock) :
    (addLabelMutatorRoot_ text w).inputList.map inputKind =
      w.inputList.map inputKind ++ (labelSegments text).map segmentKind := by
  unfold addLabelMutatorRoot_ labelSegments
  by_cases h : text = []
  · simp [h]
  · simp only [ne_eq, h, not_false_eq_true, if_true, if_false, ProcBlock.genUid,
      ProcBlock.appendInput, ProcBlock.appendField, updateAt_append_length]
    simp [inputKind, segmentKind, Field.getValue]

theorem inputList_populateInputMutatorRoot_ (t : JSString) (n : Nat)
    (cm : Option ConnectionMap) (id : JSVal) (old : Option Nat) (input : Nat)
    (w : ProcBlock) :
    ∃ b, (populateInputMutatorRoot_ t n cm id old input w).2.inputList =
      updateAt w.inputList input (fun i => { i with target := some b }) := by
  unfold populateInputMutatorRoot_
  simp only
  split
  · exact ⟨_, rfl⟩
  · unfold attachShadowMutatorRoot_
    simp only [ProcBlock.newBlock, ProcBlock.setFieldValue, ProcBlock.setShadow,
      ProcBlock.renderBlock, ProcBlock.connect, setParam]
    split <;> exact ⟨_, rfl⟩

theorem inputList_paramStep_root (t : JSString) (n : Nat) (cm : Option ConnectionMap)
    (w : ProcBlock) (hv : w.variant = Variant.mutatorRoot) :
    (paramStep t n cm w).2.inputList.map inputKind =
      w.inputList.map inputKind ++
        [(InputType.value, none, decide (t = utf16 "b"))] := by
  unfold paramStep populateInput_
  have hv2 : (if t = utf16 "b" then
      (w.appendInput InputType.value (arrayGet w.argumentIds_ n)).2.setCheck
        w.inputList.length (utf16 "Boolean")
      else (w.appendInput InputType.value (arrayGet w.argumentIds_ n)).2).variant =
      Variant.mutatorRoot := by
    split <;> exact hv
  simp only [hv2]
  obtain ⟨b, hb⟩ := inputList_populateInputMutatorRoot_ t n cm (arrayGet w.argumentIds_ n)
    (oldBlockOf cm (arrayGet w.argumentIds_ n)) w.inputList.length
    (if t = utf16 "b" then
      (w.appendInput InputType.value (arrayGet w.argumentIds_ n)).2.setCheck
        w.inputList.length (utf16 "Boolean")
      else (w.appendInput InputType.value (arrayGet w.argumentIds_ n)).2)
  rw [hb]
  by_cases ht : t = utf16 "b"
  · simp only [ht, if_true, ProcBlock.appendInput, ProcBlock.setCheck, updateAt_append_length]
    simp [inputKind]
  · simp only [ht, if_false, ProcBlock.appendInput, updateAt_append_length]
    simp [inputKind]

theorem variant_addLabel_ (text : JSString) (w : ProcBlock) :
    (addLabel_ text w).variant = w.variant :=
  congrArg (fun k => k.1) (kept_addLabel_ text w)

theorem variant_paramStep (t : JSString) (n : Nat) (cm : Option ConnectionMap)
    (w : ProcBlock) : (paramStep t n cm w).2.variant = w.variant :=
  congrArg (fun k => k.1) (kept_paramStep t n cm w)

theorem paramTypeOf_some {x : JSString} {t : ParamType} (h : paramTypeOf x = some t) :
    (x = utf16 "n" ∨ x = utf16 "b" ∨ x = utf16 "s") ∧
      decide (x = utf16 "b") = decide (t = ParamType.b) := by
  unfold paramTypeOf at h
  by_cases h1 : x = utf16 "n"
  · rw [if_pos h1] at h
    injection h with h
    subst h
    subst h1
    exact ⟨Or.inl rfl, by decide⟩
  · rw [if_neg h1] at h
    by_cases h2 : x = utf16 "b"
    · rw [if_pos h2] at h
      injection h with h
      subst h
      subst h2
      exact ⟨Or.inr (Or.inl rfl), by decide⟩
    · rw [if_neg h2] at h
      by_cases h3 : x = utf16 "s"
      · rw [if_pos h3] at h
        injection h with h
        subst h
        subst h3
        exact ⟨Or.inr (Or.inr rfl), by decide⟩
      · rw [if_neg h3] at h
        exact absurd h (by simp)

/-- On the mutator root, when decoding succeeds the loop of
`createAllInputs_` returns, and the inputs it appends are, in order and in
kind, the decoded segments. -/
theorem createAllInputsLoop_root (comps : List JSString) (n : Nat)
    (cm : Option ConnectionMap) (w : ProcBlock) (segs : List Segment)
    (hv : w.variant = Variant.mutatorRoot) (hd : decodeLoop comps = Except.ok segs) :
    ∃ cm2 w2, createAllInputsLoop comps n cm w = Outcome.ok cm2 w2 ∧
      w2.inputList.map inputKind = w.inputList.map inputKind ++ segs.map segmentKind := by
  induction comps generalizing n cm w segs with
  | nil =>
    simp only [decodeLoop, Except.ok.injEq] at hd
    subst hd
    exact ⟨cm, w, rfl, by simp⟩
  | cons c rest ih =>
    by_cases h1 : c = []
    · subst h1
      simp only [decodeLoop, if_true, Except.ok.injEq] at hd
      subst hd
      exact ⟨cm, w, loop_empty _ _ _ _, by simp⟩
    · by_cases h2 : substring c 0 1 = utf16 "%"
      · rw [decodeLoop, if_neg h1, if_pos h2] at hd
        cases hp : paramTypeOf (substring c 1 2) with
        | none => rw [hp] at hd; simp at hd
        | some t =>
          rw [hp] at hd
          simp only at hd
          cases hr : decodeLoop rest with
          | error e => rw [hr] at hd; simp at hd
          | ok segs2 =>
            rw [hr] at hd
            simp only [Except.ok.injEq] at hd
            subst hd
            obtain ⟨h3, hb⟩ := paramTypeOf_some hp
            rw [loop_param c rest n cm w h1 h2 h3]
            have hv2 : (addLabel_ (replaceEscapedPercent (trim (substringFrom c 2)))
                (paramStep (substring c 1 2) n cm w).2).variant = Variant.mutatorRoot := by
              rw [variant_addLabel_, variant_paramStep, hv]
            obtain ⟨cm2, w2, hw2, hl⟩ := ih (n + 1) _ _ segs2 hv2 hr
            refine ⟨cm2, w2, hw2, ?_⟩
            rw [hl]
            have hroot : (paramStep (substring c 1 2) n cm w).2.variant =
                Variant.mutatorRoot := by rw [variant_paramStep, hv]
            unfold addLabel_
            simp only [hroot]
            rw [inputList_addLabelMutatorRoot_, inputList_paramStep_root _ _ _ _ hv, hb]
            simp [segmentKind]
      · rw [decodeLoop, if_neg h1, if_neg h2] at hd
        cases hr : decodeLoop rest with
        | error e => rw [hr] at hd; simp at hd
        | ok segs2 =>
          rw [hr] at hd
          simp only [Except.ok.injEq] at hd
          subst hd
          rw [loop_label c rest n cm w h1 h2]
          have hv2 : (addLabel_ (replaceEscapedPercent (trim c)) w).variant =
              Variant.mutatorRoot := by rw [variant_addLabel_, hv]
          obtain ⟨cm2, w2, hw2, hl⟩ := ih n _ _ segs2 hv2 hr
          refine ⟨cm2, w2, hw2, ?_⟩
          rw [hl]
          unfold addLabel_
          simp only [hv]
          rw [inputList_addLabelMutatorRoot_]
          simp

/-- On a mutator root that has not been reconciled before,
`createAllInputs_` returns when decoding succeeds, and appends the inputs of
the decoded segments. -/
theorem createAllInputs__root (cm : Option ConnectionMap) (w : ProcBlock)
    (segs : List Segment) (hv : w.variant = Variant.mutatorRoot)
    (hd : decode w.procCode_ = Except.ok segs) :
    ∃ cm2 w2, createAllInputs_ cm w = Outcome.ok cm2 w2 ∧
      w2.inputList.map inputKind = w.inputList.map inputKind ++ segs.map segmentKind := by
  unfold createAllInputs_
  exact createAllInputsLoop_root _ 0 cm { w with paramMap_ := some [] } segs hv hd

/-! ## Claims C1 to C5: the codec and the first reconciliation -/

theorem procComponents_move_steps :
    procComponents (utf16 "move %n steps") = [utf16 "move", utf16 "%n steps"] := by
  decide

/-- C1: reconciling a caller block that has no inputs and a null `paramMap_`,
with the proc-code `move %n steps` and one argument id, returns and leaves
exactly three inputs: a label `move`, a value input named by the id that
holds a new shadow `math_number` block whose `NUM` field is `99`, and a label
`steps`. -/
theorem C1_caller_move_steps (w : ProcBlock) (id : JSVal)
    (hv : w.variant = Variant.caller) (hp : w.paramMap_ = none) (hi : w.inputList = [])
    (hc : w.procCode_ = utf16 "move %n steps") (ha : w.argumentIds_ = [id]) :
    ∃ w2, updateDisplay_ w = Outcome.ok () w2 ∧
      w2.inputList =
        [ { type := InputType.dummy, name := JSVal.str [],
            fieldRow := [Field.label (utf16 "move")], check := none, shadowDom := none,
            target := none },
          { type := InputType.value, name := id, fieldRow := [], check := none,
            shadowDom := none, target := some w.workspace.length },
          { type := InputType.dummy, name := JSVal.str [],
            fieldRow := [Field.label (utf16 "steps")], check := none, shadowDom := none,
            target := none } ] ∧
      w2.workspace = w.workspace ++
        [ { type := utf16 "math_number",
            fields := [(utf16 "NUM", JSVal.str (utf16 "99"))],
            shadow := true, rendered := !w.insertionMarker, connected := true,
            disposed := false } ] := by
  obtain ⟨variant, procCode, ids, names, defaults, warp, pm, inputs, rendered, marker, rc,
    ws, uc⟩ := w
  simp only at hv hp hi hc ha
  subst hv hp hi hc ha
  have e8 : utf16 "n" ≠ utf16 "b" := by decide
  have e9 : utf16 "n" ≠ utf16 "s" := by decide
  have e10 : utf16 "steps" ≠ [] := by decide
  have e11 : utf16 "move" ≠ [] := by decide
  simp only [updateDisplay_, createAllInputs_, procComponents_move_steps]
  rw [loop_label _ _ _ _ _ (by decide) (by decide),
    loop_param _ _ _ _ _ (by decide) (by decide) (by decide), loop_nil]
  rw [show substring (utf16 "%n steps") 1 2 = utf16 "n" by decide,
    show replaceEscapedPercent (trim (substringFrom (utf16 "%n steps") 2)) = utf16 "steps"
      by decide,
    show replaceEscapedPercent (trim (utf16 "move")) = utf16 "move" by decide]
  simp only [paramStep, oldBlockOf, addLabel_, addLabelCaller_, populateInput_,
    populateInputCaller_, attachShadow_, setParam, arrayGet, ProcBlock.appendInput,
    ProcBlock.appendField, ProcBlock.newBlock, ProcBlock.setFieldValue, ProcBlock.setShadow,
    ProcBlock.renderBlock, ProcBlock.connect, deleteShadows_, e8, e9, e10, e11, if_true,
    if_false, not_true_eq_false, true_or, or_true, not_false_eq_true, List.nil_append,
    List.length_nil, List.length_cons, List.length_append, updateAt, updateAt_append_length,
    PropMap.set, List.cons_append, List.getD_cons_zero, List.singleton_append]
  cases rendered <;> cases marker <;>
    simp [updateAt, PropMap.set, ProcBlock.render, updateAt_append_length]

/-- Witness of C1 on the block `moveStepsCaller`. -/
theorem C1_caller_move_steps_witness :
    moveStepsCaller.variant = Variant.caller ∧ moveStepsCaller.paramMap_ = none ∧
      moveStepsCaller.inputList = [] ∧
      ∃ w2, updateDisplay_ moveStepsCaller = Outcome.ok () w2 ∧
        w2.inputList =
          [ { type := InputType.dummy, name := JSVal.str [],
              fieldRow := [Field.label (utf16 "move")], check := none, shadowDom := none,
              target := none },
            { type := InputType.value, name := JSVal.str (utf16 "arg0"), fieldRow := [],
              check := none, shadowDom := none, target := some 0 },
            { type := InputType.dummy, name := JSVal.str [],
              fieldRow := [Field.label (utf16 "steps")], check := none, shadowDom := none,
              target := none } ] ∧
        w2.workspace =
          [ { type := utf16 "math_number",
              fields := [(utf16 "NUM", JSVal.str (utf16 "99"))],
              shadow := true, rendered := true, connected := true, disposed := false } ] :=
  ⟨rfl, rfl, rfl,
    C1_caller_move_steps moveStepsCaller (JSVal.str (utf16 "arg0")) rfl rfl rfl rfl rfl⟩

/-- C2, counterexample: the round trip fails on signatures whose labels hold
no `%`. Two adjacent labels `a`, `b` come back as the one label `a b`; the
label ` a` comes back trimmed; the empty label is lost; and a parameter of
type `n`, for which the mutator root holds a text block, comes back with
type `s`. -/
theorem C2_round_trip_counterexample :
    (inputsShow adjacentLabelsRoot.workspace adjacentLabelsRoot.inputList
        [Segment.label (utf16 "a"), Segment.label (utf16 "b")] ∧
      (updateProcCodeMutatorRoot_ adjacentLabelsRoot).state.procCode_ = utf16 "a b" ∧
      decode (updateProcCodeMutatorRoot_ adjacentLabelsRoot).state.procCode_ =
        Except.ok [Segment.label (utf16 "a b")]) ∧
    (inputsShow spaceLabelRoot.workspace spaceLabelRoot.inputList
        [Segment.label (utf16 " a")] ∧
      (updateProcCodeMutatorRoot_ spaceLabelRoot).state.procCode_ = utf16 " a" ∧
      decode (updateProcCodeMutatorRoot_ spaceLabelRoot).state.procCode_ =
        Except.ok [Segment.label (utf16 "a")]) ∧
    (inputsShow emptyLabelRoot.workspace emptyLabelRoot.inputList [Segment.label []] ∧
      (updateProcCodeMutatorRoot_ emptyLabelRoot).state.procCode_ = [] ∧
      decode (updateProcCodeMutatorRoot_ emptyLabelRoot).state.procCode_ = Except.ok []) ∧
    (inputsShow numberSlotRoot.workspace numberSlotRoot.inputList
        [Segment.param ParamType.n] ∧
      (updateProcCodeMutatorRoot_ numberSlotRoot).state.procCode_ = utf16 "%s" ∧
      decode (updateProcCodeMutatorRoot_ numberSlotRoot).state.procCode_ =
        Except.ok [Segment.param ParamType.s]) := by
  refine ⟨⟨⟨⟨rfl, rfl⟩, ⟨rfl, rfl⟩, trivial⟩, by decide, rfl⟩,
    ⟨⟨⟨rfl, rfl⟩, trivial⟩, by decide, rfl⟩, ⟨⟨⟨rfl, rfl⟩, trivial⟩, by decide, rfl⟩,
    ⟨⟨⟨rfl, rfl⟩, trivial⟩, by decide, rfl⟩⟩

/-- C2, amended: for every signature of labels and parameters of type `b` or
`s` in which no two labels are adjacent and every label text is not empty,
has no white space at either end and holds no `%`, and for every mutator
root whose inputs show that signature, `updateProcCodeMutatorRoot_` returns,
the proc-code it builds is the segment texts joined by single spaces, and
decoding that proc-code gives the signature back: the split-and-classify
step yields the segments of the signature, and `createAllInputs_` run on the
proc-code returns and appends one input of the right kind for each segment,
in order. -/
theorem C2_round_trip (w : ProcBlock) (sig : List Segment)
    (hv : w.variant = Variant.mutatorRoot)
    (hs : inputsShow w.workspace w.inputList sig) (hw : roundTrips sig) :
    ∃ w2, updateProcCodeMutatorRoot_ w = Outcome.ok () w2 ∧
      w2.procCode_ = encodeSignature sig ∧ decode w2.procCode_ = Except.ok sig ∧
      ∃ cm3 w3, createAllInputs_ none w2 = Outcome.ok cm3 w3 ∧
        w3.inputList.map inputKind = w2.inputList.map inputKind ++ sig.map segmentKind := by
  obtain ⟨w2, hw2, hpc, _, _, hvar⟩ := updateProcCodeMutatorRoot_shows w sig hs
  have hdec : decode w2.procCode_ = Except.ok sig := by
    rw [hpc]
    exact decode_encodeSignature sig hw
  exact ⟨w2, hw2, hpc, hdec, createAllInputs__root none w2 sig (hvar.trans hv) hdec⟩

/-- Witness of C2 on the mutator root `sayToRoot`, which shows
`say %b to %s`. -/
theorem C2_round_trip_witness :
    sayToRoot.variant = Variant.mutatorRoot ∧
      inputsShow sayToRoot.workspace sayToRoot.inputList sayToSignature ∧
      roundTrips sayToSignature ∧
      ∃ w2, updateProcCodeMutatorRoot_ sayToRoot = Outcome.ok () w2 ∧
        w2.procCode_ = encodeSignature sayToSignature ∧
        decode w2.procCode_ = Except.ok sayToSignature ∧
        ∃ cm3 w3, createAllInputs_ none w2 = Outcome.ok cm3 w3 ∧
          w3.inputList.map inputKind =
            w2.inputList.map inputKind ++ sayToSignature.map segmentKind :=
  have hs : inputsShow sayToRoot.workspace sayToRoot.inputList sayToSignature :=
    ⟨⟨rfl, rfl⟩, ⟨rfl, rfl⟩, ⟨rfl, rfl⟩, ⟨rfl, rfl⟩, trivial⟩
  have hw : roundTrips sayToSignature :=
    ⟨⟨by decide, by decide, by decide⟩, trivial, by decide,
      ⟨by decide, by decide, by decide⟩, trivial, by decide, trivial⟩
  ⟨rfl, hs, hw, C2_round_trip sayToRoot sayToSignature rfl hs hw⟩

/-- C3, the code at the failing input: a label of the mutator root whose text
is `%b` is written to the proc-code as it is, without a backslash, and the
proc-code `%b` decodes to a boolean parameter, for which the reconciler
builds a value input with the Boolean check and no label; the label text
`a %n b` decodes to a label, a parameter and a label. -/
theorem C3_percent_label_not_escaped :
    (updateProcCodeMutatorRoot_ percentLabelRoot).state.procCode_ = utf16 "%b" ∧
      decode (utf16 "%b") = Except.ok [Segment.param ParamType.b] ∧
      (updateDisplay_ (updateProcCodeMutatorRoot_ percentLabelRoot).state).state.inputList.map
          (fun i => (i.type, i.fieldRow, i.check)) =
        [(InputType.value, [], some (utf16 "Boolean"))] ∧
      (updateProcCodeMutatorRoot_ tokenLabelRoot).state.procCode_ = utf16 "a %n b" ∧
      decode (utf16 "a %n b") =
        Except.ok [Segment.label (utf16 "a"), Segment.param ParamType.n,
          Segment.label (utf16 "b")] := by
  refine ⟨by decide, rfl, by decide, by decide, rfl⟩

/-- C4, the code at the failing input: for the proc-code `100\% of 50\%` the
caller block gets one label, and its text is `100% of 50\%`: only the first
backslash-percent pair is replaced. -/
theorem C4_second_escape_kept :
    (updateDisplay_ (callerWith (utf16 "100\\% of 50\\%"))).state.inputList.map
        (fun i => i.fieldRow) = [[Field.label (utf16 "100% of 50\\%")]] ∧
      replaceEscapedPercent (utf16 "100\\% of 50\\%") = utf16 "100% of 50\\%" := by
  refine ⟨by decide, by decide⟩

/-- C5, the code at the failing inputs, each with two argument ids: for
`ab%n` the caller block gets two labels, `a` and `b%n`, and no value input;
for `%n%b` the call throws the invalid-type error, with the empty string as
type, and no input is made; for a proc-code of two spaces and `%b` the call
returns with no input at all. -/
theorem C5_token_needs_space_before :
    ((updateDisplay_ (callerWith (utf16 "ab%n"))).error = none ∧
      (updateDisplay_ (callerWith (utf16 "ab%n"))).state.inputList.map
          (fun i => (i.type, i.fieldRow)) =
        [(InputType.dummy, [Field.label (utf16 "a")]),
          (InputType.dummy, [Field.label (utf16 "b%n")])]) ∧
    ((updateDisplay_ (callerWith (utf16 "%n%b"))).error = some (JSError.invalidType []) ∧
      (updateDisplay_ (callerWith (utf16 "%n%b"))).state.inputList = []) ∧
    ((updateDisplay_ (callerWith (utf16 "  %b"))).error = none ∧
      (updateDisplay_ (callerWith (utf16 "  %b"))).state.inputList = []) := by
  refine ⟨⟨by decide, by decide⟩, ⟨by decide, by decide⟩, ⟨by decide, by decide⟩⟩

/-! ## Claims C6 to C10: errors -/

/-- Decoding fails with the invalid-type error on `t` exactly when the loop
reaches a component that starts with `%` and goes on with `t`, not one of
`n`, `b`, `s`. -/
theorem decodeLoop_error_iff (comps : List JSString) (t : JSString) :
    decodeLoop comps = Except.error (JSError.invalidType t) ↔
      ∃ pre c post, comps = pre ++ c :: post ∧ (∀ x ∈ pre, passedComponent x) ∧
        invalidComponent c ∧ substring c 1 2 = t := by
  induction comps with
  | nil =>
    constructor
    · intro h; simp [decodeLoop] at h
    · rintro ⟨pre, c, post, h, _⟩; simp at h
  | cons c rest ih =>
    have hstep : ∀ (hpass : passedComponent c),
        ((∃ pre c2 post, c :: rest = pre ++ c2 :: post ∧ (∀ x ∈ pre, passedComponent x) ∧
          invalidComponent c2 ∧ substring c2 1 2 = t) ↔
        ∃ pre c2 post, rest = pre ++ c2 :: post ∧ (∀ x ∈ pre, passedComponent x) ∧
          invalidComponent c2 ∧ substring c2 1 2 = t) := by
      intro hpass
      constructor
      · rintro ⟨pre, c2, post, h, hpre, hinv, ht⟩
        cases pre with
        | nil =>
          simp only [List.nil_append, List.cons.injEq] at h
          exact absurd (h.1 ▸ hinv) hpass.2
        | cons p pre =>
          simp only [List.cons_append, List.cons.injEq] at h
          exact ⟨pre, c2, post, h.2, fun x hx => hpre x (List.mem_cons_of_mem _ hx), hinv, ht⟩
      · rintro ⟨pre, c2, post, h, hpre, hinv, ht⟩
        refine ⟨c :: pre, c2, post, by simp [h], ?_, hinv, ht⟩
        intro x hx
        rcases List.mem_cons.mp hx with hx | hx
        · exact hx ▸ hpass
        · exact hpre x hx
    by_cases h1 : c = []
    · subst h1
      constructor
      · intro h; simp [decodeLoop] at h
      · rintro ⟨pre, c2, post, h, hpre, hinv, _⟩
        cases pre with
        | nil =>
          simp only [List.nil_append, List.cons.injEq] at h
          have := hinv.1
          rw [← h.1] at this
          exact absurd this (by decide)
        | cons p pre =>
          simp only [List.cons_append, List.cons.injEq] at h
          exact absurd h.1.symm (hpre p (List.mem_cons_self _ _)).1
    · by_cases h2 : substring c 0 1 = utf16 "%"
      · by_cases h3 : substring c 1 2 = utf16 "n" ∨ substring c 1 2 = utf16 "b" ∨
            substring c 1 2 = utf16 "s"
        · have hp : ∃ ty, paramTypeOf (substring c 1 2) = some ty := by
            unfold paramTypeOf
            rcases h3 with h | h | h <;> rw [h] <;> simp +decide
          obtain ⟨ty, hty⟩ := hp
          rw [hstep ⟨h1, fun hinv => hinv.2 h3⟩, ← ih, decodeLoop, if_neg h1, if_pos h2]
          simp only [hty]
          cases decodeLoop rest <;> simp
        · have hp : paramTypeOf (substring c 1 2) = none := by
            unfold paramTypeOf
            rw [if_neg (fun h => h3 (Or.inl h)), if_neg (fun h => h3 (Or.inr (Or.inl h))),
              if_neg (fun h => h3 (Or.inr (Or.inr h)))]
          rw [decodeLoop, if_neg h1, if_pos h2]
          simp only [hp]
          constructor
          · intro h
            have ht : substring c 1 2 = t := by simpa using h
            exact ⟨[], c, rest, rfl, by simp, ⟨h2, h3⟩, ht⟩
          · rintro ⟨pre, c2, post, h, hpre, hinv, ht⟩
            cases pre with
            | nil =>
              simp only [List.nil_append, List.cons.injEq] at h
              rw [h.1, ht]
            | cons p pre =>
              simp only [List.cons_append, List.cons.injEq] at h
              exact absurd ⟨h2, h3⟩ (h.1 ▸ (hpre p (List.mem_cons_self _ _)).2)
      · rw [hstep ⟨h1, fun hinv => h2 hinv.1⟩, ← ih, decodeLoop, if_neg h1, if_neg h2]
        cases decodeLoop rest <;> simp

theorem error_createAllInputs_ (cm : Option ConnectionMap) (w : ProcBlock) :
    (createAllInputs_ cm w).error =
      match decode w.procCode_ with
      | Except.error e => some e
      | Except.ok _ => none := by
  unfold createAllInputs_ decode
  exact error_createAllInputsLoop _ _ _ _

/-- C6, counterexample: the proc-code `foo %d bar` holds an unescaped `%`
followed by `d`, and `createAllInputs_` returns without an error, with the
whole text as one label; in `%n%b` every `%` is followed by `n` or `b`, and
`createAllInputs_` throws the invalid-type error. -/
theorem C6_invalid_type_counterexample :
    ((createAllInputs_ none (callerWith (utf16 "foo %d bar"))).error = none ∧
      (createAllInputs_ none (callerWith (utf16 "foo %d bar"))).state.inputList.map
          (fun i => i.fieldRow) = [[Field.label (utf16 "foo %d bar")]]) ∧
    (createAllInputs_ none (callerWith (utf16 "%n%b"))).error =
      some (JSError.invalidType []) := by
  refine ⟨⟨by decide, by decide⟩, by decide⟩

/-- C6, amended: `createAllInputs_` fails with the invalid-parameter-type
error for the type text `t` exactly when, among the trimmed components of
the split, one that starts with `%` and goes on with `t`, which is not `n`,
`b` or `s`, comes before any empty component and any other such component. A
`%` elsewhere in a component is label text and raises no error. -/
theorem C6_invalid_type_iff (cm : Option ConnectionMap) (w : ProcBlock) (t : JSString) :
    (createAllInputs_ cm w).error = some (JSError.invalidType t) ↔
      ∃ pre c post, procComponents w.procCode_ = pre ++ c :: post ∧
        (∀ x ∈ pre, passedComponent x) ∧ invalidComponent c ∧ substring c 1 2 = t := by
  rw [error_createAllInputs_, ← decodeLoop_error_iff]
  unfold decode
  cases decodeLoop (procComponents w.procCode_) <;> simp

/-- C7, counterexample: a caller block that holds the signature
`move %n steps` loads a record whose `argumentids` is not JSON; the call
fails with the syntax error and `procCode_` is the record's `jump %n`. A
mutator root loads a record whose `argumentnames` is not JSON; the call fails
and `procCode_`, `warp_` and `argumentIds_` are the record's. -/
theorem C7_load_counterexample :
    (json.parse malformedCallerMutation.argumentids = none ∧
      (callerDomToMutation json malformedCallerMutation reconciledCaller).error =
        some JSError.syntaxError ∧
      reconciledCaller.procCode_ = utf16 "move %n steps" ∧
      (callerDomToMutation json malformedCallerMutation reconciledCaller).state.procCode_ =
        utf16 "jump %n") ∧
    (json.parse malformedDefinitionMutation.argumentnames = none ∧
      (definitionDomToMutation json malformedDefinitionMutation freshRoot).error =
        some JSError.syntaxError ∧
      (freshRoot.procCode_ = [] ∧ freshRoot.warp_ = JSVal.bool false ∧
        freshRoot.argumentIds_ = []) ∧
      (definitionDomToMutation json malformedDefinitionMutation freshRoot).state.procCode_ =
        utf16 "jump %n" ∧
      (definitionDomToMutation json malformedDefinitionMutation freshRoot).state.warp_ =
        JSVal.str (utf16 "true") ∧
      (definitionDomToMutation json malformedDefinitionMutation freshRoot).state.argumentIds_ =
        [JSVal.str (utf16 "arg7")]) := by
  refine ⟨⟨by decide, by decide, by decide, by decide⟩,
    ⟨by decide, by decide, ⟨rfl, rfl, rfl⟩, by decide, by decide, by decide⟩⟩

/-- C7, amended: loading fails but is not atomic. For every block state and
every record whose `argumentids` does not parse, `callerDomToMutation` fails
with the syntax error and leaves the block as it was except for `procCode_`,
which is the record's `proccode`. For every record of a definition block in
which `argumentids`, `argumentnames` or `argumentdefaults` does not parse,
`definitionDomToMutation` fails with the syntax error before
`updateDisplay_` runs: the input list, `paramMap_`, the workspace and
`argumentDefaults_` are as before, while `procCode_` and `warp_` are the
record's. When `argumentids` does not parse, `argumentIds_` and
`displayNames_` are as before. When it parses, `argumentIds_` is the parsed
array, and `displayNames_` is as before when `argumentnames` does not parse
and the parsed array when it does. -/
theorem C7_load_fails_not_atomic (J : JSONRuntime) (w wd : ProcBlock)
    (cx : CallerMutation) (dx : DefinitionMutation) (hc : J.parse cx.argumentids = none)
    (hd : J.parse dx.argumentids = none ∨ J.parse dx.argumentnames = none ∨
      J.parse dx.argumentdefaults = none) :
    callerDomToMutation J cx w =
        Outcome.threw JSError.syntaxError { w with procCode_ := cx.proccode } ∧
      ∃ w2, definitionDomToMutation J dx wd = Outcome.threw JSError.syntaxError w2 ∧
        w2.procCode_ = dx.proccode ∧ w2.warp_ = JSVal.str dx.warp ∧
        w2.argumentDefaults_ = wd.argumentDefaults_ ∧ w2.inputList = wd.inputList ∧
        w2.paramMap_ = wd.paramMap_ ∧ w2.workspace = wd.workspace ∧
        w2.rendered = wd.rendered ∧
        (J.parse dx.argumentids = none →
          w2.argumentIds_ = wd.argumentIds_ ∧ w2.displayNames_ = wd.displayNames_) ∧
        (∀ ids, J.parse dx.argumentids = some ids →
          w2.argumentIds_ = ids ∧
            (J.parse dx.argumentnames = none → w2.displayNames_ = wd.displayNames_) ∧
            ∀ names, J.parse dx.argumentnames = some names → w2.displayNames_ = names) := by
  constructor
  · unfold callerDomToMutation
    simp only [hc]
  · unfold definitionDomToMutation
    cases h1 : J.parse dx.argumentids with
    | none =>
      exact ⟨_, rfl, rfl, rfl, rfl, rfl, rfl, rfl, rfl, fun _ => ⟨rfl, rfl⟩,
        fun ids h => by simp at h⟩
    | some ids =>
      cases h2 : J.parse dx.argumentnames with
      | none =>
        refine ⟨_, rfl, rfl, rfl, rfl, rfl, rfl, rfl, rfl, fun h => by simp at h, ?_⟩
        intro ids2 h
        injection h with h
        subst h
        exact ⟨rfl, fun _ => rfl, fun names hn => by simp at hn⟩
      | some names =>
        cases h3 : J.parse dx.argumentdefaults with
        | none =>
          refine ⟨_, rfl, rfl, rfl, rfl, rfl, rfl, rfl, rfl, fun h => by simp at h, ?_⟩
          intro ids2 h
          injection h with h
          subst h
          refine ⟨rfl, fun hn => by simp at hn, ?_⟩
          intro names2 hn
          injection hn
        | some defaults =>
          rw [h1, h2, h3] at hd
          simp at hd

/-- Witness of C7 on the caller block `reconciledCaller`, the internal
caller `reconciledInternal` and the two malformed records, with the JSON
runtime `json`: the caller keeps its state but for `procCode_`; the
definition record fails at `argumentnames`, after `argumentIds_` has been
set to the parsed `["arg7"]`. -/
theorem C7_load_fails_not_atomic_witness :
    (json.parse malformedCallerMutation.argumentids = none ∧
      json.parse malformedDefinitionMutation.argumentnames = none ∧
      json.parse malformedDefinitionMutation.argumentids = some [JSVal.str (utf16 "arg7")]) ∧
    callerDomToMutation json malformedCallerMutation reconciledCaller =
        Outcome.threw JSError.syntaxError
          { reconciledCaller with procCode_ := malformedCallerMutation.proccode } ∧
      ∃ w2, definitionDomToMutation json malformedDefinitionMutation reconciledInternal =
          Outcome.threw JSError.syntaxError w2 ∧
        w2.procCode_ = malformedDefinitionMutation.proccode ∧
        w2.warp_ = JSVal.str malformedDefinitionMutation.warp ∧
        w2.argumentDefaults_ = reconciledInternal.argumentDefaults_ ∧
        w2.inputList = reconciledInternal.inputList ∧
        w2.paramMap_ = reconciledInternal.paramMap_ ∧
        w2.workspace = reconciledInternal.workspace ∧
        w2.rendered = reconciledInternal.rendered ∧
        (json.parse malformedDefinitionMutation.argumentids = none →
          w2.argumentIds_ = reconciledInternal.argumentIds_ ∧
            w2.displayNames_ = reconciledInternal.displayNames_) ∧
        (∀ ids, json.parse malformedDefinitionMutation.argumentids = some ids →
          w2.argumentIds_ = ids ∧
            (json.parse malformedDefinitionMutation.argumentnames = none →
              w2.displayNames_ = reconciledInternal.displayNames_) ∧
            ∀ names, json.parse malformedDefinitionMutation.argumentnames = some names →
              w2.displayNames_ = names) :=
  ⟨⟨by decide, by decide, by decide⟩,
    C7_load_fails_not_atomic json reconciledCaller reconciledInternal
      malformedCallerMutation malformedDefinitionMutation (by decide)
      (Or.inr (Or.inl (by decide)))⟩

/-- C8, the code at the failing input: a mutator root after `init` has the
boolean `false` in `warp_`; `definitionMutationToDom` writes the attribute
`warp` as the string `false`, and `definitionDomToMutation` of that record
returns with the string `false` in `warp_`, not the boolean. The other four
fields are restored. The same on a caller block whose `warp_` is the boolean
`true`. -/
theorem C8_warp_becomes_string :
    (freshRoot.warp_ = JSVal.bool false ∧
      (definitionMutationToDom json freshRoot).warp = utf16 "false" ∧
      (definitionDomToMutation json (definitionMutationToDom json freshRoot) freshRoot).error =
        none ∧
      (definitionDomToMutation json (definitionMutationToDom json freshRoot)
        freshRoot).state.warp_ = JSVal.str (utf16 "false") ∧
      kept (definitionDomToMutation json (definitionMutationToDom json freshRoot)
          freshRoot).state =
        kept { freshRoot with warp_ := JSVal.str (utf16 "false") }) ∧
    (warpCaller.warp_ = JSVal.bool true ∧
      (callerDomToMutation json (callerMutationToDom json warpCaller) warpCaller).error =
        none ∧
      (callerDomToMutation json (callerMutationToDom json warpCaller) warpCaller).state.warp_ =
        JSVal.str (utf16 "true") ∧
      (callerDomToMutation json (callerMutationToDom json warpCaller)
        warpCaller).state.argumentIds_ = warpCaller.argumentIds_) := by
  refine ⟨⟨rfl, by decide, by decide, by decide, rfl⟩, rfl, by decide, by decide, by decide⟩

theorem updateDisplay__eq (w : ProcBlock) :
    updateDisplay_ w =
      match createAllInputs_ (detachPhase w).1 (detachPhase w).2 with
      | Outcome.threw e w3 => Outcome.threw e w3
      | Outcome.ok connectionMap3 w3 =>
        if w.rendered && !(deleteShadows_ connectionMap3 w3).insertionMarker then
          Outcome.ok () { deleteShadows_ connectionMap3 w3 with rendered := w.rendered }.render
        else Outcome.ok () { deleteShadows_ connectionMap3 w3 with rendered := w.rendered } := by
  unfold updateDisplay_ detachPhase
  cases w.paramMap_ <;> rfl

theorem kept_detachPhase (w : ProcBlock) :
    kept (detachPhase w).2 = kept { w with rendered := false } := by
  unfold detachPhase
  split
  · exact kept_disconnectOldBlocksLoop _ [] { w with rendered := false }
  · rfl

theorem kept_createAllInputs_ (cm : Option ConnectionMap) (w : ProcBlock) :
    kept (createAllInputs_ cm w).state = kept w := by
  unfold createAllInputs_
  rw [kept_createAllInputsLoop]
  rfl

/-- When `createAllInputs_` throws, `updateDisplay_` throws the same error
and stops in the same state. -/
theorem updateDisplay__threw (w : ProcBlock) (e : JSError)
    (h : (createAllInputs_ (detachPhase w).1 (detachPhase w).2).error = some e) :
    updateDisplay_ w =
      Outcome.threw e (createAllInputs_ (detachPhase w).1 (detachPhase w).2).state := by
  rw [updateDisplay__eq]
  cases hc : createAllInputs_ (detachPhase w).1 (detachPhase w).2 with
  | ok cm3 w3 => rw [hc] at h; simp [Outcome.error] at h
  | threw e2 w3 =>
    rw [hc] at h
    have : e2 = e := by simpa [Outcome.error] using h
    subst this
    rfl

/-- C9, counterexample: a rendered caller block whose proc-code is `%d`;
`updateDisplay_` throws the invalid-type error and leaves the rendered flag
`false`. -/
theorem C9_rendered_counterexample :
    renderedBadCaller.rendered = true ∧
      (updateDisplay_ renderedBadCaller).error = some (JSError.invalidType (utf16 "d")) ∧
      (updateDisplay_ renderedBadCaller).state.rendered = false := by
  refine ⟨rfl, by decide, by decide⟩

/-- C9, amended: for every block whose rendered flag is true when
`updateDisplay_` is called, the flag is true again when `updateDisplay_`
returns; on the path on which `createAllInputs_` throws, `updateDisplay_`
throws and leaves the flag `false`. -/
theorem C9_rendered_restored_on_return (w : ProcBlock) (h : w.rendered = true) :
    (∀ w2, updateDisplay_ w = Outcome.ok () w2 → w2.rendered = true) ∧
      (∀ e w2, updateDisplay_ w = Outcome.threw e w2 → w2.rendered = false) := by
  rw [updateDisplay__eq]
  cases hc : createAllInputs_ (detachPhase w).1 (detachPhase w).2 with
  | ok cm3 w3 =>
    constructor
    · intro w2 h2
      simp only at h2
      split at h2
      · injection h2 with _ h2
        rw [← h2]
        exact h
      · injection h2 with _ h2
        rw [← h2]
        exact h
    · intro e w2 h2
      simp only at h2
      split at h2 <;> exact absurd h2 (by simp)
  | threw e w3 =>
    constructor
    · intro w2 h2
      exact absurd h2 (by simp)
    · intro e2 w2 h2
      injection h2 with _ h2
      have hk := kept_createAllInputs_ (detachPhase w).1 (detachPhase w).2
      rw [hc, kept_detachPhase] at hk
      have : w3.rendered = false := congrArg (fun k => k.2.2.2.2.2.2.1) hk
      rw [← h2]
      exact this

/-- Witness of C9 on the rendered caller block with the proc-code `%d`, where
`updateDisplay_` throws, and on the one with `move %n steps`, where it
returns. -/
theorem C9_rendered_restored_on_return_witness :
    renderedBadCaller.rendered = true ∧ renderedCaller.rendered = true ∧
      (updateDisplay_ renderedBadCaller).state.rendered = false ∧
      (updateDisplay_ renderedCaller).state.rendered = true :=
  ⟨rfl, rfl,
    (C9_rendered_restored_on_return renderedBadCaller rfl).2
      (JSError.invalidType (utf16 "d")) (updateDisplay_ renderedBadCaller).state (by decide),
    (C9_rendered_restored_on_return renderedCaller rfl).1
      (updateDisplay_ renderedCaller).state (by decide)⟩

/-- C10, counterexample: the reconciled caller block holds three inputs, a
`paramMap_` entry and an attached shadow block; with the proc-code `%d`
decoding fails, `updateDisplay_` throws the invalid-type error, and after the
failed call the input list is empty, `paramMap_` is the empty map and the
block that was attached is detached. -/
theorem C10_decode_error_counterexample :
    decode badCaller.procCode_ = Except.error (JSError.invalidType (utf16 "d")) ∧
      (updateDisplay_ badCaller).error = some (JSError.invalidType (utf16 "d")) ∧
      (badCaller.inputList.length = 3 ∧ (updateDisplay_ badCaller).state.inputList = []) ∧
      (badCaller.paramMap_ = some [(utf16 "arg0", 1)] ∧
        (updateDisplay_ badCaller).state.paramMap_ = some []) ∧
      (badCaller.inputList.map (fun i => i.target) = [none, some 0, none] ∧
        badCaller.workspace.map (fun b => b.connected) = [true] ∧
        (updateDisplay_ badCaller).state.workspace.map (fun b => b.connected) = [false]) := by
  refine ⟨rfl, by decide, ⟨by decide, by decide⟩, ⟨by decide, by decide⟩,
    ⟨by decide, by decide, by decide⟩⟩

/-- C10, amended: decode errors reach the caller, but not before visual
mutation. For every proc-code on which decoding fails with the invalid-type
error and every block state that holds it, `updateDisplay_` fails with that
error and leaves `procCode_`, `argumentIds_`, `displayNames_`,
`argumentDefaults_` and `warp_` as they were, and the rendered flag `false`;
the detach and clear phases have run by then. `callerDomToMutation` and
`definitionDomToMutation` of a record with that proc-code whose JSON
attributes parse fail with the same error, with the fields of the record
written to the block. -/
theorem C10_decode_error_propagates (procCode : JSString) (e : JSError)
    (hd : decode procCode = Except.error e) :
    (∀ w : ProcBlock, w.procCode_ = procCode →
      ∃ w2, updateDisplay_ w = Outcome.threw e w2 ∧
        w2 = (createAllInputs_ (detachPhase w).1 (detachPhase w).2).state ∧
        w2.procCode_ = w.procCode_ ∧ w2.argumentIds_ = w.argumentIds_ ∧
        w2.displayNames_ = w.displayNames_ ∧ w2.argumentDefaults_ = w.argumentDefaults_ ∧
        w2.warp_ = w.warp_ ∧ w2.rendered = false) ∧
    (∀ (J : JSONRuntime) (cx : CallerMutation) (ids : List JSVal) (w : ProcBlock),
      cx.proccode = procCode → J.parse cx.argumentids = some ids →
      ∃ w2, callerDomToMutation J cx w = Outcome.threw e w2 ∧ w2.procCode_ = procCode ∧
        w2.argumentIds_ = ids ∧ w2.warp_ = JSVal.str cx.warp) ∧
    (∀ (J : JSONRuntime) (dx : DefinitionMutation) (ids names defaults : List JSVal)
      (w : ProcBlock),
      dx.proccode = procCode → J.parse dx.argumentids = some ids →
      J.parse dx.argumentnames = some names → J.parse dx.argumentdefaults = some defaults →
      ∃ w2, definitionDomToMutation J dx w = Outcome.threw e w2 ∧ w2.procCode_ = procCode ∧
        w2.argumentIds_ = ids ∧ w2.displayNames_ = names ∧ w2.argumentDefaults_ = defaults ∧
        w2.warp_ = JSVal.str dx.warp) := by
  have main : ∀ w : ProcBlock, w.procCode_ = procCode →
      updateDisplay_ w =
          Outcome.threw e (createAllInputs_ (detachPhase w).1 (detachPhase w).2).state ∧
        kept (createAllInputs_ (detachPhase w).1 (detachPhase w).2).state =
          kept { w with rendered := false } := by
    intro w hw
    have hk := kept_createAllInputs_ (detachPhase w).1 (detachPhase w).2
    rw [kept_detachPhase] at hk
    have hp : (detachPhase w).2.procCode_ = procCode := by
      have := congrArg (fun k => k.2.1) (kept_detachPhase w)
      exact this.trans hw
    have herr : (createAllInputs_ (detachPhase w).1 (detachPhase w).2).error = some e := by
      rw [error_createAllInputs_, hp, hd]
    exact ⟨updateDisplay__threw w e herr, hk⟩
  refine ⟨?_, ?_, ?_⟩
  · intro w hw
    obtain ⟨h1, hk⟩ := main w hw
    exact ⟨_, h1, rfl, congrArg (fun k => k.2.1) hk, congrArg (fun k => k.2.2.1) hk,
      congrArg (fun k => k.2.2.2.1) hk, congrArg (fun k => k.2.2.2.2.1) hk,
      congrArg (fun k => k.2.2.2.2.2.1) hk, congrArg (fun k => k.2.2.2.2.2.2.1) hk⟩
  · intro J cx ids w hcx hids
    unfold callerDomToMutation
    simp only [hids]
    obtain ⟨h1, hk⟩ := main
      { w with procCode_ := cx.proccode, argumentIds_ := ids, warp_ := JSVal.str cx.warp } hcx
    exact ⟨_, h1, (congrArg (fun k => k.2.1) hk).trans hcx, congrArg (fun k => k.2.2.1) hk,
      congrArg (fun k => k.2.2.2.2.2.1) hk⟩
  · intro J dx ids names defaults w hdx hids hnames hdefaults
    unfold definitionDomToMutation
    simp only [hids, hnames, hdefaults]
    obtain ⟨h1, hk⟩ := main
      { w with procCode_ := dx.proccode, warp_ := JSVal.str dx.warp, argumentIds_ := ids,
               displayNames_ := names, argumentDefaults_ := defaults } hdx
    exact ⟨_, h1, (congrArg (fun k => k.2.1) hk).trans hdx, congrArg (fun k => k.2.2.1) hk,
      congrArg (fun k => k.2.2.2.1) hk, congrArg (fun k => k.2.2.2.2.1) hk,
      congrArg (fun k => k.2.2.2.2.2.1) hk⟩

/-- Witness of C10 on the proc-code `%d`, the block `badCaller` and the
record `badTypeCallerMutation`. -/
theorem C10_decode_error_propagates_witness :
    decode (utf16 "%d") = Except.error (JSError.invalidType (utf16 "d")) ∧
      (∃ w2, updateDisplay_ badCaller = Outcome.threw (JSError.invalidType (utf16 "d")) w2 ∧
        w2.procCode_ = badCaller.procCode_ ∧ w2.rendered = false) ∧
      ∃ w2, callerDomToMutation json badTypeCallerMutation reconciledCaller =
        Outcome.threw (JSError.invalidType (utf16 "d")) w2 ∧
        w2.argumentIds_ = [JSVal.str (utf16 "arg0")] :=
  have h := C10_decode_error_propagates (utf16 "%d") (JSError.invalidType (utf16 "d")) rfl
  ⟨rfl,
    (h.1 badCaller rfl).elim fun w2 hw2 => ⟨w2, hw2.1, hw2.2.2.1, hw2.2.2.2.2.2.2.2⟩,
    (h.2.1 json badTypeCallerMutation [JSVal.str (utf16 "arg0")] reconciledCaller rfl
      (by decide)).elim fun w2 hw2 => ⟨w2, hw2.1, hw2.2.2.1⟩⟩

/-! ## What a load after a save restores -/

/-- The signature fields are the same after `updateDisplay_`, whether it
returns or throws. -/
theorem fields_updateDisplay_ (w : ProcBlock) :
    (updateDisplay_ w).state.variant = w.variant ∧
      (updateDisplay_ w).state.procCode_ = w.procCode_ ∧
      (updateDisplay_ w).state.argumentIds_ = w.argumentIds_ ∧
      (updateDisplay_ w).state.displayNames_ = w.displayNames_ ∧
      (updateDisplay_ w).state.argumentDefaults_ = w.argumentDefaults_ ∧
      (updateDisplay_ w).state.warp_ = w.warp_ := by
  have hk := kept_createAllInputs_ (detachPhase w).1 (detachPhase w).2
  rw [kept_detachPhase] at hk
  rw [updateDisplay__eq]
  cases hc : createAllInputs_ (detachPhase w).1 (detachPhase w).2 with
  | threw e w3 =>
    rw [hc] at hk
    exact ⟨congrArg (fun k => k.1) hk, congrArg (fun k => k.2.1) hk,
      congrArg (fun k => k.2.2.1) hk, congrArg (fun k => k.2.2.2.1) hk,
      congrArg (fun k => k.2.2.2.2.1) hk, congrArg (fun k => k.2.2.2.2.2.1) hk⟩
  | ok cm3 w3 =>
    rw [hc] at hk
    have hk2 := (kept_deleteShadows_ cm3 w3).trans hk
    simp only
    split <;>
      exact ⟨congrArg (fun k => k.1) hk2, congrArg (fun k => k.2.1) hk2,
        congrArg (fun k => k.2.2.1) hk2, congrArg (fun k => k.2.2.2.1) hk2,
        congrArg (fun k => k.2.2.2.2.1) hk2, congrArg (fun k => k.2.2.2.2.2.1) hk2⟩

/-- With a JSON runtime that parses back the three arrays it has written,
loading the record that `definitionMutationToDom` makes restores
`procCode_` and the three arrays, and leaves in `warp_` the string that
`setAttribute` made of it. -/
theorem definition_save_load (J : JSONRuntime) (w : ProcBlock)
    (hids : J.parse (J.stringify w.argumentIds_) = some w.argumentIds_)
    (hnames : J.parse (J.stringify w.displayNames_) = some w.displayNames_)
    (hdefaults : J.parse (J.stringify w.argumentDefaults_) = some w.argumentDefaults_) :
    (definitionDomToMutation J (definitionMutationToDom J w) w).state.procCode_ =
        w.procCode_ ∧
      (definitionDomToMutation J (definitionMutationToDom J w) w).state.argumentIds_ =
        w.argumentIds_ ∧
      (definitionDomToMutation J (definitionMutationToDom J w) w).state.displayNames_ =
        w.displayNames_ ∧
      (definitionDomToMutation J (definitionMutationToDom J w) w).state.argumentDefaults_ =
        w.argumentDefaults_ ∧
      (definitionDomToMutation J (definitionMutationToDom J w) w).state.warp_ =
        JSVal.str w.warp_.toJSString := by
  unfold definitionDomToMutation definitionMutationToDom
  simp only [hids, hnames, hdefaults]
  obtain ⟨_, h2, h3, h4, h5, h6⟩ := fields_updateDisplay_
    { w with warp_ := JSVal.str w.warp_.toJSString }
  exact ⟨h2, h3, h4, h5, h6⟩

/-- The same for the caller block: `procCode_` and `argumentIds_` are
restored and `warp_` is left as a string. -/
theorem caller_save_load (J : JSONRuntime) (w : ProcBlock)
    (hids : J.parse (J.stringify w.argumentIds_) = some w.argumentIds_) :
    (callerDomToMutation J (callerMutationToDom J w) w).state.procCode_ = w.procCode_ ∧
      (callerDomToMutation J (callerMutationToDom J w) w).state.argumentIds_ =
        w.argumentIds_ ∧
      (callerDomToMutation J (callerMutationToDom J w) w).state.warp_ =
        JSVal.str w.warp_.toJSString := by
  unfold callerDomToMutation callerMutationToDom
  simp only [hids]
  obtain ⟨_, h2, h3, _, _, h6⟩ := fields_updateDisplay_
    { w with warp_ := JSVal.str w.warp_.toJSString }
  exact ⟨h2, h3, h6⟩

/-! ## Lemmas on property maps and on `updateAt` -/

theorem PropMap.has_iff_mem {α : Type} (m : PropMap α) (key : JSString) :
    PropMap.has m key = true ↔ key ∈ m.map Prod.fst := by
  unfold PropMap.has
  simp only [List.any_eq_true, beq_iff_eq, List.mem_map]

theorem PropMap.get_nil {α : Type} (key : JSString) :
    PropMap.get ([] : PropMap α) key = none := rfl

theorem PropMap.get_cons {α : Type} (k : JSString) (x : α) (m : PropMap α)
    (key : JSString) :
    PropMap.get ((k, x) :: m) key = if k = key then some x else PropMap.get m key := by
  unfold PropMap.get
  by_cases h : k = key
  · simp [List.find?, h]
  · have hb : (k == key) = false := by simpa using h
    simp [List.find?, hb, h]

theorem PropMap.get_set_self {α : Type} (m : PropMap α) (key : JSString) (v : α) :
    PropMap.get (PropMap.set m key v) key = some v := by
  induction m with
  | nil => simp [PropMap.set, PropMap.get_cons]
  | cons kv rest ih =>
    obtain ⟨k, x⟩ := kv
    unfold PropMap.set
    by_cases h : k = key
    · simp [h, PropMap.get_cons]
    · simp [h, PropMap.get_cons, ih]

theorem PropMap.get_set_ne {α : Type} (m : PropMap α) (key key2 : JSString) (v : α)
    (hne : key2 ≠ key) :
    PropMap.get (PropMap.set m key v) key2 = PropMap.get m key2 := by
  induction m with
  | nil =>
    simp [PropMap.set, PropMap.get_cons, PropMap.get_nil, Ne.symm hne]
  | cons kv rest ih =>
    obtain ⟨k, x⟩ := kv
    unfold PropMap.set
    by_cases h : k = key
    · subst h
      simp [PropMap.get_cons, Ne.symm hne]
    · simp only [h, if_false, PropMap.get_cons, ih]

theorem PropMap.keys_set {α : Type} (m : PropMap α) (key : JSString) (v : α) :
    (PropMap.set m key v).map Prod.fst =
      if key ∈ m.map Prod.fst then m.map Prod.fst else m.map Prod.fst ++ [key] := by
  induction m with
  | nil => simp [PropMap.set]
  | cons kv rest ih =>
    obtain ⟨k, x⟩ := kv
    unfold PropMap.set
    by_cases h : k = key
    · subst h
      simp
    · simp only [h, if_false, List.map_cons, ih, List.mem_cons, Ne.symm h, false_or]
      split
      · rfl
      · rfl

theorem PropMap.set_of_not_mem {α : Type} (m : PropMap α) (key : JSString) (v : α)
    (h : key ∉ m.map Prod.fst) : PropMap.set m key v = m ++ [(key, v)] := by
  induction m with
  | nil => rfl
  | cons kv rest ih =>
    obtain ⟨k, x⟩ := kv
    simp only [List.map_cons, List.mem_cons, not_or] at h
    unfold PropMap.set
    rw [if_neg (Ne.symm h.1), ih h.2]
    rfl

theorem PropMap.get_eq_some_of_mem {α : Type} (m : PropMap α) (key : JSString) (v : α)
    (hnd : (m.map Prod.fst).Nodup) (hmem : (key, v) ∈ m) : PropMap.get m key = some v := by
  induction m with
  | nil => simp at hmem
  | cons kv rest ih =>
    obtain ⟨k, x⟩ := kv
    simp only [List.map_cons, List.nodup_cons] at hnd
    rw [PropMap.get_cons]
    rcases List.mem_cons.mp hmem with h | h
    · injection h with h1 h2
      simp [h1, h2]
    · have hk : k ≠ key := by
        intro e
        apply hnd.1
        rw [e]
        exact List.mem_map.mpr ⟨(key, v), h, rfl⟩
      rw [if_neg hk]
      exact ih hnd.2 h

theorem PropMap.mem_of_get_eq_some {α : Type} (m : PropMap α) (key : JSString) (v : α)
    (h : PropMap.get m key = some v) : (key, v) ∈ m := by
  induction m with
  | nil => simp [PropMap.get_nil] at h
  | cons kv rest ih =>
    obtain ⟨k, x⟩ := kv
    rw [PropMap.get_cons] at h
    by_cases hk : k = key
    · rw [if_pos hk] at h
      injection h with h
      subst h
      subst hk
      exact List.mem_cons_self _ _
    · rw [if_neg hk] at h
      exact List.mem_cons_of_mem _ (ih h)

theorem PropMap.get_eq_none_of_not_mem {α : Type} (m : PropMap α) (key : JSString)
    (h : key ∉ m.map Prod.fst) : PropMap.get m key = none := by
  cases hg : PropMap.get m key with
  | none => rfl
  | some v =>
    exact absurd (List.mem_map.mpr ⟨(key, v), PropMap.mem_of_get_eq_some m key v hg, rfl⟩) h

theorem length_updateAt {α : Type} (l : List α) (i : Nat) (f : α → α) :
    (updateAt l i f).length = l.length := by
  induction l generalizing i with
  | nil => rfl
  | cons x xs ih =>
    cases i with
    | zero => rfl
    | succ i => simp [updateAt, ih]

theorem getElem?_updateAt {α : Type} (l : List α) (i j : Nat) (f : α → α) :
    (updateAt l i f)[j]? = if j = i then l[j]?.map f else l[j]? := by
  induction l generalizing i j with
  | nil => simp [updateAt]
  | cons x xs ih =>
    cases i with
    | zero =>
      cases j with
      | zero => simp [updateAt]
      | succ j => simp [updateAt]
    | succ i =>
      cases j with
      | zero => simp [updateAt]
      | succ j => simp [updateAt, ih]

theorem map_updateAt {α β : Type} (l : List α) (i : Nat) (f : α → α) (g : α → β)
    (h : ∀ x, g (f x) = g x) : (updateAt l i f).map g = l.map g := by
  induction l generalizing i with
  | nil => rfl
  | cons x xs ih =>
    cases i with
    | zero => simp [updateAt, h]
    | succ i => simp [updateAt, ih]

theorem updateAt_updateAt {α : Type} (l : List α) (i : Nat) (f g : α → α) :
    updateAt (updateAt l i f) i g = updateAt l i (fun x => g (f x)) := by
  induction l generalizing i with
  | nil => rfl
  | cons x xs ih =>
    cases i with
    | zero => rfl
    | succ i => simp [updateAt, ih]

/-! ## One parameter step, written out -/

theorem oldBlockOf_some (cm : Option ConnectionMap) (id : JSVal) (c : Nat)
    (h : oldBlockOf cm id = some c) :
    ∃ m, cm = some m ∧ PropMap.get m id.toJSString = some (some c) := by
  cases cm with
  | none => simp [oldBlockOf] at h
  | some m =>
    refine ⟨m, rfl, ?_⟩
    unfold oldBlockOf at h
    simp only at h
    split at h
    · cases hg : PropMap.get m id.toJSString with
      | none => rw [hg] at h; simp at h
      | some v =>
        rw [hg] at h
        simp only [Option.join, Option.some_bind, id_eq] at h
        rw [h]
    · simp at h

theorem oldBlockOf_of_get (m : ConnectionMap) (id : JSVal) (v : Option Nat)
    (h : PropMap.get m id.toJSString = some v) : oldBlockOf (some m) id = v := by
  have hmem : id.toJSString ∈ m.map Prod.fst :=
    List.mem_map.mpr ⟨(id.toJSString, v), PropMap.mem_of_get_eq_some m _ v h, rfl⟩
  unfold oldBlockOf
  simp only
  rw [if_pos ((PropMap.has_iff_mem m _).mpr hmem), h]
  rfl

theorem oldBlockOf_of_get_none (m : ConnectionMap) (id : JSVal)
    (h : PropMap.get m id.toJSString = none) : oldBlockOf (some m) id = none := by
  unfold oldBlockOf
  simp only
  split
  · rw [h]; rfl
  · rfl

theorem paramStep_pre (t : JSString) (id : JSVal) (w : ProcBlock) :
    (if t = utf16 "b" then
        ((w.appendInput InputType.value id).2).setCheck w.inputList.length (utf16 "Boolean")
      else (w.appendInput InputType.value id).2) =
      { w with inputList := w.inputList ++ [slotInput id t none none] } := by
  by_cases h : t = utf16 "b"
  · simp [h, ProcBlock.appendInput, ProcBlock.setCheck, updateAt_append_length, slotInput]
  · simp [h, ProcBlock.appendInput, slotInput]

theorem checkOldTypeMatches__workspace (w w2 : ProcBlock) (old : Option Nat) (t : JSString)
    (h : w2.workspace = w.workspace) :
    checkOldTypeMatches_ w2 old t = checkOldTypeMatches_ w old t := by
  unfold checkOldTypeMatches_
  rw [h]

theorem checkOldTypeMatches__some (w : ProcBlock) (old : Option Nat) (t : JSString)
    (h : checkOldTypeMatches_ w old t = true) : ∃ c, old = some c := by
  cases old with
  | none => simp [checkOldTypeMatches_] at h
  | some c => exact ⟨c, rfl⟩

theorem populateInput__caller (t : JSString) (n : Nat) (cm : Option ConnectionMap)
    (id : JSVal) (old : Option Nat) (input : Nat) (w : ProcBlock)
    (hv : w.variant = Variant.caller) :
    populateInput_ t n cm id old input w = populateInputCaller_ t n cm id old input w := by
  unfold populateInput_
  rw [hv]

theorem populateInput__callerInternal (t : JSString) (n : Nat) (cm : Option ConnectionMap)
    (id : JSVal) (old : Option Nat) (input : Nat) (w : ProcBlock)
    (hv : w.variant = Variant.callerInternal) :
    populateInput_ t n cm id old input w =
      populateInputCallerInternal_ t n cm id old input w := by
  unfold populateInput_
  rw [hv]

theorem populateInput__mutatorRoot (t : JSString) (n : Nat) (cm : Option ConnectionMap)
    (id : JSVal) (old : Option Nat) (input : Nat) (w : ProcBlock)
    (hv : w.variant = Variant.mutatorRoot) :
    populateInput_ t n cm id old input w =
      populateInputMutatorRoot_ t n cm id old input w := by
  unfold populateInput_
  rw [hv]

theorem reattach_caller (dn : JSVal) :
    reattach Variant.caller dn = fun b => { b with connected := true } := rfl

theorem reattach_callerInternal (dn : JSVal) :
    reattach Variant.callerInternal dn = fun b =>
      { b with fields := PropMap.set b.fields (utf16 "VALUE") dn, connected := true } := rfl

theorem reattach_mutatorRoot (dn : JSVal) :
    reattach Variant.mutatorRoot dn = fun b =>
      { b with fields := PropMap.set b.fields (utf16 "TEXT") dn, connected := true } := rfl

theorem s_ne_n : utf16 "s" ≠ utf16 "n" := by decide

theorem b_ne_n : utf16 "b" ≠ utf16 "n" := by decide

theorem b_ne_s : utf16 "b" ≠ utf16 "s" := by decide

theorem paramStep_caller (t : JSString) (n : Nat) (cm : Option ConnectionMap)
    (w : ProcBlock) (hv : w.variant = Variant.caller) :
    paramStep t n cm w = slotMade t n cm w := by
  have hr : reattachedBlock t n cm w = oldBlockOf cm (arrayGet w.argumentIds_ n) := by
    unfold reattachedBlock
    rw [hv]
  have hsd : slotShadowDom t w =
      if t ≠ utf16 "b" then some (buildShadowDom_ t) else none := by
    unfold slotShadowDom
    simp [hv]
  unfold paramStep slotMade
  simp only []
  rw [paramStep_pre, populateInput__caller _ _ _ _ _ _
    { w with inputList := w.inputList ++ [slotInput (arrayGet w.argumentIds_ n) t none none] }
    hv, hr, hsd]
  cases ho : oldBlockOf cm (arrayGet w.argumentIds_ n) with
  | some c =>
    obtain ⟨m, hm, -⟩ := oldBlockOf_some cm _ c ho
    subst hm
    simp only [populateInputCaller_, Option.map_some']
    by_cases hb : t = utf16 "b"
    · simp [hb, setParam, ProcBlock.connect, updateAt_append_length, slotInput, hv, reattach_caller]
    · simp [hb, setParam, ProcBlock.connect, ProcBlock.setShadowDom, updateAt_append_length,
        slotInput, hv, reattach_caller]
  | none =>
    have hpop : ∀ w2 : ProcBlock, populateInputCaller_ t n cm (arrayGet w.argumentIds_ n) none
        w.inputList.length w2 =
        (cm, setParam (attachShadow_ w.inputList.length t w2)
          (arrayGet w.argumentIds_ n) w.inputList.length) := by
      intro w2
      unfold populateInputCaller_
      cases cm <;> rfl
    rw [hpop]
    by_cases hns : t = utf16 "n" ∨ t = utf16 "s"
    · have hle : leftEmpty t w = false := by simp [leftEmpty, hns]
      simp only [hle]
      by_cases hn : t = utf16 "n"
      · cases hm : w.insertionMarker <;>
          simp [attachShadow_, hn, setParam, ProcBlock.newBlock, ProcBlock.setFieldValue,
            ProcBlock.setShadow, ProcBlock.renderBlock, ProcBlock.connect,
            updateAt_append_length, slotInput, freshContent, hv, hm, PropMap.set, s_ne_n]
      · have hs : t = utf16 "s" := by tauto
        cases hm : w.insertionMarker <;>
          simp [attachShadow_, hs, setParam, ProcBlock.newBlock, ProcBlock.setFieldValue,
            ProcBlock.setShadow, ProcBlock.renderBlock, ProcBlock.connect,
            updateAt_append_length, slotInput, freshContent, hv, hm, PropMap.set, s_ne_n]
    · have hle : leftEmpty t w = true := by simp [leftEmpty, hns, hv]
      simp [hle, attachShadow_, hns, setParam]

theorem populateInputCallerInternal__reattach (t : JSString) (n : Nat) (m : ConnectionMap)
    (id : JSVal) (c input : Nat) (w : ProcBlock)
    (hc : checkOldTypeMatches_ w (some c) t = true) :
    populateInputCallerInternal_ t n (some m) id (some c) input w =
      (some (PropMap.set m id.toJSString none),
        setParam ((w.setFieldValue c (arrayGet w.displayNames_ n) (utf16 "VALUE")).connect
          c input) id input) := by
  unfold populateInputCallerInternal_
  simp only [hc]

theorem populateInputCallerInternal__fresh (t : JSString) (n : Nat)
    (cm : Option ConnectionMap) (id : JSVal) (old : Option Nat) (input : Nat) (w : ProcBlock)
    (hc : checkOldTypeMatches_ w old t = false) :
    populateInputCallerInternal_ t n cm id old input w =
      (cm, setParam (attachArgumentReporter_ input t (arrayGet w.displayNames_ n) w)
        id input) := by
  unfold populateInputCallerInternal_
  simp only [hc]

theorem populateInputMutatorRoot__reattach (t : JSString) (n : Nat) (m : ConnectionMap)
    (id : JSVal) (c input : Nat) (w : ProcBlock)
    (hc : checkOldTypeMatches_ w (some c) t = true) :
    populateInputMutatorRoot_ t n (some m) id (some c) input w =
      (some (PropMap.set m id.toJSString none),
        setParam ((w.setFieldValue c (arrayGet w.displayNames_ n) (utf16 "TEXT")).connect
          c input) id input) := by
  unfold populateInputMutatorRoot_
  simp only [hc]

theorem populateInputMutatorRoot__fresh (t : JSString) (n : Nat)
    (cm : Option ConnectionMap) (id : JSVal) (old : Option Nat) (input : Nat) (w : ProcBlock)
    (hc : checkOldTypeMatches_ w old t = false) :
    populateInputMutatorRoot_ t n cm id old input w =
      (cm, setParam (attachShadowMutatorRoot_ input t (arrayGet w.displayNames_ n) w)
        id input) := by
  unfold populateInputMutatorRoot_
  simp only [hc]

theorem paramStep_callerInternal (t : JSString) (n : Nat) (cm : Option ConnectionMap)
    (w : ProcBlock) (hv : w.variant = Variant.callerInternal) :
    paramStep t n cm w = slotMade t n cm w := by
  have hr : reattachedBlock t n cm w =
      if checkOldTypeMatches_ w (oldBlockOf cm (arrayGet w.argumentIds_ n)) t = true then
        oldBlockOf cm (arrayGet w.argumentIds_ n)
      else none := by
    unfold reattachedBlock
    rw [hv]
  have hsd : slotShadowDom t w = none := by
    unfold slotShadowDom
    simp [hv]
  have hle : leftEmpty t w = false := by simp [leftEmpty, hv]
  unfold paramStep slotMade
  simp only []
  rw [paramStep_pre, populateInput__callerInternal _ _ _ _ _ _
    { w with inputList := w.inputList ++ [slotInput (arrayGet w.argumentIds_ n) t none none] }
    hv, hr, hsd, hle]
  cases hc : checkOldTypeMatches_ w (oldBlockOf cm (arrayGet w.argumentIds_ n)) t with
  | true =>
    obtain ⟨c, ho⟩ := checkOldTypeMatches__some _ _ _ hc
    obtain ⟨m, hm, -⟩ := oldBlockOf_some cm _ c ho
    subst hm
    rw [ho] at hc ⊢
    rw [populateInputCallerInternal__reattach _ _ _ _ _ _ _
      ((checkOldTypeMatches__workspace w
        { w with inputList := w.inputList ++ [slotInput (arrayGet w.argumentIds_ n) t none none] }
        _ _ rfl).trans hc)]
    simp [setParam, ProcBlock.connect, ProcBlock.setFieldValue, updateAt_append_length,
      slotInput, hv, reattach_callerInternal, updateAt_updateAt]
  | false =>
    rw [populateInputCallerInternal__fresh _ _ _ _ _ _ _
      ((checkOldTypeMatches__workspace w
        { w with inputList := w.inputList ++ [slotInput (arrayGet w.argumentIds_ n) t none none] }
        _ _ rfl).trans hc)]
    cases hm : w.insertionMarker <;>
      simp [attachArgumentReporter_, setParam, ProcBlock.newBlock, ProcBlock.setFieldValue,
        ProcBlock.setShadow, ProcBlock.renderBlock, ProcBlock.connect,
        updateAt_append_length, slotInput, freshContent, hv, hm, PropMap.set]

theorem paramStep_mutatorRoot (t : JSString) (n : Nat) (cm : Option ConnectionMap)
    (w : ProcBlock) (hv : w.variant = Variant.mutatorRoot) :
    paramStep t n cm w = slotMade t n cm w := by
  have hr : reattachedBlock t n cm w =
      if checkOldTypeMatches_ w (oldBlockOf cm (arrayGet w.argumentIds_ n)) t = true then
        oldBlockOf cm (arrayGet w.argumentIds_ n)
      else none := by
    unfold reattachedBlock
    rw [hv]
  have hsd : slotShadowDom t w = none := by
    unfold slotShadowDom
    simp [hv]
  have hle : leftEmpty t w = false := by simp [leftEmpty, hv]
  unfold paramStep slotMade
  simp only []
  rw [paramStep_pre, populateInput__mutatorRoot _ _ _ _ _ _
    { w with inputList := w.inputList ++ [slotInput (arrayGet w.argumentIds_ n) t none none] }
    hv, hr, hsd, hle]
  cases hc : checkOldTypeMatches_ w (oldBlockOf cm (arrayGet w.argumentIds_ n)) t with
  | true =>
    obtain ⟨c, ho⟩ := checkOldTypeMatches__some _ _ _ hc
    obtain ⟨m, hm, -⟩ := oldBlockOf_some cm _ c ho
    subst hm
    rw [ho] at hc ⊢
    rw [populateInputMutatorRoot__reattach _ _ _ _ _ _ _
      ((checkOldTypeMatches__workspace w
        { w with inputList := w.inputList ++ [slotInput (arrayGet w.argumentIds_ n) t none none] }
        _ _ rfl).trans hc)]
    simp [setParam, ProcBlock.connect, ProcBlock.setFieldValue, updateAt_append_length,
      slotInput, hv, reattach_mutatorRoot, updateAt_updateAt]
  | false =>
    rw [populateInputMutatorRoot__fresh _ _ _ _ _ _ _
      ((checkOldTypeMatches__workspace w
        { w with inputList := w.inputList ++ [slotInput (arrayGet w.argumentIds_ n) t none none] }
        _ _ rfl).trans hc)]
    cases hm : w.insertionMarker <;>
      simp [attachShadowMutatorRoot_, setParam, ProcBlock.newBlock, ProcBlock.setFieldValue,
        ProcBlock.setShadow, ProcBlock.renderBlock, ProcBlock.connect,
        updateAt_append_length, slotInput, freshContent, hv, hm, PropMap.set]

/-- One parameter step of `createAllInputs_`, on each of the three blocks. -/
theorem paramStep_eq_slotMade (t : JSString) (n : Nat) (cm : Option ConnectionMap)
    (w : ProcBlock) : paramStep t n cm w = slotMade t n cm w := by
  cases hv : w.variant with
  | caller => exact paramStep_caller t n cm w hv
  | callerInternal => exact paramStep_callerInternal t n cm w hv
  | mutatorRoot => exact paramStep_mutatorRoot t n cm w hv

/-! ## Labels, and an invariant principle for the loop of `createAllInputs_` -/

theorem addLabel__shape (text : JSString) (w : ProcBlock) :
    ∃ l, (addLabel_ text w).inputList = w.inputList ++ l ∧
      (∀ i ∈ l, i.type = InputType.dummy ∧ i.target = none) ∧
      (addLabel_ text w).workspace = w.workspace ∧
      (addLabel_ text w).paramMap_ = w.paramMap_ := by
  have hcaller : ∃ l, (addLabelCaller_ text w).inputList = w.inputList ++ l ∧
      (∀ i ∈ l, i.type = InputType.dummy ∧ i.target = none) ∧
      (addLabelCaller_ text w).workspace = w.workspace ∧
      (addLabelCaller_ text w).paramMap_ = w.paramMap_ := by
    unfold addLabelCaller_
    by_cases h : text = []
    · refine ⟨[dummyInput (JSVal.str []) []], ?_, by simp [dummyInput], ?_, ?_⟩
      · simp [h, ProcBlock.appendInput, dummyInput]
      · simp [h, ProcBlock.appendInput]
      · simp [h, ProcBlock.appendInput]
    · refine ⟨[dummyInput (JSVal.str []) [Field.label text]], ?_, by simp [dummyInput],
        ?_, ?_⟩
      · simp [h, ProcBlock.appendInput, ProcBlock.appendField, updateAt_append_length,
          dummyInput]
      · simp [h, ProcBlock.appendInput, ProcBlock.appendField]
      · simp [h, ProcBlock.appendInput, ProcBlock.appendField]
  unfold addLabel_
  cases w.variant with
  | caller => exact hcaller
  | callerInternal => exact hcaller
  | mutatorRoot =>
    simp only
    unfold addLabelMutatorRoot_
    by_cases h : text = []
    · exact ⟨[], by simp [h], by simp, by simp [h], by simp [h]⟩
    · refine ⟨[dummyInput (w.genUid).1 [Field.textInput text]], ?_, by simp [dummyInput],
        ?_, ?_⟩
      · simp [h, ProcBlock.appendInput, ProcBlock.appendField, ProcBlock.genUid,
          updateAt_append_length, dummyInput]
      · simp [h, ProcBlock.appendInput, ProcBlock.appendField, ProcBlock.genUid]
      · simp [h, ProcBlock.appendInput, ProcBlock.appendField, ProcBlock.genUid]

theorem paramTypes_labelSegments (text : JSString) (segs : List Segment) :
    paramTypes (labelSegments text ++ segs) = paramTypes segs := by
  unfold labelSegments
  split <;> simp [paramTypes]

theorem paramTypes_param (t : ParamType) (segs : List Segment) :
    paramTypes (Segment.param t :: segs) = t :: paramTypes segs := by
  simp [paramTypes]

theorem paramTypeOf_typeCode {x : JSString} {t : ParamType} (h : paramTypeOf x = some t) :
    x = typeCode t := by
  unfold paramTypeOf at h
  by_cases h1 : x = utf16 "n"
  · rw [if_pos h1] at h
    injection h with h
    subst h
    exact h1
  · rw [if_neg h1] at h
    by_cases h2 : x = utf16 "b"
    · rw [if_pos h2] at h
      injection h with h
      subst h
      exact h2
    · rw [if_neg h2] at h
      by_cases h3 : x = utf16 "s"
      · rw [if_pos h3] at h
        injection h with h
        subst h
        exact h3
      · rw [if_neg h3] at h
        simp at h

/-- A property of the state that every label and every parameter step
keeps holds when the loop of `createAllInputs_` returns, and the loop
returns whenever the signature decodes. The property may speak of the types
of the parameters made so far. -/
theorem createAllInputsLoop_invariant
    (Inv : List ParamType → Option ConnectionMap → ProcBlock → Prop)
    (hlabel : ∀ ts cm w text, Inv ts cm w → Inv ts cm (addLabel_ text w))
    (hparam : ∀ ts cm w t, Inv ts cm w →
      Inv (ts ++ [t]) (slotMade (typeCode t) ts.length cm w).1
        (slotMade (typeCode t) ts.length cm w).2)
    (comps : List JSString) (ts : List ParamType) (cm : Option ConnectionMap)
    (w : ProcBlock) (segs : List Segment) (hd : decodeLoop comps = Except.ok segs)
    (h0 : Inv ts cm w) :
    ∃ cm2 w2, createAllInputsLoop comps ts.length cm w = Outcome.ok cm2 w2 ∧
      Inv (ts ++ paramTypes segs) cm2 w2 := by
  induction comps generalizing ts cm w segs with
  | nil =>
    simp only [decodeLoop, Except.ok.injEq] at hd
    subst hd
    exact ⟨cm, w, rfl, by simpa [paramTypes] using h0⟩
  | cons c rest ih =>
    by_cases h1 : c = []
    · subst h1
      simp only [decodeLoop, if_true, Except.ok.injEq] at hd
      subst hd
      exact ⟨cm, w, loop_empty _ _ _ _, by simpa [paramTypes] using h0⟩
    · by_cases h2 : substring c 0 1 = utf16 "%"
      · rw [decodeLoop, if_neg h1, if_pos h2] at hd
        cases hp : paramTypeOf (substring c 1 2) with
        | none => rw [hp] at hd; simp at hd
        | some t =>
          rw [hp] at hd
          simp only at hd
          cases hr : decodeLoop rest with
          | error e => rw [hr] at hd; simp at hd
          | ok segs2 =>
            rw [hr] at hd
            simp only [Except.ok.injEq] at hd
            subst hd
            obtain ⟨h3, -⟩ := paramTypeOf_some hp
            rw [loop_param c rest ts.length cm w h1 h2 h3, paramStep_eq_slotMade,
              paramTypeOf_typeCode hp]
            have hstep := hlabel _ _ _
              (replaceEscapedPercent (trim (substringFrom c 2))) (hparam ts cm w t h0)
            have hlen : ts.length + 1 = (ts ++ [t]).length := by simp
            rw [hlen]
            obtain ⟨cm2, w2, hw2, hinv⟩ := ih (ts ++ [t]) _ _ segs2 hr hstep
            refine ⟨cm2, w2, hw2, ?_⟩
            rw [paramTypes_param, paramTypes_labelSegments]
            simpa using hinv
      · rw [decodeLoop, if_neg h1, if_neg h2] at hd
        cases hr : decodeLoop rest with
        | error e => rw [hr] at hd; simp at hd
        | ok segs2 =>
          rw [hr] at hd
          simp only [Except.ok.injEq] at hd
          subst hd
          rw [loop_label c rest ts.length cm w h1 h2]
          obtain ⟨cm2, w2, hw2, hinv⟩ := ih ts _ _ segs2 hr (hlabel _ _ _ _ h0)
          refine ⟨cm2, w2, hw2, ?_⟩
          rw [paramTypes_labelSegments]
          exact hinv

/-! ## The sweep and the detach phase -/

theorem deleteShadowsLoop_inputList (entries : ConnectionMap) (w : ProcBlock) :
    (deleteShadowsLoop entries w).inputList = w.inputList ∧
      (deleteShadowsLoop entries w).paramMap_ = w.paramMap_ := by
  induction entries generalizing w with
  | nil => exact ⟨rfl, rfl⟩
  | cons e rest ih =>
    obtain ⟨k, v⟩ := e
    cases v with
    | none => exact ih w
    | some blk =>
      unfold deleteShadowsLoop
      split
      · exact ih _
      · exact ih w

theorem sweepBlock_cons_none (k : JSString) (rest : ConnectionMap) (c : Nat) :
    sweepBlock ((k, none) :: rest) c = sweepBlock rest c := by
  funext b
  have h : (((k, none) :: rest : ConnectionMap).any fun e => e.2 == some c) =
      (rest.any fun e => e.2 == some c) := by
    rw [List.any_cons]
    rfl
  unfold sweepBlock
  rw [h]

theorem sweepBlock_cons_ne (k : JSString) (blk : Nat) (rest : ConnectionMap) (c : Nat)
    (h : c ≠ blk) : sweepBlock ((k, some blk) :: rest) c = sweepBlock rest c := by
  funext b
  have hne : (some blk == some c) = false := by simpa using fun e => h e.symm
  have h2 : (((k, some blk) :: rest : ConnectionMap).any fun e => e.2 == some c) =
      (rest.any fun e => e.2 == some c) := by
    rw [List.any_cons]
    simp only [hne, Bool.false_or]
  unfold sweepBlock
  rw [h2]

theorem sweepBlock_cons_self (k : JSString) (rest : ConnectionMap) (c : Nat)
    (b : ContentBlock) :
    sweepBlock ((k, some c) :: rest) c b =
      if b.shadow = true then { b with disposed := true, connected := false } else b := by
  have h2 : (((k, some c) :: rest : ConnectionMap).any fun e => e.2 == some c) = true := by
    rw [List.any_cons]
    simp
  unfold sweepBlock
  rw [h2]
  simp

theorem deleteShadowsLoop_workspace (entries : ConnectionMap) (w : ProcBlock) (c : Nat) :
    (deleteShadowsLoop entries w).workspace[c]? =
      (w.workspace[c]?).map (sweepBlock entries c) := by
  induction entries generalizing w with
  | nil =>
    cases h : w.workspace[c]? <;> simp [deleteShadowsLoop, sweepBlock, h]
  | cons e rest ih =>
    obtain ⟨k, v⟩ := e
    cases v with
    | none =>
      rw [deleteShadowsLoop, ih w, sweepBlock_cons_none]
    | some blk =>
      unfold deleteShadowsLoop
      by_cases hs : isShadow w blk = true
      · rw [if_pos hs, ih]
        simp only [ProcBlock.disposeBlock, getElem?_updateAt]
        unfold isShadow at hs
        by_cases hc : c = blk
        · subst hc
          cases h : w.workspace[c]? with
          | none => simp
          | some b =>
            rw [h] at hs
            simp only at hs
            simp [sweepBlock_cons_self, hs, sweepBlock]
        · rw [if_neg hc, sweepBlock_cons_ne _ _ _ _ hc]
      · rw [if_neg hs, ih]
        unfold isShadow at hs
        by_cases hc : c = blk
        · subst hc
          cases h : w.workspace[c]? with
          | none => simp
          | some b =>
            rw [h] at hs
            simp only [Bool.not_eq_true] at hs
            simp [sweepBlock_cons_self, hs, sweepBlock]
        · rw [sweepBlock_cons_ne _ _ _ _ hc]

theorem deleteShadows__inputList (cm : Option ConnectionMap) (w : ProcBlock) :
    (deleteShadows_ cm w).inputList = w.inputList ∧
      (deleteShadows_ cm w).paramMap_ = w.paramMap_ := by
  cases cm with
  | none => exact ⟨rfl, rfl⟩
  | some m => exact deleteShadowsLoop_inputList m w

theorem deleteShadows__workspace (cm : Option ConnectionMap) (w : ProcBlock) (c : Nat) :
    (deleteShadows_ cm w).workspace[c]? =
      (w.workspace[c]?).map (sweepBlock (cm.getD []) c) := by
  cases cm with
  | none =>
    cases h : w.workspace[c]? <;> simp [deleteShadows_, sweepBlock, h]
  | some m => exact deleteShadowsLoop_workspace m w c

theorem inputList_disconnect_ne (w : ProcBlock) (input j : Nat) (h : j ≠ input) :
    (w.disconnect input).inputList[j]? = w.inputList[j]? := by
  unfold ProcBlock.disconnect
  split
  · rfl
  · simp only [getElem?_updateAt, if_neg h]

theorem workspace_disconnect (w : ProcBlock) (input : Nat) :
    ∃ f : Nat → Bool, ∀ c, (w.disconnect input).workspace[c]? =
      (w.workspace[c]?).map (detachBlock (f c)) := by
  unfold ProcBlock.disconnect
  split
  · refine ⟨fun _ => false, fun c => ?_⟩
    cases w.workspace[c]? <;> simp [detachBlock]
  · rename_i blk _
    refine ⟨fun c => decide (c = blk), fun c => ?_⟩
    simp only [getElem?_updateAt]
    by_cases hc : c = blk
    · rw [if_pos hc]
      cases w.workspace[c]? <;> simp [detachBlock, hc]
    · rw [if_neg hc]
      cases w.workspace[c]? <;> simp [detachBlock, hc]

theorem detachBlock_detachBlock (x y : Bool) (b : ContentBlock) :
    detachBlock x (detachBlock y b) = detachBlock (x || y) b := by
  cases x <;> cases y <;> simp [detachBlock]

/-- The detach loop changes a block of the workspace only in that it may no
longer be connected. -/
theorem disconnectOldBlocksLoop_workspace (entries : List (JSString × Nat))
    (cm : ConnectionMap) (w : ProcBlock) :
    ∃ f : Nat → Bool, ∀ c, (disconnectOldBlocksLoop entries cm w).2.workspace[c]? =
      (w.workspace[c]?).map (detachBlock (f c)) := by
  induction entries generalizing cm w with
  | nil =>
    refine ⟨fun _ => false, fun c => ?_⟩
    unfold disconnectOldBlocksLoop
    cases w.workspace[c]? <;> simp [detachBlock]
  | cons e rest ih =>
    obtain ⟨id, input⟩ := e
    unfold disconnectOldBlocksLoop
    cases hi : w.inputList[input]? with
    | none => exact ih cm w
    | some i =>
      simp only
      by_cases hd : i.type ≠ InputType.dummy
      · rw [if_pos hd]
        by_cases ht : i.target.isSome = true
        · rw [if_pos ht]
          obtain ⟨f, hf⟩ := ih (PropMap.set cm id i.target)
            ((w.setShadowDom input none).disconnect input)
          obtain ⟨g, hg⟩ := workspace_disconnect (w.setShadowDom input none) input
          refine ⟨fun c => f c || g c, fun c => ?_⟩
          rw [hf c, hg c]
          have hw : (w.setShadowDom input none).workspace = w.workspace := rfl
          rw [hw]
          cases w.workspace[c]? with
          | none => rfl
          | some b => simp [detachBlock_detachBlock]
        · rw [if_neg ht]
          exact ih _ _
      · rw [if_neg hd]
        exact ih cm w

/-- The salvage map of the detach loop, when no key and no input occurs
twice among the entries. -/
theorem disconnectOldBlocksLoop_map (entries : List (JSString × Nat))
    (cm : ConnectionMap) (w : ProcBlock) (hk : (entries.map Prod.fst).Nodup)
    (hi : (entries.map Prod.snd).Nodup)
    (hdis : ∀ key ∈ entries.map Prod.fst, key ∉ cm.map Prod.fst) :
    (disconnectOldBlocksLoop entries cm w).1 =
      cm ++ entries.filterMap (salvageEntry w.inputList) := by
  induction entries generalizing cm w with
  | nil => simp [disconnectOldBlocksLoop]
  | cons e rest ih =>
    obtain ⟨id, input⟩ := e
    simp only [List.map_cons, List.nodup_cons] at hk hi
    have hdis2 : ∀ key ∈ rest.map Prod.fst, key ∉ cm.map Prod.fst :=
      fun key hkey => hdis key (List.mem_cons_of_mem _ hkey)
    unfold disconnectOldBlocksLoop
    cases hin : w.inputList[input]? with
    | none =>
      simp only
      rw [ih cm w hk.2 hi.2 hdis2]
      simp [List.filterMap_cons, salvageEntry, hin]
    | some i =>
      simp only
      by_cases hd : i.type ≠ InputType.dummy
      · rw [if_pos hd]
        have hset : PropMap.set cm id i.target = cm ++ [(id, i.target)] :=
          PropMap.set_of_not_mem cm id i.target (hdis id (List.mem_cons_self _ _))
        have hdis3 : ∀ key ∈ rest.map Prod.fst,
            key ∉ (cm ++ [(id, i.target)]).map Prod.fst := by
          intro key hkey
          simp only [List.map_append, List.map_cons, List.map_nil, List.mem_append,
            List.mem_singleton, not_or]
          exact ⟨hdis2 key hkey, fun e => hk.1 (e ▸ hkey)⟩
        have hrest : ∀ w2 : ProcBlock,
            (∀ j, j ≠ input → w2.inputList[j]? = w.inputList[j]?) →
            rest.filterMap (salvageEntry w2.inputList) =
              rest.filterMap (salvageEntry w.inputList) := by
          intro w2 hw2
          apply List.filterMap_congr
          intro x hx
          have hne : x.2 ≠ input := by
            intro e
            exact hi.1 (e ▸ List.mem_map.mpr ⟨x, hx, rfl⟩)
          unfold salvageEntry
          rw [hw2 x.2 hne]
        have hsd : ∀ j, j ≠ input →
            (w.setShadowDom input none).inputList[j]? = w.inputList[j]? := by
          intro j hj
          simp only [ProcBlock.setShadowDom, getElem?_updateAt, if_neg hj]
        rw [hset]
        by_cases ht : i.target.isSome = true
        · rw [if_pos ht, ih _ _ hk.2 hi.2 hdis3, hrest _ (fun j hj => by
            rw [inputList_disconnect_ne _ _ _ hj, hsd j hj])]
          simp [List.filterMap_cons, salvageEntry, hin, hd]
        · rw [if_neg ht, ih _ _ hk.2 hi.2 hdis3, hrest _ hsd]
          simp [List.filterMap_cons, salvageEntry, hin, hd]
      · rw [if_neg hd, ih cm w hk.2 hi.2 hdis2]
        have hd2 : i.type = InputType.dummy := by simpa using hd
        simp [List.filterMap_cons, salvageEntry, hin, hd2]

/-! ## What one parameter step does to the state -/

theorem blockFlags_reattach (v : Variant) (dn : JSVal) (b : ContentBlock) :
    blockFlags (reattach v dn b) = blockFlags b ∧ (reattach v dn b).connected = true := by
  cases v <;> exact ⟨rfl, rfl⟩

theorem reattachedBlock_old (t : JSString) (n : Nat) (cm : Option ConnectionMap)
    (w : ProcBlock) (c : Nat) (h : reattachedBlock t n cm w = some c) :
    oldBlockOf cm (arrayGet w.argumentIds_ n) = some c := by
  unfold reattachedBlock at h
  cases hv : w.variant with
  | caller => rw [hv] at h; exact h
  | callerInternal =>
    rw [hv] at h
    simp only at h
    split at h
    · exact h
    · simp at h
  | mutatorRoot =>
    rw [hv] at h
    simp only at h
    split at h
    · exact h
    · simp at h

theorem slotMade_cases (t : JSString) (n : Nat) (cm : Option ConnectionMap)
    (w : ProcBlock) :
    (slotMade t n cm w).2.paramMap_ = w.paramMap_.map
        (fun m => PropMap.set m (arrayGet w.argumentIds_ n).toJSString w.inputList.length) ∧
      kept (slotMade t n cm w).2 = kept w ∧
      ((∃ c, reattachedBlock t n cm w = some c ∧
          (slotMade t n cm w).1 = cm.map
            (fun m => PropMap.set m (arrayGet w.argumentIds_ n).toJSString none) ∧
          (slotMade t n cm w).2.inputList = w.inputList ++
            [slotInput (arrayGet w.argumentIds_ n) t (slotShadowDom t w) (some c)] ∧
          (slotMade t n cm w).2.workspace = updateAt w.workspace c
            (reattach w.variant (arrayGet w.displayNames_ n))) ∨
        (reattachedBlock t n cm w = none ∧ leftEmpty t w = true ∧
          (slotMade t n cm w).1 = cm ∧
          (slotMade t n cm w).2.inputList = w.inputList ++
            [slotInput (arrayGet w.argumentIds_ n) t none none] ∧
          (slotMade t n cm w).2.workspace = w.workspace) ∨
        (reattachedBlock t n cm w = none ∧ leftEmpty t w = false ∧
          (slotMade t n cm w).1 = cm ∧
          (slotMade t n cm w).2.inputList = w.inputList ++
            [slotInput (arrayGet w.argumentIds_ n) t none (some w.workspace.length)] ∧
          (slotMade t n cm w).2.workspace = w.workspace ++
            [freshContent w.variant t (arrayGet w.displayNames_ n) w.insertionMarker])) := by
  unfold slotMade
  simp only []
  cases hr : reattachedBlock t n cm w with
  | some c =>
    exact ⟨rfl, rfl, Or.inl ⟨c, rfl, rfl, rfl, rfl⟩⟩
  | none =>
    cases hl : leftEmpty t w with
    | true => exact ⟨rfl, rfl, Or.inr (Or.inl ⟨rfl, rfl, rfl, rfl, rfl⟩)⟩
    | false =>
      exact ⟨rfl, rfl, Or.inr (Or.inr ⟨rfl, rfl, rfl, rfl, rfl⟩)⟩

/-- A parameter step keeps the blocks of the workspace; it changes at most
the block it reattaches, which it connects. -/
theorem slotMade_workspace (t : JSString) (n : Nat) (cm : Option ConnectionMap)
    (w : ProcBlock) (c : Nat) (b : ContentBlock) (h : w.workspace[c]? = some b) :
    ∃ b2, (slotMade t n cm w).2.workspace[c]? = some b2 ∧ blockFlags b2 = blockFlags b ∧
      (b.connected = true → b2.connected = true) ∧
      (reattachedBlock t n cm w ≠ some c → b2 = b) ∧
      (reattachedBlock t n cm w = some c → b2.connected = true) := by
  obtain ⟨-, -, hc⟩ := slotMade_cases t n cm w
  rcases hc with ⟨c2, hr, -, -, hws⟩ | ⟨hr, -, -, -, hws⟩ | ⟨hr, -, -, -, hws⟩
  · rw [hws, getElem?_updateAt, hr]
    by_cases hcc : c = c2
    · subst hcc
      rw [if_pos rfl, h]
      refine ⟨_, rfl, (blockFlags_reattach _ _ b).1, fun _ => (blockFlags_reattach _ _ b).2,
        fun hne => absurd rfl hne, fun _ => (blockFlags_reattach _ _ b).2⟩
    · rw [if_neg hcc, h]
      refine ⟨b, rfl, rfl, fun x => x, fun _ => rfl, fun e => ?_⟩
      injection e with e
      exact absurd e.symm hcc
  · rw [hws, hr, h]
    exact ⟨b, rfl, rfl, fun x => x, fun _ => rfl, fun e => by simp at e⟩
  · rw [hws, hr]
    have hlt : c < w.workspace.length := by
      by_contra hge
      rw [List.getElem?_eq_none (Nat.le_of_not_lt hge)] at h
      simp at h
    rw [List.getElem?_append_left hlt, h]
    exact ⟨b, rfl, rfl, fun x => x, fun _ => rfl, fun e => by simp at e⟩

/-! ## The slots that the loop makes -/

theorem arrayGet_of_lt (a : List JSVal) (k : Nat) (h : k < a.length) :
    a[k]? = some (arrayGet a k) := by
  unfold arrayGet
  rw [List.getD_eq_getElem?_getD, List.getElem?_eq_getElem h]
  rfl

theorem take_succ_arrayGet (a : List JSVal) (k : Nat) (h : k < a.length) :
    a.take (k + 1) = a.take k ++ [arrayGet a k] := by
  rw [List.take_succ, arrayGet_of_lt a k h]
  rfl

theorem idKeys_ne (ids : List JSVal) (hnd : (idKeys ids).Nodup) (j k : Nat)
    (hj : j < ids.length) (hk : k < ids.length) (hne : j ≠ k) :
    (arrayGet ids j).toJSString ≠ (arrayGet ids k).toJSString := by
  intro e
  have hj2 : j < (idKeys ids).length := by simpa [idKeys] using hj
  have hk2 : k < (idKeys ids).length := by simpa [idKeys] using hk
  have h1 : (idKeys ids)[j]? = some (arrayGet ids j).toJSString := by
    simp [idKeys, arrayGet_of_lt ids j hj]
  have h2 : (idKeys ids)[k]? = some (arrayGet ids k).toJSString := by
    simp [idKeys, arrayGet_of_lt ids k hk]
  rw [List.getElem?_eq_getElem hj2] at h1
  rw [List.getElem?_eq_getElem hk2] at h2
  injection h1 with h1
  injection h2 with h2
  exact hne ((List.Nodup.getElem_inj_iff hnd).mp (h1.trans (e.trans h2.symm)))

theorem key_not_mem_take (ids : List JSVal) (hnd : (idKeys ids).Nodup) (k : Nat)
    (hk : k < ids.length) :
    (arrayGet ids k).toJSString ∉ idKeys (ids.take k) := by
  intro hmem
  unfold idKeys at hmem
  obtain ⟨x, hx, hxe⟩ := List.mem_map.mp hmem
  obtain ⟨j, hj, hjx⟩ := List.getElem_of_mem hx
  simp only [List.length_take, lt_min_iff] at hj
  rw [List.getElem_take] at hjx
  have h1 : ids[j]? = some (arrayGet ids j) := arrayGet_of_lt ids j hj.2
  rw [List.getElem?_eq_getElem hj.2] at h1
  injection h1 with h1
  apply idKeys_ne ids hnd j k hj.2 hk (Nat.ne_of_lt hj.1)
  rw [← h1, hjx, hxe]

theorem valueInputs_append_dummies (inputs l : List Input)
    (h : ∀ i ∈ l, i.type = InputType.dummy ∧ i.target = none) :
    valueInputs (inputs ++ l) = valueInputs inputs := by
  unfold valueInputs
  rw [List.filter_append]
  have : l.filter (fun input => decide (input.type = InputType.value)) = [] := by
    apply List.filter_eq_nil_iff.mpr
    intro i hi
    simp [(h i hi).1]
  rw [this, List.append_nil]

theorem getElem?_append_some {α : Type} (l l2 : List α) (i : Nat) (x : α)
    (h : l[i]? = some x) : (l ++ l2)[i]? = some x := by
  have hlt : i < l.length := by
    by_contra hge
    rw [List.getElem?_eq_none (Nat.le_of_not_lt hge)] at h
    simp at h
  rw [List.getElem?_append_left hlt, h]

theorem slotsMade_label (w0 : ProcBlock) (ts : List ParamType) (w : ProcBlock)
    (text : JSString) (h : slotsMade w0 ts w) : slotsMade w0 ts (addLabel_ text w) := by
  obtain ⟨hk, hn, pm, hpm, hkeys, hslots⟩ := h
  obtain ⟨l, hl, hdum, -, hp⟩ := addLabel__shape text w
  refine ⟨by rw [kept_addLabel_, hk], ?_, pm, by rw [hp, hpm], hkeys, ?_⟩
  · rw [hl, valueInputs_append_dummies _ _ hdum, hn]
  · intro k t hkt
    obtain ⟨idx, sd, tg, hg, hi⟩ := hslots k t hkt
    exact ⟨idx, sd, tg, hg, by rw [hl]; exact getElem?_append_some _ _ _ _ hi⟩

theorem slotsMade_param (w0 : ProcBlock) (hnd : (idKeys w0.argumentIds_).Nodup)
    (ts : List ParamType) (cm : Option ConnectionMap) (w : ProcBlock) (t : ParamType)
    (hlen : ts.length < w0.argumentIds_.length) (h : slotsMade w0 ts w) :
    slotsMade w0 (ts ++ [t]) (slotMade (typeCode t) ts.length cm w).2 := by
  obtain ⟨hk, hn, pm, hpm, hkeys, hslots⟩ := h
  have hids : w.argumentIds_ = w0.argumentIds_ := by
    have := congrArg (fun x => x.2.2.1) hk
    exact this
  obtain ⟨hp, hk2, hc⟩ := slotMade_cases (typeCode t) ts.length cm w
  have hin : ∃ sd tg, (slotMade (typeCode t) ts.length cm w).2.inputList = w.inputList ++
      [slotInput (arrayGet w0.argumentIds_ ts.length) (typeCode t) sd tg] := by
    rw [← hids]
    rcases hc with ⟨c, -, -, hi, -⟩ | ⟨-, -, -, hi, -⟩ | ⟨-, -, -, hi, -⟩
    · exact ⟨_, _, hi⟩
    · exact ⟨_, _, hi⟩
    · exact ⟨_, _, hi⟩
  obtain ⟨sd, tg, hi⟩ := hin
  have hnotin : (arrayGet w0.argumentIds_ ts.length).toJSString ∉ pm.map Prod.fst := by
    rw [hkeys]
    exact key_not_mem_take _ hnd _ hlen
  refine ⟨by rw [hk2, hk], ?_, PropMap.set pm (arrayGet w0.argumentIds_ ts.length).toJSString
    w.inputList.length, by rw [hp, hpm, hids]; rfl, ?_, ?_⟩
  · rw [hi]
    unfold valueInputs at hn ⊢
    rw [List.filter_append, List.map_append, hn]
    simp [slotInput, take_succ_arrayGet _ _ hlen]
  · rw [PropMap.keys_set, if_neg hnotin, hkeys]
    simp [idKeys, take_succ_arrayGet _ _ hlen]
  · intro k t2 hkt
    by_cases hkl : k < ts.length
    · rw [List.getElem?_append_left hkl] at hkt
      obtain ⟨idx, sd2, tg2, hg, hi2⟩ := hslots k t2 hkt
      refine ⟨idx, sd2, tg2, ?_, by rw [hi]; exact getElem?_append_some _ _ _ _ hi2⟩
      rw [PropMap.get_set_ne _ _ _ _
        (idKeys_ne _ hnd k ts.length (Nat.lt_trans hkl hlen) hlen (Nat.ne_of_lt hkl))]
      exact hg
    · have hke : k = ts.length := by
        have hlt : k < (ts ++ [t]).length := by
          by_contra hge
          rw [List.getElem?_eq_none (Nat.le_of_not_lt hge)] at hkt
          simp at hkt
        simp only [List.length_append, List.length_singleton] at hlt
        omega
      subst hke
      have ht : t2 = t := by
        rw [List.getElem?_append_right (Nat.le_refl _)] at hkt
        simpa using hkt.symm
      subst ht
      refine ⟨w.inputList.length, sd, tg, PropMap.get_set_self _ _ _, ?_⟩
      rw [hi]
      simp

/-! ## The content of the slots -/

theorem framed_refl (ws : List ContentBlock) : framed ws ws :=
  fun _ b0 h => ⟨b0, h, rfl⟩

theorem framed_length (ws0 ws : List ContentBlock) (h : framed ws0 ws) :
    ws0.length ≤ ws.length := by
  by_contra hlt
  have hlt2 : ws.length < ws0.length := Nat.lt_of_not_le hlt
  obtain ⟨b, hb, -⟩ := h ws.length _ (List.getElem?_eq_getElem hlt2)
  rw [List.getElem?_eq_none (Nat.le_refl _)] at hb
  simp at hb

theorem getElem?_of_lt {α : Type} (l : List α) (c : Nat) (h : c < l.length) :
    ∃ x, l[c]? = some x := ⟨_, List.getElem?_eq_getElem h⟩

theorem lt_of_getElem? {α : Type} (l : List α) (c : Nat) (x : α) (h : l[c]? = some x) :
    c < l.length := by
  by_contra hge
  rw [List.getElem?_eq_none (Nat.le_of_not_lt hge)] at h
  simp at h

theorem framed_slotMade (ws0 : List ContentBlock) (t : JSString) (n : Nat)
    (cm : Option ConnectionMap) (w : ProcBlock) (h : framed ws0 w.workspace) :
    framed ws0 (slotMade t n cm w).2.workspace := by
  intro c b0 hc
  obtain ⟨b, hb, hf⟩ := h c b0 hc
  obtain ⟨b2, hb2, hf2, -⟩ := slotMade_workspace t n cm w c b hb
  exact ⟨b2, hb2, hf2.trans hf⟩

theorem checkOldTypeMatches__framed (w0 w : ProcBlock) (c : Nat) (t : JSString)
    (hf : framed w0.workspace w.workspace) (hc : c < w0.workspace.length) :
    checkOldTypeMatches_ w (some c) t = checkOldTypeMatches_ w0 (some c) t := by
  obtain ⟨b0, hb0⟩ := getElem?_of_lt _ c hc
  obtain ⟨b, hb, hfl⟩ := hf c b0 hb0
  have hty : b.type = b0.type := congrArg (fun x => x.1) hfl
  unfold checkOldTypeMatches_
  simp only [hb, hb0, hty]

theorem oldBlockOf_set_ne (cm : Option ConnectionMap) (id id2 : JSVal)
    (hne : id2.toJSString ≠ id.toJSString) :
    oldBlockOf (cm.map fun m => PropMap.set m id.toJSString none) id2 = oldBlockOf cm id2 := by
  cases cm with
  | none => rfl
  | some m =>
    simp only [Option.map_some']
    cases hg : PropMap.get m id2.toJSString with
    | none =>
      rw [oldBlockOf_of_get_none _ _ hg, oldBlockOf_of_get_none]
      rw [PropMap.get_set_ne _ _ _ _ hne, hg]
    | some v =>
      rw [oldBlockOf_of_get _ _ v hg, oldBlockOf_of_get _ _ v]
      rw [PropMap.get_set_ne _ _ _ _ hne, hg]

theorem slotContent_stable (w0 : ProcBlock) (cm0 : Option ConnectionMap) (k : Nat)
    (t : ParamType) (sd : Option ShadowDom) (tg : Option Nat) (w w2 : ProcBlock)
    (hst : ∀ (c : Nat) b, w.workspace[c]? = some b → ∃ b2, w2.workspace[c]? = some b2 ∧
      (b.connected = true → b2.connected = true) ∧ (w0.workspace.length ≤ c → b2 = b))
    (h : slotContent w0 cm0 k t sd tg w) : slotContent w0 cm0 k t sd tg w2 := by
  unfold slotContent at h ⊢
  cases hr : reattachedBlock (typeCode t) k cm0 w0 with
  | some c =>
    rw [hr] at h
    obtain ⟨h1, h2, b, hb, hcon⟩ := h
    obtain ⟨b2, hb2, hc2, -⟩ := hst c b hb
    exact ⟨h1, h2, b2, hb2, hc2 hcon⟩
  | none =>
    rw [hr] at h
    simp only at h ⊢
    by_cases hl : leftEmpty (typeCode t) w0 = true
    · rw [if_pos hl] at h ⊢
      exact h
    · rw [if_neg hl] at h ⊢
      obtain ⟨nb, h1, h2, h3, h4⟩ := h
      obtain ⟨b2, hb2, -, he⟩ := hst nb _ h4
      exact ⟨nb, h1, h2, h3, by rw [hb2, he h2]⟩

theorem slotInput_inj (id : JSVal) (t : JSString) (sd sd2 : Option ShadowDom)
    (tg tg2 : Option Nat) (h : slotInput id t sd tg = slotInput id t sd2 tg2) :
    sd = sd2 ∧ tg = tg2 := by
  unfold slotInput at h
  injection h with _ _ _ _ h5 h6
  exact ⟨h5, h6⟩

theorem slotsFilled_label (w0 : ProcBlock) (cm0 : Option ConnectionMap)
    (ts : List ParamType) (cm : Option ConnectionMap) (w : ProcBlock) (text : JSString)
    (hm : slotsMade w0 ts w) (h : slotsFilled w0 cm0 ts cm w) :
    slotsFilled w0 cm0 ts cm (addLabel_ text w) := by
  obtain ⟨hf, hr, ho, hs⟩ := h
  obtain ⟨-, -, pm, hpm, -, hslots⟩ := hm
  obtain ⟨l, hl, -, hws, hp⟩ := addLabel__shape text w
  refine ⟨by rw [hws]; exact hf, hr, ho, ?_⟩
  intro k t pm2 idx sd tg hkt hpm2 hg hi
  rw [hp, hpm] at hpm2
  injection hpm2 with hpm2
  subst hpm2
  obtain ⟨idx2, sd2, tg2, hg2, hi2⟩ := hslots k t hkt
  rw [hg] at hg2
  injection hg2 with hg2
  subst hg2
  have hi3 := getElem?_append_some _ l _ _ hi2
  rw [← hl, hi] at hi3
  injection hi3 with hi3
  obtain ⟨e1, e2⟩ := slotInput_inj _ _ _ _ _ _ hi3
  subst e1
  subst e2
  apply slotContent_stable w0 cm0 k t sd tg w _ _ (hs k t pm idx sd tg hkt hpm hg hi2)
  intro c b hb
  exact ⟨b, by rw [hws]; exact hb, fun x => x, fun _ => rfl⟩

theorem PropMap.mem_set {α : Type} (m : PropMap α) (key : JSString) (v : α)
    (e : JSString × α) (h : e ∈ PropMap.set m key v) : e ∈ m ∨ e = (key, v) := by
  induction m with
  | nil =>
    simp only [PropMap.set, List.mem_singleton] at h
    exact Or.inr h
  | cons kv rest ih =>
    obtain ⟨k, x⟩ := kv
    unfold PropMap.set at h
    by_cases hk : k = key
    · rw [if_pos hk] at h
      rcases List.mem_cons.mp h with h1 | h1
      · exact Or.inr (by rw [h1, hk])
      · exact Or.inl (List.mem_cons_of_mem _ h1)
    · rw [if_neg hk] at h
      rcases List.mem_cons.mp h with h1 | h1
      · exact Or.inl (by rw [h1]; exact List.mem_cons_self _ _)
      · rcases ih h1 with h2 | h2
        · exact Or.inl (List.mem_cons_of_mem _ h2)
        · exact Or.inr h2

theorem salvageInRange_old (cm0 : Option ConnectionMap) (w0 : ProcBlock) (id : JSVal)
    (c : Nat) (hval : salvageInRange cm0 w0) (h : oldBlockOf cm0 id = some c) :
    c < w0.workspace.length := by
  obtain ⟨m, hm, hg⟩ := oldBlockOf_some cm0 id c h
  exact hval m hm _ (PropMap.mem_of_get_eq_some m _ _ hg) c rfl

theorem salvageInRange_set (cm : Option ConnectionMap) (w0 : ProcBlock) (key : JSString)
    (h : salvageInRange cm w0) :
    salvageInRange (cm.map fun m => PropMap.set m key none) w0 := by
  intro m hm e he c hc
  cases cm with
  | none => simp at hm
  | some m0 =>
    simp only [Option.map_some', Option.some.injEq] at hm
    subst hm
    rcases PropMap.mem_set m0 key none e he with h1 | h1
    · exact h m0 rfl e h1 c hc
    · rw [h1] at hc
      simp at hc

theorem reattachedBlock_framed (w0 : ProcBlock) (cm0 cm : Option ConnectionMap)
    (w : ProcBlock) (t : JSString) (k : Nat) (hk : kept w = kept w0)
    (hf : framed w0.workspace w.workspace) (hval : salvageInRange cm0 w0)
    (ho : oldBlockOf cm (arrayGet w0.argumentIds_ k) =
      oldBlockOf cm0 (arrayGet w0.argumentIds_ k)) :
    reattachedBlock t k cm w = reattachedBlock t k cm0 w0 := by
  have hv : w.variant = w0.variant := congrArg (fun x => x.1) hk
  have hids : w.argumentIds_ = w0.argumentIds_ := congrArg (fun x => x.2.2.1) hk
  unfold reattachedBlock
  rw [hv, hids, ho]
  cases hold : oldBlockOf cm0 (arrayGet w0.argumentIds_ k) with
  | none =>
    have h1 : ∀ w2 : ProcBlock, checkOldTypeMatches_ w2 none t = false := fun _ => rfl
    rw [h1, h1]
  | some c =>
    rw [checkOldTypeMatches__framed w0 w c t hf (salvageInRange_old _ _ _ c hval hold)]

theorem slotsFilled_param (w0 : ProcBlock) (cm0 : Option ConnectionMap)
    (hnd : (idKeys w0.argumentIds_).Nodup) (hval : salvageInRange cm0 w0)
    (ts : List ParamType) (cm : Option ConnectionMap) (w : ProcBlock) (t : ParamType)
    (hlen : ts.length < w0.argumentIds_.length) (hm : slotsMade w0 ts w)
    (h : slotsFilled w0 cm0 ts cm w) :
    slotsFilled w0 cm0 (ts ++ [t]) (slotMade (typeCode t) ts.length cm w).1
      (slotMade (typeCode t) ts.length cm w).2 := by
  obtain ⟨hf, hcmr, ho, hs⟩ := h
  obtain ⟨hk, -, pm, hpm, -, hslots⟩ := hm
  have hv : w.variant = w0.variant := congrArg (fun x => x.1) hk
  have hids : w.argumentIds_ = w0.argumentIds_ := congrArg (fun x => x.2.2.1) hk
  have hnames : w.displayNames_ = w0.displayNames_ := congrArg (fun x => x.2.2.2.1) hk
  have hmark : w.insertionMarker = w0.insertionMarker :=
    congrArg (fun x => x.2.2.2.2.2.2.2) hk
  have hrb := reattachedBlock_framed w0 cm0 cm w (typeCode t) ts.length hk hf hval
    (ho ts.length (Nat.le_refl _) hlen)
  have hle : leftEmpty (typeCode t) w = leftEmpty (typeCode t) w0 := by
    unfold leftEmpty
    rw [hv]
  have hsdw : slotShadowDom (typeCode t) w = slotShadowDom (typeCode t) w0 := by
    unfold slotShadowDom
    rw [hv]
  obtain ⟨hp, -, hc⟩ := slotMade_cases (typeCode t) ts.length cm w
  rw [hids] at hp hc
  rw [hrb, hle, hsdw, hv, hnames, hmark] at hc
  have hrange : ∀ c, reattachedBlock (typeCode t) ts.length cm0 w0 = some c →
      c < w0.workspace.length := by
    intro c hc2
    exact salvageInRange_old _ _ _ c hval (reattachedBlock_old _ _ _ _ c hc2)
  have hstable : ∀ (c : Nat) b, w.workspace[c]? = some b →
      ∃ b2, (slotMade (typeCode t) ts.length cm w).2.workspace[c]? = some b2 ∧
        (b.connected = true → b2.connected = true) ∧ (w0.workspace.length ≤ c → b2 = b) := by
    intro c b hb
    obtain ⟨b2, hb2, -, hcon, hsame, -⟩ := slotMade_workspace (typeCode t) ts.length cm w c b hb
    refine ⟨b2, hb2, hcon, fun hge => hsame ?_⟩
    rw [hrb]
    intro e
    exact absurd (hrange c e) (Nat.not_lt.mpr hge)
  refine ⟨framed_slotMade _ _ _ _ _ hf, ?_, ?_, ?_⟩
  · rcases hc with ⟨c, -, h1, -⟩ | ⟨-, -, h1, -⟩ | ⟨-, -, h1, -⟩
    · rw [h1]
      exact salvageInRange_set _ _ _ hcmr
    · rw [h1]
      exact hcmr
    · rw [h1]
      exact hcmr
  · intro k hk1 hk2
    simp only [List.length_append, List.length_singleton] at hk1
    have hcm : (slotMade (typeCode t) ts.length cm w).1 = cm ∨
        (slotMade (typeCode t) ts.length cm w).1 = cm.map
          (fun m => PropMap.set m (arrayGet w0.argumentIds_ ts.length).toJSString none) := by
      rcases hc with ⟨c, -, h1, -⟩ | ⟨-, -, h1, -⟩ | ⟨-, -, h1, -⟩
      · exact Or.inr h1
      · exact Or.inl h1
      · exact Or.inl h1
    rcases hcm with h1 | h1
    · rw [h1]
      exact ho k (by omega) hk2
    · rw [h1, oldBlockOf_set_ne _ _ _
        (idKeys_ne _ hnd k ts.length hk2 hlen (by omega))]
      exact ho k (by omega) hk2
  · intro k t2 pm2 idx sd tg hkt hpm2 hg hi
    rw [hp, hpm] at hpm2
    simp only [Option.map_some', Option.some.injEq] at hpm2
    subst hpm2
    have hin : ∃ sdN tgN, (slotMade (typeCode t) ts.length cm w).2.inputList = w.inputList ++
        [slotInput (arrayGet w0.argumentIds_ ts.length) (typeCode t) sdN tgN] := by
      rcases hc with ⟨c, -, -, h1, -⟩ | ⟨-, -, -, h1, -⟩ | ⟨-, -, -, h1, -⟩
      · exact ⟨_, _, h1⟩
      · exact ⟨_, _, h1⟩
      · exact ⟨_, _, h1⟩
    obtain ⟨sdN, tgN, hinl⟩ := hin
    by_cases hkl : k < ts.length
    · rw [List.getElem?_append_left hkl] at hkt
      rw [PropMap.get_set_ne _ _ _ _
        (idKeys_ne _ hnd k ts.length (Nat.lt_trans hkl hlen) hlen (Nat.ne_of_lt hkl))] at hg
      obtain ⟨idx2, sd2, tg2, hg2, hi2⟩ := hslots k t2 hkt
      rw [hg] at hg2
      injection hg2 with hg2
      subst hg2
      have hi3 := getElem?_append_some _
        [slotInput (arrayGet w0.argumentIds_ ts.length) (typeCode t) sdN tgN] _ _ hi2
      rw [← hinl, hi] at hi3
      injection hi3 with hi3
      obtain ⟨e1, e2⟩ := slotInput_inj _ _ _ _ _ _ hi3
      subst e1
      subst e2
      exact slotContent_stable w0 cm0 k t2 sd tg w _ hstable
        (hs k t2 pm idx sd tg hkt hpm hg hi2)
    · have hke : k = ts.length := by
        have hlt := lt_of_getElem? _ _ _ hkt
        simp only [List.length_append, List.length_singleton] at hlt
        omega
      subst hke
      have ht : t2 = t := by
        rw [List.getElem?_append_right (Nat.le_refl _)] at hkt
        simpa using hkt.symm
      subst ht
      rw [PropMap.get_set_self] at hg
      injection hg with hg
      subst hg
      unfold slotContent
      rcases hc with ⟨c, hr, -, h1, hws⟩ | ⟨hr, hl, -, h1, hws⟩ | ⟨hr, hl, -, h1, hws⟩
      · rw [h1] at hi
        simp only [List.getElem?_concat_length, Option.some.injEq] at hi
        obtain ⟨e1, e2⟩ := slotInput_inj _ _ _ _ _ _ hi
        rw [hr]
        obtain ⟨b0, hb0⟩ := getElem?_of_lt _ c (hrange c hr)
        obtain ⟨b, hb, -⟩ := hf c b0 hb0
        obtain ⟨b2, hb2, -, -, -, hcon⟩ :=
          slotMade_workspace (typeCode t2) ts.length cm w c b hb
        exact ⟨e2.symm, e1.symm, b2, hb2, hcon (hrb.trans hr)⟩
      · rw [h1] at hi
        simp only [List.getElem?_concat_length, Option.some.injEq] at hi
        obtain ⟨e1, e2⟩ := slotInput_inj _ _ _ _ _ _ hi
        rw [hr]
        simp only [hl, if_true]
        exact ⟨e2.symm, e1.symm⟩
      · rw [h1] at hi
        simp only [List.getElem?_concat_length, Option.some.injEq] at hi
        obtain ⟨e1, e2⟩ := slotInput_inj _ _ _ _ _ _ hi
        rw [hr]
        simp only [hl, Bool.false_eq_true, if_false]
        refine ⟨w.workspace.length, e2.symm, framed_length _ _ hf, e1.symm, ?_⟩
        rw [hws]
        simp

/-! ## The slots after `createAllInputs_` and after `updateDisplay_` -/

theorem slotInv_loop (w0 : ProcBlock) (cm0 : Option ConnectionMap)
    (hnd : (idKeys w0.argumentIds_).Nodup) (hpm : w0.paramMap_ = some [])
    (comps : List JSString) (segs : List Segment)
    (hd : decodeLoop comps = Except.ok segs) :
    ∃ cm2 w2, createAllInputsLoop comps 0 cm0 w0 = Outcome.ok cm2 w2 ∧
      slotInv w0 cm0 (paramTypes segs) cm2 w2 := by
  have h := createAllInputsLoop_invariant (slotInv w0 cm0) ?_ ?_ comps [] cm0 w0 segs hd ?_
  · simpa using h
  · intro ts cm w text hinv hlen
    obtain ⟨h1, h2⟩ := hinv hlen
    exact ⟨slotsMade_label w0 ts w text h1,
      fun hval => slotsFilled_label w0 cm0 ts cm w text h1 (h2 hval)⟩
  · intro ts cm w t hinv hlen
    simp only [List.length_append, List.length_singleton] at hlen
    obtain ⟨h1, h2⟩ := hinv (by omega)
    exact ⟨slotsMade_param w0 hnd ts cm w t (by omega) h1,
      fun hval => slotsFilled_param w0 cm0 hnd hval ts cm w t (by omega) h1 (h2 hval)⟩
  · intro _
    refine ⟨⟨rfl, by simp, [], hpm, by simp [idKeys], ?_⟩,
      fun hval => ⟨framed_refl _, hval, ?_, ?_⟩⟩
    · intro k t hkt
      simp at hkt
    · intro k _ _
      rfl
    · intro k t pm idx sd tg hkt
      simp at hkt

theorem slotInv_createAllInputs_ (cm0 : Option ConnectionMap) (w : ProcBlock)
    (segs : List Segment) (hnd : (idKeys w.argumentIds_).Nodup)
    (hd : decode w.procCode_ = Except.ok segs) :
    ∃ cm2 w2, createAllInputs_ cm0 w = Outcome.ok cm2 w2 ∧
      slotInv { w with paramMap_ := some [] } cm0 (paramTypes segs) cm2 w2 := by
  unfold createAllInputs_
  exact slotInv_loop { w with paramMap_ := some [] } cm0 hnd rfl _ segs hd

/-- When `createAllInputs_` returns, `updateDisplay_` returns: the state it
leaves has the inputs and the `paramMap_` that `createAllInputs_` left, and
its blocks are those that `createAllInputs_` left, swept. -/
theorem updateDisplay__of_createAllInputs_ (w : ProcBlock) (cm3 : Option ConnectionMap)
    (w3 : ProcBlock)
    (h : createAllInputs_ (detachPhase w).1 (detachPhase w).2 = Outcome.ok cm3 w3) :
    ∃ w2, updateDisplay_ w = Outcome.ok () w2 ∧ w2.inputList = w3.inputList ∧
      w2.paramMap_ = w3.paramMap_ ∧
      ∀ c : Nat, w2.workspace[c]? = (w3.workspace[c]?).map (sweepBlock (cm3.getD []) c) := by
  rw [updateDisplay__eq, h]
  simp only
  split
  · exact ⟨_, rfl, (deleteShadows__inputList cm3 w3).1, (deleteShadows__inputList cm3 w3).2,
      fun c => deleteShadows__workspace cm3 w3 c⟩
  · exact ⟨_, rfl, (deleteShadows__inputList cm3 w3).1, (deleteShadows__inputList cm3 w3).2,
      fun c => deleteShadows__workspace cm3 w3 c⟩

theorem detachPhase_inputList (w : ProcBlock) (h : freshHasNoInputs w) :
    (detachPhase w).2.inputList = [] := by
  unfold detachPhase
  cases hp : w.paramMap_ with
  | none => exact h hp
  | some pm => rfl

theorem detachPhase_fields (w : ProcBlock) :
    (detachPhase w).2.argumentIds_ = w.argumentIds_ ∧
      (detachPhase w).2.procCode_ = w.procCode_ ∧
      (detachPhase w).2.variant = w.variant ∧
      (detachPhase w).2.displayNames_ = w.displayNames_ ∧
      (detachPhase w).2.insertionMarker = w.insertionMarker := by
  have h := kept_detachPhase w
  exact ⟨congrArg (fun x => x.2.2.1) h, congrArg (fun x => x.2.1) h,
    congrArg (fun x => x.1) h, congrArg (fun x => x.2.2.2.1) h,
    congrArg (fun x => x.2.2.2.2.2.2.2) h⟩

/-! ## C11: slots and argument ids after a reconciliation -/

/-- C11: on each of the three blocks, when the proc-code decodes, the
argument ids are pairwise different as property keys and there are as many
ids as the signature has parameters, `updateDisplay_` returns and leaves the
slots and the ids in one-to-one correspondence: the value inputs are named by
the ids, in order, so each id names exactly one of them and no other value
input is left; the keys of `paramMap_` are exactly the ids; and `paramMap_`
maps each id to the value input that it names. A block that has never been
reconciled has no inputs (`init` makes none), which is the first
hypothesis. -/
theorem C11_slots_match_ids (w : ProcBlock) (segs : List Segment)
    (hfresh : freshHasNoInputs w) (hd : decode w.procCode_ = Except.ok segs)
    (hlen : w.argumentIds_.length = (paramTypes segs).length)
    (hnd : (idKeys w.argumentIds_).Nodup) :
    ∃ w2, updateDisplay_ w = Outcome.ok () w2 ∧
      (valueInputs w2.inputList).map Input.name = w.argumentIds_ ∧
      (∀ id ∈ w.argumentIds_, ((valueInputs w2.inputList).map Input.name).count id = 1) ∧
      ∃ pm, w2.paramMap_ = some pm ∧ pm.map Prod.fst = idKeys w.argumentIds_ ∧
        ∀ (k : Nat) (id : JSVal), w.argumentIds_[k]? = some id →
          ∃ idx input, PropMap.get pm id.toJSString = some idx ∧
            w2.inputList[idx]? = some input ∧ input.type = InputType.value ∧
            input.name = id := by
  obtain ⟨hids, hcode, -⟩ := detachPhase_fields w
  obtain ⟨cm3, w3, hc, hinv⟩ := slotInv_createAllInputs_ (detachPhase w).1 (detachPhase w).2
    segs (by rw [hids]; exact hnd) (by rw [hcode]; exact hd)
  obtain ⟨w2, hu, hi, hp, -⟩ := updateDisplay__of_createAllInputs_ w cm3 w3 hc
  obtain ⟨⟨-, hn, pm, hpm, hkeys, hslots⟩, -⟩ := hinv (by
    show (paramTypes segs).length ≤ (detachPhase w).2.argumentIds_.length
    rw [hids, hlen])
  have hids2 : ({ (detachPhase w).2 with paramMap_ := some [] } : ProcBlock).argumentIds_ =
      w.argumentIds_ := hids
  have hin0 : ({ (detachPhase w).2 with paramMap_ := some [] } : ProcBlock).inputList = [] :=
    detachPhase_inputList w hfresh
  rw [hids2] at hn hkeys hslots
  rw [hin0, ← hlen, List.take_length] at hn
  rw [← hlen, List.take_length] at hkeys
  have hnames : (valueInputs w2.inputList).map Input.name = w.argumentIds_ := by
    rw [hi, hn]
    rfl
  refine ⟨w2, hu, hnames, ?_, pm, by rw [hp, hpm], hkeys, ?_⟩
  · intro id hid
    rw [hnames]
    exact List.count_eq_one_of_mem (List.Nodup.of_map _ hnd) hid
  · intro k id hk
    have hklt : k < w.argumentIds_.length := lt_of_getElem? _ _ _ hk
    have hkt : k < (paramTypes segs).length := by rw [← hlen]; exact hklt
    obtain ⟨t, ht⟩ := getElem?_of_lt _ k hkt
    obtain ⟨idx, sd, tg, hg, hin⟩ := hslots k t ht
    have hide : arrayGet w.argumentIds_ k = id := by
      have := arrayGet_of_lt _ k hklt
      rw [hk] at this
      injection this with this
      exact this.symm
    rw [hide] at hg hin
    exact ⟨idx, _, hg, by rw [hi]; exact hin, rfl, rfl⟩

/-- C11 at the reconciled caller of `move %n steps` with its one id. -/
theorem C11_slots_match_ids_witness :
    ∃ w2, updateDisplay_ reconciledCaller = Outcome.ok () w2 ∧
      (valueInputs w2.inputList).map Input.name = reconciledCaller.argumentIds_ ∧
      (∀ id ∈ reconciledCaller.argumentIds_,
        ((valueInputs w2.inputList).map Input.name).count id = 1) ∧
      ∃ pm, w2.paramMap_ = some pm ∧ pm.map Prod.fst = idKeys reconciledCaller.argumentIds_ ∧
        ∀ (k : Nat) (id : JSVal), reconciledCaller.argumentIds_[k]? = some id →
          ∃ idx input, PropMap.get pm id.toJSString = some idx ∧
            w2.inputList[idx]? = some input ∧ input.type = InputType.value ∧
            input.name = id :=
  C11_slots_match_ids reconciledCaller
    [Segment.label (utf16 "move"), Segment.param ParamType.n, Segment.label (utf16 "steps")]
    (by unfold freshHasNoInputs; decide) rfl (by decide) (by decide)

/-! ## The salvage map of the detach phase -/

theorem keys_filterMap_salvageEntry (inputs : List Input) (pm : PropMap Nat) :
    ((pm.filterMap (salvageEntry inputs)).map Prod.fst).Sublist (pm.map Prod.fst) := by
  induction pm with
  | nil => simp
  | cons e rest ih =>
    rw [List.filterMap_cons]
    cases hs : salvageEntry inputs e with
    | none =>
      simp only [List.map_cons]
      exact List.Sublist.cons _ ih
    | some x =>
      have hx : x.1 = e.1 := by
        unfold salvageEntry at hs
        split at hs
        · split at hs
          · injection hs with hs
            rw [← hs]
          · simp at hs
        · simp at hs
      simp only [List.map_cons, hx]
      exact List.Sublist.cons₂ _ ih

theorem detachPhase_some (w : ProcBlock) (pm : PropMap Nat) (hpm : w.paramMap_ = some pm) :
    detachPhase w =
      (some (disconnectOldBlocksLoop pm [] { w with rendered := false }).1,
        removeAllInputs_ (disconnectOldBlocksLoop pm [] { w with rendered := false }).2) := by
  have hg : ({ w with rendered := false } : ProcBlock).paramMap_.getD [] = pm := by
    show w.paramMap_.getD [] = pm
    rw [hpm]
    rfl
  unfold detachPhase
  split
  · unfold disconnectOldBlocks_
    rw [hg]
  · rename_i hx
    rw [hpm] at hx
    simp at hx

theorem detachPhase_map (w : ProcBlock) (pm : PropMap Nat) (hpm : w.paramMap_ = some pm)
    (ht : trackedOnce w) :
    (detachPhase w).1 = some (pm.filterMap (salvageEntry w.inputList)) := by
  unfold trackedOnce at ht
  rw [hpm] at ht
  rw [detachPhase_some w pm hpm]
  have h := disconnectOldBlocksLoop_map pm [] { w with rendered := false } ht.1 ht.2
    (fun _ _ => by simp)
  simp only [List.nil_append] at h
  simp only [h]

theorem detachPhase_none (w : ProcBlock) (hpm : w.paramMap_ = none) :
    detachPhase w = (none, { w with rendered := false }) := by
  unfold detachPhase
  split
  · rename_i x hx
    rw [hpm] at hx
    simp at hx
  · rfl

/-- The block that the create phase finds under an id is the block that was
attached under it. -/
theorem oldBlockOf_detachPhase (w : ProcBlock) (ht : trackedOnce w) (id : JSVal) :
    oldBlockOf (detachPhase w).1 id = attachedUnder w id.toJSString := by
  cases hpm : w.paramMap_ with
  | none =>
    rw [detachPhase_none w hpm]
    unfold attachedUnder
    rw [hpm]
    rfl
  | some pm =>
    rw [detachPhase_map w pm hpm ht]
    have hnd : (pm.map Prod.fst).Nodup := by
      have := ht.1
      rw [hpm] at this
      exact this
    have hnd2 : ((pm.filterMap (salvageEntry w.inputList)).map Prod.fst).Nodup :=
      List.Nodup.sublist (keys_filterMap_salvageEntry _ _) hnd
    unfold attachedUnder
    rw [hpm]
    simp only
    have hnone : ∀ idx, PropMap.get pm id.toJSString = some idx →
        salvageEntry w.inputList (id.toJSString, idx) = none →
        oldBlockOf (some (pm.filterMap (salvageEntry w.inputList))) id = none := by
      intro idx hg hs
      apply oldBlockOf_of_get_none
      apply PropMap.get_eq_none_of_not_mem
      intro hmem
      obtain ⟨x, hx, hxk⟩ := List.mem_map.mp hmem
      obtain ⟨e, he, hes⟩ := List.mem_filterMap.mp hx
      have hek : e.1 = id.toJSString := by
        unfold salvageEntry at hes
        split at hes
        · split at hes
          · injection hes with hes
            rw [← hxk, ← hes]
          · simp at hes
        · simp at hes
      have hmem2 : (id.toJSString, e.2) ∈ pm := by
        rw [← hek]
        exact he
      have hg2 := PropMap.get_eq_some_of_mem pm _ _ hnd hmem2
      rw [hg] at hg2
      injection hg2 with hg2
      have : e = (id.toJSString, idx) := by
        rw [hg2, ← hek]
      rw [this, hs] at hes
      simp at hes
    cases hg : PropMap.get pm id.toJSString with
    | none =>
      simp only
      apply oldBlockOf_of_get_none
      apply PropMap.get_eq_none_of_not_mem
      intro hmem
      have hmem2 := (keys_filterMap_salvageEntry w.inputList pm).subset hmem
      obtain ⟨e, he, hek⟩ := List.mem_map.mp hmem2
      have := PropMap.get_eq_some_of_mem pm id.toJSString e.2 hnd (by rw [← hek]; exact he)
      rw [hg] at this
      simp at this
    | some idx =>
      simp only
      have hmem := PropMap.mem_of_get_eq_some pm _ _ hg
      cases hin : w.inputList[idx]? with
      | none =>
        simp only
        exact hnone idx hg (by simp [salvageEntry, hin])
      | some input =>
        simp only
        by_cases hd : input.type ≠ InputType.dummy
        · rw [if_pos hd]
          apply oldBlockOf_of_get
          apply PropMap.get_eq_some_of_mem _ _ _ hnd2
          apply List.mem_filterMap.mpr
          exact ⟨_, hmem, by simp [salvageEntry, hin, hd]⟩
        · rw [if_neg hd]
          have hd2 : input.type = InputType.dummy := by simpa using hd
          exact hnone idx hg (by simp [salvageEntry, hin, hd2])

theorem detachPhase_workspace (w : ProcBlock) :
    ∃ f : Nat → Bool, ∀ c, (detachPhase w).2.workspace[c]? =
      (w.workspace[c]?).map (detachBlock (f c)) := by
  cases hpm : w.paramMap_ with
  | none =>
    rw [detachPhase_none w hpm]
    refine ⟨fun _ => false, fun c => ?_⟩
    simp only
    cases w.workspace[c]? <;> simp [detachBlock]
  | some pm =>
    rw [detachPhase_some w pm hpm]
    exact disconnectOldBlocksLoop_workspace pm [] { w with rendered := false }

theorem detachPhase_length (w : ProcBlock) :
    (detachPhase w).2.workspace.length = w.workspace.length := by
  obtain ⟨f, hf⟩ := detachPhase_workspace w
  apply Nat.le_antisymm
  · by_contra hlt
    have hlt2 := Nat.lt_of_not_le hlt
    obtain ⟨x, hx⟩ := getElem?_of_lt _ _ hlt2
    rw [hf, List.getElem?_eq_none (Nat.le_refl _)] at hx
    simp at hx
  · by_contra hlt
    have hlt2 := Nat.lt_of_not_le hlt
    obtain ⟨x, hx⟩ := getElem?_of_lt _ _ hlt2
    have := hf (detachPhase w).2.workspace.length
    rw [hx, List.getElem?_eq_none (Nat.le_refl _)] at this
    simp at this

theorem salvageInRange_detachPhase (w : ProcBlock) (ht : trackedOnce w)
    (he : targetsExist w) :
    salvageInRange (detachPhase w).1 { (detachPhase w).2 with paramMap_ := some [] } := by
  intro m hm e hmem c hc
  show c < (detachPhase w).2.workspace.length
  rw [detachPhase_length]
  cases hpm : w.paramMap_ with
  | none =>
    rw [detachPhase_none w hpm] at hm
    simp at hm
  | some pm =>
    rw [detachPhase_map w pm hpm ht] at hm
    injection hm with hm
    subst hm
    obtain ⟨x, -, hxs⟩ := List.mem_filterMap.mp hmem
    unfold salvageEntry at hxs
    cases hin : w.inputList[x.2]? with
    | none => rw [hin] at hxs; simp at hxs
    | some input =>
      rw [hin] at hxs
      simp only at hxs
      split at hxs
      · injection hxs with hxs
        rw [← hxs] at hc
        exact he input (List.mem_iff_getElem?.mpr ⟨_, hin⟩) c hc
      · simp at hxs

/-! ## The slots after `updateDisplay_`, by the populate policy -/

theorem detachPhase_flags (w : ProcBlock) (c : Nat) (b : ContentBlock)
    (h : w.workspace[c]? = some b) :
    ∃ b0, (detachPhase w).2.workspace[c]? = some b0 ∧ blockFlags b0 = blockFlags b ∧
      b0.fields = b.fields := by
  obtain ⟨f, hf⟩ := detachPhase_workspace w
  refine ⟨detachBlock (f c) b, by rw [hf, h]; rfl, ?_, ?_⟩
  · unfold detachBlock
    split <;> rfl
  · unfold detachBlock
    split <;> rfl

theorem sweepBlock_of_not_shadow (entries : ConnectionMap) (c : Nat) (b : ContentBlock)
    (h : b.shadow = false) : sweepBlock entries c b = b := by
  unfold sweepBlock
  rw [if_neg]
  rw [h]
  simp

theorem sweepBlock_of_new (cm : Option ConnectionMap) (w0 : ProcBlock) (c : Nat)
    (b : ContentBlock) (hr : salvageInRange cm w0) (hc : w0.workspace.length ≤ c) :
    sweepBlock (cm.getD []) c b = b := by
  unfold sweepBlock
  rw [if_neg]
  intro h
  obtain ⟨e, he, hec⟩ := List.any_eq_true.mp h.2
  cases cm with
  | none => simp at he
  | some m =>
    have := hr m rfl e he c (by simpa using hec)
    omega

/-- The slots after `updateDisplay_`: when the proc-code decodes and the ids
of its parameters are pairwise different keys, `updateDisplay_` returns, and
`paramMap_` maps the id of each parameter to a value input with that name,
with the check of its type and with the content that the populate policy of
the block decides from what was attached under the id. The blocks of the
final state are those that `createAllInputs_` left, swept. -/
theorem updateDisplay__slots (w : ProcBlock) (segs : List Segment) (ht : trackedOnce w)
    (he : targetsExist w) (hd : decode w.procCode_ = Except.ok segs)
    (hlen : (paramTypes segs).length ≤ w.argumentIds_.length)
    (hnd : (idKeys w.argumentIds_).Nodup) :
    ∃ cm3 w3 w2 pm, updateDisplay_ w = Outcome.ok () w2 ∧ w2.inputList = w3.inputList ∧
      w2.paramMap_ = some pm ∧
      (∀ c : Nat, w2.workspace[c]? = (w3.workspace[c]?).map (sweepBlock (cm3.getD []) c)) ∧
      salvageInRange cm3 { (detachPhase w).2 with paramMap_ := some [] } ∧
      framed (detachPhase w).2.workspace w3.workspace ∧
      ∀ k t, (paramTypes segs)[k]? = some t →
        ∃ idx sd tg,
          PropMap.get pm (arrayGet w.argumentIds_ k).toJSString = some idx ∧
          w2.inputList[idx]? =
            some (slotInput (arrayGet w.argumentIds_ k) (typeCode t) sd tg) ∧
          slotContent { (detachPhase w).2 with paramMap_ := some [] } (detachPhase w).1
            k t sd tg w3 := by
  obtain ⟨hids, hcode, -⟩ := detachPhase_fields w
  obtain ⟨cm3, w3, hc, hinv⟩ := slotInv_createAllInputs_ (detachPhase w).1 (detachPhase w).2
    segs (by rw [hids]; exact hnd) (by rw [hcode]; exact hd)
  obtain ⟨w2, hu, hi, hp, hws⟩ := updateDisplay__of_createAllInputs_ w cm3 w3 hc
  obtain ⟨⟨-, -, pm, hpm, -, hslots⟩, hfill⟩ := hinv (by
    show (paramTypes segs).length ≤ (detachPhase w).2.argumentIds_.length
    rw [hids]
    exact hlen)
  obtain ⟨hf, hr, -, hcont⟩ := hfill (salvageInRange_detachPhase w ht he)
  have hids2 : ({ (detachPhase w).2 with paramMap_ := some [] } : ProcBlock).argumentIds_ =
      w.argumentIds_ := hids
  refine ⟨cm3, w3, w2, pm, hu, hi, by rw [hp, hpm], hws, hr, hf, ?_⟩
  intro k t hkt
  obtain ⟨idx, sd, tg, hg, hin⟩ := hslots k t hkt
  have hcon := hcont k t pm idx sd tg hkt hpm hg hin
  rw [hids2] at hg hin
  exact ⟨idx, sd, tg, hg, by rw [hi]; exact hin, hcon⟩

/-! ## C13: the caller block keeps the content of a slot -/

/-- On a caller block whose proc-code decodes, the block that is attached
under the id of a parameter and is not a shadow is attached under that id
after `updateDisplay_`, connected and not disposed of. -/
theorem caller_keeps_attached (w : ProcBlock) (segs : List Segment) (k : Nat) (P : JSVal)
    (C : Nat) (b : ContentBlock) (hv : w.variant = Variant.caller) (ht : trackedOnce w)
    (he : targetsExist w) (hnd : (idKeys w.argumentIds_).Nodup)
    (hP : w.argumentIds_[k]? = some P) (hC : attachedUnder w P.toJSString = some C)
    (hb : w.workspace[C]? = some b) (hns : b.shadow = false) (hdis : b.disposed = false)
    (hd : decode w.procCode_ = Except.ok segs)
    (hlen : (paramTypes segs).length ≤ w.argumentIds_.length)
    (hk : k < (paramTypes segs).length) :
    ∃ w2, updateDisplay_ w = Outcome.ok () w2 ∧
      ∃ pm idx input b2, w2.paramMap_ = some pm ∧ PropMap.get pm P.toJSString = some idx ∧
        w2.inputList[idx]? = some input ∧ input.type = InputType.value ∧ input.name = P ∧
        input.target = some C ∧ w2.workspace[C]? = some b2 ∧ b2.connected = true ∧
        b2.disposed = false ∧ b2.shadow = false ∧ b2.type = b.type := by
  obtain ⟨cm3, w3, w2, pm, hu, -, hp, hws, -, hf, hslots⟩ :=
    updateDisplay__slots w segs ht he hd hlen hnd
  obtain ⟨t, hkt⟩ := getElem?_of_lt _ k hk
  obtain ⟨idx, sd, tg, hg, hin, hcon⟩ := hslots k t hkt
  have hide : arrayGet w.argumentIds_ k = P := by
    have := arrayGet_of_lt _ k (lt_of_getElem? _ _ _ hP)
    rw [hP] at this
    injection this with this
    exact this.symm
  rw [hide] at hg hin
  obtain ⟨hids, -, hvar, -⟩ := detachPhase_fields w
  have hr : reattachedBlock (typeCode t) k (detachPhase w).1
      { (detachPhase w).2 with paramMap_ := some [] } = some C := by
    unfold reattachedBlock
    have hv2 : ({ (detachPhase w).2 with paramMap_ := some [] } : ProcBlock).variant =
        Variant.caller := hvar.trans hv
    have hi2 : ({ (detachPhase w).2 with paramMap_ := some [] } : ProcBlock).argumentIds_ =
        w.argumentIds_ := hids
    rw [hv2, hi2, hide]
    simp only
    rw [oldBlockOf_detachPhase w ht P]
    exact hC
  unfold slotContent at hcon
  rw [hr] at hcon
  obtain ⟨htg, -, b3, hb3, hconn⟩ := hcon
  obtain ⟨b0, hb0, hfl0, -⟩ := detachPhase_flags w C b hb
  obtain ⟨b4, hb4, hfl4⟩ := hf C b0 hb0
  rw [hb3] at hb4
  injection hb4 with hb4
  subst hb4
  have hfl : blockFlags b3 = blockFlags b := hfl4.trans hfl0
  have hsh : b3.shadow = false := (congrArg (fun x => x.2.1) hfl).trans hns
  refine ⟨w2, hu, pm, idx, _, b3, hp, hg, hin, rfl, rfl, ?_, ?_, hconn,
    (congrArg (fun x => x.2.2) hfl).trans hdis, hsh, congrArg (fun x => x.1) hfl⟩
  · rw [htg]
    rfl
  · rw [hws, hb3]
    simp only [Option.map_some']
    rw [sweepBlock_of_not_shadow _ _ _ hsh]

/-- C13: on a caller block, the block `C` that is attached under the
parameter id `P` and is not a shadow stays attached under `P` when the
proc-code is replaced and `updateDisplay_` runs, as long as the new proc-code
decodes and still has a parameter at the position of `P` with pairwise
different ids; this covers the change of the label text of another segment.
After the call `paramMap_` maps `P` to a value input named `P` whose content
is the block `C` itself, connected and not disposed of. -/
theorem C13_caller_keeps_content (w : ProcBlock) (newCode : JSString)
    (segs : List Segment) (k : Nat) (P : JSVal) (C : Nat) (b : ContentBlock)
    (hv : w.variant = Variant.caller) (ht : trackedOnce w) (he : targetsExist w)
    (hnd : (idKeys w.argumentIds_).Nodup) (hP : w.argumentIds_[k]? = some P)
    (hC : attachedUnder w P.toJSString = some C) (hb : w.workspace[C]? = some b)
    (hns : b.shadow = false) (hdis : b.disposed = false)
    (hd : decode newCode = Except.ok segs)
    (hlen : (paramTypes segs).length ≤ w.argumentIds_.length)
    (hk : k < (paramTypes segs).length) :
    ∃ w2, updateDisplay_ { w with procCode_ := newCode } = Outcome.ok () w2 ∧
      ∃ pm idx input b2, w2.paramMap_ = some pm ∧ PropMap.get pm P.toJSString = some idx ∧
        w2.inputList[idx]? = some input ∧ input.type = InputType.value ∧ input.name = P ∧
        input.target = some C ∧ w2.workspace[C]? = some b2 ∧ b2.connected = true ∧
        b2.disposed = false ∧ b2.shadow = false ∧ b2.type = b.type :=
  caller_keeps_attached { w with procCode_ := newCode } segs k P C b hv ht he hnd hP hC hb
    hns hdis hd hlen hk

/-- C13 at the caller block of `say %s` that holds a block, when the label is
changed to `tell`. -/
theorem C13_caller_keeps_content_witness :
    ∃ w2, updateDisplay_ { holdingCaller with procCode_ := utf16 "tell %s" } =
        Outcome.ok () w2 ∧
      ∃ pm idx input b2, w2.paramMap_ = some pm ∧
        PropMap.get pm (JSVal.str (utf16 "arg0")).toJSString = some idx ∧
        w2.inputList[idx]? = some input ∧ input.type = InputType.value ∧
        input.name = JSVal.str (utf16 "arg0") ∧
        input.target = some 0 ∧ w2.workspace[0]? = some b2 ∧ b2.connected = true ∧
        b2.disposed = false ∧ b2.shadow = false ∧ b2.type = heldBlock.type :=
  C13_caller_keeps_content holdingCaller (utf16 "tell %s")
    [Segment.label (utf16 "tell"), Segment.param ParamType.s] 0 (JSVal.str (utf16 "arg0")) 0
    heldBlock rfl (by unfold trackedOnce; decide) (by unfold targetsExist; decide)
    (by decide) rfl rfl rfl rfl rfl rfl (by decide) (by decide)

/-! ## C14: a parameter that changes its type to boolean -/

theorem checkOldTypeMatches__boolean (w : ProcBlock) (c : Nat) (b : ContentBlock)
    (h : w.workspace[c]? = some b) :
    checkOldTypeMatches_ w (some c) (utf16 "b") =
      decide (b.type = utf16 "argument_reporter_boolean") := by
  unfold checkOldTypeMatches_
  simp only [h]
  have h1 : ¬ (utf16 "b" = utf16 "n" ∨ utf16 "b" = utf16 "s") := by decide
  by_cases hb : b.type = utf16 "argument_reporter_boolean"
  · simp [h1, hb]
  · simp [h1, hb]

/-- C14, counterexample: the caller block of `say %s` holds a block in its
slot; after the token is changed to `%b` and `updateDisplay_` has run, the
slot has the check `Boolean` and its content is still that block, block 0,
and no block has been made. -/
theorem C14_type_change_counterexample :
    (updateDisplay_ { holdingCaller with procCode_ := utf16 "say %b" }).state.inputList[1]? =
        some (slotInput (JSVal.str (utf16 "arg0")) (utf16 "b") none (some 0)) ∧
      (updateDisplay_ { holdingCaller with procCode_ := utf16 "say %b" }).state.workspace =
        [heldBlock] ∧
      (updateDisplay_ { holdingCaller with procCode_ := utf16 "say %b" }).state.paramMap_ =
        some [(utf16 "arg0", 1)] := by
  decide

/-- What `updateDisplay_` does with the block attached under the id of a
parameter whose type is boolean, on each of the three blocks. -/
theorem boolean_slot_content (w : ProcBlock) (segs : List Segment) (k : Nat) (P : JSVal)
    (C : Nat) (b : ContentBlock) (ht : trackedOnce w) (he : targetsExist w)
    (hnd : (idKeys w.argumentIds_).Nodup) (hP : w.argumentIds_[k]? = some P)
    (hC : attachedUnder w P.toJSString = some C) (hb : w.workspace[C]? = some b)
    (hd : decode w.procCode_ = Except.ok segs)
    (hlen : (paramTypes segs).length ≤ w.argumentIds_.length)
    (hk : (paramTypes segs)[k]? = some ParamType.b) :
    ∃ w2, updateDisplay_ w = Outcome.ok () w2 ∧
      ∃ pm idx input, w2.paramMap_ = some pm ∧ PropMap.get pm P.toJSString = some idx ∧
        w2.inputList[idx]? = some input ∧ input.type = InputType.value ∧ input.name = P ∧
        input.check = some (utf16 "Boolean") ∧
        (w.variant = Variant.caller ∨ b.type = utf16 "argument_reporter_boolean" →
          input.target = some C) ∧
        (w.variant ≠ Variant.caller → b.type ≠ utf16 "argument_reporter_boolean" →
          ∃ nb blk, input.target = some nb ∧ w.workspace.length ≤ nb ∧
            w2.workspace[nb]? = some blk ∧ blk.shadow = true ∧ blk.connected = true ∧
            blk.disposed = false ∧
            blk.type =
              (if w.variant = Variant.callerInternal then utf16 "argument_reporter_boolean"
                else utf16 "boolean_textinput")) := by
  obtain ⟨cm3, w3, w2, pm, hu, -, hp, hws, hr, hf, hslots⟩ :=
    updateDisplay__slots w segs ht he hd hlen hnd
  obtain ⟨idx, sd, tg, hg, hin, hcon⟩ := hslots k ParamType.b hk
  have hide : arrayGet w.argumentIds_ k = P := by
    have := arrayGet_of_lt _ k (lt_of_getElem? _ _ _ hP)
    rw [hP] at this
    injection this with this
    exact this.symm
  rw [hide] at hg hin
  obtain ⟨hids, -, hvar, -⟩ := detachPhase_fields w
  have hv2 : ({ (detachPhase w).2 with paramMap_ := some [] } : ProcBlock).variant =
      w.variant := hvar
  have hi2 : ({ (detachPhase w).2 with paramMap_ := some [] } : ProcBlock).argumentIds_ =
      w.argumentIds_ := hids
  obtain ⟨b0, hb0, hfl0, -⟩ := detachPhase_flags w C b hb
  have hty : b0.type = b.type := congrArg (fun x => x.1) hfl0
  have hmatch : checkOldTypeMatches_ { (detachPhase w).2 with paramMap_ := some [] }
      (some C) (utf16 "b") = decide (b.type = utf16 "argument_reporter_boolean") := by
    exact (checkOldTypeMatches__boolean { (detachPhase w).2 with paramMap_ := some [] }
      C b0 hb0).trans (by rw [hty])
  have hold : oldBlockOf (detachPhase w).1
      (arrayGet ({ (detachPhase w).2 with paramMap_ := some [] } : ProcBlock).argumentIds_ k) =
      some C := by
    rw [hi2, hide, oldBlockOf_detachPhase w ht P]
    exact hC
  have hr1 : w.variant = Variant.caller ∨ b.type = utf16 "argument_reporter_boolean" →
      reattachedBlock (typeCode ParamType.b) k (detachPhase w).1
        { (detachPhase w).2 with paramMap_ := some [] } = some C := by
    intro h
    unfold reattachedBlock
    rw [hold, hv2]
    cases hv : w.variant with
    | caller => rfl
    | callerInternal =>
      rw [hv] at h
      have hbt : b.type = utf16 "argument_reporter_boolean" := by simpa using h
      simp only [typeCode, hmatch, hbt, decide_True, if_true]
    | mutatorRoot =>
      rw [hv] at h
      have hbt : b.type = utf16 "argument_reporter_boolean" := by simpa using h
      simp only [typeCode, hmatch, hbt, decide_True, if_true]
  have hr2 : w.variant ≠ Variant.caller → b.type ≠ utf16 "argument_reporter_boolean" →
      reattachedBlock (typeCode ParamType.b) k (detachPhase w).1
        { (detachPhase w).2 with paramMap_ := some [] } = none ∧
      leftEmpty (typeCode ParamType.b) { (detachPhase w).2 with paramMap_ := some [] } =
        false := by
    intro hnc hbt
    have hle : leftEmpty (typeCode ParamType.b)
        { (detachPhase w).2 with paramMap_ := some [] } = false := by
      unfold leftEmpty
      rw [hv2]
      simp [hnc]
    refine ⟨?_, hle⟩
    unfold reattachedBlock
    rw [hold, hv2]
    cases hv : w.variant with
    | caller => exact absurd hv hnc
    | callerInternal => simp [typeCode, hmatch, hbt]
    | mutatorRoot => simp [typeCode, hmatch, hbt]
  refine ⟨w2, hu, pm, idx, _, hp, hg, hin, rfl, rfl, by simp [slotInput, typeCode], ?_, ?_⟩
  · intro h
    unfold slotContent at hcon
    rw [hr1 h] at hcon
    rw [hcon.1]
    rfl
  · intro hnc hbt
    obtain ⟨h1, h2⟩ := hr2 hnc hbt
    unfold slotContent at hcon
    rw [h1] at hcon
    simp only [h2, Bool.false_eq_true, if_false] at hcon
    obtain ⟨nb, htg, hge, -, hblk⟩ := hcon
    refine ⟨nb, freshContent
      ({ (detachPhase w).2 with paramMap_ := some [] } : ProcBlock).variant
      (typeCode ParamType.b)
      (arrayGet ({ (detachPhase w).2 with paramMap_ := some [] } : ProcBlock).displayNames_ k)
      ({ (detachPhase w).2 with paramMap_ := some [] } : ProcBlock).insertionMarker,
      by rw [htg]; rfl, ?_, ?_, ?_, ?_, ?_, ?_⟩
    · rw [← detachPhase_length w]
      exact hge
    · rw [hws, hblk]
      simp only [Option.map_some']
      rw [sweepBlock_of_new cm3 _ nb _ hr hge]
    · rw [hv2]
      cases w.variant <;> rfl
    · rw [hv2]
      cases w.variant <;> rfl
    · rw [hv2]
      cases w.variant <;> rfl
    · rw [hv2]
      cases hv : w.variant with
      | caller => exact absurd hv hnc
      | callerInternal => simp [freshContent, typeCode, b_ne_n, b_ne_s]
      | mutatorRoot => simp [freshContent, typeCode, b_ne_n, b_ne_s]

/-! ## C19: the populate policy of the caller block -/

theorem typeCode_ne_b (t : ParamType) : typeCode t = utf16 "b" ↔ t = ParamType.b := by
  cases t
  · exact ⟨fun h => absurd h.symm b_ne_n, fun h => by cases h⟩
  · exact ⟨fun _ => rfl, fun _ => rfl⟩
  · exact ⟨fun h => absurd h.symm b_ne_s, fun h => by cases h⟩

/-- C19, counterexample: a caller block with the proc-code `if %b` that has
never been reconciled. After `updateDisplay_` its one slot is empty, there
is no shadow DOM on it, and no block has been made. -/
theorem C19_caller_populate_counterexample :
    updateDisplay_ (callerWith (utf16 "if %b")) =
        Outcome.ok () (updateDisplay_ (callerWith (utf16 "if %b"))).state ∧
      (updateDisplay_ (callerWith (utf16 "if %b"))).state.inputList =
        [ dummyInput (JSVal.str []) [Field.label (utf16 "if")],
          slotInput (JSVal.str (utf16 "arg0")) (utf16 "b") none none,
          dummyInput (JSVal.str []) [] ] ∧
      (updateDisplay_ (callerWith (utf16 "if %b"))).state.workspace = [] := by
  decide

/-- C19, amended: on a caller block whose proc-code decodes with pairwise
different ids, `updateDisplay_` returns and `paramMap_` maps the id of each
parameter to a value input with that name. When a block was attached under
the id, the content of the input is that block, whatever its type, and for a
type other than boolean the shadow DOM of `buildShadowDom_` is set on the
input. When no block was attached under the id, a parameter of type `n` or
`s` holds a block made by the call, a connected shadow of type `math_number`
with `99` in `NUM`, or of type `text` with `hello world` in `TEXT`; a boolean
parameter is left empty. -/
theorem C19_caller_populate (w : ProcBlock) (segs : List Segment)
    (hv : w.variant = Variant.caller) (ht : trackedOnce w) (he : targetsExist w)
    (hnd : (idKeys w.argumentIds_).Nodup) (hd : decode w.procCode_ = Except.ok segs)
    (hlen : (paramTypes segs).length ≤ w.argumentIds_.length) :
    ∃ w2, updateDisplay_ w = Outcome.ok () w2 ∧
      ∃ pm, w2.paramMap_ = some pm ∧
        ∀ (k : Nat) (t : ParamType) (id : JSVal), (paramTypes segs)[k]? = some t →
          w.argumentIds_[k]? = some id →
          ∃ idx input, PropMap.get pm id.toJSString = some idx ∧
            w2.inputList[idx]? = some input ∧ input.type = InputType.value ∧
            input.name = id ∧
            (∀ c, attachedUnder w id.toJSString = some c →
              input.target = some c ∧
              input.shadowDom =
                if t = ParamType.b then none else some (buildShadowDom_ (typeCode t))) ∧
            (attachedUnder w id.toJSString = none → t = ParamType.b →
              input.target = none ∧ input.shadowDom = none) ∧
            (attachedUnder w id.toJSString = none → t ≠ ParamType.b →
              ∃ nb blk, input.target = some nb ∧ w.workspace.length ≤ nb ∧
                w2.workspace[nb]? = some blk ∧ blk.shadow = true ∧ blk.connected = true ∧
                blk.disposed = false ∧
                blk.type =
                  (if t = ParamType.n then utf16 "math_number" else utf16 "text") ∧
                (if t = ParamType.n then
                    getFieldValue blk (utf16 "NUM") = JSVal.str (utf16 "99")
                  else getFieldValue blk (utf16 "TEXT") =
                    JSVal.str (utf16 "hello world"))) := by
  obtain ⟨cm3, w3, w2, pm, hu, -, hp, hws, hr, hf, hslots⟩ :=
    updateDisplay__slots w segs ht he hd hlen hnd
  refine ⟨w2, hu, pm, hp, ?_⟩
  intro k t id hkt hid
  obtain ⟨idx, sd, tg, hg, hin, hcon⟩ := hslots k t hkt
  have hide : arrayGet w.argumentIds_ k = id := by
    have := arrayGet_of_lt _ k (lt_of_getElem? _ _ _ hid)
    rw [hid] at this
    injection this with this
    exact this.symm
  rw [hide] at hg hin
  obtain ⟨hids, -, hvar, -⟩ := detachPhase_fields w
  have hv2 : ({ (detachPhase w).2 with paramMap_ := some [] } : ProcBlock).variant =
      Variant.caller := hvar.trans hv
  have hi2 : ({ (detachPhase w).2 with paramMap_ := some [] } : ProcBlock).argumentIds_ =
      w.argumentIds_ := hids
  have hrb : reattachedBlock (typeCode t) k (detachPhase w).1
      { (detachPhase w).2 with paramMap_ := some [] } = attachedUnder w id.toJSString := by
    unfold reattachedBlock
    rw [hv2, hi2, hide]
    simp only
    exact oldBlockOf_detachPhase w ht id
  have hle : leftEmpty (typeCode t) { (detachPhase w).2 with paramMap_ := some [] } =
      decide (t = ParamType.b) := by
    unfold leftEmpty
    rw [hv2]
    cases t <;> simp [typeCode, b_ne_n, b_ne_s, s_ne_n]
  have hsd : slotShadowDom (typeCode t) { (detachPhase w).2 with paramMap_ := some [] } =
      if t = ParamType.b then none else some (buildShadowDom_ (typeCode t)) := by
    unfold slotShadowDom
    rw [hv2]
    by_cases hb : t = ParamType.b
    · simp [hb, typeCode]
    · have : typeCode t ≠ utf16 "b" := fun e => hb ((typeCode_ne_b t).mp e)
      simp [hb, this]
  unfold slotContent at hcon
  rw [hrb, hle] at hcon
  refine ⟨idx, _, hg, hin, rfl, rfl, ?_, ?_, ?_⟩
  · intro c hc
    rw [hc] at hcon
    obtain ⟨h1, h2, -⟩ := hcon
    exact ⟨by rw [h1]; rfl, by rw [h2, hsd]; rfl⟩
  · intro hnone hb
    rw [hnone] at hcon
    simp only [hb, decide_True, if_true] at hcon
    exact ⟨by rw [hcon.1]; rfl, by rw [hcon.2]; rfl⟩
  · intro hnone hb
    rw [hnone] at hcon
    simp only [hb, decide_False, Bool.false_eq_true, if_false] at hcon
    obtain ⟨nb, htg, hge, -, hblk⟩ := hcon
    refine ⟨nb, freshContent Variant.caller (typeCode t)
      (arrayGet ({ (detachPhase w).2 with paramMap_ := some [] } : ProcBlock).displayNames_ k)
      ({ (detachPhase w).2 with paramMap_ := some [] } : ProcBlock).insertionMarker,
      by rw [htg]; rfl, ?_, ?_, rfl, rfl, rfl, ?_, ?_⟩
    · rw [← detachPhase_length w]
      exact hge
    · rw [hws, hblk]
      simp only [Option.map_some']
      rw [sweepBlock_of_new cm3 _ nb _ hr hge, hv2]
    · cases t
      · simp [freshContent, typeCode]
      · exact absurd rfl hb
      · simp [freshContent, typeCode, s_ne_n]
    · cases t
      · simp [freshContent, typeCode, getFieldValue, PropMap.get_cons]
      · exact absurd rfl hb
      · simp [freshContent, typeCode, getFieldValue, PropMap.get_cons, s_ne_n]

/-- C19, amended, at the caller block of `say %s` that holds a block. -/
theorem C19_caller_populate_witness :
    ∃ w2, updateDisplay_ holdingCaller = Outcome.ok () w2 ∧
      ∃ pm, w2.paramMap_ = some pm ∧
        ∀ (k : Nat) (t : ParamType) (id : JSVal),
          (paramTypes [Segment.label (utf16 "say"), Segment.param ParamType.s])[k]? = some t →
          holdingCaller.argumentIds_[k]? = some id →
          ∃ idx input, PropMap.get pm id.toJSString = some idx ∧
            w2.inputList[idx]? = some input ∧ input.type = InputType.value ∧
            input.name = id ∧
            (∀ c, attachedUnder holdingCaller id.toJSString = some c →
              input.target = some c ∧
              input.shadowDom =
                if t = ParamType.b then none else some (buildShadowDom_ (typeCode t))) ∧
            (attachedUnder holdingCaller id.toJSString = none → t = ParamType.b →
              input.target = none ∧ input.shadowDom = none) ∧
            (attachedUnder holdingCaller id.toJSString = none → t ≠ ParamType.b →
              ∃ nb blk, input.target = some nb ∧ holdingCaller.workspace.length ≤ nb ∧
                w2.workspace[nb]? = some blk ∧ blk.shadow = true ∧ blk.connected = true ∧
                blk.disposed = false ∧
                blk.type =
                  (if t = ParamType.n then utf16 "math_number" else utf16 "text") ∧
                (if t = ParamType.n then
                    getFieldValue blk (utf16 "NUM") = JSVal.str (utf16 "99")
                  else getFieldValue blk (utf16 "TEXT") =
                    JSVal.str (utf16 "hello world"))) :=
  C19_caller_populate holdingCaller [Segment.label (utf16 "say"), Segment.param ParamType.s]
    rfl (by unfold trackedOnce; decide) (by unfold targetsExist; decide) (by decide) rfl
    (by decide)

/-! ## The blocks of the salvage map through the loop -/

theorem slotMade_inputList (t : JSString) (n : Nat) (cm : Option ConnectionMap)
    (w : ProcBlock) :
    ∃ sd tg, (slotMade t n cm w).2.inputList =
        w.inputList ++ [slotInput (arrayGet w.argumentIds_ n) t sd tg] ∧
      (∀ c, reattachedBlock t n cm w = some c → tg = some c) ∧
      ((slotMade t n cm w).1 = cm ∨
        ∃ c, reattachedBlock t n cm w = some c ∧
          (slotMade t n cm w).1 = cm.map
            (fun m => PropMap.set m (arrayGet w.argumentIds_ n).toJSString none)) := by
  obtain ⟨-, -, hc⟩ := slotMade_cases t n cm w
  rcases hc with ⟨c, hr, h1, h2, -⟩ | ⟨hr, -, h1, h2, -⟩ | ⟨hr, -, h1, h2, -⟩
  · refine ⟨_, _, h2, ?_, Or.inr ⟨c, hr, h1⟩⟩
    intro c2 hc2
    rw [hr] at hc2
    exact hc2
  · exact ⟨_, _, h2, fun c hc => by rw [hr] at hc; simp at hc, Or.inl h1⟩
  · exact ⟨_, _, h2, fun c hc => by rw [hr] at hc; simp at hc, Or.inl h1⟩

theorem salvageInv_label (w0 : ProcBlock) (cm0 cm : Option ConnectionMap) (w : ProcBlock)
    (text : JSString) (h : salvageInv w0 cm0 cm w) :
    salvageInv w0 cm0 cm (addLabel_ text w) := by
  obtain ⟨hf, hcon, hleft⟩ := h
  obtain ⟨l, hl, -, hws, -⟩ := addLabel__shape text w
  refine ⟨by rw [hws]; exact hf, ?_, ?_⟩
  · intro c b0 b hb0 hb hc
    rw [hws] at hb
    rcases hcon c b0 b hb0 hb hc with h1 | ⟨input, hi, ht⟩
    · exact Or.inl h1
    · exact Or.inr ⟨input, by rw [hl]; exact List.mem_append_left _ hi, ht⟩
  · intro m0 key c hm0 hg
    rcases hleft m0 key c hm0 hg with h1 | ⟨input, hi, ht⟩
    · exact Or.inl h1
    · exact Or.inr ⟨input, by rw [hl]; exact List.mem_append_left _ hi, ht⟩

theorem salvageInv_param (w0 : ProcBlock) (cm0 cm : Option ConnectionMap) (w : ProcBlock)
    (t : JSString) (n : Nat) (h : salvageInv w0 cm0 cm w) :
    salvageInv w0 cm0 (slotMade t n cm w).1 (slotMade t n cm w).2 := by
  obtain ⟨hf, hcon, hleft⟩ := h
  obtain ⟨sd, tg, hin, htg, hcm⟩ := slotMade_inputList t n cm w
  have hnew : ∀ c, reattachedBlock t n cm w = some c →
      ∃ input ∈ (slotMade t n cm w).2.inputList, input.target = some c := by
    intro c hc
    refine ⟨slotInput (arrayGet w.argumentIds_ n) t sd tg, ?_, ?_⟩
    · rw [hin]
      exact List.mem_append_right _ (List.mem_singleton.mpr rfl)
    · rw [htg c hc]
      rfl
  have hold : ∀ c, (∃ input ∈ w.inputList, input.target = some c) →
      ∃ input ∈ (slotMade t n cm w).2.inputList, input.target = some c := by
    rintro c ⟨input, hi, ht⟩
    exact ⟨input, by rw [hin]; exact List.mem_append_left _ hi, ht⟩
  refine ⟨framed_slotMade _ _ _ _ _ hf, ?_, ?_⟩
  · intro c b0 b2 hb0 hb2 hc
    obtain ⟨b, hb, -⟩ := hf c b0 hb0
    obtain ⟨b3, hb3, -, -, hsame, -⟩ := slotMade_workspace t n cm w c b hb
    rw [hb2] at hb3
    injection hb3 with hb3
    subst hb3
    by_cases hr : reattachedBlock t n cm w = some c
    · exact Or.inr (hnew c hr)
    · rw [hsame hr] at hc
      rcases hcon c b0 b hb0 hb hc with h1 | h1
      · exact Or.inl h1
      · exact Or.inr (hold c h1)
  · intro m0 key c hm0 hg
    rcases hleft m0 key c hm0 hg with ⟨m, hm, hgm⟩ | h1
    · rcases hcm with h2 | ⟨c2, hr, h2⟩
      · exact Or.inl ⟨m, by rw [h2, hm], hgm⟩
      · by_cases hk : key = (arrayGet w.argumentIds_ n).toJSString
        · have ho := reattachedBlock_old t n cm w c2 hr
          rw [hm] at ho
          obtain ⟨m2, hm2, hg2⟩ := oldBlockOf_some _ _ _ ho
          injection hm2 with hm2
          subst hm2
          rw [hk, hg2] at hgm
          injection hgm with hgm
          injection hgm with hgm
          subst hgm
          exact Or.inr (hnew c2 hr)
        · refine Or.inl ⟨PropMap.set m (arrayGet w.argumentIds_ n).toJSString none, ?_, ?_⟩
          · rw [h2, hm]
            rfl
          · rw [PropMap.get_set_ne _ _ _ _ hk]
            exact hgm
    · exact Or.inr (hold c h1)

theorem salvageInv_createAllInputs_ (cm0 : Option ConnectionMap) (w : ProcBlock)
    (segs : List Segment) (hd : decode w.procCode_ = Except.ok segs) :
    ∃ cm2 w2, createAllInputs_ cm0 w = Outcome.ok cm2 w2 ∧
      salvageInv w cm0 cm2 w2 := by
  unfold createAllInputs_
  have h := createAllInputsLoop_invariant
    (fun _ cm w2 => salvageInv w cm0 cm w2)
    (fun _ cm w2 text hinv => salvageInv_label _ cm0 cm w2 text hinv)
    (fun ts cm w2 t hinv => salvageInv_param _ cm0 cm w2 (typeCode t) ts.length hinv)
    (procComponents w.procCode_) [] cm0 { w with paramMap_ := some [] } segs hd ?_
  · simpa using h
  · refine ⟨framed_refl _, ?_, ?_⟩
    · intro c b0 b hb0 hb hc
      have hb2 : w.workspace[c]? = some b0 := hb0
      have hb3 : w.workspace[c]? = some b := hb
      rw [hb2] at hb3
      injection hb3 with hb3
      rw [hb3]
      exact Or.inl hc
    · intro m0 key c hm0 hg
      exact Or.inl ⟨m0, hm0, hg⟩

theorem workspace_disconnect_target (w : ProcBlock) (input c : Nat) (i : Input)
    (hi : w.inputList[input]? = some i) (ht : i.target = some c) (b : ContentBlock)
    (hb : (w.disconnect input).workspace[c]? = some b) : b.connected = false := by
  unfold ProcBlock.disconnect at hb
  have hbind : w.inputList[input]?.bind Input.target = some c := by
    rw [hi]
    exact ht
  rw [hbind] at hb
  simp only [getElem?_updateAt, if_true] at hb
  cases hw : w.workspace[c]? with
  | none => rw [hw] at hb; simp at hb
  | some b0 =>
    rw [hw] at hb
    simp only [Option.map_some', Option.some.injEq] at hb
    rw [← hb]

/-- The detach loop leaves every block that was attached to an input of its
entries disconnected. -/
theorem disconnectOldBlocksLoop_disconnected (entries : List (JSString × Nat))
    (cm : ConnectionMap) (w : ProcBlock) (hnd : (entries.map Prod.snd).Nodup)
    (e : JSString × Nat) (he : e ∈ entries) (i : Input) (c : Nat)
    (hi : w.inputList[e.2]? = some i) (hty : i.type ≠ InputType.dummy)
    (ht : i.target = some c) (b : ContentBlock)
    (hb : (disconnectOldBlocksLoop entries cm w).2.workspace[c]? = some b) :
    b.connected = false := by
  induction entries generalizing cm w with
  | nil => simp at he
  | cons x rest ih =>
    obtain ⟨id, input⟩ := x
    simp only [List.map_cons, List.nodup_cons] at hnd
    unfold disconnectOldBlocksLoop at hb
    rcases List.mem_cons.mp he with hhead | htail
    · subst hhead
      simp only [hi, hty, ne_eq, not_false_eq_true, if_true, ht, Option.isSome_some] at hb
      obtain ⟨f, hf⟩ := disconnectOldBlocksLoop_workspace rest
        (PropMap.set cm id (some c)) ((w.setShadowDom input none).disconnect input)
      rw [hf] at hb
      cases hw : ((w.setShadowDom input none).disconnect input).workspace[c]? with
      | none => rw [hw] at hb; simp at hb
      | some b0 =>
        rw [hw] at hb
        simp only [Option.map_some', Option.some.injEq] at hb
        have hi2 : (w.setShadowDom input none).inputList[input]? =
            some { i with shadowDom := none } := by
          simp only [ProcBlock.setShadowDom, getElem?_updateAt, if_true, hi, Option.map_some']
        have hb0 : b0.connected = false :=
          workspace_disconnect_target (w.setShadowDom input none) input c _ hi2 ht b0 hw
        rw [← hb]
        unfold detachBlock
        split
        · rfl
        · exact hb0
    · have hne : e.2 ≠ input := by
        intro heq
        exact hnd.1 (heq ▸ List.mem_map.mpr ⟨e, htail, rfl⟩)
      cases hin : w.inputList[input]? with
      | none =>
        rw [hin] at hb
        exact ih cm w hnd.2 htail hi hb
      | some i2 =>
        rw [hin] at hb
        simp only at hb
        by_cases hd : i2.type ≠ InputType.dummy
        · rw [if_pos hd] at hb
          have hsd : (w.setShadowDom input none).inputList[e.2]? = some i := by
            simp only [ProcBlock.setShadowDom, getElem?_updateAt, if_neg hne, hi]
          by_cases hs : i2.target.isSome = true
          · rw [if_pos hs] at hb
            exact ih _ _ hnd.2 htail
              (by rw [inputList_disconnect_ne _ _ _ hne]; exact hsd) hb
          · rw [if_neg hs] at hb
            exact ih _ _ hnd.2 htail hsd hb
        · rw [if_neg hd] at hb
          exact ih cm w hnd.2 htail hi hb

theorem attachedUnder_some (w : ProcBlock) (key : JSString) (c : Nat)
    (h : attachedUnder w key = some c) :
    ∃ pm idx i, w.paramMap_ = some pm ∧ (key, idx) ∈ pm ∧ w.inputList[idx]? = some i ∧
      i.type ≠ InputType.dummy ∧ i.target = some c := by
  unfold attachedUnder at h
  cases hpm : w.paramMap_ with
  | none => rw [hpm] at h; simp at h
  | some pm =>
    rw [hpm] at h
    simp only at h
    cases hg : PropMap.get pm key with
    | none => rw [hg] at h; simp at h
    | some idx =>
      rw [hg] at h
      simp only at h
      cases hin : w.inputList[idx]? with
      | none => rw [hin] at h; simp at h
      | some i =>
        rw [hin] at h
        simp only at h
        by_cases hd : i.type ≠ InputType.dummy
        · rw [if_pos hd] at h
          exact ⟨pm, idx, i, rfl, PropMap.mem_of_get_eq_some pm key idx hg, hin, hd, h⟩
        · rw [if_neg hd] at h
          simp at h

theorem detachPhase_disconnected (w : ProcBlock) (ht : trackedOnce w) (key : JSString)
    (c : Nat) (h : attachedUnder w key = some c) (b : ContentBlock)
    (hb : (detachPhase w).2.workspace[c]? = some b) : b.connected = false := by
  obtain ⟨pm, idx, i, hpm, hmem, hin, hty, htg⟩ := attachedUnder_some w key c h
  rw [detachPhase_some w pm hpm] at hb
  have hnd : (pm.map Prod.snd).Nodup := by
    have := ht.2
    rw [hpm] at this
    exact this
  exact disconnectOldBlocksLoop_disconnected pm [] { w with rendered := false } hnd
    (key, idx) hmem i c hin hty htg b hb

/-! ## C16: the sweep -/

/-- C16: on each of the three blocks, when the proc-code decodes,
`updateDisplay_` returns, and a block that was attached under a parameter id
before the call, was not disposed of, and is attached to no input after the
call is disposed of if and only if it is a shadow. In both cases it is still
a block of the workspace with its type and its shadow marker, and it is not
connected: a block that is not a shadow is left detached and not disposed
of. -/
theorem C16_sweep_disposes_shadows (w : ProcBlock) (segs : List Segment) (key : JSString)
    (c : Nat) (b : ContentBlock) (ht : trackedOnce w)
    (hC : attachedUnder w key = some c) (hb : w.workspace[c]? = some b)
    (hdis : b.disposed = false) (hd : decode w.procCode_ = Except.ok segs)
    (hleft : ∀ input ∈ (updateDisplay_ w).state.inputList, input.target ≠ some c) :
    updateDisplay_ w = Outcome.ok () (updateDisplay_ w).state ∧
      ∃ b2, (updateDisplay_ w).state.workspace[c]? = some b2 ∧
        (b2.disposed = true ↔ b.shadow = true) ∧ b2.connected = false ∧
        b2.shadow = b.shadow ∧ b2.type = b.type := by
  obtain ⟨-, hcode, -⟩ := detachPhase_fields w
  obtain ⟨cm3, w3, hc, hf, hcon, hrest⟩ := salvageInv_createAllInputs_ (detachPhase w).1
    (detachPhase w).2 segs (by rw [hcode]; exact hd)
  obtain ⟨w2, hu, hi, -, hws⟩ := updateDisplay__of_createAllInputs_ w cm3 w3 hc
  rw [hu] at hleft ⊢
  simp only [Outcome.state] at hleft ⊢
  rw [hi] at hleft
  have hno : ¬ ∃ input ∈ w3.inputList, input.target = some c := by
    rintro ⟨input, hin, htg⟩
    exact hleft input hin htg
  obtain ⟨b0, hb0, hfl0, -⟩ := detachPhase_flags w c b hb
  have hoff : b0.connected = false := detachPhase_disconnected w ht key c hC b0 hb0
  obtain ⟨b3, hb3, hfl3⟩ := hf c b0 hb0
  have hfl : blockFlags b3 = blockFlags b := hfl3.trans hfl0
  have hoff3 : b3.connected = false := by
    cases h3 : b3.connected with
    | false => rfl
    | true =>
      rcases hcon c b0 b3 hb0 hb3 h3 with h1 | h1
      · rw [hoff] at h1
        simp at h1
      · exact absurd h1 hno
  have hold : oldBlockOf (detachPhase w).1 (JSVal.str key) = some c := by
    rw [oldBlockOf_detachPhase w ht (JSVal.str key)]
    exact hC
  obtain ⟨m0, hm0, hg0⟩ := oldBlockOf_some _ _ _ hold
  have hin3 : ∃ m, cm3 = some m ∧ PropMap.get m key = some (some c) := by
    rcases hrest m0 key c hm0 hg0 with h1 | h1
    · exact h1
    · exact absurd h1 hno
  obtain ⟨m3, hm3, hg3⟩ := hin3
  have hany : (m3.any fun e => e.2 == some c) = true :=
    List.any_eq_true.mpr ⟨(key, some c), PropMap.mem_of_get_eq_some m3 key _ hg3, by simp⟩
  have hsh : b3.shadow = b.shadow := congrArg (fun x => x.2.1) hfl
  have hty : b3.type = b.type := congrArg (fun x => x.1) hfl
  have hd3 : b3.disposed = false := (congrArg (fun x => x.2.2) hfl).trans hdis
  refine ⟨trivial, sweepBlock m3 c b3, ?_, ?_⟩
  · rw [hws, hb3, hm3]
    rfl
  · unfold sweepBlock
    rw [hany]
    cases hs : b.shadow with
    | true =>
      rw [hs] at hsh
      simp [hsh, hty]
    | false =>
      rw [hs] at hsh
      simp [hsh, hty, hd3, hoff3]

/-- C16 at the reconciled caller of `move %n steps`, whose slot holds the
shadow that the block made, when the parameter is removed from the
proc-code. -/
theorem C16_sweep_disposes_shadows_witness :
    updateDisplay_ { reconciledCaller with procCode_ := utf16 "move" } =
        Outcome.ok () (updateDisplay_ { reconciledCaller with procCode_ := utf16 "move" }).state ∧
      ∃ b2, (updateDisplay_ { reconciledCaller with procCode_ := utf16 "move" }).state.workspace[0]?
          = some b2 ∧
        (b2.disposed = true ↔
          (freshContent Variant.caller (utf16 "n") JSVal.undefined false).shadow = true) ∧
        b2.connected = false ∧
        b2.shadow = (freshContent Variant.caller (utf16 "n") JSVal.undefined false).shadow ∧
        b2.type = (freshContent Variant.caller (utf16 "n") JSVal.undefined false).type :=
  C16_sweep_disposes_shadows { reconciledCaller with procCode_ := utf16 "move" }
    [Segment.label (utf16 "move")] (utf16 "arg0") 0
    (freshContent Variant.caller (utf16 "n") JSVal.undefined false)
    (by unfold trackedOnce; decide) (by decide) (by decide) rfl rfl (by decide)

/-! ## C12, C15, C17: the mutator root -/

/-- C12: on the mutator root a second `updateDisplay_` with the signature
unchanged does not keep the content of a slot. The root with the signature
`%s` is reconciled once: its slot holds block 0, a `text` editor block made
by the call. It is reconciled again: `checkOldTypeMatches_` rejects block 0,
the slot holds block 1, made by the second call, and block 0 has been
disposed of. At the caller block of `move %n steps` and at the internal
caller of `say %s` the second call leaves every input with its kind, name,
check and attached block, and makes no block. -/
theorem C12_root_not_idempotent :
    updateDisplay_ stringRoot = Outcome.ok () reconciledRoot ∧
      reconciledRoot.inputList =
        [slotInput (JSVal.str (utf16 "arg0")) (utf16 "s") none (some 0)] ∧
      reconciledRoot.workspace =
        [freshContent Variant.mutatorRoot (utf16 "s") (JSVal.str (utf16 "name")) false] ∧
      checkOldTypeMatches_ reconciledRoot (some 0) (utf16 "s") = false ∧
      updateDisplay_ reconciledRoot = Outcome.ok () (updateDisplay_ reconciledRoot).state ∧
      (updateDisplay_ reconciledRoot).state.inputList =
        [slotInput (JSVal.str (utf16 "arg0")) (utf16 "s") none (some 1)] ∧
      (updateDisplay_ reconciledRoot).state.workspace =
        [ { freshContent Variant.mutatorRoot (utf16 "s") (JSVal.str (utf16 "name")) false with
            connected := false, disposed := true },
          freshContent Variant.mutatorRoot (utf16 "s") (JSVal.str (utf16 "name")) false ] ∧
      (updateDisplay_ reconciledCaller).state.inputList.map slotView =
        reconciledCaller.inputList.map slotView ∧
      (updateDisplay_ reconciledCaller).state.workspace = reconciledCaller.workspace ∧
      (updateDisplay_ reconciledInternal).state.inputList.map slotView =
        reconciledInternal.inputList.map slotView ∧
      (updateDisplay_ reconciledInternal).state.workspace = reconciledInternal.workspace := by
  refine ⟨by decide, by decide, by decide, by decide, by decide, by decide, by decide,
    by decide, by decide, by decide, by decide⟩

/-- C15: on a mutator root whose proc-code is a single space (one label that
holds a space), `addBooleanExternal` and `addStringNumberExternal` push an
id and make no slot: the proc-code becomes two spaces and the token, the
first component of the split is empty after trimming, and the loop of
`createAllInputs_` ends there. Reconciling the proc-code before the call
gives no value input, and so does the call. On the root after `init` the
calls add the slot: the proc-code is a space and the token, and the one
input is the slot named by the new id. -/
theorem C15_append_after_space_label :
    spaceRoot.procCode_ = utf16 " " ∧
      valueInputs (updateDisplay_ spaceRoot).state.inputList = [] ∧
      addBooleanExternal spaceRoot = Outcome.ok () (addBooleanExternal spaceRoot).state ∧
      (addBooleanExternal spaceRoot).state.procCode_ = utf16 "  %b" ∧
      (addBooleanExternal spaceRoot).state.argumentIds_ = [JSVal.str (utf16 "uid")] ∧
      (addBooleanExternal spaceRoot).state.inputList = [] ∧
      (addStringNumberExternal spaceRoot).state.procCode_ = utf16 "  %s" ∧
      (addStringNumberExternal spaceRoot).state.argumentIds_ = [JSVal.str (utf16 "uid")] ∧
      (addStringNumberExternal spaceRoot).state.inputList = [] ∧
      (addBooleanExternal freshRoot).state.procCode_ = utf16 " %b" ∧
      (addBooleanExternal freshRoot).state.inputList =
        [slotInput (JSVal.str (utf16 "uid")) (utf16 "b") none (some 0)] ∧
      (addStringNumberExternal freshRoot).state.procCode_ = utf16 " %s" ∧
      (addStringNumberExternal freshRoot).state.inputList =
        [slotInput (JSVal.str (utf16 "uid")) (utf16 "s") none (some 0)] := by
  decide

/-- C17: `populateInputMutatorRoot_` does not reattach the editor blocks of
the root. For every state, `checkOldTypeMatches_` rejects a salvaged block of
type `text` or `boolean_textinput` for every parameter type, and accepts a
block of type `argument_reporter_string_number` for the type `s`. On the
root of `%s`, called with the `text` editor block 0 that was salvaged under
the id of the parameter, the populate function attaches block 1, which it
makes, and leaves block 0 in the salvage map with its `TEXT` field as it
was. -/
theorem C17_root_rejects_editor_block :
    (∀ (w : ProcBlock) (old : Nat) (b : ContentBlock) (t : JSString),
        w.workspace[old]? = some b →
        b.type = utf16 "text" ∨ b.type = utf16 "boolean_textinput" →
        checkOldTypeMatches_ w (some old) t = false) ∧
      (∀ (w : ProcBlock) (old : Nat) (b : ContentBlock),
        w.workspace[old]? = some b → b.type = utf16 "argument_reporter_string_number" →
        checkOldTypeMatches_ w (some old) (utf16 "s") = true) ∧
      rootSalvage = some [(utf16 "arg0", some 0)] ∧
      rootBeforePopulate.workspace =
        [ { freshContent Variant.mutatorRoot (utf16 "s") (JSVal.str (utf16 "name")) false with
            connected := false } ] ∧
      (populateInputMutatorRoot_ (utf16 "s") 0 rootSalvage (JSVal.str (utf16 "arg0")) (some 0) 0
          rootBeforePopulate).1 = some [(utf16 "arg0", some 0)] ∧
      (populateInputMutatorRoot_ (utf16 "s") 0 rootSalvage (JSVal.str (utf16 "arg0")) (some 0) 0
          rootBeforePopulate).2.inputList =
        [slotInput (JSVal.str (utf16 "arg0")) (utf16 "s") none (some 1)] ∧
      (populateInputMutatorRoot_ (utf16 "s") 0 rootSalvage (JSVal.str (utf16 "arg0")) (some 0) 0
          rootBeforePopulate).2.workspace =
        [ { freshContent Variant.mutatorRoot (utf16 "s") (JSVal.str (utf16 "name")) false with
            connected := false },
          freshContent Variant.mutatorRoot (utf16 "s") (JSVal.str (utf16 "name")) false ] := by
  refine ⟨?_, ?_, by decide, by decide, by decide, by decide, by decide⟩
  · intro w old b t hb hty
    unfold checkOldTypeMatches_
    simp only [hb]
    rcases hty with h | h
    · rw [h]
      simp only [show utf16 "text" ≠ utf16 "argument_reporter_string_number" by decide,
        show utf16 "text" ≠ utf16 "argument_reporter_boolean" by decide, and_false, if_false]
    · rw [h]
      simp only [show utf16 "boolean_textinput" ≠ utf16 "argument_reporter_string_number"
        by decide, show utf16 "boolean_textinput" ≠ utf16 "argument_reporter_boolean"
        by decide, and_false, if_false]
  · intro w old b hb hty
    unfold checkOldTypeMatches_
    simp only [hb, hty]
    decide

/-! ## C18: the populate policy of the internal caller -/

theorem checkOldTypeMatches__iff (w : ProcBlock) (old : Option Nat) (t : JSString) :
    checkOldTypeMatches_ w old t = true ↔
      ∃ c b, old = some c ∧ w.workspace[c]? = some b ∧ reporterMatches b.type t := by
  constructor
  · intro h
    obtain ⟨c, ho⟩ := checkOldTypeMatches__some _ _ _ h
    subst ho
    unfold checkOldTypeMatches_ at h
    simp only at h
    cases hb : w.workspace[c]? with
    | none => rw [hb] at h; simp at h
    | some b =>
      rw [hb] at h
      simp only at h
      refine ⟨c, b, rfl, hb, ?_⟩
      unfold reporterMatches
      by_cases h1 : (t = utf16 "n" ∨ t = utf16 "s") ∧
          b.type = utf16 "argument_reporter_string_number"
      · exact Or.inl h1
      · rw [if_neg h1] at h
        by_cases h2 : t = utf16 "b" ∧ b.type = utf16 "argument_reporter_boolean"
        · exact Or.inr h2
        · rw [if_neg h2] at h
          simp at h
  · rintro ⟨c, b, ho, hb, hm⟩
    subst ho
    unfold checkOldTypeMatches_
    simp only
    rw [hb]
    simp only
    unfold reporterMatches at hm
    rcases hm with h | h
    · rw [if_pos h]
    · by_cases h1 : (t = utf16 "n" ∨ t = utf16 "s") ∧
          b.type = utf16 "argument_reporter_string_number"
      · rw [if_pos h1]
      · rw [if_neg h1, if_pos h]

/-- C18: `populateInputCallerInternal_`, called as `createAllInputs_` calls
it, with the block that the salvage map has under the id. It reattaches the
salvaged block if and only if that block is an argument reporter of the kind
of the parameter type: then the input holds the salvaged block, no block is
made, the `VALUE` field of the salvaged block is `displayNames_[index]`, and
the entry of the salvage map is cleared. Otherwise the input holds a block
made by the call, the last of the workspace: an argument reporter of the kind
of the type, a shadow, with `displayNames_[index]` in its `VALUE` field, and
the salvage map is unchanged. In both cases `paramMap_[id]` is the input. -/
theorem C18_internal_populate (t : JSString) (index : Nat) (cm : Option ConnectionMap)
    (id : JSVal) (input : Nat) (w : ProcBlock) :
    (∀ c b, oldBlockOf cm id = some c → w.workspace[c]? = some b →
        reporterMatches b.type t →
        (populateInputCallerInternal_ t index cm id (oldBlockOf cm id) input w).2.inputList =
            updateAt w.inputList input (fun i => { i with target := some c }) ∧
          (populateInputCallerInternal_ t index cm id (oldBlockOf cm id) input w).2.workspace =
            updateAt w.workspace c (fun b =>
              { b with
                fields := PropMap.set b.fields (utf16 "VALUE") (arrayGet w.displayNames_ index)
                connected := true }) ∧
          (populateInputCallerInternal_ t index cm id (oldBlockOf cm id) input w).1 =
            cm.map (fun m => PropMap.set m id.toJSString none)) ∧
      ((¬ ∃ c b, oldBlockOf cm id = some c ∧ w.workspace[c]? = some b ∧
          reporterMatches b.type t) →
        (populateInputCallerInternal_ t index cm id (oldBlockOf cm id) input w).2.inputList =
            updateAt w.inputList input
              (fun i => { i with target := some w.workspace.length }) ∧
          (populateInputCallerInternal_ t index cm id (oldBlockOf cm id) input w).2.workspace =
            w.workspace ++
              [{ type := reporterType t,
                 fields := [(utf16 "VALUE", arrayGet w.displayNames_ index)],
                 shadow := true, rendered := !w.insertionMarker, connected := true,
                 disposed := false }] ∧
          (populateInputCallerInternal_ t index cm id (oldBlockOf cm id) input w).1 = cm) ∧
      (populateInputCallerInternal_ t index cm id (oldBlockOf cm id) input w).2.paramMap_ =
        w.paramMap_.map (fun m => PropMap.set m id.toJSString input) ∧
      ∀ pm, w.paramMap_ = some pm →
        ((populateInputCallerInternal_ t index cm id (oldBlockOf cm id) input
          w).2.paramMap_.bind fun m => PropMap.get m id.toJSString) = some input := by
  have hpm : (populateInputCallerInternal_ t index cm id (oldBlockOf cm id) input w).2.paramMap_ =
      w.paramMap_.map (fun m => PropMap.set m id.toJSString input) := by
    cases hc : checkOldTypeMatches_ w (oldBlockOf cm id) t with
    | true =>
      obtain ⟨c, ho⟩ := checkOldTypeMatches__some _ _ _ hc
      obtain ⟨m, hm, -⟩ := oldBlockOf_some cm _ c ho
      subst hm
      rw [ho] at hc ⊢
      rw [populateInputCallerInternal__reattach _ _ _ _ _ _ _ hc]
      rfl
    | false =>
      rw [populateInputCallerInternal__fresh _ _ _ _ _ _ _ hc]
      cases hm : w.insertionMarker <;>
        simp [attachArgumentReporter_, setParam, ProcBlock.newBlock, ProcBlock.setFieldValue,
          ProcBlock.setShadow, ProcBlock.renderBlock, ProcBlock.connect, hm]
  refine ⟨?_, ?_, hpm, ?_⟩
  · intro c b ho hb hm
    have hc : checkOldTypeMatches_ w (oldBlockOf cm id) t = true :=
      (checkOldTypeMatches__iff w _ t).mpr ⟨c, b, ho, hb, hm⟩
    obtain ⟨m, hcm, -⟩ := oldBlockOf_some cm _ c ho
    subst hcm
    rw [ho] at hc ⊢
    rw [populateInputCallerInternal__reattach _ _ _ _ _ _ _ hc]
    refine ⟨rfl, ?_, rfl⟩
    simp [setParam, ProcBlock.connect, ProcBlock.setFieldValue, updateAt_updateAt]
  · intro hno
    have hc : checkOldTypeMatches_ w (oldBlockOf cm id) t = false := by
      cases h : checkOldTypeMatches_ w (oldBlockOf cm id) t with
      | false => rfl
      | true => exact absurd ((checkOldTypeMatches__iff w _ t).mp h) hno
    rw [populateInputCallerInternal__fresh _ _ _ _ _ _ _ hc]
    cases hm : w.insertionMarker <;>
      simp [attachArgumentReporter_, setParam, ProcBlock.newBlock, ProcBlock.setFieldValue,
        ProcBlock.setShadow, ProcBlock.renderBlock, ProcBlock.connect,
        updateAt_append_length, hm, PropMap.set, reporterType]
  · intro pm hp
    rw [hpm, hp]
    simp [PropMap.get_set_self]

/-! ## C20: from the inputs to the proc-code -/

theorem updateProcCodeLoop_ok (inputs : List Input) (i : Nat) (w : ProcBlock)
    (hwf : ∀ input ∈ inputs,
      (input.type = InputType.dummy → input.fieldRow ≠ []) ∧
        (input.type = InputType.value → (attachedBlock w.workspace input).isSome = true))
    (hall : ∀ input ∈ inputs, input.type = InputType.dummy ∨ input.type = InputType.value) :
    updateProcCodeLoop inputs i w =
      Outcome.ok ()
        { w with
          procCode_ := w.procCode_ ++
            (if i = 0 then joinSpaces (inputs.map (contribution w.workspace))
              else spaced (inputs.map (contribution w.workspace)))
          displayNames_ := w.displayNames_ ++ (valueInputs inputs).map (slotText w.workspace)
          argumentIds_ := w.argumentIds_ ++ (valueInputs inputs).map Input.name } := by
  induction inputs generalizing i w with
  | nil =>
    rw [updateProcCodeLoop]
    by_cases hi : i = 0 <;> simp [hi, joinSpaces, spaced, valueInputs]
  | cons input rest ih =>
    have hrest : ∀ x ∈ rest,
        (x.type = InputType.dummy → x.fieldRow ≠ []) ∧
          (x.type = InputType.value → (attachedBlock w.workspace x).isSome = true) :=
      fun x hx => hwf x (List.mem_cons_of_mem _ hx)
    have hall2 : ∀ x ∈ rest, x.type = InputType.dummy ∨ x.type = InputType.value :=
      fun x hx => hall x (List.mem_cons_of_mem _ hx)
    rcases hall input (List.mem_cons_self _ _) with hty | hty
    · obtain ⟨field, row, hrow⟩ := List.exists_cons_of_ne_nil
        ((hwf input (List.mem_cons_self _ _)).1 hty)
      rw [updateProcCodeLoop_dummy input rest i w field row hty hrow,
        ih (i + 1)
          { w with procCode_ := w.procCode_ ++ (if i = 0 then [] else utf16 " ") ++
              field.getValue }
          hrest hall2]
      have hc : contribution w.workspace input = field.getValue := by
        simp [contribution, hty, hrow]
      have hv : valueInputs (input :: rest) = valueInputs rest := by
        simp [valueInputs, hty]
      by_cases hi : i = 0
      · simp [hi, joinSpaces, spaced, hc, hv]
      · simp [hi, joinSpaces, spaced, hc, hv]
    · have hsome := (hwf input (List.mem_cons_self _ _)).2 hty
      obtain ⟨b, hb⟩ := Option.isSome_iff_exists.mp hsome
      rw [updateProcCodeLoop_value input rest i w b hty hb,
        ih (i + 1)
          { w with
            procCode_ := w.procCode_ ++ (if i = 0 then [] else utf16 " ") ++
              (if b.type = utf16 "boolean_textinput" then utf16 "%b" else utf16 "%s")
            displayNames_ := w.displayNames_ ++ [getFieldValue b (utf16 "TEXT")]
            argumentIds_ := w.argumentIds_ ++ [input.name] }
          hrest hall2]
      have hc : contribution w.workspace input =
          if b.type = utf16 "boolean_textinput" then utf16 "%b" else utf16 "%s" := by
        simp [contribution, hty, hb]
      have hv : valueInputs (input :: rest) = input :: valueInputs rest := by
        simp [valueInputs, hty]
      have ht : slotText w.workspace input = getFieldValue b (utf16 "TEXT") := by
        simp [slotText, hb]
      by_cases hi : i = 0
      · simp [hi, joinSpaces, spaced, hc, hv, ht]
      · simp [hi, joinSpaces, spaced, hc, hv, ht]

theorem updateProcCodeLoop_threw (inputs : List Input) (i : Nat) (w : ProcBlock)
    (hwf : ∀ input ∈ inputs,
      (input.type = InputType.dummy → input.fieldRow ≠ []) ∧
        (input.type = InputType.value → (attachedBlock w.workspace input).isSome = true))
    (hex : ∃ input ∈ inputs, input.type ≠ InputType.dummy ∧ input.type ≠ InputType.value) :
    ∃ w2, updateProcCodeLoop inputs i w =
      Outcome.threw (JSError.unexpectedInput InputType.statement) w2 := by
  induction inputs generalizing i w with
  | nil =>
    obtain ⟨x, hx, -⟩ := hex
    simp at hx
  | cons input rest ih =>
    have hrest : ∀ x ∈ rest,
        (x.type = InputType.dummy → x.fieldRow ≠ []) ∧
          (x.type = InputType.value → (attachedBlock w.workspace x).isSome = true) :=
      fun x hx => hwf x (List.mem_cons_of_mem _ hx)
    cases hty : input.type with
    | statement =>
      rw [updateProcCodeLoop]
      simp only [hty]
      exact ⟨_, rfl⟩
    | dummy =>
      have hex2 : ∃ x ∈ rest, x.type ≠ InputType.dummy ∧ x.type ≠ InputType.value := by
        obtain ⟨x, hx, h1, h2⟩ := hex
        rcases List.mem_cons.mp hx with h | h
        · rw [h] at h1
          exact absurd hty h1
        · exact ⟨x, h, h1, h2⟩
      obtain ⟨field, row, hrow⟩ := List.exists_cons_of_ne_nil
        ((hwf input (List.mem_cons_self _ _)).1 hty)
      rw [updateProcCodeLoop_dummy input rest i w field row hty hrow]
      exact ih (i + 1)
        { w with procCode_ := w.procCode_ ++ (if i = 0 then [] else utf16 " ") ++
            field.getValue }
        hrest hex2
    | value =>
      have hex2 : ∃ x ∈ rest, x.type ≠ InputType.dummy ∧ x.type ≠ InputType.value := by
        obtain ⟨x, hx, h1, h2⟩ := hex
        rcases List.mem_cons.mp hx with h | h
        · rw [h] at h2
          exact absurd hty h2
        · exact ⟨x, h, h1, h2⟩
      have hsome := (hwf input (List.mem_cons_self _ _)).2 hty
      obtain ⟨b, hb⟩ := Option.isSome_iff_exists.mp hsome
      rw [updateProcCodeLoop_value input rest i w b hty hb]
      exact ih (i + 1)
        { w with
          procCode_ := w.procCode_ ++ (if i = 0 then [] else utf16 " ") ++
            (if b.type = utf16 "boolean_textinput" then utf16 "%b" else utf16 "%s")
          displayNames_ := w.displayNames_ ++ [getFieldValue b (utf16 "TEXT")]
          argumentIds_ := w.argumentIds_ ++ [input.name] }
        hrest hex2

/-- C20: on an input list in which every label input has a field and every
value input has an attached block, `updateProcCodeMutatorRoot_` does the
following. When every input is a dummy input or a value input it returns,
and changes three fields only: `procCode_` is the contributions of the
inputs joined by single spaces (the text of the field of a label, `%b` for
an attached `boolean_textinput` block, `%s` for any other attached block),
`argumentIds_` is the names of the value inputs in order, and
`displayNames_` is the `TEXT` values of their attached blocks in order. It
throws the unexpected-input error if and only if some input is neither a
dummy input nor a value input. -/
theorem C20_reverse_sync (w : ProcBlock) (hwf : inputsComplete w) :
    ((∀ input ∈ w.inputList, input.type = InputType.dummy ∨ input.type = InputType.value) →
        updateProcCodeMutatorRoot_ w =
          Outcome.ok ()
            { w with
              procCode_ := joinSpaces (w.inputList.map (contribution w.workspace))
              argumentIds_ := (valueInputs w.inputList).map Input.name
              displayNames_ := (valueInputs w.inputList).map (slotText w.workspace) }) ∧
      ((∃ ty w2, updateProcCodeMutatorRoot_ w =
          Outcome.threw (JSError.unexpectedInput ty) w2) ↔
        ∃ input ∈ w.inputList,
          input.type ≠ InputType.dummy ∧ input.type ≠ InputType.value) := by
  have hok : (∀ input ∈ w.inputList,
      input.type = InputType.dummy ∨ input.type = InputType.value) →
      updateProcCodeMutatorRoot_ w =
        Outcome.ok ()
          { w with
            procCode_ := joinSpaces (w.inputList.map (contribution w.workspace))
            argumentIds_ := (valueInputs w.inputList).map Input.name
            displayNames_ := (valueInputs w.inputList).map (slotText w.workspace) } := by
    intro hall
    unfold updateProcCodeMutatorRoot_
    simp only
    rw [updateProcCodeLoop_ok w.inputList 0
      { w with procCode_ := [], displayNames_ := [], argumentIds_ := [] } hwf hall]
    simp
  refine ⟨hok, ?_, ?_⟩
  · rintro ⟨ty, w2, hthrew⟩
    by_contra hno
    have hall : ∀ input ∈ w.inputList,
        input.type = InputType.dummy ∨ input.type = InputType.value := by
      intro input hin
      by_contra h
      exact hno ⟨input, hin, fun e => h (Or.inl e), fun e => h (Or.inr e)⟩
    rw [hok hall] at hthrew
    simp at hthrew
  · intro hex
    obtain ⟨w2, h⟩ := updateProcCodeLoop_threw w.inputList 0
      { w with procCode_ := [], displayNames_ := [], argumentIds_ := [] } hwf hex
    exact ⟨InputType.statement, w2, h⟩

/-- C20 at the mutator root that shows `say %b to %s`. -/
theorem C20_reverse_sync_witness :
    ((∀ input ∈ sayToRoot.inputList,
          input.type = InputType.dummy ∨ input.type = InputType.value) →
        updateProcCodeMutatorRoot_ sayToRoot =
          Outcome.ok ()
            { sayToRoot with
              procCode_ := joinSpaces (sayToRoot.inputList.map (contribution sayToRoot.workspace))
              argumentIds_ := (valueInputs sayToRoot.inputList).map Input.name
              displayNames_ :=
                (valueInputs sayToRoot.inputList).map (slotText sayToRoot.workspace) }) ∧
      ((∃ ty w2, updateProcCodeMutatorRoot_ sayToRoot =
          Outcome.threw (JSError.unexpectedInput ty) w2) ↔
        ∃ input ∈ sayToRoot.inputList,
          input.type ≠ InputType.dummy ∧ input.type ≠ InputType.value) :=
  C20_reverse_sync sayToRoot (by unfold inputsComplete; decide)

/-! ## C21 and C22: the default values -/

theorem argumentDefaults_updateProcCodeLoop (inputs : List Input) (i : Nat) (w : ProcBlock) :
    (updateProcCodeLoop inputs i w).state.argumentDefaults_ = w.argumentDefaults_ := by
  induction inputs generalizing i w with
  | nil => rfl
  | cons input rest ih =>
    rw [updateProcCodeLoop]
    simp only []
    generalize hw1 : (if i ≠ 0 then
      ({ w with procCode_ := w.procCode_ ++ utf16 " " } : ProcBlock) else w) = w1
    have h1 : w1.argumentDefaults_ = w.argumentDefaults_ := by
      rw [← hw1]
      split <;> rfl
    split
    · split
      · exact h1
      · rw [ih]
        exact h1
    · split
      · exact h1
      · rw [ih]
        split <;> exact h1
    · exact h1

/-- C21: `updateProcCodeMutatorRoot_` does not keep the three arrays
parallel. The three `add…External` functions keep them parallel on every
state, and `updateProcCodeMutatorRoot_` never changes `argumentDefaults_` on
any state, while it rebuilds `argumentIds_` and `displayNames_` from the
inputs. On the root that has two slots and two entries in each array, after
the editor has removed the second slot, it leaves one id, one display name
and two defaults. -/
theorem C21_defaults_not_rebuilt :
    (∀ w : ProcBlock, parallelArrays w →
        parallelArrays (addLabelExternal w).state ∧
          parallelArrays (addBooleanExternal w).state ∧
          parallelArrays (addStringNumberExternal w).state) ∧
      (∀ w : ProcBlock,
        (updateProcCodeMutatorRoot_ w).state.argumentDefaults_ = w.argumentDefaults_) ∧
      parallelArrays oneSlotLeftRoot ∧
      oneSlotLeftRoot.argumentDefaults_.length = 2 ∧
      updateProcCodeMutatorRoot_ oneSlotLeftRoot =
        Outcome.ok () (updateProcCodeMutatorRoot_ oneSlotLeftRoot).state ∧
      (updateProcCodeMutatorRoot_ oneSlotLeftRoot).state.argumentIds_ =
        [JSVal.str (utf16 "uid")] ∧
      (updateProcCodeMutatorRoot_ oneSlotLeftRoot).state.displayNames_ =
        [JSVal.str (utf16 "boolean")] ∧
      (updateProcCodeMutatorRoot_ oneSlotLeftRoot).state.argumentDefaults_ =
        [JSVal.str (utf16 "todo"), JSVal.str (utf16 "todo")] := by
  refine ⟨?_, ?_, by unfold parallelArrays; decide, by decide, by decide, by decide,
    by decide, by decide⟩
  · intro w hp
    obtain ⟨h1, h2⟩ := hp
    refine ⟨?_, ?_, ?_⟩
    · unfold addLabelExternal parallelArrays
      obtain ⟨-, -, hi, hn, hd, -⟩ :=
        fields_updateDisplay_ { w with procCode_ := w.procCode_ ++ utf16 " label text" }
      rw [hi, hn, hd]
      exact ⟨h1, h2⟩
    · unfold addBooleanExternal parallelArrays
      simp only [ProcBlock.genUid]
      obtain ⟨-, -, hi, hn, hd, -⟩ := fields_updateDisplay_
        { w with
          procCode_ := w.procCode_ ++ utf16 " %b"
          displayNames_ := w.displayNames_ ++ [JSVal.str (utf16 "boolean")]
          uidCount := w.uidCount + 1
          argumentIds_ := w.argumentIds_ ++
            [JSVal.str (utf16 "uid" ++ List.replicate w.uidCount 35)]
          argumentDefaults_ := w.argumentDefaults_ ++ [JSVal.str (utf16 "todo")] }
      rw [hi, hn, hd]
      simp only [List.length_append, List.length_singleton]
      omega
    · unfold addStringNumberExternal parallelArrays
      simp only [ProcBlock.genUid]
      obtain ⟨-, -, hi, hn, hd, -⟩ := fields_updateDisplay_
        { w with
          procCode_ := w.procCode_ ++ utf16 " %s"
          displayNames_ := w.displayNames_ ++ [JSVal.str (utf16 "string or number")]
          uidCount := w.uidCount + 1
          argumentIds_ := w.argumentIds_ ++
            [JSVal.str (utf16 "uid" ++ List.replicate w.uidCount 35)]
          argumentDefaults_ := w.argumentDefaults_ ++ [JSVal.str (utf16 "todo")] }
      rw [hi, hn, hd]
      simp only [List.length_append, List.length_singleton]
      omega
  · intro w
    unfold updateProcCodeMutatorRoot_
    simp only
    rw [argumentDefaults_updateProcCodeLoop]

/-- C22: the shadow DOM of `buildShadowDom_` for the type `n` has another
default than the block that `attachShadow_` makes for `n`. Both name a
`math_number` block with the field `NUM`, but the DOM holds `10` and the
block holds `99`. For the type `s` both name a `text` block whose field
`TEXT` holds `hello world`. The block of `attachShadow_` is the last block
of the workspace after the call, on every state. -/
theorem C22_number_default_differs :
    buildShadowDom_ (utf16 "n") =
        { type := utf16 "math_number", fieldName := utf16 "NUM", fieldValue := utf16 "10" } ∧
      (∀ (w : ProcBlock) (input : Nat),
        ∃ blk, (attachShadow_ input (utf16 "n") w).workspace = w.workspace ++ [blk] ∧
          blk.type = utf16 "math_number" ∧ blk.shadow = true ∧
          getFieldValue blk (utf16 "NUM") = JSVal.str (utf16 "99")) ∧
      buildShadowDom_ (utf16 "s") =
        { type := utf16 "text", fieldName := utf16 "TEXT",
          fieldValue := utf16 "hello world" } ∧
      (∀ (w : ProcBlock) (input : Nat),
        ∃ blk, (attachShadow_ input (utf16 "s") w).workspace = w.workspace ++ [blk] ∧
          blk.type = utf16 "text" ∧ blk.shadow = true ∧
          getFieldValue blk (utf16 "TEXT") = JSVal.str (utf16 "hello world")) ∧
      JSVal.str (buildShadowDom_ (utf16 "n")).fieldValue ≠ JSVal.str (utf16 "99") := by
  refine ⟨by decide, ?_, by decide, ?_, by decide⟩
  · intro w input
    refine ⟨freshContent Variant.caller (utf16 "n") JSVal.undefined w.insertionMarker, ?_,
      by simp [freshContent], rfl, by simp [freshContent, getFieldValue, PropMap.get_cons]⟩
    cases hm : w.insertionMarker <;>
      simp [attachShadow_, ProcBlock.newBlock, ProcBlock.setFieldValue,
        ProcBlock.setShadow, ProcBlock.renderBlock, ProcBlock.connect,
        updateAt_append_length, freshContent, hm, PropMap.set, length_updateAt]
  · intro w input
    refine ⟨freshContent Variant.caller (utf16 "s") JSVal.undefined w.insertionMarker, ?_,
      by simp [freshContent, s_ne_n], rfl,
      by simp [freshContent, getFieldValue, PropMap.get_cons, s_ne_n]⟩
    cases hm : w.insertionMarker <;>
      simp [attachShadow_, ProcBlock.newBlock, ProcBlock.setFieldValue,
        ProcBlock.setShadow, ProcBlock.renderBlock, ProcBlock.connect,
        updateAt_append_length, freshContent, hm, PropMap.set, length_updateAt, s_ne_n]

/-! ## Joining adjacent labels -/

theorem goodLabel_join {a b : JSString} (ha : goodLabel a) (hb : goodLabel b) :
    goodLabel (a ++ utf16 " " ++ b) := by
  obtain ⟨ha1, ha2, ha3⟩ := ha
  obtain ⟨hb1, hb2, hb3⟩ := hb
  refine ⟨by simp [ha1], ?_, ?_⟩
  · obtain ⟨c, rest, hc⟩ := List.exists_cons_of_ne_nil ha1
    have hns : isWhiteSpace c = false := head_not_space c rest hc (trim_fixed ha2).1
    unfold trim
    have hd : (a ++ utf16 " " ++ b).dropWhile isWhiteSpace = a ++ utf16 " " ++ b := by
      rw [hc]
      simp only [List.cons_append]
      rw [List.dropWhile_cons_of_neg (by simp [hns])]
    rw [hd]
    exact rdropWhile_append_fixed (a ++ utf16 " ") hb1 (trim_fixed hb2).2
  · intro h
    simp only [List.mem_append] at h
    rcases h with (h | h) | h
    · exact ha3 h
    · revert h
      decide
    · exact hb3 h

theorem roundTrips_mergeInto (seg : Segment) (sig : List Segment)
    (hseg : match seg with
      | Segment.label text => goodLabel text
      | Segment.param t => t ≠ ParamType.n)
    (h : roundTrips sig) : roundTrips (mergeInto seg sig) := by
  cases seg with
  | param t => exact ⟨hseg, h⟩
  | label a =>
    cases sig with
    | nil => exact ⟨hseg, trivial, trivial⟩
    | cons s rest =>
      cases s with
      | label b =>
        obtain ⟨hb, hnl, hr⟩ := h
        exact ⟨goodLabel_join hseg hb, hnl, hr⟩
      | param t => exact ⟨hseg, trivial, h⟩

theorem encodeTail_mergeInto (seg : Segment) (sig : List Segment) :
    encodeTail (mergeInto seg sig) = encodeTail (seg :: sig) ∧
      encodeSignature (mergeInto seg sig) = encodeSignature (seg :: sig) ∧
      paramTypes (mergeInto seg sig) = paramTypes (seg :: sig) := by
  cases seg with
  | param t => exact ⟨rfl, rfl, rfl⟩
  | label a =>
    cases sig with
    | nil => exact ⟨rfl, rfl, rfl⟩
    | cons s rest =>
      cases s with
      | label b =>
        refine ⟨?_, ?_, ?_⟩
        · simp [mergeInto, encodeTail, segmentText]
        · simp [mergeInto, encodeSignature, encodeTail, segmentText]
        · simp [mergeInto, paramTypes]
      | param t => exact ⟨rfl, rfl, rfl⟩

theorem encodeTail_cons_congr (seg : Segment) (s1 s2 : List Segment)
    (h : encodeTail s1 = encodeTail s2) :
    encodeTail (seg :: s1) = encodeTail (seg :: s2) ∧
      encodeSignature (seg :: s1) = encodeSignature (seg :: s2) := by
  simp [encodeTail, encodeSignature, h]

/-- Joining the adjacent labels of a signature of plain segments gives a
signature that the codec round-trips, with the same proc-code and the same
parameters. -/
theorem mergeLabels_facts (sig : List Segment) (h : plainSegments sig) :
    roundTrips (mergeLabels sig) ∧ encodeTail (mergeLabels sig) = encodeTail sig ∧
      encodeSignature (mergeLabels sig) = encodeSignature sig ∧
      paramTypes (mergeLabels sig) = paramTypes sig := by
  induction sig with
  | nil => exact ⟨trivial, rfl, rfl, rfl⟩
  | cons seg rest ih =>
    have hrest : plainSegments rest := fun s hs => h s (List.mem_cons_of_mem _ hs)
    obtain ⟨h1, h2, -, h4⟩ := ih hrest
    have hm : mergeLabels (seg :: rest) = mergeInto seg (mergeLabels rest) := rfl
    obtain ⟨e1, e2, e3⟩ := encodeTail_mergeInto seg (mergeLabels rest)
    obtain ⟨c1, c2⟩ := encodeTail_cons_congr seg _ _ h2
    refine ⟨?_, ?_, ?_, ?_⟩
    · rw [hm]
      exact roundTrips_mergeInto seg _ (h seg (List.mem_cons_self _ _)) h1
    · rw [hm, e1, c1]
    · rw [hm, e2, c2]
    · rw [hm, e3]
      cases seg <;> simp [paramTypes] at h4 ⊢ <;> exact h4

/-! ## The blocks that the inputs hold -/

theorem holds_of_oldBlockOf (cm : Option ConnectionMap) (id : JSVal) (c : Nat)
    (h : oldBlockOf cm id = some c) : holds cm id.toJSString c := by
  obtain ⟨m, hm, hg⟩ := oldBlockOf_some cm id c h
  exact ⟨m, hm, PropMap.mem_of_get_eq_some m _ _ hg⟩

theorem PropMap.nodup_keys_set {α : Type} (m : PropMap α) (key : JSString) (v : α)
    (h : (m.map Prod.fst).Nodup) : ((PropMap.set m key v).map Prod.fst).Nodup := by
  rw [PropMap.keys_set]
  split
  · exact h
  · rename_i hnot
    exact List.Nodup.append h (List.nodup_singleton key)
      (by
        intro a ha hb
        rw [List.mem_singleton] at hb
        subst hb
        exact hnot ha)

theorem holds_set_none (cm : Option ConnectionMap) (key k : JSString) (c : Nat)
    (hnd : ∀ m, cm = some m → (m.map Prod.fst).Nodup)
    (h : holds (cm.map fun m => PropMap.set m key none) k c) :
    holds cm k c ∧ k ≠ key := by
  obtain ⟨m2, hm2, hmem⟩ := h
  cases cm with
  | none => simp at hm2
  | some m =>
    simp only [Option.map_some', Option.some.injEq] at hm2
    subst hm2
    refine ⟨?_, ?_⟩
    · rcases PropMap.mem_set m key none _ hmem with h1 | h1
      · exact ⟨m, rfl, h1⟩
      · simp at h1
    · intro hk
      subst hk
      have hg := PropMap.get_eq_some_of_mem _ k (some c)
        (PropMap.nodup_keys_set m k none (hnd m rfl)) hmem
      rw [PropMap.get_set_self] at hg
      simp at hg

theorem nodup_keys_detachPhase (w : ProcBlock) (ht : trackedOnce w) :
    ∀ m, (detachPhase w).1 = some m → (m.map Prod.fst).Nodup := by
  intro m hm
  cases hpm : w.paramMap_ with
  | none =>
    rw [detachPhase_none w hpm] at hm
    simp at hm
  | some pm =>
    rw [detachPhase_map w pm hpm ht] at hm
    injection hm with hm
    subst hm
    have hnd : (pm.map Prod.fst).Nodup := by
      have := ht.1
      rw [hpm] at this
      exact this
    exact (keys_filterMap_salvageEntry w.inputList pm).nodup hnd

theorem holds_detachPhase (w : ProcBlock) (ht : trackedOnce w) (key : JSString) (c : Nat) :
    holds (detachPhase w).1 key c ↔ attachedUnder w key = some c := by
  have hk : (JSVal.str key).toJSString = key := rfl
  constructor
  · rintro ⟨m, hm, hmem⟩
    have hg := PropMap.get_eq_some_of_mem m key (some c) (nodup_keys_detachPhase w ht m hm) hmem
    have ho := oldBlockOf_detachPhase w ht (JSVal.str key)
    rw [hk, hm] at ho
    rw [← ho]
    exact oldBlockOf_of_get m (JSVal.str key) (some c) hg
  · intro h
    have ho := oldBlockOf_detachPhase w ht (JSVal.str key)
    rw [hk, h] at ho
    exact holds_of_oldBlockOf _ (JSVal.str key) _ ho

theorem attachedUnder_inj (w : ProcBlock) (ht : trackedOnce w)
    (hd : targetsDistinct w.inputList) (k1 k2 : JSString) (c : Nat)
    (h1 : attachedUnder w k1 = some c) (h2 : attachedUnder w k2 = some c) : k1 = k2 := by
  obtain ⟨pm, idx1, i1, hpm, hm1, hi1, -, ht1⟩ := attachedUnder_some w k1 c h1
  obtain ⟨pm2, idx2, i2, hpm2, hm2, hi2, -, ht2⟩ := attachedUnder_some w k2 c h2
  rw [hpm] at hpm2
  injection hpm2 with hpm2
  subst hpm2
  have hsnd : (pm.map Prod.snd).Nodup := by
    have := ht.2
    rw [hpm] at this
    exact this
  by_cases hidx : idx1 = idx2
  · subst hidx
    have := List.inj_on_of_nodup_map hsnd hm1 hm2 rfl
    exact congrArg Prod.fst this
  · exfalso
    obtain ⟨hl1, he1⟩ := List.getElem?_eq_some_iff.mp hi1
    obtain ⟨hl2, he2⟩ := List.getElem?_eq_some_iff.mp hi2
    have hp := List.pairwise_iff_getElem.mp hd
    rcases Nat.lt_or_gt_of_ne hidx with hlt | hgt
    · have := hp idx1 idx2 hl1 hl2 hlt
      rw [he1, he2, ht1, ht2] at this
      simp at this
    · have := hp idx2 idx1 hl2 hl1 hgt
      rw [he1, he2, ht1, ht2] at this
      simp at this

theorem salvageSound_detachPhase (w : ProcBlock) (ht : trackedOnce w)
    (hd : targetsDistinct w.inputList) (hl : targetsLive w.workspace w.inputList) :
    salvageSound (detachPhase w).2.workspace (detachPhase w).1 := by
  refine ⟨nodup_keys_detachPhase w ht, ?_, ?_⟩
  · intro k1 k2 c h1 h2
    exact attachedUnder_inj w ht hd k1 k2 c ((holds_detachPhase w ht k1 c).mp h1)
      ((holds_detachPhase w ht k2 c).mp h2)
  · intro key c h
    obtain ⟨pm, idx, i, -, -, hi, -, htg⟩ :=
      attachedUnder_some w key c ((holds_detachPhase w ht key c).mp h)
    have hlive := hl i (List.mem_iff_getElem?.mpr ⟨idx, hi⟩) c (by rw [htg]; exact rfl)
    cases hb : w.workspace[c]? with
    | none => rw [hb] at hlive; simp at hlive
    | some b =>
      rw [hb] at hlive
      simp only [Option.map_some', Option.some.injEq] at hlive
      obtain ⟨b0, hb0, hfl, -⟩ := detachPhase_flags w c b hb
      exact ⟨b0, hb0, (congrArg (fun x => x.2.2) hfl).trans hlive⟩

theorem liveInv_label (ws0 : List ContentBlock) (cm0 cm : Option ConnectionMap)
    (w : ProcBlock) (text : JSString) (h : liveInv ws0 cm0 cm w) :
    liveInv ws0 cm0 cm (addLabel_ text w) := by
  obtain ⟨hf, hnd, hsub, hdist, hlive⟩ := h
  obtain ⟨l, hl, hdum, hws, -⟩ := addLabel__shape text w
  refine ⟨by rw [hws]; exact hf, hnd, hsub, ?_, ?_⟩
  · unfold targetsDistinct
    rw [hl, List.pairwise_append]
    refine ⟨hdist, ?_, ?_⟩
    · exact List.pairwise_of_forall_mem_list
        (fun a ha _ _ => Or.inl (hdum a ha).2)
    · intro a _ b hb
      rw [(hdum b hb).2]
      cases a.target with
      | none => exact Or.inl rfl
      | some c => exact Or.inr (by simp)
  · intro input hin c hc
    rw [hl] at hin
    rw [hws]
    rcases List.mem_append.mp hin with h1 | h1
    · exact hlive input h1 c hc
    · rw [(hdum input h1).2] at hc
      simp at hc

theorem freshContent_live (v : Variant) (t : JSString) (dn : JSVal) (m : Bool) :
    (freshContent v t dn m).disposed = false ∧ (freshContent v t dn m).connected = true := by
  cases v <;> exact ⟨rfl, rfl⟩

theorem liveInv_param (ws0 : List ContentBlock) (cm0 : Option ConnectionMap)
    (hs : salvageSound ws0 cm0) (cm : Option ConnectionMap) (w : ProcBlock)
    (t : JSString) (n : Nat) (h : liveInv ws0 cm0 cm w) :
    liveInv ws0 cm0 (slotMade t n cm w).1 (slotMade t n cm w).2 := by
  obtain ⟨hf, hnd, hsub, hdist, hlive⟩ := h
  obtain ⟨-, hinj, hl0⟩ := hs
  have hframed := framed_slotMade ws0 t n cm w hf
  obtain ⟨-, -, hc⟩ := slotMade_cases t n cm w
  rcases hc with ⟨c, hr, hcm, hin, hws⟩ | ⟨-, -, hcm, hin, hws⟩ | ⟨-, -, hcm, hin, hws⟩
  · -- the salvaged block `c` is attached again
    have hheld : holds cm (arrayGet w.argumentIds_ n).toJSString c :=
      holds_of_oldBlockOf cm _ c (reattachedBlock_old t n cm w c hr)
    have hsub2 : ∀ key c2, holds (slotMade t n cm w).1 key c2 →
        holds cm key c2 ∧ key ≠ (arrayGet w.argumentIds_ n).toJSString := by
      intro key c2 hk
      rw [hcm] at hk
      exact holds_set_none cm _ key c2 hnd hk
    have hne : ∀ input ∈ w.inputList, ∀ c2, input.target = some c2 → c2 ≠ c := by
      intro input hi c2 hc2 he
      subst he
      exact (hlive input hi c2 hc2).2.1 _ hheld
    refine ⟨hframed, ?_, fun key c2 hk => hsub key c2 (hsub2 key c2 hk).1, ?_, ?_⟩
    · intro m2 hm2
      rw [hcm] at hm2
      cases cm with
      | none => simp at hm2
      | some m =>
        simp only [Option.map_some', Option.some.injEq] at hm2
        rw [← hm2]
        exact PropMap.nodup_keys_set m _ none (hnd m rfl)
    · unfold targetsDistinct
      rw [hin, List.pairwise_append]
      refine ⟨hdist, List.pairwise_singleton _ _, ?_⟩
      intro a ha b hb
      rw [List.mem_singleton.mp hb]
      cases hta : a.target with
      | none => exact Or.inl rfl
      | some c2 =>
        refine Or.inr ?_
        intro he
        have : c2 = c := by simpa [slotInput] using he
        exact hne a ha c2 hta this
    · intro input hi c2 hc2
      rw [hin] at hi
      rcases List.mem_append.mp hi with h1 | h1
      · obtain ⟨⟨b, hb, hdis, hcon⟩, hnot, hold⟩ := hlive input h1 c2 hc2
        refine ⟨⟨b, ?_, hdis, hcon⟩, fun key hk => hnot key (hsub2 key c2 hk).1, hold⟩
        rw [hws, getElem?_updateAt, if_neg (hne input h1 c2 hc2), hb]
      · rw [List.mem_singleton.mp h1] at hc2 ⊢
        have hcc : c2 = c := by simpa [slotInput] using hc2.symm
        subst hcc
        obtain ⟨b0, hb0, hd0⟩ := hl0 _ c2 (hsub _ c2 hheld)
        obtain ⟨b, hb, hfl⟩ := hf c2 b0 hb0
        have hdis : b.disposed = false := (congrArg (fun x => x.2.2) hfl).trans hd0
        refine ⟨⟨reattach w.variant (arrayGet w.displayNames_ n) b, ?_, ?_, ?_⟩, ?_, ?_⟩
        · rw [hws, getElem?_updateAt, if_pos rfl, hb]
          rfl
        · exact (congrArg (fun x => x.2.2) (blockFlags_reattach _ _ b).1).trans hdis
        · exact (blockFlags_reattach _ _ b).2
        · intro key hk
          obtain ⟨hk1, hk2⟩ := hsub2 key c2 hk
          exact hk2 (hinj _ _ c2 (hsub key c2 hk1) (hsub _ c2 hheld))
        · intro _
          exact hsub _ c2 hheld
  · -- the slot is left empty
    rw [hcm]
    refine ⟨hframed, hnd, hsub, ?_, ?_⟩
    · unfold targetsDistinct
      rw [hin, List.pairwise_append]
      refine ⟨hdist, List.pairwise_singleton _ _, ?_⟩
      intro a _ b hb
      rw [List.mem_singleton.mp hb]
      cases a.target with
      | none => exact Or.inl rfl
      | some c => exact Or.inr (by simp [slotInput])
    · intro input hi c2 hc2
      rw [hin] at hi
      rw [hws]
      rcases List.mem_append.mp hi with h1 | h1
      · exact hlive input h1 c2 hc2
      · rw [List.mem_singleton.mp h1] at hc2
        simp [slotInput] at hc2
  · -- a new block is made
    have hlt : ∀ input ∈ w.inputList, ∀ c2, input.target = some c2 →
        c2 < w.workspace.length := by
      intro input hi c2 hc2
      obtain ⟨⟨b, hb, -⟩, -⟩ := hlive input hi c2 hc2
      exact lt_of_getElem? _ _ _ hb
    have hlen := framed_length ws0 w.workspace hf
    rw [hcm]
    refine ⟨hframed, hnd, hsub, ?_, ?_⟩
    · unfold targetsDistinct
      rw [hin, List.pairwise_append]
      refine ⟨hdist, List.pairwise_singleton _ _, ?_⟩
      intro a ha b hb
      rw [List.mem_singleton.mp hb]
      cases hta : a.target with
      | none => exact Or.inl rfl
      | some c2 =>
        refine Or.inr ?_
        intro he
        have : c2 = w.workspace.length := by simpa [slotInput] using he
        have := hlt a ha c2 hta
        omega
    · intro input hi c2 hc2
      rw [hin] at hi
      rcases List.mem_append.mp hi with h1 | h1
      · obtain ⟨⟨b, hb, hdis, hcon⟩, hnot, hold⟩ := hlive input h1 c2 hc2
        refine ⟨⟨b, ?_, hdis, hcon⟩, hnot, hold⟩
        rw [hws, List.getElem?_append_left (hlt input h1 c2 hc2), hb]
      · rw [List.mem_singleton.mp h1] at hc2 ⊢
        have hcc : c2 = w.workspace.length := by simpa [slotInput] using hc2.symm
        subst hcc
        refine ⟨⟨freshContent w.variant t (arrayGet w.displayNames_ n) w.insertionMarker,
          ?_, (freshContent_live _ _ _ _).1, (freshContent_live _ _ _ _).2⟩, ?_, ?_⟩
        · rw [hws]
          simp
        · intro key hk
          obtain ⟨b0, hb0, -⟩ := hl0 key _ (hsub key _ hk)
          have := lt_of_getElem? _ _ _ hb0
          omega
        · intro hlt0
          omega

theorem liveInv_createAllInputs_ (cm0 : Option ConnectionMap) (w : ProcBlock)
    (segs : List Segment) (hd : decode w.procCode_ = Except.ok segs)
    (hin : w.inputList = []) (hs : salvageSound w.workspace cm0) :
    ∃ cm2 w2, createAllInputs_ cm0 w = Outcome.ok cm2 w2 ∧
      liveInv w.workspace cm0 cm2 w2 ∧ salvageInv w cm0 cm2 w2 := by
  unfold createAllInputs_
  have h := createAllInputsLoop_invariant
    (fun _ cm w2 => liveInv w.workspace cm0 cm w2 ∧ salvageInv w cm0 cm w2)
    (fun _ cm w2 text hinv =>
      ⟨liveInv_label _ cm0 cm w2 text hinv.1, salvageInv_label _ cm0 cm w2 text hinv.2⟩)
    (fun ts cm w2 t hinv =>
      ⟨liveInv_param _ cm0 hs cm w2 (typeCode t) ts.length hinv.1,
        salvageInv_param _ cm0 cm w2 (typeCode t) ts.length hinv.2⟩)
    (procComponents w.procCode_) [] cm0 { w with paramMap_ := some [] } segs hd ?_
  · simpa using h
  · refine ⟨⟨framed_refl _, hs.1, fun _ _ hk => hk, ?_, ?_⟩, framed_refl _, ?_, ?_⟩
    · show targetsDistinct w.inputList
      rw [hin]
      exact List.Pairwise.nil
    · intro input hi
      have hi2 : input ∈ w.inputList := hi
      rw [hin] at hi2
      simp at hi2
    · intro c b0 b hb0 hb hc
      have hb2 : w.workspace[c]? = some b0 := hb0
      have hb3 : w.workspace[c]? = some b := hb
      rw [hb2] at hb3
      injection hb3 with hb3
      rw [hb3]
      exact Or.inl hc
    · intro m0 key c hm0 hg
      exact Or.inl ⟨m0, hm0, hg⟩

theorem sweepBlock_of_not_held (cm : Option ConnectionMap) (c : Nat) (b : ContentBlock)
    (h : ∀ key, ¬ holds cm key c) : sweepBlock (cm.getD []) c b = b := by
  unfold sweepBlock
  rw [if_neg]
  rintro ⟨-, hany⟩
  obtain ⟨e, he, hec⟩ := List.any_eq_true.mp hany
  cases cm with
  | none => simp at he
  | some m =>
    have he2 : e ∈ m := he
    have hv : e.2 = some c := by simpa using hec
    exact h e.1 ⟨m, rfl, by rw [← hv]; exact he2⟩

theorem sweepBlock_of_held (cm : Option ConnectionMap) (key : JSString) (c : Nat)
    (b : ContentBlock) (h : holds cm key c) :
    sweepBlock (cm.getD []) c b =
      if b.shadow = true then { b with disposed := true, connected := false } else b := by
  obtain ⟨m, hm, hmem⟩ := h
  have hany : ((cm.getD []).any fun e => e.2 == some c) = true := by
    rw [hm]
    exact List.any_eq_true.mpr ⟨(key, some c), hmem, by simp⟩
  unfold sweepBlock
  rw [hany]
  simp

/-! ## C23: no live content is destroyed -/

/-- C23, counterexample: the reconciled caller block of `move %n steps` holds
the shadow that it made in the slot `arg0`; its `paramMap_` has one id, and
its one held block is not disposed of. With the proc-code `%d` decoding
fails, `updateDisplay_` throws the invalid-type error after the detach and
clear phases, and after the call the block has no inputs, so no input holds
the shadow, and the shadow is disconnected and not disposed of: it is in none
of the three states. -/
theorem C23_failed_call_counterexample :
    (trackedOnce badCaller ∧ targetsDistinct badCaller.inputList ∧
      targetsLive badCaller.workspace badCaller.inputList ∧
      (idKeys badCaller.argumentIds_).Nodup) ∧
    attachedUnder badCaller (utf16 "arg0") = some 0 ∧
    badCaller.workspace.map (fun b => (b.shadow, b.connected, b.disposed)) =
      [(true, true, false)] ∧
    (updateDisplay_ badCaller).error = some (JSError.invalidType (utf16 "d")) ∧
    (updateDisplay_ badCaller).state.inputList = [] ∧
    (updateDisplay_ badCaller).state.workspace.map
        (fun b => (b.shadow, b.connected, b.disposed)) =
      [(true, false, false)] := by
  refine ⟨⟨by unfold trackedOnce; decide, by unfold targetsDistinct; decide,
    by unfold targetsLive; decide, by decide⟩, by decide, by decide, by decide, by decide,
    by decide⟩

/-- C23, amended: on each of the three blocks, in a state in which `paramMap_`
has no id and no input twice, no two inputs hold the same block and no input
holds a disposed block, when the proc-code decodes, `updateDisplay_` returns
and afterwards again no input holds a disposed block and no two inputs hold
the same block. Every block that was attached under a parameter id before the
call is still a block of the workspace with its type and shadow marker, and
it is in exactly one of three states: it is held by an input, every input
that holds it is named by its old id, and it is connected and not disposed
of; or no input holds it, it is a shadow, and it is disposed of; or no input
holds it, it is not a shadow, and it is disconnected and not disposed of. -/
theorem C23_no_live_content_destroyed (w : ProcBlock) (segs : List Segment)
    (hd : decode w.procCode_ = Except.ok segs) (hf : freshHasNoInputs w)
    (ht : trackedOnce w) (h1 : targetsDistinct w.inputList)
    (h2 : targetsLive w.workspace w.inputList) :
    ∃ w2, updateDisplay_ w = Outcome.ok () w2 ∧
      targetsLive w2.workspace w2.inputList ∧
      targetsDistinct w2.inputList ∧
      ∀ key c, attachedUnder w key = some c →
        ∃ b b2, w.workspace[c]? = some b ∧ w2.workspace[c]? = some b2 ∧
          b2.type = b.type ∧ b2.shadow = b.shadow ∧
          (((∃ input ∈ w2.inputList, input.target = some c) ∧
              (∀ input ∈ w2.inputList, input.target = some c →
                input.name.toJSString = key) ∧
              b2.connected = true ∧ b2.disposed = false) ∨
            ((∀ input ∈ w2.inputList, input.target ≠ some c) ∧ b2.connected = false ∧
              b2.disposed = true ∧ b2.shadow = true) ∨
            ((∀ input ∈ w2.inputList, input.target ≠ some c) ∧ b2.connected = false ∧
              b2.disposed = false ∧ b2.shadow = false)) := by
  obtain ⟨-, hcode, -⟩ := detachPhase_fields w
  have hsound := salvageSound_detachPhase w ht h1 h2
  obtain ⟨cm3, w3, hc, hlv, hsv⟩ := liveInv_createAllInputs_ (detachPhase w).1
    (detachPhase w).2 segs (by rw [hcode]; exact hd) (detachPhase_inputList w hf) hsound
  obtain ⟨w2, hu, hil, -, hws⟩ := updateDisplay__of_createAllInputs_ w cm3 w3 hc
  obtain ⟨hfr, -, hsub, hdist, hlive⟩ := hlv
  obtain ⟨-, hcon, hrest⟩ := hsv
  refine ⟨w2, hu, ?_, by rw [hil]; exact hdist, ?_⟩
  · intro input hin c hc2
    rw [hil] at hin
    obtain ⟨⟨b3, hb3, hdis, -⟩, hnot, -⟩ := hlive input hin c hc2
    rw [hws, hb3]
    simp only [Option.map_some', sweepBlock_of_not_held cm3 c b3 hnot, hdis]
  · intro key c hC
    have hheld : holds (detachPhase w).1 key c := (holds_detachPhase w ht key c).mpr hC
    obtain ⟨b0, hb0, -⟩ := hsound.2.2 key c hheld
    obtain ⟨f, hf0⟩ := detachPhase_workspace w
    have hb0' := hb0
    rw [hf0 c] at hb0'
    cases hb : w.workspace[c]? with
    | none => rw [hb] at hb0'; simp at hb0'
    | some b =>
      obtain ⟨b0x, hb0x, hfl0, -⟩ := detachPhase_flags w c b hb
      rw [hb0] at hb0x
      injection hb0x with hb0x
      subst hb0x
      have hoff : b0.connected = false := detachPhase_disconnected w ht key c hC b0 hb0
      obtain ⟨b3, hb3, hfl3⟩ := hfr c b0 hb0
      have hfl : blockFlags b3 = blockFlags b := hfl3.trans hfl0
      have hty : b3.type = b.type := congrArg (fun x => x.1) hfl
      have hsh : b3.shadow = b.shadow := congrArg (fun x => x.2.1) hfl
      have hlt : c < (detachPhase w).2.workspace.length := lt_of_getElem? _ _ _ hb0
      by_cases hatt : ∃ input ∈ w3.inputList, input.target = some c
      · obtain ⟨input, hin, htg⟩ := hatt
        obtain ⟨⟨b3x, hb3x, hdis, hconn⟩, hnot, -⟩ := hlive input hin c htg
        rw [hb3] at hb3x
        injection hb3x with hb3x
        subst hb3x
        refine ⟨b, b3, rfl, ?_, hty, hsh, Or.inl ⟨?_, ?_, hconn, hdis⟩⟩
        · rw [hws, hb3]
          simp only [Option.map_some', sweepBlock_of_not_held cm3 c b3 hnot]
        · rw [hil]
          exact ⟨input, hin, htg⟩
        · intro i2 hi2 ht2
          rw [hil] at hi2
          exact hsound.2.1 _ _ c ((hlive i2 hi2 c ht2).2.2 hlt) hheld
      · have hno : ∀ input ∈ w2.inputList, input.target ≠ some c := by
          intro input hin htg
          rw [hil] at hin
          exact hatt ⟨input, hin, htg⟩
        have hoff3 : b3.connected = false := by
          cases h3 : b3.connected with
          | false => rfl
          | true =>
            rcases hcon c b0 b3 hb0 hb3 h3 with hx | hx
            · rw [hoff] at hx
              simp at hx
            · exact absurd hx hatt
        obtain ⟨m0, hm0, hmem0⟩ := hheld
        have hg0 : PropMap.get m0 key = some (some c) :=
          PropMap.get_eq_some_of_mem m0 key (some c) (hsound.1 m0 hm0) hmem0
        have hheld3 : holds cm3 key c := by
          rcases hrest m0 key c hm0 hg0 with ⟨m, hm, hg⟩ | hx
          · exact ⟨m, hm, PropMap.mem_of_get_eq_some m key _ hg⟩
          · exact absurd hx hatt
        obtain ⟨b0y, hb0y, hd0⟩ := hsound.2.2 key c ⟨m0, hm0, hmem0⟩
        rw [hb0] at hb0y
        injection hb0y with hb0y
        subst hb0y
        have hd3 : b3.disposed = false := (congrArg (fun x => x.2.2) hfl3).trans hd0
        have hw2 : w2.workspace[c]? = some (sweepBlock (cm3.getD []) c b3) := by
          rw [hws, hb3]
          rfl
        rw [sweepBlock_of_held cm3 key c b3 hheld3] at hw2
        cases hs3 : b3.shadow with
        | true =>
          rw [if_pos hs3] at hw2
          exact ⟨b, _, rfl, hw2, hty, hsh, Or.inr (Or.inl ⟨hno, rfl, rfl, hs3⟩)⟩
        | false =>
          rw [if_neg (by rw [hs3]; simp)] at hw2
          exact ⟨b, b3, rfl, hw2, hty, hsh, Or.inr (Or.inr ⟨hno, hoff3, hd3, hs3⟩)⟩

/-- C23 at a caller block with three slots, of which the new proc-code
`say %s` keeps the first: the block of `arg0` is attached again, the shadow of
`arg1` is disposed of, and the block of `arg2`, which is not a shadow, is left
disconnected and not disposed of. -/
theorem C23_no_live_content_destroyed_witness :
    ((updateDisplay_ threeSlotCaller).state.inputList.map Input.target =
        [none, some 0, none] ∧
      (updateDisplay_ threeSlotCaller).state.workspace.map
          (fun b => (b.shadow, b.connected, b.disposed)) =
        [(false, true, false), (true, false, true), (false, false, false)]) ∧
    ∃ w2, updateDisplay_ threeSlotCaller = Outcome.ok () w2 ∧
      targetsLive w2.workspace w2.inputList ∧
      targetsDistinct w2.inputList ∧
      ∀ key c, attachedUnder threeSlotCaller key = some c →
        ∃ b b2, threeSlotCaller.workspace[c]? = some b ∧ w2.workspace[c]? = some b2 ∧
          b2.type = b.type ∧ b2.shadow = b.shadow ∧
          (((∃ input ∈ w2.inputList, input.target = some c) ∧
              (∀ input ∈ w2.inputList, input.target = some c →
                input.name.toJSString = key) ∧
              b2.connected = true ∧ b2.disposed = false) ∨
            ((∀ input ∈ w2.inputList, input.target ≠ some c) ∧ b2.connected = false ∧
              b2.disposed = true ∧ b2.shadow = true) ∨
            ((∀ input ∈ w2.inputList, input.target ≠ some c) ∧ b2.connected = false ∧
              b2.disposed = false ∧ b2.shadow = false)) :=
  ⟨by decide,
    C23_no_live_content_destroyed threeSlotCaller
      [Segment.label (utf16 "say"), Segment.param ParamType.s] rfl
      (by unfold freshHasNoInputs; decide) (by unfold trackedOnce; decide)
      (by unfold targetsDistinct; decide) (by unfold targetsLive; decide)⟩

/-! ## The slots that the mutator root makes hold new editor blocks -/

theorem rootViews_append (ids names : List JSVal) (k : Nat) (ts : List ParamType)
    (t : ParamType) :
    rootViews ids names k (ts ++ [t]) =
      rootViews ids names k ts ++
        [(arrayGet ids (k + ts.length), some (editorBlockType t,
          arrayGet names (k + ts.length)))] := by
  induction ts generalizing k with
  | nil => simp [rootViews]
  | cons t2 rest ih =>
    have e : k + 1 + rest.length = k + (rest.length + 1) := by omega
    show (_ :: rootViews ids names (k + 1) (rest ++ [t])) = _
    rw [ih, e]
    rfl

theorem checkOldTypeMatches__notReporter (w : ProcBlock) (old : Option Nat) (t : JSString)
    (h : ∀ c, old = some c → ∀ b ∈ w.workspace[c]?, notReporter b) :
    checkOldTypeMatches_ w old t = false := by
  cases hc : checkOldTypeMatches_ w old t with
  | false => rfl
  | true =>
    obtain ⟨c, b, ho, hb, hm⟩ := (checkOldTypeMatches__iff w old t).mp hc
    obtain ⟨h1, h2⟩ := h c ho b (by rw [hb]; exact rfl)
    rcases hm with ⟨-, hm⟩ | ⟨-, hm⟩
    · exact absurd hm h1
    · exact absurd hm h2

theorem attachedBlock_append (ws extra : List ContentBlock) (input : Input)
    (h : ∀ c ∈ input.target, c < ws.length) :
    attachedBlock (ws ++ extra) input = attachedBlock ws input := by
  unfold attachedBlock
  cases ht : input.target with
  | none => rfl
  | some c =>
    simp only [Option.some_bind]
    exact List.getElem?_append_left (h c (by rw [ht]; exact rfl))

theorem freshContent_root_type (t : ParamType) (dn : JSVal) (m : Bool) :
    (freshContent Variant.mutatorRoot (typeCode t) dn m).type = editorBlockType t ∧
      getFieldValue (freshContent Variant.mutatorRoot (typeCode t) dn m) (utf16 "TEXT") = dn := by
  cases t <;>
    simp [freshContent, typeCode, editorBlockType, getFieldValue, PropMap.get_cons, b_ne_n,
      b_ne_s, s_ne_n]

theorem freshContent_root_notReporter (t : ParamType) (dn : JSVal) (m : Bool) :
    notReporter (freshContent Variant.mutatorRoot (typeCode t) dn m) := by
  unfold notReporter
  cases t <;> simp +decide [freshContent, typeCode, b_ne_n, b_ne_s, s_ne_n]

theorem rootInv_label (w0 : ProcBlock) (ts : List ParamType) (cm : Option ConnectionMap)
    (w : ProcBlock) (text : JSString) (h : rootInv w0 ts cm w) :
    rootInv w0 ts cm (addLabel_ text w) := by
  obtain ⟨hk, hr, hh, ht, hv, hpm⟩ := h
  obtain ⟨l, hl, hdum, hws, hpm2⟩ := addLabel__shape text w
  refine ⟨by rw [kept_addLabel_, hk], by rw [hws]; exact hr, ?_, ?_, ?_,
    by rw [hpm2]; exact hpm⟩
  · intro input hin c hc
    rw [hws]
    rw [hl] at hin
    rcases List.mem_append.mp hin with h1 | h1
    · exact hh input h1 c hc
    · rw [(hdum input h1).2] at hc
      simp at hc
  · intro input hin c hc
    rw [hws]
    rw [hl] at hin
    rcases List.mem_append.mp hin with h1 | h1
    · exact ht input h1 c hc
    · rw [(hdum input h1).2] at hc
      simp at hc
  · rw [hl, valueInputs_append_dummies _ _ hdum, hws]
    exact hv

theorem rootInv_param (w0 : ProcBlock) (hv0 : w0.variant = Variant.mutatorRoot)
    (ts : List ParamType) (cm : Option ConnectionMap) (w : ProcBlock) (t : ParamType)
    (h : rootInv w0 ts cm w) :
    rootInv w0 (ts ++ [t]) (slotMade (typeCode t) ts.length cm w).1
      (slotMade (typeCode t) ts.length cm w).2 := by
  obtain ⟨hk, hr, hh, ht, hv, hpm⟩ := h
  have hvar : w.variant = Variant.mutatorRoot := (congrArg (fun x => x.1) hk).trans hv0
  have hids : w.argumentIds_ = w0.argumentIds_ := congrArg (fun x => x.2.2.1) hk
  have hnames : w.displayNames_ = w0.displayNames_ := congrArg (fun x => x.2.2.2.1) hk
  have hrb : reattachedBlock (typeCode t) ts.length cm w = none := by
    unfold reattachedBlock
    rw [hvar]
    simp only
    rw [checkOldTypeMatches__notReporter w _ _
      (fun c hc => hr _ c (holds_of_oldBlockOf cm _ c hc))]
    rfl
  have hle : leftEmpty (typeCode t) w = false := by
    unfold leftEmpty
    simp [hvar]
  obtain ⟨hpm2, hk2, hc⟩ := slotMade_cases (typeCode t) ts.length cm w
  have hpm3 : (slotMade (typeCode t) ts.length cm w).2.paramMap_ ≠ none := by
    rw [hpm2]
    cases hw : w.paramMap_ with
    | none => exact absurd hw hpm
    | some pm => simp
  rcases hc with ⟨c, hr1, -⟩ | ⟨-, hl1, -⟩ | ⟨-, -, hcm, hin, hws⟩
  · rw [hrb] at hr1
    simp at hr1
  · rw [hle] at hl1
    simp at hl1
  · rw [hvar, hnames] at hws
    rw [hids] at hin
    have hfresh := freshContent_root_notReporter t (arrayGet w0.displayNames_ ts.length)
      w.insertionMarker
    have hstable : ∀ (c : Nat) (b : ContentBlock), b ∈ (slotMade (typeCode t) ts.length cm w).2.workspace[c]? →
        (∀ b2 ∈ w.workspace[c]?, notReporter b2) → notReporter b := by
      intro c b hb hold
      rw [hws] at hb
      by_cases hlt : c < w.workspace.length
      · rw [List.getElem?_append_left hlt] at hb
        exact hold b hb
      · have hb2 : (w.workspace ++ [freshContent Variant.mutatorRoot (typeCode t)
            (arrayGet w0.displayNames_ ts.length) w.insertionMarker])[c]? = some b := hb
        rw [List.getElem?_append_right (Nat.le_of_not_lt hlt)] at hb2
        have hmem : b ∈ [freshContent Variant.mutatorRoot (typeCode t)
            (arrayGet w0.displayNames_ ts.length) w.insertionMarker] :=
          List.mem_iff_getElem?.mpr ⟨_, hb2⟩
        rw [List.mem_singleton.mp hmem]
        exact hfresh
    refine ⟨by rw [hk2, hk], ?_, ?_, ?_, ?_, hpm3⟩
    · intro key c hh2 b hb
      rw [hcm] at hh2
      exact hstable c b hb (hr key c hh2)
    · intro input hi c hc b hb
      rw [hin] at hi
      rcases List.mem_append.mp hi with h1 | h1
      · exact hstable c b hb (hh input h1 c hc)
      · rw [List.mem_singleton.mp h1] at hc
        have hcc : c = w.workspace.length := by
          have : some w.workspace.length = some c := hc
          injection this with this
          exact this.symm
        subst hcc
        rw [hws] at hb
        have hb2 : (w.workspace ++ [freshContent Variant.mutatorRoot (typeCode t)
            (arrayGet w0.displayNames_ ts.length) w.insertionMarker])[w.workspace.length]? =
            some b := hb
        rw [List.getElem?_append_right (Nat.le_refl _)] at hb2
        simp only [Nat.sub_self, List.getElem?_cons_zero, Option.some.injEq] at hb2
        rw [← hb2]
        exact hfresh
    · intro input hi c hc
      rw [hws, List.length_append, List.length_singleton]
      rw [hin] at hi
      rcases List.mem_append.mp hi with h1 | h1
      · exact Nat.lt_succ_of_lt (ht input h1 c hc)
      · rw [List.mem_singleton.mp h1] at hc
        have : c = w.workspace.length := by
          simpa [slotInput] using hc.symm
        omega
    · rw [hin, hws, rootViews_append, ← hv]
      unfold valueInputs
      rw [List.filter_append, List.map_append]
      congr 1
      · apply List.map_congr_left
        intro input hi
        unfold heldView
        rw [attachedBlock_append _ _ _ (ht input (List.mem_of_mem_filter hi))]
      · have hfr := freshContent_root_type t (arrayGet w0.displayNames_ ts.length)
          w.insertionMarker
        simp [slotInput, heldView, attachedBlock, hfr.1, hfr.2]

theorem rootInv_createAllInputs_ (cm0 : Option ConnectionMap) (w : ProcBlock)
    (segs : List Segment) (hv : w.variant = Variant.mutatorRoot) (hin : w.inputList = [])
    (hr : ∀ key c, holds cm0 key c → ∀ b ∈ w.workspace[c]?, notReporter b)
    (hd : decode w.procCode_ = Except.ok segs) :
    ∃ cm2 w2, createAllInputs_ cm0 w = Outcome.ok cm2 w2 ∧
      rootInv { w with paramMap_ := some [] } (paramTypes segs) cm2 w2 ∧
      w2.inputList.map inputKind = segs.map segmentKind := by
  obtain ⟨cm3, w3, hc3, hk3⟩ := createAllInputs__root cm0 w segs hv hd
  have h := createAllInputsLoop_invariant
    (fun ts cm w2 => rootInv { w with paramMap_ := some [] } ts cm w2)
    (fun ts cm w2 text hinv => rootInv_label _ ts cm w2 text hinv)
    (fun ts cm w2 t hinv => rootInv_param _ hv ts cm w2 t hinv)
    (procComponents w.procCode_) [] cm0 { w with paramMap_ := some [] } segs hd ?_
  · obtain ⟨cm2, w2, hc2, hinv⟩ := h
    have hc2' : createAllInputs_ cm0 w = Outcome.ok cm2 w2 := hc2
    rw [hc3] at hc2'
    injection hc2' with e1 e2
    subst e1
    subst e2
    refine ⟨cm3, w3, hc3, by simpa using hinv, ?_⟩
    rw [hk3, hin]
    rfl
  · refine ⟨rfl, hr, ?_, ?_, ?_, by simp⟩
    · intro input hi
      have hi2 : input ∈ w.inputList := hi
      rw [hin] at hi2
      simp at hi2
    · intro input hi
      have hi2 : input ∈ w.inputList := hi
      rw [hin] at hi2
      simp at hi2
    · show (valueInputs w.inputList).map _ = _
      rw [hin]
      rfl

theorem rootViews_fst (ids names : List JSVal) (k : Nat) (ts : List ParamType)
    (h : k + ts.length ≤ ids.length) :
    (rootViews ids names k ts).map Prod.fst = (ids.drop k).take ts.length := by
  induction ts generalizing k with
  | nil => simp [rootViews]
  | cons t rest ih =>
    simp only [List.length_cons] at h
    have hk : k < ids.length := by omega
    rw [rootViews, List.map_cons, ih (k + 1) (by omega), List.drop_eq_getElem_cons hk,
      List.length_cons, List.take_succ_cons]
    have := arrayGet_of_lt ids k hk
    rw [List.getElem?_eq_getElem hk] at this
    injection this with this
    rw [this]

theorem rootViews_snd (ids names : List JSVal) (k : Nat) (ts : List ParamType)
    (h : k + ts.length ≤ names.length) :
    (rootViews ids names k ts).map
        (fun v => (v.2.map Prod.snd).getD JSVal.undefined) =
      (names.drop k).take ts.length := by
  induction ts generalizing k with
  | nil => simp [rootViews]
  | cons t rest ih =>
    simp only [List.length_cons] at h
    have hk : k < names.length := by omega
    rw [rootViews, List.map_cons, ih (k + 1) (by omega), List.drop_eq_getElem_cons hk,
      List.length_cons, List.take_succ_cons]
    have := arrayGet_of_lt names k hk
    rw [List.getElem?_eq_getElem hk] at this
    injection this with this
    rw [this]
    rfl

theorem slotText_of_heldView (ws : List ContentBlock) (input : Input) :
    slotText ws input = (((heldView ws input).2).map Prod.snd).getD JSVal.undefined := by
  unfold slotText heldView
  cases attachedBlock ws input <;> rfl

theorem joinSpaces_segmentText (sig : List Segment) :
    spaced (sig.map segmentText) = encodeTail sig ∧
      joinSpaces (sig.map segmentText) = encodeSignature sig := by
  induction sig with
  | nil => exact ⟨rfl, rfl⟩
  | cons seg rest ih =>
    refine ⟨?_, ?_⟩
    · simp [spaced, encodeTail, ih.1]
    · simp [joinSpaces, encodeSignature, ih.1]

/-- Inputs that are, in order and in kind, the inputs of a signature, and
whose value inputs hold editor blocks of the parameter types, contribute the
segment texts to the proc-code. -/
theorem contributions_of_views (ws : List ContentBlock) (ids names : List JSVal)
    (sig : List Segment) (l : List Input) (k : Nat)
    (hk : l.map inputKind = sig.map segmentKind)
    (hv : (valueInputs l).map (heldView ws) = rootViews ids names k (paramTypes sig)) :
    l.map (contribution ws) = sig.map segmentText := by
  induction sig generalizing l k with
  | nil =>
    cases l with
    | nil => rfl
    | cons i rest => simp at hk
  | cons seg rest ih =>
    cases l with
    | nil => simp at hk
    | cons i l2 =>
      simp only [List.map_cons, List.cons.injEq] at hk
      obtain ⟨hi, hrest⟩ := hk
      cases seg with
      | label text =>
        simp only [inputKind, segmentKind, Prod.mk.injEq] at hi
        obtain ⟨hty, hf, -⟩ := hi
        have hvi : valueInputs (i :: l2) = valueInputs l2 := by simp [valueInputs, hty]
        rw [hvi] at hv
        have hp : paramTypes (Segment.label text :: rest) = paramTypes rest := by
          simp [paramTypes]
        rw [hp] at hv
        rw [List.map_cons, List.map_cons, ih l2 k hrest hv]
        simp [contribution, hty, hf, segmentText]
      | param t =>
        simp only [inputKind, segmentKind, Prod.mk.injEq] at hi
        obtain ⟨hty, -, -⟩ := hi
        have hvi : valueInputs (i :: l2) = i :: valueInputs l2 := by simp [valueInputs, hty]
        rw [hvi, paramTypes_param, rootViews, List.map_cons, List.cons.injEq] at hv
        obtain ⟨hhead, htail⟩ := hv
        rw [List.map_cons, List.map_cons, ih l2 (k + 1) hrest htail]
        congr 1
        unfold heldView at hhead
        simp only [Prod.mk.injEq] at hhead
        obtain ⟨-, hb⟩ := hhead
        cases hab : attachedBlock ws i with
        | none => rw [hab] at hb; simp at hb
        | some b =>
          rw [hab] at hb
          simp only [Option.map_some', Option.some.injEq, Prod.mk.injEq] at hb
          have hc : contribution ws i =
              if b.type = utf16 "boolean_textinput" then utf16 "%b" else utf16 "%s" := by
            simp [contribution, hty, hab]
          rw [hc, hb.1]
          exact editorBlockType_text t

theorem complete_of_views (ws : List ContentBlock) (ids names : List JSVal)
    (sig : List Segment) (l : List Input) (k : Nat)
    (hk : l.map inputKind = sig.map segmentKind)
    (hv : (valueInputs l).map (heldView ws) = rootViews ids names k (paramTypes sig)) :
    ∀ input ∈ l,
      ((input.type = InputType.dummy → input.fieldRow ≠ []) ∧
        (input.type = InputType.value → (attachedBlock ws input).isSome = true)) ∧
      (input.type = InputType.dummy ∨ input.type = InputType.value) := by
  induction sig generalizing l k with
  | nil =>
    cases l with
    | nil => simp
    | cons i rest => simp at hk
  | cons seg rest ih =>
    cases l with
    | nil => simp at hk
    | cons i l2 =>
      simp only [List.map_cons, List.cons.injEq] at hk
      obtain ⟨hi, hrest⟩ := hk
      cases seg with
      | label text =>
        simp only [inputKind, segmentKind, Prod.mk.injEq] at hi
        obtain ⟨hty, hf, -⟩ := hi
        have hvi : valueInputs (i :: l2) = valueInputs l2 := by simp [valueInputs, hty]
        rw [hvi] at hv
        have hp : paramTypes (Segment.label text :: rest) = paramTypes rest := by
          simp [paramTypes]
        rw [hp] at hv
        intro input hin
        rcases List.mem_cons.mp hin with h1 | h1
        · subst h1
          refine ⟨⟨fun _ hnil => ?_, fun hval => ?_⟩, Or.inl hty⟩
          · rw [hnil] at hf
            simp at hf
          · rw [hty] at hval
            exact absurd hval (by decide)
        · exact ih l2 k hrest hv input h1
      | param t =>
        simp only [inputKind, segmentKind, Prod.mk.injEq] at hi
        obtain ⟨hty, -, -⟩ := hi
        have hvi : valueInputs (i :: l2) = i :: valueInputs l2 := by simp [valueInputs, hty]
        rw [hvi, paramTypes_param, rootViews, List.map_cons, List.cons.injEq] at hv
        obtain ⟨hhead, htail⟩ := hv
        intro input hin
        rcases List.mem_cons.mp hin with h1 | h1
        · subst h1
          refine ⟨⟨fun hd => ?_, fun _ => ?_⟩, Or.inr hty⟩
          · rw [hty] at hd
            exact absurd hd (by decide)
          · unfold heldView at hhead
            simp only [Prod.mk.injEq] at hhead
            cases hab : attachedBlock ws input with
            | none => rw [hab] at hhead; simp at hhead
            | some b => rfl
        · exact ih l2 (k + 1) hrest htail input h1

theorem sweepBlock_type (entries : ConnectionMap) (c : Nat) (b : ContentBlock) :
    (sweepBlock entries c b).type = b.type ∧ (sweepBlock entries c b).fields = b.fields := by
  unfold sweepBlock
  split <;> exact ⟨rfl, rfl⟩

theorem heldView_sweep (ws ws2 : List ContentBlock) (entries : ConnectionMap)
    (h : ∀ c : Nat, ws2[c]? = (ws[c]?).map (sweepBlock entries c)) (input : Input) :
    heldView ws2 input = heldView ws input := by
  unfold heldView attachedBlock
  cases input.target with
  | none => rfl
  | some c =>
    simp only [Option.some_bind]
    rw [h c]
    cases ws[c]? with
    | none => rfl
    | some b =>
      simp only [Option.map_some', getFieldValue, (sweepBlock_type entries c b).1,
        (sweepBlock_type entries c b).2]

theorem target_of_mem_updateAt (l : List Input) (i : Nat) (f : Input → Input)
    (hf : ∀ y, (f y).target = y.target ∨ (f y).target = none) (x : Input)
    (hx : x ∈ updateAt l i f) (c : Nat) (hc : x.target = some c) :
    ∃ y ∈ l, y.target = some c := by
  obtain ⟨j, hj⟩ := List.mem_iff_getElem?.mp hx
  rw [getElem?_updateAt] at hj
  by_cases hji : j = i
  · rw [if_pos hji] at hj
    cases hl : l[j]? with
    | none => rw [hl] at hj; simp at hj
    | some y =>
      rw [hl] at hj
      simp only [Option.map_some', Option.some.injEq] at hj
      refine ⟨y, List.mem_iff_getElem?.mpr ⟨j, hl⟩, ?_⟩
      rcases hf y with h1 | h1
      · rw [← h1, hj]
        exact hc
      · rw [hj, hc] at h1
        simp at h1
  · rw [if_neg hji] at hj
    exact ⟨x, List.mem_iff_getElem?.mpr ⟨j, hj⟩, hc⟩

theorem target_of_mem_disconnect (w : ProcBlock) (input : Nat) (x : Input)
    (hx : x ∈ (w.disconnect input).inputList) (c : Nat) (hc : x.target = some c) :
    ∃ y ∈ w.inputList, y.target = some c := by
  unfold ProcBlock.disconnect at hx
  split at hx
  · exact ⟨x, hx, hc⟩
  · exact target_of_mem_updateAt w.inputList input (fun i => { i with target := none })
      (fun _ => Or.inr rfl) x hx c hc

/-- Every block of the map that `disconnectOldBlocks_` builds was held by an
input. -/
theorem disconnectOldBlocksLoop_held (entries : List (JSString × Nat))
    (cm : ConnectionMap) (w : ProcBlock) (key : JSString) (c : Nat)
    (h : (key, some c) ∈ (disconnectOldBlocksLoop entries cm w).1) :
    (key, some c) ∈ cm ∨ ∃ input ∈ w.inputList, input.target = some c := by
  induction entries generalizing cm w with
  | nil => exact Or.inl h
  | cons e rest ih =>
    obtain ⟨id, input⟩ := e
    unfold disconnectOldBlocksLoop at h
    cases hi : w.inputList[input]? with
    | none =>
      rw [hi] at h
      exact ih cm w h
    | some i =>
      rw [hi] at h
      simp only at h
      have himem : i ∈ w.inputList := List.mem_iff_getElem?.mpr ⟨input, hi⟩
      by_cases hd : i.type ≠ InputType.dummy
      · rw [if_pos hd] at h
        have hshadow : ∀ x ∈ (w.setShadowDom input none).inputList, x.target = some c →
            ∃ y ∈ w.inputList, y.target = some c := fun x hx hc =>
          target_of_mem_updateAt w.inputList input (fun i => { i with shadowDom := none })
            (fun _ => Or.inl rfl) x hx c hc
        have hset : (key, some c) ∈ PropMap.set cm id i.target →
            (key, some c) ∈ cm ∨ ∃ y ∈ w.inputList, y.target = some c := by
          intro hm
          rcases PropMap.mem_set cm id i.target _ hm with h1 | h1
          · exact Or.inl h1
          · injection h1 with _ h2
            exact Or.inr ⟨i, himem, h2.symm⟩
        by_cases ht : i.target.isSome = true
        · rw [if_pos ht] at h
          rcases ih _ _ h with h1 | ⟨x, hx, hc⟩
          · exact hset h1
          · obtain ⟨y, hy, hyc⟩ := target_of_mem_disconnect _ input x hx c hc
            exact Or.inr (hshadow y hy hyc)
        · rw [if_neg ht] at h
          rcases ih _ _ h with h1 | ⟨x, hx, hc⟩
          · exact hset h1
          · exact Or.inr (hshadow x hx hc)
      · rw [if_neg hd] at h
        exact ih cm w h

theorem holds_detachPhase_held (w : ProcBlock) (key : JSString) (c : Nat)
    (h : holds (detachPhase w).1 key c) : ∃ input ∈ w.inputList, input.target = some c := by
  obtain ⟨m, hm, hmem⟩ := h
  cases hpm : w.paramMap_ with
  | none =>
    rw [detachPhase_none w hpm] at hm
    simp at hm
  | some pm =>
    rw [detachPhase_some w pm hpm] at hm
    injection hm with hm
    rw [← hm] at hmem
    rcases disconnectOldBlocksLoop_held pm [] { w with rendered := false } key c hmem with
      h1 | h1
    · simp at h1
    · exact h1

theorem notReporter_detachPhase (w : ProcBlock)
    (h : noReporterHeld w.workspace w.inputList) (key : JSString) (c : Nat)
    (hh : holds (detachPhase w).1 key c) :
    ∀ b ∈ (detachPhase w).2.workspace[c]?, notReporter b := by
  obtain ⟨input, hin, htg⟩ := holds_detachPhase_held w key c hh
  obtain ⟨f, hf⟩ := detachPhase_workspace w
  intro b hb
  have hb2 : (detachPhase w).2.workspace[c]? = some b := hb
  rw [hf c] at hb2
  cases hw : w.workspace[c]? with
  | none => rw [hw] at hb2; simp at hb2
  | some b0 =>
    rw [hw] at hb2
    simp only [Option.map_some', Option.some.injEq] at hb2
    have ht : b.type = b0.type := by
      rw [← hb2]
      unfold detachBlock
      split <;> rfl
    have h0 := h input hin c (by rw [htg]; exact rfl) b0 (by rw [hw]; exact rfl)
    unfold notReporter at h0 ⊢
    rw [ht]
    exact h0

theorem noReporterHeld_sweep (ws ws2 : List ContentBlock) (entries : ConnectionMap)
    (h : ∀ c : Nat, ws2[c]? = (ws[c]?).map (sweepBlock entries c)) (inputs : List Input)
    (hr : noReporterHeld ws inputs) : noReporterHeld ws2 inputs := by
  intro input hin c hc b hb
  have hb2 : ws2[c]? = some b := hb
  rw [h c] at hb2
  cases hw : ws[c]? with
  | none => rw [hw] at hb2; simp at hb2
  | some b0 =>
    rw [hw] at hb2
    simp only [Option.map_some', Option.some.injEq] at hb2
    have h0 := hr input hin c hc b0 (by rw [hw]; exact rfl)
    unfold notReporter at h0 ⊢
    rw [← hb2, (sweepBlock_type entries c b0).1]
    exact h0

/-- On the mutator root, a signature that round-trips and the two arrays come
back from the slots that `updateDisplay_` makes. -/
theorem root_signature_stable (w : ProcBlock) (sig : List Segment)
    (hv : w.variant = Variant.mutatorRoot) (hf : freshHasNoInputs w)
    (hr : noReporterHeld w.workspace w.inputList) (hrt : roundTrips sig)
    (hp : w.procCode_ = encodeSignature sig)
    (hi : w.argumentIds_.length = (paramTypes sig).length)
    (hn : w.displayNames_.length = (paramTypes sig).length) :
    ∃ w2 w3, updateDisplay_ w = Outcome.ok () w2 ∧
      updateProcCodeMutatorRoot_ w2 = Outcome.ok () w3 ∧
      w3.procCode_ = w.procCode_ ∧ w3.argumentIds_ = w.argumentIds_ ∧
      w3.displayNames_ = w.displayNames_ ∧
      w3.variant = Variant.mutatorRoot ∧ freshHasNoInputs w3 ∧
      noReporterHeld w3.workspace w3.inputList := by
  obtain ⟨hids, hpc, hvar, hnames, -⟩ := detachPhase_fields w
  have hd : decode (detachPhase w).2.procCode_ = Except.ok sig := by
    rw [hpc, hp]
    exact decode_encodeSignature sig hrt
  obtain ⟨cm3, w3c, hc, hinv, hkinds⟩ := rootInv_createAllInputs_ (detachPhase w).1
    (detachPhase w).2 sig (hvar.trans hv) (detachPhase_inputList w hf)
    (notReporter_detachPhase w hr) hd
  obtain ⟨w2, hu, hil, hpm2, hws⟩ := updateDisplay__of_createAllInputs_ w cm3 w3c hc
  obtain ⟨-, -, hr3, -, hviews, hpm3⟩ := hinv
  have hviews2 : (valueInputs w2.inputList).map (heldView w2.workspace) =
      rootViews w.argumentIds_ w.displayNames_ 0 (paramTypes sig) := by
    rw [hil, ← hids, ← hnames, ← hviews]
    apply List.map_congr_left
    intro input _
    exact heldView_sweep w3c.workspace w2.workspace (cm3.getD []) hws input
  have hkinds2 : w2.inputList.map inputKind = sig.map segmentKind := by
    rw [hil]
    exact hkinds
  have hcomp := complete_of_views w2.workspace w.argumentIds_ w.displayNames_ sig
    w2.inputList 0 hkinds2 hviews2
  have hcontr := contributions_of_views w2.workspace w.argumentIds_ w.displayNames_ sig
    w2.inputList 0 hkinds2 hviews2
  have hloop := updateProcCodeLoop_ok w2.inputList 0
    { w2 with procCode_ := [], displayNames_ := [], argumentIds_ := [] }
    (fun input hin => (hcomp input hin).1) (fun input hin => (hcomp input hin).2)
  refine ⟨w2,
    { w2 with
      procCode_ := joinSpaces (w2.inputList.map (contribution w2.workspace))
      argumentIds_ := (valueInputs w2.inputList).map Input.name
      displayNames_ := (valueInputs w2.inputList).map (slotText w2.workspace) },
    hu, ?_, ?_, ?_, ?_, ?_, ?_, ?_⟩
  · unfold updateProcCodeMutatorRoot_
    simp only
    rw [hloop]
    simp
  · show joinSpaces (w2.inputList.map (contribution w2.workspace)) = w.procCode_
    rw [hcontr, (joinSpaces_segmentText sig).2, hp]
  · show (valueInputs w2.inputList).map Input.name = w.argumentIds_
    have e : (valueInputs w2.inputList).map Input.name =
        ((valueInputs w2.inputList).map (heldView w2.workspace)).map Prod.fst := by
      rw [List.map_map]
      rfl
    rw [e, hviews2, rootViews_fst _ _ _ _ (by omega), List.drop_zero, ← hi,
      List.take_length]
  · show (valueInputs w2.inputList).map (slotText w2.workspace) = w.displayNames_
    have e : (valueInputs w2.inputList).map (slotText w2.workspace) =
        ((valueInputs w2.inputList).map (heldView w2.workspace)).map
          (fun v => (v.2.map Prod.snd).getD JSVal.undefined) := by
      rw [List.map_map]
      apply List.map_congr_left
      intro input _
      exact slotText_of_heldView w2.workspace input
    rw [e, hviews2, rootViews_snd _ _ _ _ (by omega), List.drop_zero, ← hn,
      List.take_length]
  · show w2.variant = Variant.mutatorRoot
    have h := (fields_updateDisplay_ w).1
    rw [hu] at h
    exact h.trans hv
  · intro hnone
    have hnone2 : w2.paramMap_ = none := hnone
    rw [hpm2] at hnone2
    exact absurd hnone2 hpm3
  · show noReporterHeld w2.workspace w2.inputList
    rw [hil]
    exact noReporterHeld_sweep w3c.workspace w2.workspace (cm3.getD []) hws _ hr3

theorem root_signature_stable_plain (w : ProcBlock) (sig : List Segment)
    (hv : w.variant = Variant.mutatorRoot) (hf : freshHasNoInputs w)
    (hr : noReporterHeld w.workspace w.inputList) (hs : plainSegments sig)
    (hp : w.procCode_ = encodeSignature sig)
    (hi : w.argumentIds_.length = (paramTypes sig).length)
    (hn : w.displayNames_.length = (paramTypes sig).length) :
    ∃ w2 w3, updateDisplay_ w = Outcome.ok () w2 ∧
      updateProcCodeMutatorRoot_ w2 = Outcome.ok () w3 ∧
      w3.procCode_ = w.procCode_ ∧ w3.argumentIds_ = w.argumentIds_ ∧
      w3.displayNames_ = w.displayNames_ ∧
      w3.variant = Variant.mutatorRoot ∧ freshHasNoInputs w3 ∧
      noReporterHeld w3.workspace w3.inputList := by
  obtain ⟨hrt, -, henc, hpt⟩ := mergeLabels_facts sig hs
  exact root_signature_stable w (mergeLabels sig) hv hf hr hrt (by rw [henc]; exact hp)
    (by rw [hpt]; exact hi) (by rw [hpt]; exact hn)

theorem plainSegments_sayTo : plainSegments sayToSegments := by
  intro seg hseg
  simp only [sayToSegments, List.mem_cons, List.mem_singleton, List.not_mem_nil,
    or_false] at hseg
  rcases hseg with h | h | h | h <;> subst h <;> simp only <;>
    first
    | (unfold goodLabel; decide)
    | decide

/-! ## C24: from the signature to the slots and back -/

/-- C24: the signature of a mutator root does not always come back from its
slots. On the root with the signature `%b`, one id and one display name,
whose slot holds a boolean argument reporter, `updateDisplay_` attaches the
reporter again, because `checkOldTypeMatches_` accepts it for `b`, and
`updateProcCodeMutatorRoot_` then reads the token `%s` from the slot, since
the block is not a `boolean_textinput`: `procCode_` is `%s` after the two
calls. On every mutator root of which no input holds an argument reporter
(and which has no inputs while `paramMap_` is null), with a `procCode_` of
label texts (not empty, trimmed, without `%`) and `%b` and `%s` tokens
joined by single spaces and as many ids and display names as tokens, the two
calls return and leave `procCode_`, `argumentIds_` and `displayNames_` as
they were, in a state of the same kind; the reconciled root of
`say %b to %s` is such a state. -/
theorem C24_root_reattaches_reporter :
    (reporterRoot.variant = Variant.mutatorRoot ∧
      reporterRoot.procCode_ = encodeSignature [Segment.param ParamType.b] ∧
      plainSegments [Segment.param ParamType.b] ∧
      reporterRoot.argumentIds_.length = 1 ∧ reporterRoot.displayNames_.length = 1 ∧
      (idKeys reporterRoot.argumentIds_).Nodup) ∧
    (updateDisplay_ reporterRoot = Outcome.ok () (updateDisplay_ reporterRoot).state ∧
      checkOldTypeMatches_ reporterRoot (some 0) (utf16 "b") = true ∧
      (updateDisplay_ reporterRoot).state.inputList.map slotView =
        [(InputType.value, JSVal.str (utf16 "a0"), some (utf16 "Boolean"), some 0)] ∧
      (updateDisplay_ reporterRoot).state.workspace.map ContentBlock.type =
        [utf16 "argument_reporter_boolean"] ∧
      updateProcCodeMutatorRoot_ (updateDisplay_ reporterRoot).state =
        Outcome.ok () (updateProcCodeMutatorRoot_ (updateDisplay_ reporterRoot).state).state ∧
      reporterRoot.procCode_ = utf16 "%b" ∧
      (updateProcCodeMutatorRoot_ (updateDisplay_ reporterRoot).state).state.procCode_ =
        utf16 "%s") ∧
    (∀ (w : ProcBlock) (sig : List Segment), w.variant = Variant.mutatorRoot →
      freshHasNoInputs w → noReporterHeld w.workspace w.inputList → plainSegments sig →
      w.procCode_ = encodeSignature sig →
      w.argumentIds_.length = (paramTypes sig).length →
      w.displayNames_.length = (paramTypes sig).length →
      ∃ w2 w3, updateDisplay_ w = Outcome.ok () w2 ∧
        updateProcCodeMutatorRoot_ w2 = Outcome.ok () w3 ∧
        w3.procCode_ = w.procCode_ ∧ w3.argumentIds_ = w.argumentIds_ ∧
        w3.displayNames_ = w.displayNames_ ∧
        w3.variant = Variant.mutatorRoot ∧ freshHasNoInputs w3 ∧
        noReporterHeld w3.workspace w3.inputList) ∧
    (noReporterHeld (updateDisplay_ sayToDeclared).state.workspace
        (updateDisplay_ sayToDeclared).state.inputList ∧
      plainSegments sayToSegments ∧
      (updateDisplay_ sayToDeclared).state.procCode_ = encodeSignature sayToSegments ∧
      (updateDisplay_ sayToDeclared).state.inputList.length = 4 ∧
      (updateProcCodeMutatorRoot_
        (updateDisplay_ (updateDisplay_ sayToDeclared).state).state).state.procCode_ =
        utf16 "say %b to %s") := by
  refine ⟨⟨by decide, by decide, ?_, by decide, by decide, by decide⟩,
    ⟨by decide, by decide, by decide, by decide, by decide, by decide, by decide⟩,
    root_signature_stable_plain,
    ⟨by unfold noReporterHeld notReporter; decide, plainSegments_sayTo, by decide, by decide,
      by decide⟩⟩
  intro seg hseg
  rw [List.mem_singleton.mp hseg]
  decide

/-! ## C14, amended: the evicted block -/

theorem targetsExist_of_targetsLive (w : ProcBlock)
    (h : targetsLive w.workspace w.inputList) : targetsExist w := by
  intro input hin c hc
  have hl := h input hin c hc
  cases hb : w.workspace[c]? with
  | none => rw [hb] at hl; simp at hl
  | some b => exact lt_of_getElem? _ _ _ hb

theorem reattachedBlock_check (t : JSString) (n : Nat) (cm : Option ConnectionMap)
    (w : ProcBlock) (c : Nat) (h : reattachedBlock t n cm w = some c)
    (hv : w.variant ≠ Variant.caller) : checkOldTypeMatches_ w (some c) t = true := by
  have hold := reattachedBlock_old t n cm w c h
  unfold reattachedBlock at h
  cases hvar : w.variant with
  | caller => exact absurd hvar hv
  | callerInternal =>
    rw [hvar] at h
    simp only at h
    rw [hold] at h
    by_cases hc : checkOldTypeMatches_ w (some c) t = true
    · exact hc
    · rw [if_neg hc] at h
      simp at h
  | mutatorRoot =>
    rw [hvar] at h
    simp only at h
    rw [hold] at h
    by_cases hc : checkOldTypeMatches_ w (some c) t = true
    · exact hc
    · rw [if_neg hc] at h
      simp at h

theorem placedInv_label (w0 : ProcBlock) (cm0 : Option ConnectionMap)
    (ts : List ParamType) (w : ProcBlock) (text : JSString) (h : placedInv w0 cm0 ts w) :
    placedInv w0 cm0 ts (addLabel_ text w) := by
  obtain ⟨hk, hp⟩ := h
  obtain ⟨l, hl, hdum, -, -⟩ := addLabel__shape text w
  refine ⟨by rw [kept_addLabel_, hk], ?_⟩
  intro input hin c hc hlt
  rw [hl] at hin
  rcases List.mem_append.mp hin with h1 | h1
  · exact hp input h1 c hc hlt
  · rw [(hdum input h1).2] at hc
    simp at hc

theorem placedInv_param (w0 : ProcBlock) (cm0 cm : Option ConnectionMap)
    (ts : List ParamType) (w : ProcBlock) (t : ParamType)
    (hl : liveInv w0.workspace cm0 cm w) (h : placedInv w0 cm0 ts w) :
    placedInv w0 cm0 (ts ++ [t]) (slotMade (typeCode t) ts.length cm w).2 := by
  obtain ⟨hk, hp⟩ := h
  obtain ⟨hf, -, hsub, -, -⟩ := hl
  have hvar : w.variant = w0.variant := congrArg (fun x => x.1) hk
  have hids : w.argumentIds_ = w0.argumentIds_ := congrArg (fun x => x.2.2.1) hk
  have hlen := framed_length w0.workspace w.workspace hf
  obtain ⟨-, hk2, hc⟩ := slotMade_cases (typeCode t) ts.length cm w
  have hold : ∀ input ∈ w.inputList, ∀ c, input.target = some c → c < w0.workspace.length →
      ∃ k t2, (ts ++ [t])[k]? = some t2 ∧
        holds cm0 (arrayGet w0.argumentIds_ k).toJSString c ∧
        (w0.variant ≠ Variant.caller →
          checkOldTypeMatches_ w0 (some c) (typeCode t2) = true) := by
    intro input hin c hc2 hlt
    obtain ⟨k, t2, hkt, hh, hch⟩ := hp input hin c hc2 hlt
    exact ⟨k, t2, getElem?_append_some ts [t] k t2 hkt, hh, hch⟩
  refine ⟨by rw [hk2, hk], ?_⟩
  rcases hc with ⟨c, hr, -, hin, -⟩ | ⟨-, -, -, hin, -⟩ | ⟨-, -, -, hin, -⟩
  · intro input hi c2 hc2 hlt
    rw [hin] at hi
    rcases List.mem_append.mp hi with h1 | h1
    · exact hold input h1 c2 hc2 hlt
    · rw [List.mem_singleton.mp h1] at hc2
      have hcc : c = c2 := by simpa [slotInput] using hc2
      subst hcc
      refine ⟨ts.length, t, by simp, ?_, ?_⟩
      · rw [← hids]
        exact hsub _ c (holds_of_oldBlockOf cm _ c (reattachedBlock_old _ _ cm w c hr))
      · intro hv
        rw [← checkOldTypeMatches__framed w0 w c (typeCode t) hf hlt]
        exact reattachedBlock_check _ _ cm w c hr (by rw [hvar]; exact hv)
  · intro input hi c2 hc2 hlt
    rw [hin] at hi
    rcases List.mem_append.mp hi with h1 | h1
    · exact hold input h1 c2 hc2 hlt
    · rw [List.mem_singleton.mp h1] at hc2
      simp [slotInput] at hc2
  · intro input hi c2 hc2 hlt
    rw [hin] at hi
    rcases List.mem_append.mp hi with h1 | h1
    · exact hold input h1 c2 hc2 hlt
    · rw [List.mem_singleton.mp h1] at hc2
      have hcc : w.workspace.length = c2 := by simpa [slotInput] using hc2
      omega

theorem placedInv_createAllInputs_ (cm0 : Option ConnectionMap) (w : ProcBlock)
    (segs : List Segment) (hd : decode w.procCode_ = Except.ok segs)
    (hin : w.inputList = []) (hs : salvageSound w.workspace cm0) :
    ∃ cm2 w2, createAllInputs_ cm0 w = Outcome.ok cm2 w2 ∧
      placedInv { w with paramMap_ := some [] } cm0 (paramTypes segs) w2 := by
  unfold createAllInputs_
  have h := createAllInputsLoop_invariant
    (fun ts cm w2 => liveInv w.workspace cm0 cm w2 ∧
      placedInv { w with paramMap_ := some [] } cm0 ts w2)
    (fun ts cm w2 text hinv =>
      ⟨liveInv_label _ cm0 cm w2 text hinv.1, placedInv_label _ cm0 ts w2 text hinv.2⟩)
    (fun ts cm w2 t hinv =>
      ⟨liveInv_param _ cm0 hs cm w2 (typeCode t) ts.length hinv.1,
        placedInv_param { w with paramMap_ := some [] } cm0 cm ts w2 t hinv.1 hinv.2⟩)
    (procComponents w.procCode_) [] cm0 { w with paramMap_ := some [] } segs hd ?_
  · obtain ⟨cm2, w2, hc, hinv⟩ := h
    exact ⟨cm2, w2, hc, by simpa using hinv.2⟩
  · refine ⟨⟨framed_refl _, hs.1, fun _ _ hk => hk, ?_, ?_⟩, rfl, ?_⟩
    · show targetsDistinct w.inputList
      rw [hin]
      exact List.Pairwise.nil
    · intro input hi
      have hi2 : input ∈ w.inputList := hi
      rw [hin] at hi2
      simp at hi2
    · intro input hi
      have hi2 : input ∈ w.inputList := hi
      rw [hin] at hi2
      simp at hi2

theorem evicted_not_held (w : ProcBlock) (segs : List Segment) (k : Nat) (P : JSVal)
    (C : Nat) (b : ContentBlock) (ht : trackedOnce w)
    (hdist : targetsDistinct w.inputList) (hlive : targetsLive w.workspace w.inputList)
    (hnd : (idKeys w.argumentIds_).Nodup) (hP : w.argumentIds_[k]? = some P)
    (hC : attachedUnder w P.toJSString = some C) (hb : w.workspace[C]? = some b)
    (hd : decode w.procCode_ = Except.ok segs)
    (hlen : (paramTypes segs).length ≤ w.argumentIds_.length)
    (hk : (paramTypes segs)[k]? = some ParamType.b)
    (hnc : w.variant ≠ Variant.caller)
    (hbt : b.type ≠ utf16 "argument_reporter_boolean") :
    ∀ input ∈ (updateDisplay_ w).state.inputList, input.target ≠ some C := by
  obtain ⟨hids, hcode, hvar, -⟩ := detachPhase_fields w
  have hfresh : freshHasNoInputs w := by
    obtain ⟨pm, -, -, hpm, -⟩ := attachedUnder_some w _ C hC
    intro hnone
    rw [hpm] at hnone
    simp at hnone
  have hsound := salvageSound_detachPhase w ht hdist hlive
  obtain ⟨cm3, w3, hc, hkept, hplaced⟩ := placedInv_createAllInputs_ (detachPhase w).1
    (detachPhase w).2 segs (by rw [hcode]; exact hd) (detachPhase_inputList w hfresh) hsound
  obtain ⟨w2, hu, hil, -, -⟩ := updateDisplay__of_createAllInputs_ w cm3 w3 hc
  rw [hu]
  simp only [Outcome.state]
  rw [hil]
  intro input hin htg
  obtain ⟨b0, hb0, hfl0, -⟩ := detachPhase_flags w C b hb
  have hlt : C < (detachPhase w).2.workspace.length := lt_of_getElem? _ _ _ hb0
  obtain ⟨k2, t2, hk2, hheld, hcheck⟩ := hplaced input hin C htg hlt
  have hids2 : ({ (detachPhase w).2 with paramMap_ := some [] } : ProcBlock).argumentIds_ =
      w.argumentIds_ := hids
  rw [hids2] at hheld
  have hkey : (arrayGet w.argumentIds_ k2).toJSString = P.toJSString :=
    attachedUnder_inj w ht hdist _ _ C ((holds_detachPhase w ht _ C).mp hheld) hC
  have hk2lt : k2 < w.argumentIds_.length :=
    Nat.lt_of_lt_of_le (lt_of_getElem? _ _ _ hk2) hlen
  have hklt : k < w.argumentIds_.length := lt_of_getElem? _ _ _ hP
  have hPk : arrayGet w.argumentIds_ k = P := by
    have := arrayGet_of_lt _ k hklt
    rw [hP] at this
    injection this with this
    exact this.symm
  have hkk : k2 = k := by
    by_contra hne
    exact idKeys_ne w.argumentIds_ hnd k2 k hk2lt hklt hne (by rw [hkey, hPk])
  subst hkk
  rw [hk] at hk2
  injection hk2 with hk2
  subst hk2
  have hch := hcheck (by
    show (detachPhase w).2.variant ≠ Variant.caller
    rw [hvar]
    exact hnc)
  have hch2 : checkOldTypeMatches_ { (detachPhase w).2 with paramMap_ := some [] } (some C)
      (utf16 "b") = decide (b0.type = utf16 "argument_reporter_boolean") :=
    checkOldTypeMatches__boolean { (detachPhase w).2 with paramMap_ := some [] } C b0 hb0
  have hty : b0.type = b.type := congrArg (fun x => x.1) hfl0
  have hch3 : checkOldTypeMatches_ { (detachPhase w).2 with paramMap_ := some [] } (some C)
      (utf16 "b") = true := hch
  rw [hch2, hty] at hch3
  exact hbt (by simpa using hch3)

/-- A block that was attached under a parameter id and that no input holds
after `updateDisplay_` is disposed of if and only if it is a shadow, and is
disconnected. -/
theorem left_block_fate (w : ProcBlock) (segs : List Segment) (key : JSString)
    (c : Nat) (b : ContentBlock) (ht : trackedOnce w)
    (hC : attachedUnder w key = some c) (hb : w.workspace[c]? = some b)
    (hdis : b.disposed = false) (hd : decode w.procCode_ = Except.ok segs)
    (hleft : ∀ input ∈ (updateDisplay_ w).state.inputList, input.target ≠ some c) :
    ∃ b2, (updateDisplay_ w).state.workspace[c]? = some b2 ∧
      (b2.disposed = true ↔ b.shadow = true) ∧ b2.connected = false ∧
      b2.shadow = b.shadow ∧ b2.type = b.type := by
  obtain ⟨-, hcode, -⟩ := detachPhase_fields w
  obtain ⟨cm3, w3, hc, hf, hcon, hrest⟩ := salvageInv_createAllInputs_ (detachPhase w).1
    (detachPhase w).2 segs (by rw [hcode]; exact hd)
  obtain ⟨w2, hu, hi, -, hws⟩ := updateDisplay__of_createAllInputs_ w cm3 w3 hc
  rw [hu] at hleft ⊢
  simp only [Outcome.state] at hleft ⊢
  rw [hi] at hleft
  have hno : ¬ ∃ input ∈ w3.inputList, input.target = some c := by
    rintro ⟨input, hin, htg⟩
    exact hleft input hin htg
  obtain ⟨b0, hb0, hfl0, -⟩ := detachPhase_flags w c b hb
  have hoff : b0.connected = false := detachPhase_disconnected w ht key c hC b0 hb0
  obtain ⟨b3, hb3, hfl3⟩ := hf c b0 hb0
  have hfl : blockFlags b3 = blockFlags b := hfl3.trans hfl0
  have hoff3 : b3.connected = false := by
    cases h3 : b3.connected with
    | false => rfl
    | true =>
      rcases hcon c b0 b3 hb0 hb3 h3 with h1 | h1
      · rw [hoff] at h1
        simp at h1
      · exact absurd h1 hno
  have hheld3 : holds cm3 key c := by
    obtain ⟨m0, hm0, hmem0⟩ := (holds_detachPhase w ht key c).mpr hC
    have hg0 := PropMap.get_eq_some_of_mem m0 key (some c)
      (nodup_keys_detachPhase w ht m0 hm0) hmem0
    rcases hrest m0 key c hm0 hg0 with ⟨m, hm, hg⟩ | h1
    · exact ⟨m, hm, PropMap.mem_of_get_eq_some m key _ hg⟩
    · exact absurd h1 hno
  have hsh : b3.shadow = b.shadow := congrArg (fun x => x.2.1) hfl
  have hty : b3.type = b.type := congrArg (fun x => x.1) hfl
  have hd3 : b3.disposed = false := (congrArg (fun x => x.2.2) hfl).trans hdis
  have hw2 : w2.workspace[c]? = some (sweepBlock (cm3.getD []) c b3) := by
    rw [hws, hb3]
    rfl
  rw [sweepBlock_of_held cm3 key c b3 hheld3] at hw2
  cases hs3 : b3.shadow with
  | true =>
    rw [if_pos hs3] at hw2
    refine ⟨_, hw2, ?_, rfl, ?_, hty⟩
    · rw [← hsh, hs3]
    · show b3.shadow = b.shadow
      exact hsh
  | false =>
    rw [if_neg (by rw [hs3]; simp)] at hw2
    refine ⟨b3, hw2, ?_, hoff3, hsh, hty⟩
    rw [← hsh, hs3, hd3]

/-- C14, amended: a change of the type of `P` to boolean evicts the block `C`
attached under `P` on the internal caller and on the mutator root, and not on
the caller block. When the new proc-code decodes with pairwise different ids
and has a boolean parameter at the position of `P`, `updateDisplay_` returns
and `paramMap_` maps `P` to a value input named `P` with the check `Boolean`.
On the caller block the content of that input is still the block `C`,
whatever its type. On the internal caller, when `C` is not a boolean argument
reporter, and on the mutator root, when `C` is neither a boolean argument
reporter nor a `boolean_textinput` block, the content is a block made by the
call, a connected shadow of type `argument_reporter_boolean` on the internal
caller and `boolean_textinput` on the mutator root; no input holds `C`, and
`C` is disposed of if and only if it is a shadow, is disconnected, and keeps
its type and shadow marker. -/
theorem C14_type_change_evicts (w : ProcBlock) (newCode : JSString)
    (segs : List Segment) (k : Nat) (P : JSVal) (C : Nat) (b : ContentBlock)
    (ht : trackedOnce w) (hdist : targetsDistinct w.inputList)
    (hlive : targetsLive w.workspace w.inputList)
    (hnd : (idKeys w.argumentIds_).Nodup)
    (hP : w.argumentIds_[k]? = some P) (hC : attachedUnder w P.toJSString = some C)
    (hb : w.workspace[C]? = some b) (hd : decode newCode = Except.ok segs)
    (hlen : (paramTypes segs).length ≤ w.argumentIds_.length)
    (hk : (paramTypes segs)[k]? = some ParamType.b) :
    ∃ w2, updateDisplay_ { w with procCode_ := newCode } = Outcome.ok () w2 ∧
      ∃ pm idx input, w2.paramMap_ = some pm ∧ PropMap.get pm P.toJSString = some idx ∧
        w2.inputList[idx]? = some input ∧ input.type = InputType.value ∧ input.name = P ∧
        input.check = some (utf16 "Boolean") ∧
        (w.variant = Variant.caller → input.target = some C) ∧
        (w.variant ≠ Variant.caller → b.type ≠ utf16 "argument_reporter_boolean" →
          (w.variant = Variant.mutatorRoot → b.type ≠ utf16 "boolean_textinput") →
          (∃ nb blk, input.target = some nb ∧ w.workspace.length ≤ nb ∧
            w2.workspace[nb]? = some blk ∧ blk.shadow = true ∧ blk.connected = true ∧
            blk.disposed = false ∧
            blk.type =
              (if w.variant = Variant.callerInternal then utf16 "argument_reporter_boolean"
                else utf16 "boolean_textinput")) ∧
          (∀ other ∈ w2.inputList, other.target ≠ some C) ∧
          ∃ b2, w2.workspace[C]? = some b2 ∧ (b2.disposed = true ↔ b.shadow = true) ∧
            b2.connected = false ∧ b2.shadow = b.shadow ∧ b2.type = b.type) := by
  have he := targetsExist_of_targetsLive w hlive
  obtain ⟨w2, hu, pm, idx, input, hpm, hg, hin, hty, hname, hcheck, hkeep, hnew⟩ :=
    boolean_slot_content { w with procCode_ := newCode } segs k P C b ht he hnd hP hC hb hd
      hlen hk
  refine ⟨w2, hu, pm, idx, input, hpm, hg, hin, hty, hname, hcheck,
    fun hv => hkeep (Or.inl hv), ?_⟩
  intro hnc hbt _
  have hleft := evicted_not_held { w with procCode_ := newCode } segs k P C b ht hdist hlive
    hnd hP hC hb hd hlen hk hnc hbt
  have hdis : b.disposed = false := by
    obtain ⟨pm0, idx0, i0, -, -, hi0, -, htg0⟩ := attachedUnder_some w _ C hC
    have hl := hlive i0 (List.mem_iff_getElem?.mpr ⟨idx0, hi0⟩) C (by rw [htg0]; exact rfl)
    rw [hb] at hl
    simpa using hl
  have hfate := left_block_fate { w with procCode_ := newCode } segs P.toJSString C b ht hC
    hb hdis hd hleft
  rw [hu] at hleft hfate
  exact ⟨hnew hnc hbt, hleft, hfate⟩

/-- C14, amended, at the internal caller of `say %s` whose slot holds the
string-number reporter that its reconciliation made, when the token is
changed to `%b`: the reporter, a shadow, is disposed of and the slot holds a
new boolean reporter. The same on the mutator root of `%s`, whose `text`
block is disposed of and replaced by a `boolean_textinput` block. -/
theorem C14_type_change_evicts_witness :
    ((updateDisplay_ { reconciledInternal with procCode_ := utf16 "say %b" }).state.workspace.map
          (fun blk => (blk.type, blk.connected, blk.disposed)) =
        [(utf16 "argument_reporter_string_number", false, true),
          (utf16 "argument_reporter_boolean", true, false)] ∧
      (updateDisplay_ { reconciledRoot with procCode_ := utf16 "%b" }).state.workspace.map
          (fun blk => (blk.type, blk.connected, blk.disposed)) =
        [(utf16 "text", false, true), (utf16 "boolean_textinput", true, false)]) ∧
    ∃ w2, updateDisplay_ { reconciledInternal with procCode_ := utf16 "say %b" } =
        Outcome.ok () w2 ∧
      ∃ pm idx input, w2.paramMap_ = some pm ∧
        PropMap.get pm (JSVal.str (utf16 "arg0")).toJSString = some idx ∧
        w2.inputList[idx]? = some input ∧ input.type = InputType.value ∧
        input.name = JSVal.str (utf16 "arg0") ∧
        input.check = some (utf16 "Boolean") ∧
        (reconciledInternal.variant = Variant.caller → input.target = some 0) ∧
        (reconciledInternal.variant ≠ Variant.caller →
          (freshContent Variant.callerInternal (utf16 "s") (JSVal.str (utf16 "text"))
            false).type ≠ utf16 "argument_reporter_boolean" →
          (reconciledInternal.variant = Variant.mutatorRoot →
            (freshContent Variant.callerInternal (utf16 "s") (JSVal.str (utf16 "text"))
              false).type ≠ utf16 "boolean_textinput") →
          (∃ nb blk, input.target = some nb ∧ reconciledInternal.workspace.length ≤ nb ∧
            w2.workspace[nb]? = some blk ∧ blk.shadow = true ∧ blk.connected = true ∧
            blk.disposed = false ∧
            blk.type =
              (if reconciledInternal.variant = Variant.callerInternal then
                utf16 "argument_reporter_boolean"
                else utf16 "boolean_textinput")) ∧
          (∀ other ∈ w2.inputList, other.target ≠ some 0) ∧
          ∃ b2, w2.workspace[0]? = some b2 ∧
            (b2.disposed = true ↔
              (freshContent Variant.callerInternal (utf16 "s") (JSVal.str (utf16 "text"))
                false).shadow = true) ∧
            b2.connected = false ∧
            b2.shadow = (freshContent Variant.callerInternal (utf16 "s")
              (JSVal.str (utf16 "text")) false).shadow ∧
            b2.type = (freshContent Variant.callerInternal (utf16 "s")
              (JSVal.str (utf16 "text")) false).type) :=
  ⟨by decide,
    C14_type_change_evicts reconciledInternal (utf16 "say %b")
      [Segment.label (utf16 "say"), Segment.param ParamType.b] 0 (JSVal.str (utf16 "arg0")) 0
      (freshContent Variant.callerInternal (utf16 "s") (JSVal.str (utf16 "text")) false)
      (by unfold trackedOnce; decide) (by unfold targetsDistinct; decide)
      (by unfold targetsLive; decide) (by decide) (by decide) (by decide) (by decide) rfl
      (by decide) (by decide)⟩

end Procedures
